import Mathlib

/-!
# LiGu_Graphics: the ray tracer of `src/RayTracing.cpp`

A shallow embedding of the geometric-optics helpers (`reflect`, `refract`,
`diffuseReflect`), the intersection kernels (`RaySphere`, `RayTriangle`), the
recursive tracer `RayTracing::traceRay` and the accumulation loop of
`RayTracing::paint`.

Numbers: every `double` of the source is a real number here (exact arithmetic,
`sqrt`, `cos`, `sin` are the real functions); every `int` is a mathematical
integer.  Vectors: every `Mat<>` the tracer handles has three entries and is a
`Vec3`.  Output parameters (`Mat<>& RayO`, `Mat<>& color`) become results.
-/

noncomputable section

namespace RayTracing

/-! ## Vector arithmetic (the external `Mat<>` capability) -/

/-- Modelled from the spec: the `Mat<>` type is declared outside `src/`; the
tracer only uses it as a 3-vector of doubles (spec §1: "a vector/matrix
arithmetic capability (add, subtract, dot, cross, normalize, element-wise
multiply)"). -/
@[ext]
structure Vec3 where
  x : ℝ
  y : ℝ
  z : ℝ

/-- Modelled from the spec: `X.add(a, b)` stores `a + b`. -/
def Vec3.add (a b : Vec3) : Vec3 := ⟨a.x + b.x, a.y + b.y, a.z + b.z⟩

/-- Modelled from the spec: `X.sub(a, b)` stores `a - b`. -/
def Vec3.sub (a b : Vec3) : Vec3 := ⟨a.x - b.x, a.y - b.y, a.z - b.z⟩

/-- Modelled from the spec: `X.mul(s, a)` stores the scalar multiple `s * a`
(also `a *= s`). -/
def Vec3.mul (s : ℝ) (a : Vec3) : Vec3 := ⟨s * a.x, s * a.y, s * a.z⟩

/-- Modelled from the spec: `a.dot(b)`, the inner product. -/
def Vec3.dot (a b : Vec3) : ℝ := a.x * b.x + a.y * b.y + a.z * b.z

/-- Modelled from the spec: `X.cross_(a, b)` stores the cross product `a × b`. -/
def Vec3.cross_ (a b : Vec3) : Vec3 :=
  ⟨a.y * b.z - a.z * b.y, a.z * b.x - a.x * b.z, a.x * b.y - a.y * b.x⟩

/-- Modelled from the spec: the Euclidean length of a vector. -/
def Vec3.norm (a : Vec3) : ℝ := Real.sqrt (a.dot a)

/-- Modelled from the spec: `a.normalize()` divides every entry by the length.
For the zero vector the real division by `0` leaves the zero vector. -/
def Vec3.normalize (a : Vec3) : Vec3 := ⟨a.x / a.norm, a.y / a.norm, a.z / a.norm⟩

/-- Modelled from the spec: `a.elementMul(b)`, the entry-wise product. -/
def Vec3.elementMul (a b : Vec3) : Vec3 := ⟨a.x * b.x, a.y * b.y, a.z * b.z⟩

/-- Modelled from the spec: `a.zero()`, the vector of zeros. -/
def Vec3.zero : Vec3 := ⟨0, 0, 0⟩

/-- Modelled from the spec: `a.fill(s)`, every entry set to `s`. -/
def Vec3.fill (s : ℝ) : Vec3 := ⟨s, s, s⟩

/-- Modelled from the spec: `a[i]` for the entries `0, 1, 2`; any other index
is outside the vector and reads as `0` here. -/
def Vec3.get (a : Vec3) (i : Int) : ℝ :=
  if i = 0 then a.x else if i = 1 then a.y else if i = 2 then a.z else 0

/-- Modelled from the spec: the zero vector with entry `i` set to `v`, as made
by `a.zero()[i] = v`; an index outside `0, 1, 2` writes nothing. -/
def Vec3.single (i : Int) (v : ℝ) : Vec3 :=
  ⟨if i = 0 then v else 0, if i = 1 then v else 0, if i = 2 then v else 0⟩

/-- The largest finite `double`, `DBL_MAX = (2^53 - 1) * 2^971`. -/
def DBL_MAX : ℝ := (2 ^ 53 - 1) * 2 ^ 971

/-! ## Geometrical optics -/

/-- Specular reflection, `reflect(RayI, faceVec, RayO)`:
`RayO.add(RayO.mul(-2 * faceVec.dot(RayI), faceVec), RayI).normalize()`. -/
def reflect (RayI faceVec : Vec3) : Vec3 :=
  ((Vec3.mul (-2 * faceVec.dot RayI) faceVec).add RayI).normalize

/-- Refraction, `refract(RayI, faceVec, RayO, rateI, rateO)`; a negative
`CosO` (total internal reflection) delegates to `reflect`. -/
def refract (RayI faceVec : Vec3) (rateI rateO : ℝ) : Vec3 :=
  let k := rateI / rateO
  let CosI := faceVec.dot RayI
  let CosO := 1 - k ^ 2 * (1 - CosI ^ 2)
  if CosO < 0 then reflect RayI faceVec
  else
    (RayI.add
      (Vec3.mul (-CosI - (if CosI > 0 then -1 else 1) * Real.sqrt CosO / k) faceVec)).normalize

/-! ## Intersection kernels -/

/-- Ray/sphere distance, `RaySphere(RaySt, Ray, center, R)`; `-DBL_MAX` when
the discriminant is negative. -/
def RaySphere (RaySt Ray center : Vec3) (R : ℝ) : ℝ :=
  let RayStCenter := RaySt.sub center
  let A := Ray.dot Ray
  let B := 2 * Ray.dot RayStCenter
  let Delta := B * B - 4 * A * (RayStCenter.dot RayStCenter - R * R)
  if Delta < 0 then -DBL_MAX
  else
    let Delta := Real.sqrt Delta
    (-B + (if -B - Delta > 0 then -Delta else Delta)) / (2 * A)

/-- Ray/triangle distance (Moller-Trumbore), `RayTriangle(RaySt, Ray, p1, p2, p3)`;
`-DBL_MAX` when the ray misses the triangle or is (nearly) parallel to it. -/
def RayTriangle (RaySt Ray p1 p2 p3 : Vec3) : ℝ :=
  let edge0 := p2.sub p1
  let edge1 := p3.sub p1
  let p := Vec3.cross_ Ray edge1
  let a0 := p.dot edge0
  let tmp := if a0 > 0 then RaySt.sub p1 else p1.sub RaySt
  let a := if a0 > 0 then a0 else -a0
  if a < 1e-4 then -DBL_MAX
  else
    let u := p.dot tmp / a
    if u < 0 ∨ u > 1 then -DBL_MAX
    else
      let q := Vec3.cross_ tmp edge0
      let v := q.dot Ray / a
      if v < 0 ∨ u + v > 1 then -DBL_MAX else q.dot edge1 / a

/-- Diffuse scattering, `diffuseReflect(RayI, faceVec, RayO)`.  `d1` and `d2`
are the two `RAND_DBL` draws, in the order the source takes them
(`r1 = 2 * PI * RAND_DBL`, then `r2 = RAND_DBL`).  The helper axis `t` is a
static vector whose third entry is never written and stays `0`.  As in the
source, `v` is built from the already scaled `u`. -/
def diffuseReflect (RayI faceVec : Vec3) (d1 d2 : ℝ) : Vec3 :=
  let r1 := 2 * Real.pi * d1
  let r2 := d2
  let faceVec := Vec3.mul (if faceVec.dot RayI > 0 then -1 else 1) faceVec
  let t0 : ℝ := if |faceVec.x| > 0.1 then 0 else 1
  let t1 : ℝ := if t0 = 0 then 1 else 0
  let t : Vec3 := ⟨t0, t1, 0⟩
  let u := Vec3.mul (Real.cos r1 * Real.sqrt r2) (Vec3.cross_ t faceVec).normalize
  let v := Vec3.mul (Real.sin r1 * Real.sqrt r2) (Vec3.cross_ faceVec u).normalize
  ((Vec3.mul (Real.sqrt (1 - r2)) faceVec).add (u.add v)).normalize

/-! ## Scene model -/

/-- Modelled from the spec: `Material` is declared in `RayTracing.h`, which is
not among the sources; the fields are the ones `traceRay` reads (spec §3).
`rediate` is the source's spelling of the light-source flag. -/
structure Material where
  color : Vec3
  rediate : ℝ
  quickReflect : Bool
  diffuseReflect : Bool
  reflect : ℝ
  reflectLossRate : ℝ
  refractLossRate : ℝ
  refractRate : Vec3

/-- Modelled from the spec: `Triangle` (declared in `RayTracing.h`) holds the
three points `p[0], p[1], p[2]` and its material; a sphere is the same record
with `p[2][0] = DBL_MAX` (spec §3). -/
structure Triangle where
  p0 : Vec3
  p1 : Vec3
  p2 : Vec3
  material : Material

/-- Modelled from the spec: the members of class `RayTracing` (declared in
`RayTracing.h`) that the tracer reads: the primitive list, the point lights,
the self-intersection guard `eps` and the depth bound `maxRayLevel`. -/
structure Scene where
  TriangleSet : List Triangle
  PointLight : List Vec3
  eps : ℝ
  maxRayLevel : Int

/-- Append a primitive, `RayTracing::drawTriangle(p1, p2, p3, material)`. -/
def drawTriangle (sc : Scene) (p1 p2 p3 : Vec3) (material : Material) : Scene :=
  { sc with TriangleSet := sc.TriangleSet ++ [⟨p1, p2, p3, material⟩] }

/-- Append a sphere, `RayTracing::drawSphere(center, r, material)`: the radius
fills `p1`, and `p2[0]` carries the `DBL_MAX` tag (the rest of `p2` is zero). -/
def drawSphere (sc : Scene) (center : Vec3) (r : ℝ) (material : Material) : Scene :=
  drawTriangle sc center ⟨r, r, r⟩ ⟨DBL_MAX, 0, 0⟩ material

/-- Dispatch on the sphere tag, `RayTracing::seekIntersection`. -/
def seekIntersection (triangle : Triangle) (RaySt Ray : Vec3) : ℝ :=
  if triangle.p2.x = DBL_MAX then RaySphere RaySt Ray triangle.p0 triangle.p1.x
  else RayTriangle RaySt Ray triangle.p0 triangle.p1 triangle.p2

/-! ## The recursive tracer -/

/-- What a run of `traceRay` did, in order: every entry into `traceRay` (with
its level and ray) and every call of `refract` (with the selected channel, the
two rates, the hit point, the refracted direction and the `refractRate` of the
material that was hit). -/
inductive TraceEvent where
  | call (level : Int) (RaySt Ray : Vec3)
  | refract (index : Int) (rateI rateO : ℝ) (hitPoint RayO : Vec3) (refractRate : Vec3)

/-- True on the entries of the log that record a `traceRay` call. -/
def TraceEvent.isCall : TraceEvent → Bool
  | TraceEvent.call _ _ _ => true
  | TraceEvent.refract _ _ _ _ _ _ => false

/-- The state that outlives a `traceRay` call: the three function-local statics
`refractColorIndex`, `refractRateBuf`, `isChromaticDisperson`, the position
`rand` in the stream of `RAND_DBL` draws, and the log of events (not part of
the program: it records what the run did). -/
structure TraceState where
  refractColorIndex : Int
  refractRateBuf : ℝ
  isChromaticDisperson : Bool
  rand : Nat
  log : List TraceEvent

/-- The conversion `(int) x` of a double: truncation toward zero. -/
def toInt (x : ℝ) : Int := if 0 ≤ x then ⌊x⌋ else ⌈x⌉

/-- One iteration of the scan of `traceRay`:
`dis = seekIntersection(...); minDis = (dis > eps && dis < minDis) ? (minDisTri = &TriangleSet[i], dis) : minDis`. -/
def scanStep (sc : Scene) (RaySt Ray : Vec3) (acc : ℝ × Option Triangle)
    (tri : Triangle) : ℝ × Option Triangle :=
  let dis := seekIntersection tri RaySt Ray
  if dis > sc.eps ∧ dis < acc.1 then (dis, some tri) else acc

/-- The scan of `traceRay` over `TriangleSet`, from `minDis = DBL_MAX`,
`minDisTri = NULL`: the pair `(minDis, minDisTri)` after the loop. -/
def nearestHit (sc : Scene) (RaySt Ray : Vec3) : ℝ × Option Triangle :=
  sc.TriangleSet.foldl (scanStep sc RaySt Ray) (DBL_MAX, none)

/-- The face vector at the hit point `RaySt` (step [4] of `traceRay`): radial for
a sphere, the normalized cross product of two edges for a triangle. -/
def hitFaceVec (tri : Triangle) (RaySt : Vec3) : Vec3 :=
  if tri.p2.x = DBL_MAX then (RaySt.sub tri.p0).normalize
  else (Vec3.cross_ (tri.p1.sub tri.p0) (tri.p2.sub tri.p0)).normalize

/-- The loop of the `quickReflect` branch: the largest cosine between the face
vector and the direction to a point light, from `lightCos = 0`. -/
def lightCos (faceVec RaySt : Vec3) (lights : List Vec3) : ℝ :=
  lights.foldl
    (fun lc L =>
      let t := faceVec.dot (L.sub RaySt).normalize
      if t > lc then t else lc)
    0

/-- The shared tail of `traceRay`: the chromatic-dispersion collapse at level 0
and the tint by the material's colour. -/
def finish (material : Material) (level : Int) (color : Vec3) (st : TraceState) :
    Vec3 × TraceState :=
  let color :=
    if level = 0 ∧ st.isChromaticDisperson = true then
      Vec3.single st.refractColorIndex (3 * color.get st.refractColorIndex)
    else color
  (color.elementMul material.color, st)

/-- The state `traceRay` is in once it has entered: the state before, with the
call recorded. -/
def entered (st : TraceState) (level : Int) (RaySt Ray : Vec3) : TraceState :=
  { st with log := st.log ++ [TraceEvent.call level RaySt Ray] }

/-- The first statement of step [5] of `traceRay`: at level 0 the channel index
is drawn (`refractColorIndex = RAND_DBL * 3`, truncated to `int`) and the two
other statics are reset; at any other level nothing happens. -/
def pathInit (rnd : Nat → ℝ) (level : Int) (st : TraceState) : TraceState :=
  if level = 0 then
    { st with
      refractColorIndex := toInt (rnd st.rand * 3)
      refractRateBuf := 1
      isChromaticDisperson := false
      rand := st.rand + 1 }
  else st

/-- The tracer, `RayTracing::traceRay(RaySt, Ray, color, level)`.  `rnd i` is
the value of the `i`-th `RAND_DBL` draw; the result is the colour left in
`color` and the state after the call.  The recursion is on `level`, which the
check `level > maxRayLevel` bounds. -/
def traceRay (sc : Scene) (rnd : Nat → ℝ) (RaySt Ray color : Vec3) (level : Int)
    (st : TraceState) : Vec3 × TraceState :=
  let st := entered st level RaySt Ray
  let hit := nearestHit sc RaySt Ray
  let minDis := hit.1
  if minDis = DBL_MAX then (color, st)
  else
    match hit.2 with
    | none => (color, st)
    | some minDisTri =>
      let material := minDisTri.material
      if material.rediate ≠ 0 then (material.color, st)
      else if hlevel : level > sc.maxRayLevel then (color, st)
      else
        let RaySt := RaySt.add (Vec3.mul minDis Ray)
        let faceVec := hitFaceVec minDisTri RaySt
        let st := pathInit rnd level st
        let RayTmp := Ray
        if material.quickReflect = true then
          let faceVec := Vec3.mul (if faceVec.dot Ray > 0 then -1 else 1) faceVec
          finish material level (Vec3.mul (lightCos faceVec RaySt sc.PointLight) (Vec3.fill 1)) st
        else if material.diffuseReflect = true then
          let Ray := diffuseReflect RayTmp faceVec (rnd st.rand) (rnd (st.rand + 1))
          let r := traceRay sc rnd RaySt Ray color (level + 1) { st with rand := st.rand + 2 }
          finish material level (Vec3.mul material.reflectLossRate r.1) r.2
        else if rnd st.rand < material.reflect then
          let Ray := reflect RayTmp faceVec
          let r := traceRay sc rnd RaySt Ray color (level + 1) { st with rand := st.rand + 1 }
          finish material level (Vec3.mul material.reflectLossRate r.1) r.2
        else
          let disperse :=
            material.refractRate.get 0 ≠ material.refractRate.get 1 ∨
              material.refractRate.get 0 ≠ material.refractRate.get 2
          let t := st.refractRateBuf
          let rateO :=
            if st.refractRateBuf = material.refractRate.get st.refractColorIndex then 1
            else material.refractRate.get st.refractColorIndex
          let Ray := refract RayTmp faceVec t rateO
          let st :=
            { st with
              isChromaticDisperson := if disperse then true else st.isChromaticDisperson
              refractRateBuf := rateO
              rand := st.rand + 1
              log := st.log ++
                [TraceEvent.refract st.refractColorIndex t rateO RaySt Ray material.refractRate] }
          let RaySt := RaySt.add (Vec3.mul sc.eps Ray)
          let r := traceRay sc rnd RaySt Ray color (level + 1) st
          finish material level (Vec3.mul material.refractLossRate r.1) r.2
termination_by (sc.maxRayLevel + 1 - level).toNat
decreasing_by
  all_goals simp_wf
  all_goals omega

/-- The number of `traceRay` calls recorded in a log. -/
def callCount (log : List TraceEvent) : Nat := log.countP TraceEvent.isCall

/-! ## Test scenes -/

/-- A white light source. -/
def lampMaterial : Material := ⟨⟨1, 1, 1⟩, 1, false, false, 0, 1, 1, ⟨1, 1, 1⟩⟩

/-- A pure mirror: no light, `quickReflect` and `diffuseReflect` off, `reflect = 1`. -/
def mirrorMaterial : Material := ⟨⟨1, 1, 1⟩, 0, false, false, 1, 1, 1, ⟨1, 1, 1⟩⟩

/-- The scene of spec §8: one emissive unit sphere around `(0, 0, 5)`; `eps = 1e-4`
and depth bound `5`. -/
def lampScene : Scene := drawSphere ⟨[], [], 1e-4, 5⟩ ⟨0, 0, 5⟩ 1 lampMaterial

/-- A mirror unit sphere around the origin, seen from inside; depth bound `D`. -/
def mirrorBall (D : Int) : Scene := drawSphere ⟨[], [], 1e-4, D⟩ ⟨0, 0, 0⟩ 1 mirrorMaterial

/-- The state before the first primary ray: nothing drawn, nothing recorded. -/
def freshState : TraceState := ⟨0, 1, false, 0, []⟩

/-! ## The render loop -/

/-- Modelled from the spec: a cell of the pixel buffer `ScreenPix` (type `RGB`,
declared outside `src/`), holding the three channel values that `setPix`
computes. -/
structure RGB where
  R : Int
  G : Int
  B : Int

/-- The buffers `paint` works on: the accumulation buffer `Screen` and the pixel
buffer `ScreenPix` (both `rows x cols` after `init`), and `written`, the images
handed to the external writer `GraphicsFileCode::ppmWrite`, oldest first. -/
structure PaintState where
  rows : Nat
  cols : Nat
  Screen : Nat → Nat → Vec3
  ScreenPix : Nat → Nat → RGB
  written : List (Nat → Nat → RGB)

/-- The buffers after `RayTracing::init(width, height)`: `height x width`, all zero. -/
def init (width height : Nat) : PaintState :=
  ⟨height, width, fun _ _ => Vec3.zero, fun _ _ => ⟨0, 0, 0⟩, []⟩

/-- A buffer with the cell `(x, y)` replaced. -/
def setCell {α : Type} (buf : Nat → Nat → α) (x y : Nat) (v : α) : Nat → Nat → α :=
  fun i j => if i = x ∧ j = y then v else buf i j

/-- The pixel write, `RayTracing::setPix(x, y, color)`: nothing outside the
buffer, else cell `(rows - x - 1, y)` gets `min((int)(c * 0xFF), 0xFF)` per
channel. -/
def setPix (rows cols : Nat) (ScreenPix : Nat → Nat → RGB) (x y : Int) (color : Vec3) :
    Nat → Nat → RGB :=
  if x < 0 ∨ x ≥ rows ∨ y < 0 ∨ y ≥ cols then ScreenPix
  else
    setCell ScreenPix ((rows : Int) - x - 1).toNat y.toNat
      ⟨min (toInt (color.x * 255)) 255, min (toInt (color.y * 255)) 255,
        min (toInt (color.z * 255)) 255⟩

/-- The blend of `paint`, `(Screen(x, y) *= 1 - rate) += (color *= rate)` with
`rate = 1.0 / (sample + 1)`. -/
def blend (screen color : Vec3) (sample : Int) : Vec3 :=
  let rate : ℝ := 1 / ((sample + 1 : Int) : ℝ)
  (Vec3.mul (1 - rate) screen).add (Vec3.mul rate color)

/-- The body of the pixel loops of `paint` for pixel `(x, y)` in sample `sample`.
`colorOf sample x y` is the colour that the `traceRay` call of this iteration
leaves in `color` (the tracer reads neither `Screen` nor `ScreenPix`). -/
def paintPixel (colorOf : Int → Nat → Nat → Vec3) (sample : Int) (x y : Nat)
    (ps : PaintState) : PaintState :=
  let c := blend (ps.Screen x y) (colorOf sample x y) sample
  { ps with
    Screen := setCell ps.Screen x y c
    ScreenPix := setPix ps.rows ps.cols ps.ScreenPix x y c }

/-- The loop `for (int y = 0; y < Screen.cols; y++)` of `paint`. -/
def paintRow (colorOf : Int → Nat → Nat → Vec3) (sample : Int) (x : Nat)
    (ps : PaintState) : PaintState :=
  (List.range ps.cols).foldl (fun ps y => paintPixel colorOf sample x y ps) ps

/-- One iteration of the sample loop of `paint`: the flush of `ScreenPix` that
opens it (`sample % 1 == 0` always holds), then the loop over `x`. -/
def paintSample (colorOf : Int → Nat → Nat → Vec3) (sample : Int) (ps : PaintState) :
    PaintState :=
  let ps := { ps with written := ps.written ++ [ps.ScreenPix] }
  (List.range ps.rows).foldl (fun ps x => paintRow colorOf sample x ps) ps

/-- The sample loop of `paint` with `n` iterations left, the next one being `sample`. -/
def paintLoop (colorOf : Int → Nat → Nat → Vec3) : Nat → Int → PaintState → PaintState
  | 0, _, ps => ps
  | n + 1, sample, ps => paintLoop colorOf n (sample + 1) (paintSample colorOf sample ps)

/-- The render loop, `RayTracing::paint(fileName, sampleSt, sampleEd)`:
`for (sample = sampleSt; sample < sampleEd; sample++)`. -/
def paint (colorOf : Int → Nat → Nat → Vec3) (sampleSt sampleEd : Int) (ps : PaintState) :
    PaintState :=
  paintLoop colorOf (sampleEd - sampleSt).toNat sampleSt ps

/-- The sum `c 0 + ... + c (n - 1)` of a sequence of colours. -/
def sumColors (c : Nat → Vec3) : Nat → Vec3
  | 0 => Vec3.zero
  | n + 1 => (sumColors c n).add (c n)

/-- The arithmetic mean `(c 0 + ... + c (n - 1)) / n` of the first `n` colours. -/
def meanColor (c : Nat → Vec3) (n : Nat) : Vec3 := Vec3.mul (1 / (n : ℝ)) (sumColors c n)

/-- A tracer outcome for tests: every sample of every pixel is white. -/
def whiteSample : Int → Nat → Nat → Vec3 := fun _ _ _ => ⟨1, 1, 1⟩

/-! ## Reference notions for the intersection kernels -/

/-- The quadratic of the ray/sphere doc comment at ray parameter `t`:
`A t^2 + B t + C` with `A = D.D`, `B = 2 D.(O - center)`,
`C = |O - center|^2 - R^2`. -/
def sphereQuadratic (O D center : Vec3) (R t : ℝ) : ℝ :=
  D.dot D * t ^ 2 + 2 * D.dot (O.sub center) * t
    + ((O.sub center).dot (O.sub center) - R * R)

/-- The discriminant `B^2 - 4 A C` of `sphereQuadratic`. -/
def sphereDiscriminant (O D center : Vec3) (R : ℝ) : ℝ :=
  2 * D.dot (O.sub center) * (2 * D.dot (O.sub center))
    - 4 * D.dot D * ((O.sub center).dot (O.sub center) - R * R)

/-- The determinant of the ray/triangle doc comment, `D × E2 . E1` with
`E1 = p2 - p1`, `E2 = p3 - p1`. -/
def mtDet (D p1 p2 p3 : Vec3) : ℝ := (Vec3.cross_ D (p3.sub p1)).dot (p2.sub p1)

/-- The weight `u = (D × E2 . T) / (D × E2 . E1)` of the ray/triangle doc comment,
`T = O - p1`. -/
def mtU (O D p1 p2 p3 : Vec3) : ℝ :=
  (Vec3.cross_ D (p3.sub p1)).dot (O.sub p1) / mtDet D p1 p2 p3

/-- The weight `v = (T × E1 . D) / (D × E2 . E1)` of the ray/triangle doc comment. -/
def mtV (O D p1 p2 p3 : Vec3) : ℝ :=
  (Vec3.cross_ (O.sub p1) (p2.sub p1)).dot D / mtDet D p1 p2 p3

/-- The ray parameter `t = (T × E1 . E2) / (D × E2 . E1)` of the ray/triangle doc
comment. -/
def mtT (O D p1 p2 p3 : Vec3) : ℝ :=
  (Vec3.cross_ (O.sub p1) (p2.sub p1)).dot (p3.sub p1) / mtDet D p1 p2 p3

/-- The point with weights `u`, `v` on the triangle's plane,
`(1 - u - v) p1 + u p2 + v p3`. -/
def baryPoint (p1 p2 p3 : Vec3) (u v : ℝ) : Vec3 :=
  ((Vec3.mul (1 - u - v) p1).add (Vec3.mul u p2)).add (Vec3.mul v p3)

/-- The centroid `(p0 + p1 + p2) / 3` of a triangle. -/
def centroid (p1 p2 p3 : Vec3) : Vec3 := Vec3.mul (1 / 3) ((p1.add p2).add p3)

/-! ## The screen basis of `paint` -/

/-- Step [1] of `RayTracing::paint`: the view direction `ScreenVec`, then
`ScreenYVec.set(ScreenVec[0] == 0 ? 0 : -ScreenVec[1] / ScreenVec[0], 1, 0).normalize()`
and `ScreenXVec.cross(ScreenVec, ScreenYVec).normalize()`; the result is
`(ScreenVec, ScreenXVec, ScreenYVec)`. -/
def screenBasis (Eye gCenter : Vec3) : Vec3 × Vec3 × Vec3 :=
  let ScreenVec := gCenter.sub Eye
  let ScreenYVec :=
    (⟨if ScreenVec.x = 0 then 0 else -ScreenVec.y / ScreenVec.x, 1, 0⟩ : Vec3).normalize
  let ScreenXVec := (Vec3.cross_ ScreenVec ScreenYVec).normalize
  (ScreenVec, ScreenXVec, ScreenYVec)

/-! ## The cosine-weighted sample of the spec -/

/-- The sample as the spec states it (§4.1): with `n` the face vector flipped to
the incident side, `u = normalize(t × n)` for the helper axis `t` of
`diffuseReflect`, and `v = n × u`, the vector
`cos(r1) sqrt(r2) u + sin(r1) sqrt(r2) v + sqrt(1 - r2) n`, where
`r1 = 2 π d1` and `r2 = d2`. -/
def diffuseFormula (RayI faceVec : Vec3) (d1 d2 : ℝ) : Vec3 :=
  let r1 := 2 * Real.pi * d1
  let r2 := d2
  let n := Vec3.mul (if faceVec.dot RayI > 0 then -1 else 1) faceVec
  let t0 : ℝ := if |n.x| > 0.1 then 0 else 1
  let t1 : ℝ := if t0 = 0 then 1 else 0
  let t : Vec3 := ⟨t0, t1, 0⟩
  let u := (Vec3.cross_ t n).normalize
  let v := Vec3.cross_ n u
  ((Vec3.mul (Real.cos r1 * Real.sqrt r2) u).add (Vec3.mul (Real.sin r1 * Real.sqrt r2) v)).add
    (Vec3.mul (Real.sqrt (1 - r2)) n)

/-! ## Reference notions for the shading branches -/

/-- The hit point of step [4] of `traceRay`, `RaySt += minDis * Ray`. -/
def hitPoint (sc : Scene) (RaySt Ray : Vec3) : Vec3 :=
  RaySt.add (Vec3.mul (nearestHit sc RaySt Ray).1 Ray)

/-- The face vector turned against the incoming ray,
`faceVec *= faceVec.dot(Ray) > 0 ? -1 : 1`. -/
def facing (faceVec Ray : Vec3) : Vec3 :=
  Vec3.mul (if faceVec.dot Ray > 0 then -1 else 1) faceVec

/-- The intensity of the spec (§4.3, step 5): the maximum of `0` and of
`n . normalize(L - P)` over the point lights `L`. -/
def lightIntensity (n P : Vec3) (lights : List Vec3) : ℝ :=
  lights.foldr (fun L m => max (n.dot (L.sub P).normalize) m) 0

/-- The outgoing rate of the refraction branch,
`refractRateBuf == refractRate[refractColorIndex] ? 1 : refractRate[refractColorIndex]`. -/
def refractRateOut (material : Material) (st : TraceState) : ℝ :=
  if st.refractRateBuf = material.refractRate.get st.refractColorIndex then 1
  else material.refractRate.get st.refractColorIndex

/-- The state handed to the recursive call of the refraction branch: the
dispersion flag is raised if the three channels of `refractRate` differ, the
buffer takes the outgoing rate, one draw (the failed reflection test) has been
used, and the call of `refract` is recorded. -/
def refractState (material : Material) (st : TraceState) (P RayO : Vec3) : TraceState :=
  { st with
    isChromaticDisperson :=
      if material.refractRate.get 0 ≠ material.refractRate.get 1 ∨
          material.refractRate.get 0 ≠ material.refractRate.get 2 then true
      else st.isChromaticDisperson
    refractRateBuf := refractRateOut material st
    rand := st.rand + 1
    log := st.log ++
      [TraceEvent.refract st.refractColorIndex st.refractRateBuf (refractRateOut material st)
        P RayO material.refractRate] }

/-- An event is dispersive if it is a refraction on a material whose three
`refractRate` channels are not all equal. -/
def TraceEvent.isDispersive : TraceEvent → Prop
  | TraceEvent.call _ _ _ => False
  | TraceEvent.refract _ _ _ _ _ rates => rates.get 0 ≠ rates.get 1 ∨ rates.get 0 ≠ rates.get 2

/-- A refraction event is on index `n` if the material's `refractRate` in the
selected channel is `n`; call events are unconstrained. -/
def TraceEvent.onIndex (n : ℝ) : TraceEvent → Prop
  | TraceEvent.call _ _ _ => True
  | TraceEvent.refract index _ _ _ _ rates => rates.get index = n

/-- The refraction events of a log, in order, as `(index, rateI, rateO)`. -/
def refractEvents : List TraceEvent → List (Int × ℝ × ℝ)
  | [] => []
  | TraceEvent.call _ _ _ :: es => refractEvents es
  | TraceEvent.refract index rateI rateO _ _ _ :: es => (index, rateI, rateO) :: refractEvents es

/-- Medium toggling along a log: every refraction event uses channel `idx`, takes
the current rate `b` as incident rate and `1` (if `b = n`) or `n` (otherwise) as
outgoing rate, which is the current rate for the events after it. -/
def Toggles (idx : Int) (n : ℝ) : ℝ → List TraceEvent → Prop
  | _, [] => True
  | b, TraceEvent.call _ _ _ :: es => Toggles idx n b es
  | b, TraceEvent.refract index rateI rateO _ _ _ :: es =>
    index = idx ∧ rateI = b ∧ rateO = (if b = n then 1 else n) ∧
      Toggles idx n (if b = n then 1 else n) es

/-- Every refraction event of the log is directly followed by the `traceRay` call
that starts at `hitPoint + eps * RayO` with direction `RayO`. -/
def Followed (eps : ℝ) : List TraceEvent → Prop
  | [] => True
  | TraceEvent.call _ _ _ :: es => Followed eps es
  | TraceEvent.refract _ _ _ P RayO _ :: es =>
    (∃ level rest, es = TraceEvent.call level (P.add (Vec3.mul eps RayO)) RayO :: rest) ∧
      Followed eps es

/-- What the events `rest` recorded after a `traceRay` call at `level` satisfy,
`st1` being the state after step [5]'s initialisation and `res` the state when
the call returns: each refraction is followed by its recursive call; if all
refractions are on index `n` they toggle from the buffered rate of `st1`; and
(at a level other than 0, or when something was recorded) the channel index is
the one of `st1` and the dispersion flag is raised exactly when it was raised in
`st1` or a dispersive refraction was recorded. -/
def PathInv (eps n : ℝ) (level : Int) (st1 res : TraceState) (rest : List TraceEvent) : Prop :=
  Followed eps rest ∧
  ((∀ e ∈ rest, TraceEvent.onIndex n e) →
    Toggles st1.refractColorIndex n st1.refractRateBuf rest) ∧
  (level ≠ 0 ∨ rest ≠ [] →
    res.refractColorIndex = st1.refractColorIndex ∧
    (res.isChromaticDisperson = true ↔
      st1.isChromaticDisperson = true ∨ ∃ e ∈ rest, TraceEvent.isDispersive e))

/-- A dispersive glass for tests: always refracts (`reflect = 0`), with
`refractRate = (3/2, 8/5, 17/10)`. -/
def prismMaterial : Material := ⟨⟨1, 1, 1⟩, 0, false, false, 0, 1, 1, ⟨3 / 2, 8 / 5, 17 / 10⟩⟩

/-- A prism-glass unit sphere around `(0, 0, 5)`; `eps = 1e-4`, depth bound `0`. -/
def prismScene : Scene := drawSphere ⟨[], [], 1e-4, 0⟩ ⟨0, 0, 5⟩ 1 prismMaterial

/-- The other rate of a medium pair `{1, n}`: `1` for `n`, and `n` otherwise. -/
def otherRate (n b : ℝ) : ℝ := if b = n then 1 else n

/-! ## The tracer with guarded operations

The same code once more, with every division, every `normalize()` and every
indexing by the channel index checked: a zero divisor, a zero vector to
normalize or an index outside `0, 1, 2` ends the run in a fault. -/

/-- The faults of the guarded tracer. -/
inductive TraceFault where
  | divisionByZero
  | normalizeZero
  | indexOutOfRange

/-- Guarded division `x / y`. -/
def divG (x y : ℝ) : Except TraceFault ℝ :=
  if y = 0 then Except.error TraceFault.divisionByZero else Except.ok (x / y)

/-- Guarded `a.normalize()`. -/
def Vec3.normalizeG (a : Vec3) : Except TraceFault Vec3 :=
  if a.norm = 0 then Except.error TraceFault.normalizeZero else Except.ok a.normalize

/-- Guarded `a[i]`. -/
def Vec3.getG (a : Vec3) (i : Int) : Except TraceFault ℝ :=
  if i = 0 ∨ i = 1 ∨ i = 2 then Except.ok (a.get i) else Except.error TraceFault.indexOutOfRange

/-- Guarded `reflect`. -/
def reflectG (RayI faceVec : Vec3) : Except TraceFault Vec3 :=
  ((Vec3.mul (-2 * faceVec.dot RayI) faceVec).add RayI).normalizeG

/-- Guarded `refract`: the divisions `rateI / rateO` and `... / k` are checked. -/
def refractG (RayI faceVec : Vec3) (rateI rateO : ℝ) : Except TraceFault Vec3 :=
  match divG rateI rateO with
  | Except.error e => Except.error e
  | Except.ok k =>
    let CosI := faceVec.dot RayI
    let CosO := 1 - k ^ 2 * (1 - CosI ^ 2)
    if CosO < 0 then reflectG RayI faceVec
    else
      match divG ((if CosI > 0 then -1 else 1) * Real.sqrt CosO) k with
      | Except.error e => Except.error e
      | Except.ok q => (RayI.add (Vec3.mul (-CosI - q) faceVec)).normalizeG

/-- Guarded `diffuseReflect`: its three normalisations are checked. -/
def diffuseReflectG (RayI faceVec : Vec3) (d1 d2 : ℝ) : Except TraceFault Vec3 :=
  let r1 := 2 * Real.pi * d1
  let r2 := d2
  let faceVec := Vec3.mul (if faceVec.dot RayI > 0 then -1 else 1) faceVec
  let t0 : ℝ := if |faceVec.x| > 0.1 then 0 else 1
  let t1 : ℝ := if t0 = 0 then 1 else 0
  let t : Vec3 := ⟨t0, t1, 0⟩
  match (Vec3.cross_ t faceVec).normalizeG with
  | Except.error e => Except.error e
  | Except.ok u0 =>
    let u := Vec3.mul (Real.cos r1 * Real.sqrt r2) u0
    match (Vec3.cross_ faceVec u).normalizeG with
    | Except.error e => Except.error e
    | Except.ok v0 =>
      let v := Vec3.mul (Real.sin r1 * Real.sqrt r2) v0
      ((Vec3.mul (Real.sqrt (1 - r2)) faceVec).add (u.add v)).normalizeG

/-- Guarded `RaySphere`: the division by `2 * A` is checked. -/
def RaySphereG (RaySt Ray center : Vec3) (R : ℝ) : Except TraceFault ℝ :=
  let RayStCenter := RaySt.sub center
  let A := Ray.dot Ray
  let B := 2 * Ray.dot RayStCenter
  let Delta := B * B - 4 * A * (RayStCenter.dot RayStCenter - R * R)
  if Delta < 0 then Except.ok (-DBL_MAX)
  else
    let Delta := Real.sqrt Delta
    divG (-B + (if -B - Delta > 0 then -Delta else Delta)) (2 * A)

/-- Guarded `RayTriangle`: the three divisions by `a` are checked. -/
def RayTriangleG (RaySt Ray p1 p2 p3 : Vec3) : Except TraceFault ℝ :=
  let edge0 := p2.sub p1
  let edge1 := p3.sub p1
  let p := Vec3.cross_ Ray edge1
  let a0 := p.dot edge0
  let tmp := if a0 > 0 then RaySt.sub p1 else p1.sub RaySt
  let a := if a0 > 0 then a0 else -a0
  if a < 1e-4 then Except.ok (-DBL_MAX)
  else
    match divG (p.dot tmp) a with
    | Except.error e => Except.error e
    | Except.ok u =>
      if u < 0 ∨ u > 1 then Except.ok (-DBL_MAX)
      else
        let q := Vec3.cross_ tmp edge0
        match divG (q.dot Ray) a with
        | Except.error e => Except.error e
        | Except.ok v =>
          if v < 0 ∨ u + v > 1 then Except.ok (-DBL_MAX) else divG (q.dot edge1) a

/-- Guarded `seekIntersection`. -/
def seekIntersectionG (triangle : Triangle) (RaySt Ray : Vec3) : Except TraceFault ℝ :=
  if triangle.p2.x = DBL_MAX then RaySphereG RaySt Ray triangle.p0 triangle.p1.x
  else RayTriangleG RaySt Ray triangle.p0 triangle.p1 triangle.p2

/-- One iteration of the guarded scan. -/
def scanStepG (sc : Scene) (RaySt Ray : Vec3) (acc : Except TraceFault (ℝ × Option Triangle))
    (tri : Triangle) : Except TraceFault (ℝ × Option Triangle) :=
  match acc with
  | Except.error e => Except.error e
  | Except.ok acc =>
    match seekIntersectionG tri RaySt Ray with
    | Except.error e => Except.error e
    | Except.ok dis => Except.ok (if dis > sc.eps ∧ dis < acc.1 then (dis, some tri) else acc)

/-- The guarded scan of `traceRay`. -/
def nearestHitG (sc : Scene) (RaySt Ray : Vec3) : Except TraceFault (ℝ × Option Triangle) :=
  sc.TriangleSet.foldl (scanStepG sc RaySt Ray) (Except.ok (DBL_MAX, none))

/-- Guarded face vector of step [4]. -/
def hitFaceVecG (tri : Triangle) (RaySt : Vec3) : Except TraceFault Vec3 :=
  if tri.p2.x = DBL_MAX then (RaySt.sub tri.p0).normalizeG
  else (Vec3.cross_ (tri.p1.sub tri.p0) (tri.p2.sub tri.p0)).normalizeG

/-- Guarded loop of the `quickReflect` branch: the direction to every point
light is normalized. -/
def lightCosG (faceVec RaySt : Vec3) (lights : List Vec3) : Except TraceFault ℝ :=
  lights.foldl
    (fun acc L =>
      match acc with
      | Except.error e => Except.error e
      | Except.ok lc =>
        match (L.sub RaySt).normalizeG with
        | Except.error e => Except.error e
        | Except.ok d =>
          let t := faceVec.dot d
          Except.ok (if t > lc then t else lc))
    (Except.ok 0)

/-- Guarded tail of `traceRay`: the collapse reads and writes `color[refractColorIndex]`. -/
def finishG (material : Material) (level : Int) (color : Vec3) (st : TraceState) :
    Except TraceFault (Vec3 × TraceState) :=
  if level = 0 ∧ st.isChromaticDisperson = true then
    match color.getG st.refractColorIndex with
    | Except.error e => Except.error e
    | Except.ok c =>
      Except.ok ((Vec3.single st.refractColorIndex (3 * c)).elementMul material.color, st)
  else Except.ok (color.elementMul material.color, st)

/-- The guarded tracer: `traceRay` with every division, normalisation and channel
indexing checked. -/
def traceRayG (sc : Scene) (rnd : Nat → ℝ) (RaySt Ray color : Vec3) (level : Int)
    (st : TraceState) : Except TraceFault (Vec3 × TraceState) :=
  let st := entered st level RaySt Ray
  match nearestHitG sc RaySt Ray with
  | Except.error e => Except.error e
  | Except.ok hit =>
    let minDis := hit.1
    if minDis = DBL_MAX then Except.ok (color, st)
    else
      match hit.2 with
      | none => Except.ok (color, st)
      | some minDisTri =>
        let material := minDisTri.material
        if material.rediate ≠ 0 then Except.ok (material.color, st)
        else if _hlevel : level > sc.maxRayLevel then Except.ok (color, st)
        else
          let RaySt := RaySt.add (Vec3.mul minDis Ray)
          match hitFaceVecG minDisTri RaySt with
          | Except.error e => Except.error e
          | Except.ok faceVec =>
            let st := pathInit rnd level st
            if material.quickReflect = true then
              let faceVec := Vec3.mul (if faceVec.dot Ray > 0 then -1 else 1) faceVec
              match lightCosG faceVec RaySt sc.PointLight with
              | Except.error e => Except.error e
              | Except.ok lc => finishG material level (Vec3.mul lc (Vec3.fill 1)) st
            else if material.diffuseReflect = true then
              match diffuseReflectG Ray faceVec (rnd st.rand) (rnd (st.rand + 1)) with
              | Except.error e => Except.error e
              | Except.ok RayO =>
                match traceRayG sc rnd RaySt RayO color (level + 1)
                    { st with rand := st.rand + 2 } with
                | Except.error e => Except.error e
                | Except.ok r => finishG material level (Vec3.mul material.reflectLossRate r.1) r.2
            else if rnd st.rand < material.reflect then
              match reflectG Ray faceVec with
              | Except.error e => Except.error e
              | Except.ok RayO =>
                match traceRayG sc rnd RaySt RayO color (level + 1)
                    { st with rand := st.rand + 1 } with
                | Except.error e => Except.error e
                | Except.ok r => finishG material level (Vec3.mul material.reflectLossRate r.1) r.2
            else
              match material.refractRate.getG st.refractColorIndex with
              | Except.error e => Except.error e
              | Except.ok _ =>
                match refractG Ray faceVec st.refractRateBuf (refractRateOut material st) with
                | Except.error e => Except.error e
                | Except.ok RayO =>
                  match traceRayG sc rnd (RaySt.add (Vec3.mul sc.eps RayO)) RayO color (level + 1)
                      (refractState material st RaySt RayO) with
                  | Except.error e => Except.error e
                  | Except.ok r =>
                    finishG material level (Vec3.mul material.refractLossRate r.1) r.2
termination_by (sc.maxRayLevel + 1 - level).toNat
decreasing_by
  all_goals simp_wf
  all_goals omega

/-- A point light is off the surface of a primitive: not on the sphere, or not
in the plane of the triangle. -/
def offSurface (t : Triangle) (L : Vec3) : Prop :=
  if t.p2.x = DBL_MAX then (L.sub t.p0).dot (L.sub t.p0) ≠ t.p1.x * t.p1.x
  else (L.sub t.p0).dot (Vec3.cross_ (t.p1.sub t.p0) (t.p2.sub t.p0)) ≠ 0

/-- A scene the tracer is meant for: `eps` is not negative, no sphere has radius
`0`, no `refractRate` channel is `0`, and no point light lies on the surface of
a `quickReflect` primitive. -/
def Scene.wellFormed (sc : Scene) : Prop :=
  0 ≤ sc.eps ∧
  ∀ t ∈ sc.TriangleSet,
    (t.p2.x = DBL_MAX → t.p1.x ≠ 0) ∧
    (t.material.refractRate.x ≠ 0 ∧ t.material.refractRate.y ≠ 0 ∧
      t.material.refractRate.z ≠ 0) ∧
    (t.material.quickReflect = true → ∀ L ∈ sc.PointLight, offSurface t L)

/-- The statics are usable: the channel index is `0`, `1` or `2` and the rate
buffer is not `0` (every level-0 call sets them so). -/
def TraceState.usable (st : TraceState) : Prop :=
  (st.refractColorIndex = 0 ∨ st.refractColorIndex = 1 ∨ st.refractColorIndex = 2) ∧
    st.refractRateBuf ≠ 0

/-- The draws that `diffuseReflect` can work with: in `[0, 1)`, and neither `0`
nor a value where `cos(2 π d)` vanishes. -/
def goodDraws (rnd : Nat → ℝ) : Prop :=
  ∀ i, 0 < rnd i ∧ rnd i < 1 ∧ Real.cos (2 * Real.pi * rnd i) ≠ 0

/-- A mirror sphere of radius `0` at `(0, 0, 5)`, as `drawSphere(center, 0, material)`
makes it; `eps = 1e-4`, depth bound `0`. -/
def pointScene : Scene := drawSphere ⟨[], [], 1e-4, 0⟩ ⟨0, 0, 5⟩ 0 mirrorMaterial

/-- A matt material shaded by the point lights directly (`quickReflect`). -/
def chalkMaterial : Material := ⟨⟨1, 1, 1⟩, 0, true, false, 0, 1, 1, ⟨1, 1, 1⟩⟩

/-- A scene with a prism-glass unit sphere around `(0, 0, 5)`, a chalk unit sphere
around `(3, 0, 5)` and one point light at `(0, 10, 0)`; `eps = 1e-4`, depth
bound `2`. -/
def studioScene : Scene :=
  drawSphere (drawSphere ⟨[], [⟨0, 10, 0⟩], 1e-4, 2⟩ ⟨0, 0, 5⟩ 1 prismMaterial)
    ⟨3, 0, 5⟩ 1 chalkMaterial

/-! ## The pixel write with the conversion checked -/

/-- The conversion `(int) x` where C++ defines it: the truncated value has to be
representable in `int` (32 bits); for any other `x` the behaviour is undefined,
which is `none` here. -/
def toIntChecked (x : ℝ) : Option Int :=
  if -2147483648 ≤ toInt x ∧ toInt x ≤ 2147483647 then some (toInt x) else none

/-- The pixel write `RayTracing::setPix(x, y, color)` with the three conversions
`(int)(color[i] * 0xFF)` checked: `none` when one of them is undefined. -/
def setPixChecked (rows cols : Nat) (ScreenPix : Nat → Nat → RGB) (x y : Int) (color : Vec3) :
    Option (Nat → Nat → RGB) :=
  if x < 0 ∨ x ≥ rows ∨ y < 0 ∨ y ≥ cols then some ScreenPix
  else
    match toIntChecked (color.x * 255), toIntChecked (color.y * 255),
        toIntChecked (color.z * 255) with
    | some r, some g, some b =>
      some (setCell ScreenPix ((rows : Int) - x - 1).toNat y.toNat
        ⟨min r 255, min g 255, min b 255⟩)
    | _, _, _ => none

/-! ## `Fractal.h`: escape time and the Hilbert curve

`std::complex<double>` is the field of complex numbers here, `abs` the modulus. -/

/-- The loop of `isMandelbrotSet` with `k` iterations left, the next one being
`epoch`, on the current iterate `z`:
`if (abs(z) > 2) return epoch; z = z * z + C;`, and `return 0` after the loop. -/
def mandelbrotLoop (C : ℂ) : Nat → Int → ℂ → Int
  | 0, _, _ => 0
  | k + 1, epoch, z =>
    if Complex.abs z > 2 then epoch else mandelbrotLoop C k (epoch + 1) (z * z + C)

/-- The escape-time test `isMandelbrotSet(C, Z0, iterateTimes)`:
`for (int epoch = 0; epoch < iterateTimes; epoch++)`. -/
def isMandelbrotSet (C Z0 : ℂ) (iterateTimes : Int) : Int :=
  mandelbrotLoop C iterateTimes.toNat 0 Z0

/-- The iterates `z_0 = Z0`, `z_(k+1) = z_k^2 + C`. -/
def mandelbrotIterate (C Z0 : ℂ) : Nat → ℂ
  | 0 => Z0
  | k + 1 => mandelbrotIterate C Z0 k * mandelbrotIterate C Z0 k + C

/-- The loop of `HilbertCurve_xy2d` from `s` on: `for (...; s > 0; s /= 2)` with
`rx = (x & s) > 0`, `ry = (y & s) > 0`, `distance += s * s * ((0b11 * rx) ^ ry)`
and the rotation. -/
def xy2dLoop (n s x y distance : Int) : Int :=
  if h : s > 0 then
    let rx : Int := if Int.land x s > 0 then 1 else 0
    let ry : Int := if Int.land y s > 0 then 1 else 0
    let distance := distance + s * s * Int.xor (3 * rx) ry
    let p : Int × Int :=
      if ry = 0 then
        let q : Int × Int := if rx = 1 then (n - 1 - x, n - 1 - y) else (x, y)
        (q.2, q.1)
      else (x, y)
    xy2dLoop n (Int.tdiv s 2) p.1 p.2 distance
  else distance
termination_by s.toNat
decreasing_by
  simp_wf
  have h2 : Int.tdiv s 2 = s / 2 := Int.tdiv_eq_ediv (le_of_lt h) (by norm_num)
  rw [h2]
  omega

/-- The conversion `HilbertCurve_xy2d(n, x, y)` of a cell to its position on the
curve: the loop starts at `s = n / 2` with `distance = 0`. -/
def HilbertCurve_xy2d (n x y : Int) : Int := xy2dLoop n (Int.tdiv n 2) x y 0

/-- The loop of `HilbertCurve_d2xy` from `s` on: `for (...; s < n; s *= 2)` with
`rx = 1 & (distance / 2)`, `ry = 1 & (distance ^ rx)`, the rotation (which
reflects in `n - 1`, as the source has it), `x += s * rx`, `y += s * ry`,
`distance /= 4`.  `s` starts at `1` and doubles, so it is positive throughout;
that is part of the loop test here, which makes the recursion well founded. -/
def d2xyLoop (n s distance x y : Int) : Int × Int :=
  if _h : 0 < s ∧ s < n then
    let rx : Int := Int.land 1 (Int.tdiv distance 2)
    let ry : Int := Int.land 1 (Int.xor distance rx)
    let p : Int × Int :=
      if ry = 0 then
        let q : Int × Int := if rx = 1 then (n - 1 - x, n - 1 - y) else (x, y)
        (q.2, q.1)
      else (x, y)
    d2xyLoop n (s * 2) (Int.tdiv distance 4) (p.1 + s * rx) (p.2 + s * ry)
  else (x, y)
termination_by (n - s).toNat
decreasing_by
  simp_wf
  omega

/-- The conversion `HilbertCurve_d2xy(n, distance, x, y)` of a position on the
curve to its cell `(x, y)`: `x = y = 0`, and the loop starts at `s = 1`. -/
def HilbertCurve_d2xy (n distance : Int) : Int × Int := d2xyLoop n 1 distance 0 0

/-- A clear glass without dispersion: always refracts (`reflect = 0`), with
`refractRate = (3/2, 3/2, 3/2)`. -/
def glassMaterial : Material := ⟨⟨1, 1, 1⟩, 0, false, false, 0, 1, 1, ⟨3 / 2, 3 / 2, 3 / 2⟩⟩

/-- A lamp of radius `1/4` inside a glass unit sphere, both around `(0, 0, 5)`;
`eps = 1/2`, depth bound `0`. -/
def lampInGlass : Scene :=
  drawSphere (drawSphere ⟨[], [], 1 / 2, 0⟩ ⟨0, 0, 5⟩ 1 glassMaterial) ⟨0, 0, 5⟩ (1 / 4)
    lampMaterial

/-- Two states agree on the statics `refractColorIndex`, `refractRateBuf`,
`isChromaticDisperson` and on the position in the stream of draws (the log is
left out: it is not part of the program). -/
def TraceState.sameStatics (a b : TraceState) : Prop :=
  a.refractColorIndex = b.refractColorIndex ∧ a.refractRateBuf = b.refractRateBuf ∧
    a.isChromaticDisperson = b.isChromaticDisperson ∧ a.rand = b.rand

/-- The levels of the `traceRay` calls recorded in a log, in order. -/
def callLevels : List TraceEvent → List Int
  | [] => []
  | TraceEvent.call level _ _ :: es => level :: callLevels es
  | TraceEvent.refract _ _ _ _ _ _ :: es => callLevels es

/-- The three channels of a colour lie in `[0, hi]`. -/
def Vec3.within (c : Vec3) (hi : ℝ) : Prop :=
  (0 ≤ c.x ∧ c.x ≤ hi) ∧ (0 ≤ c.y ∧ c.y ≤ hi) ∧ (0 ≤ c.z ∧ c.z ≤ hi)

/-- A material whose colour channels and two loss rates lie in `[0, 1]`. -/
def Material.unitRange (m : Material) : Prop :=
  m.color.within 1 ∧ (0 ≤ m.reflectLossRate ∧ m.reflectLossRate ≤ 1) ∧
    (0 ≤ m.refractLossRate ∧ m.refractLossRate ≤ 1)

/-- A material without dispersion: the three `refractRate` channels are equal
(the test of the refraction branch, `refractRate[0] != refractRate[1] ||
refractRate[0] != refractRate[2]`, fails). -/
def Material.noDispersion (m : Material) : Prop :=
  ¬ (m.refractRate.get 0 ≠ m.refractRate.get 1 ∨ m.refractRate.get 0 ≠ m.refractRate.get 2)

/-! ## Marching Cubes (`Fractal.h`) -/

/-- The table `MarchingCubes_TriTable[256][16]`: row `c` lists, three by three,
the cube edges whose midpoints are the corners of the triangles of configuration
`c`, and is filled up with `-1`.  (The 256 rows are written in blocks of 32.) -/
def MarchingCubes_TriTable : List (List Int) :=
  ([
    [-1, -1, -1, -1, -1, -1, -1, -1, -1, -1, -1, -1, -1, -1, -1, -1],
    [0, 8, 3, -1, -1, -1, -1, -1, -1, -1, -1, -1, -1, -1, -1, -1],
    [0, 1, 9, -1, -1, -1, -1, -1, -1, -1, -1, -1, -1, -1, -1, -1],
    [1, 8, 3, 9, 8, 1, -1, -1, -1, -1, -1, -1, -1, -1, -1, -1],
    [1, 2, 10, -1, -1, -1, -1, -1, -1, -1, -1, -1, -1, -1, -1, -1],
    [0, 8, 3, 1, 2, 10, -1, -1, -1, -1, -1, -1, -1, -1, -1, -1],
    [9, 2, 10, 0, 2, 9, -1, -1, -1, -1, -1, -1, -1, -1, -1, -1],
    [2, 8, 3, 2, 10, 8, 10, 9, 8, -1, -1, -1, -1, -1, -1, -1],
    [3, 11, 2, -1, -1, -1, -1, -1, -1, -1, -1, -1, -1, -1, -1, -1],
    [0, 11, 2, 8, 11, 0, -1, -1, -1, -1, -1, -1, -1, -1, -1, -1],
    [1, 9, 0, 2, 3, 11, -1, -1, -1, -1, -1, -1, -1, -1, -1, -1],
    [1, 11, 2, 1, 9, 11, 9, 8, 11, -1, -1, -1, -1, -1, -1, -1],
    [3, 10, 1, 11, 10, 3, -1, -1, -1, -1, -1, -1, -1, -1, -1, -1],
    [0, 10, 1, 0, 8, 10, 8, 11, 10, -1, -1, -1, -1, -1, -1, -1],
    [3, 9, 0, 3, 11, 9, 11, 10, 9, -1, -1, -1, -1, -1, -1, -1],
    [9, 8, 10, 10, 8, 11, -1, -1, -1, -1, -1, -1, -1, -1, -1, -1],
    [4, 7, 8, -1, -1, -1, -1, -1, -1, -1, -1, -1, -1, -1, -1, -1],
    [4, 3, 0, 7, 3, 4, -1, -1, -1, -1, -1, -1, -1, -1, -1, -1],
    [0, 1, 9, 8, 4, 7, -1, -1, -1, -1, -1, -1, -1, -1, -1, -1],
    [4, 1, 9, 4, 7, 1, 7, 3, 1, -1, -1, -1, -1, -1, -1, -1],
    [1, 2, 10, 8, 4, 7, -1, -1, -1, -1, -1, -1, -1, -1, -1, -1],
    [3, 4, 7, 3, 0, 4, 1, 2, 10, -1, -1, -1, -1, -1, -1, -1],
    [9, 2, 10, 9, 0, 2, 8, 4, 7, -1, -1, -1, -1, -1, -1, -1],
    [2, 10, 9, 2, 9, 7, 2, 7, 3, 7, 9, 4, -1, -1, -1, -1],
    [8, 4, 7, 3, 11, 2, -1, -1, -1, -1, -1, -1, -1, -1, -1, -1],
    [11, 4, 7, 11, 2, 4, 2, 0, 4, -1, -1, -1, -1, -1, -1, -1],
    [9, 0, 1, 8, 4, 7, 2, 3, 11, -1, -1, -1, -1, -1, -1, -1],
    [4, 7, 11, 9, 4, 11, 9, 11, 2, 9, 2, 1, -1, -1, -1, -1],
    [3, 10, 1, 3, 11, 10, 7, 8, 4, -1, -1, -1, -1, -1, -1, -1],
    [1, 11, 10, 1, 4, 11, 1, 0, 4, 7, 11, 4, -1, -1, -1, -1],
    [4, 7, 8, 9, 0, 11, 9, 11, 10, 11, 0, 3, -1, -1, -1, -1],
    [4, 7, 11, 4, 11, 9, 9, 11, 10, -1, -1, -1, -1, -1, -1, -1]
  ] : List (List Int)) ++
  ([
    [9, 5, 4, -1, -1, -1, -1, -1, -1, -1, -1, -1, -1, -1, -1, -1],
    [9, 5, 4, 0, 8, 3, -1, -1, -1, -1, -1, -1, -1, -1, -1, -1],
    [0, 5, 4, 1, 5, 0, -1, -1, -1, -1, -1, -1, -1, -1, -1, -1],
    [8, 5, 4, 8, 3, 5, 3, 1, 5, -1, -1, -1, -1, -1, -1, -1],
    [1, 2, 10, 9, 5, 4, -1, -1, -1, -1, -1, -1, -1, -1, -1, -1],
    [3, 0, 8, 1, 2, 10, 4, 9, 5, -1, -1, -1, -1, -1, -1, -1],
    [5, 2, 10, 5, 4, 2, 4, 0, 2, -1, -1, -1, -1, -1, -1, -1],
    [2, 10, 5, 3, 2, 5, 3, 5, 4, 3, 4, 8, -1, -1, -1, -1],
    [9, 5, 4, 2, 3, 11, -1, -1, -1, -1, -1, -1, -1, -1, -1, -1],
    [0, 11, 2, 0, 8, 11, 4, 9, 5, -1, -1, -1, -1, -1, -1, -1],
    [0, 5, 4, 0, 1, 5, 2, 3, 11, -1, -1, -1, -1, -1, -1, -1],
    [2, 1, 5, 2, 5, 8, 2, 8, 11, 4, 8, 5, -1, -1, -1, -1],
    [10, 3, 11, 10, 1, 3, 9, 5, 4, -1, -1, -1, -1, -1, -1, -1],
    [4, 9, 5, 0, 8, 1, 8, 10, 1, 8, 11, 10, -1, -1, -1, -1],
    [5, 4, 0, 5, 0, 11, 5, 11, 10, 11, 0, 3, -1, -1, -1, -1],
    [5, 4, 8, 5, 8, 10, 10, 8, 11, -1, -1, -1, -1, -1, -1, -1],
    [9, 7, 8, 5, 7, 9, -1, -1, -1, -1, -1, -1, -1, -1, -1, -1],
    [9, 3, 0, 9, 5, 3, 5, 7, 3, -1, -1, -1, -1, -1, -1, -1],
    [0, 7, 8, 0, 1, 7, 1, 5, 7, -1, -1, -1, -1, -1, -1, -1],
    [1, 5, 3, 3, 5, 7, -1, -1, -1, -1, -1, -1, -1, -1, -1, -1],
    [9, 7, 8, 9, 5, 7, 10, 1, 2, -1, -1, -1, -1, -1, -1, -1],
    [10, 1, 2, 9, 5, 0, 5, 3, 0, 5, 7, 3, -1, -1, -1, -1],
    [8, 0, 2, 8, 2, 5, 8, 5, 7, 10, 5, 2, -1, -1, -1, -1],
    [2, 10, 5, 2, 5, 3, 3, 5, 7, -1, -1, -1, -1, -1, -1, -1],
    [7, 9, 5, 7, 8, 9, 3, 11, 2, -1, -1, -1, -1, -1, -1, -1],
    [9, 5, 7, 9, 7, 2, 9, 2, 0, 2, 7, 11, -1, -1, -1, -1],
    [2, 3, 11, 0, 1, 8, 1, 7, 8, 1, 5, 7, -1, -1, -1, -1],
    [11, 2, 1, 11, 1, 7, 7, 1, 5, -1, -1, -1, -1, -1, -1, -1],
    [9, 5, 8, 8, 5, 7, 10, 1, 3, 10, 3, 11, -1, -1, -1, -1],
    [5, 7, 0, 5, 0, 9, 7, 11, 0, 1, 0, 10, 11, 10, 0, -1],
    [11, 10, 0, 11, 0, 3, 10, 5, 0, 8, 0, 7, 5, 7, 0, -1],
    [11, 10, 5, 7, 11, 5, -1, -1, -1, -1, -1, -1, -1, -1, -1, -1]
  ] : List (List Int)) ++
  ([
    [10, 6, 5, -1, -1, -1, -1, -1, -1, -1, -1, -1, -1, -1, -1, -1],
    [0, 8, 3, 5, 10, 6, -1, -1, -1, -1, -1, -1, -1, -1, -1, -1],
    [9, 0, 1, 5, 10, 6, -1, -1, -1, -1, -1, -1, -1, -1, -1, -1],
    [1, 8, 3, 1, 9, 8, 5, 10, 6, -1, -1, -1, -1, -1, -1, -1],
    [1, 6, 5, 2, 6, 1, -1, -1, -1, -1, -1, -1, -1, -1, -1, -1],
    [1, 6, 5, 1, 2, 6, 3, 0, 8, -1, -1, -1, -1, -1, -1, -1],
    [9, 6, 5, 9, 0, 6, 0, 2, 6, -1, -1, -1, -1, -1, -1, -1],
    [5, 9, 8, 5, 8, 2, 5, 2, 6, 3, 2, 8, -1, -1, -1, -1],
    [2, 3, 11, 10, 6, 5, -1, -1, -1, -1, -1, -1, -1, -1, -1, -1],
    [11, 0, 8, 11, 2, 0, 10, 6, 5, -1, -1, -1, -1, -1, -1, -1],
    [0, 1, 9, 2, 3, 11, 5, 10, 6, -1, -1, -1, -1, -1, -1, -1],
    [5, 10, 6, 1, 9, 2, 9, 11, 2, 9, 8, 11, -1, -1, -1, -1],
    [6, 3, 11, 6, 5, 3, 5, 1, 3, -1, -1, -1, -1, -1, -1, -1],
    [0, 8, 11, 0, 11, 5, 0, 5, 1, 5, 11, 6, -1, -1, -1, -1],
    [3, 11, 6, 0, 3, 6, 0, 6, 5, 0, 5, 9, -1, -1, -1, -1],
    [6, 5, 9, 6, 9, 11, 11, 9, 8, -1, -1, -1, -1, -1, -1, -1],
    [5, 10, 6, 4, 7, 8, -1, -1, -1, -1, -1, -1, -1, -1, -1, -1],
    [4, 3, 0, 4, 7, 3, 6, 5, 10, -1, -1, -1, -1, -1, -1, -1],
    [1, 9, 0, 5, 10, 6, 8, 4, 7, -1, -1, -1, -1, -1, -1, -1],
    [10, 6, 5, 1, 9, 7, 1, 7, 3, 7, 9, 4, -1, -1, -1, -1],
    [6, 1, 2, 6, 5, 1, 4, 7, 8, -1, -1, -1, -1, -1, -1, -1],
    [1, 2, 5, 5, 2, 6, 3, 0, 4, 3, 4, 7, -1, -1, -1, -1],
    [8, 4, 7, 9, 0, 5, 0, 6, 5, 0, 2, 6, -1, -1, -1, -1],
    [7, 3, 9, 7, 9, 4, 3, 2, 9, 5, 9, 6, 2, 6, 9, -1],
    [3, 11, 2, 7, 8, 4, 10, 6, 5, -1, -1, -1, -1, -1, -1, -1],
    [5, 10, 6, 4, 7, 2, 4, 2, 0, 2, 7, 11, -1, -1, -1, -1],
    [0, 1, 9, 4, 7, 8, 2, 3, 11, 5, 10, 6, -1, -1, -1, -1],
    [9, 2, 1, 9, 11, 2, 9, 4, 11, 7, 11, 4, 5, 10, 6, -1],
    [8, 4, 7, 3, 11, 5, 3, 5, 1, 5, 11, 6, -1, -1, -1, -1],
    [5, 1, 11, 5, 11, 6, 1, 0, 11, 7, 11, 4, 0, 4, 11, -1],
    [0, 5, 9, 0, 6, 5, 0, 3, 6, 11, 6, 3, 8, 4, 7, -1],
    [6, 5, 9, 6, 9, 11, 4, 7, 9, 7, 11, 9, -1, -1, -1, -1]
  ] : List (List Int)) ++
  ([
    [10, 4, 9, 6, 4, 10, -1, -1, -1, -1, -1, -1, -1, -1, -1, -1],
    [4, 10, 6, 4, 9, 10, 0, 8, 3, -1, -1, -1, -1, -1, -1, -1],
    [10, 0, 1, 10, 6, 0, 6, 4, 0, -1, -1, -1, -1, -1, -1, -1],
    [8, 3, 1, 8, 1, 6, 8, 6, 4, 6, 1, 10, -1, -1, -1, -1],
    [1, 4, 9, 1, 2, 4, 2, 6, 4, -1, -1, -1, -1, -1, -1, -1],
    [3, 0, 8, 1, 2, 9, 2, 4, 9, 2, 6, 4, -1, -1, -1, -1],
    [0, 2, 4, 4, 2, 6, -1, -1, -1, -1, -1, -1, -1, -1, -1, -1],
    [8, 3, 2, 8, 2, 4, 4, 2, 6, -1, -1, -1, -1, -1, -1, -1],
    [10, 4, 9, 10, 6, 4, 11, 2, 3, -1, -1, -1, -1, -1, -1, -1],
    [0, 8, 2, 2, 8, 11, 4, 9, 10, 4, 10, 6, -1, -1, -1, -1],
    [3, 11, 2, 0, 1, 6, 0, 6, 4, 6, 1, 10, -1, -1, -1, -1],
    [6, 4, 1, 6, 1, 10, 4, 8, 1, 2, 1, 11, 8, 11, 1, -1],
    [9, 6, 4, 9, 3, 6, 9, 1, 3, 11, 6, 3, -1, -1, -1, -1],
    [8, 11, 1, 8, 1, 0, 11, 6, 1, 9, 1, 4, 6, 4, 1, -1],
    [3, 11, 6, 3, 6, 0, 0, 6, 4, -1, -1, -1, -1, -1, -1, -1],
    [6, 4, 8, 11, 6, 8, -1, -1, -1, -1, -1, -1, -1, -1, -1, -1],
    [7, 10, 6, 7, 8, 10, 8, 9, 10, -1, -1, -1, -1, -1, -1, -1],
    [0, 7, 3, 0, 10, 7, 0, 9, 10, 6, 7, 10, -1, -1, -1, -1],
    [10, 6, 7, 1, 10, 7, 1, 7, 8, 1, 8, 0, -1, -1, -1, -1],
    [10, 6, 7, 10, 7, 1, 1, 7, 3, -1, -1, -1, -1, -1, -1, -1],
    [1, 2, 6, 1, 6, 8, 1, 8, 9, 8, 6, 7, -1, -1, -1, -1],
    [2, 6, 9, 2, 9, 1, 6, 7, 9, 0, 9, 3, 7, 3, 9, -1],
    [7, 8, 0, 7, 0, 6, 6, 0, 2, -1, -1, -1, -1, -1, -1, -1],
    [7, 3, 2, 6, 7, 2, -1, -1, -1, -1, -1, -1, -1, -1, -1, -1],
    [2, 3, 11, 10, 6, 8, 10, 8, 9, 8, 6, 7, -1, -1, -1, -1],
    [2, 0, 7, 2, 7, 11, 0, 9, 7, 6, 7, 10, 9, 10, 7, -1],
    [1, 8, 0, 1, 7, 8, 1, 10, 7, 6, 7, 10, 2, 3, 11, -1],
    [11, 2, 1, 11, 1, 7, 10, 6, 1, 6, 7, 1, -1, -1, -1, -1],
    [8, 9, 6, 8, 6, 7, 9, 1, 6, 11, 6, 3, 1, 3, 6, -1],
    [0, 9, 1, 11, 6, 7, -1, -1, -1, -1, -1, -1, -1, -1, -1, -1],
    [7, 8, 0, 7, 0, 6, 3, 11, 0, 11, 6, 0, -1, -1, -1, -1],
    [7, 11, 6, -1, -1, -1, -1, -1, -1, -1, -1, -1, -1, -1, -1, -1]
  ] : List (List Int)) ++
  ([
    [7, 6, 11, -1, -1, -1, -1, -1, -1, -1, -1, -1, -1, -1, -1, -1],
    [3, 0, 8, 11, 7, 6, -1, -1, -1, -1, -1, -1, -1, -1, -1, -1],
    [0, 1, 9, 11, 7, 6, -1, -1, -1, -1, -1, -1, -1, -1, -1, -1],
    [8, 1, 9, 8, 3, 1, 11, 7, 6, -1, -1, -1, -1, -1, -1, -1],
    [10, 1, 2, 6, 11, 7, -1, -1, -1, -1, -1, -1, -1, -1, -1, -1],
    [1, 2, 10, 3, 0, 8, 6, 11, 7, -1, -1, -1, -1, -1, -1, -1],
    [2, 9, 0, 2, 10, 9, 6, 11, 7, -1, -1, -1, -1, -1, -1, -1],
    [6, 11, 7, 2, 10, 3, 10, 8, 3, 10, 9, 8, -1, -1, -1, -1],
    [7, 2, 3, 6, 2, 7, -1, -1, -1, -1, -1, -1, -1, -1, -1, -1],
    [7, 0, 8, 7, 6, 0, 6, 2, 0, -1, -1, -1, -1, -1, -1, -1],
    [2, 7, 6, 2, 3, 7, 0, 1, 9, -1, -1, -1, -1, -1, -1, -1],
    [1, 6, 2, 1, 8, 6, 1, 9, 8, 8, 7, 6, -1, -1, -1, -1],
    [10, 7, 6, 10, 1, 7, 1, 3, 7, -1, -1, -1, -1, -1, -1, -1],
    [10, 7, 6, 1, 7, 10, 1, 8, 7, 1, 0, 8, -1, -1, -1, -1],
    [0, 3, 7, 0, 7, 10, 0, 10, 9, 6, 10, 7, -1, -1, -1, -1],
    [7, 6, 10, 7, 10, 8, 8, 10, 9, -1, -1, -1, -1, -1, -1, -1],
    [6, 8, 4, 11, 8, 6, -1, -1, -1, -1, -1, -1, -1, -1, -1, -1],
    [3, 6, 11, 3, 0, 6, 0, 4, 6, -1, -1, -1, -1, -1, -1, -1],
    [8, 6, 11, 8, 4, 6, 9, 0, 1, -1, -1, -1, -1, -1, -1, -1],
    [9, 4, 6, 9, 6, 3, 9, 3, 1, 11, 3, 6, -1, -1, -1, -1],
    [6, 8, 4, 6, 11, 8, 2, 10, 1, -1, -1, -1, -1, -1, -1, -1],
    [1, 2, 10, 3, 0, 11, 0, 6, 11, 0, 4, 6, -1, -1, -1, -1],
    [4, 11, 8, 4, 6, 11, 0, 2, 9, 2, 10, 9, -1, -1, -1, -1],
    [10, 9, 3, 10, 3, 2, 9, 4, 3, 11, 3, 6, 4, 6, 3, -1],
    [8, 2, 3, 8, 4, 2, 4, 6, 2, -1, -1, -1, -1, -1, -1, -1],
    [0, 4, 2, 4, 6, 2, -1, -1, -1, -1, -1, -1, -1, -1, -1, -1],
    [1, 9, 0, 2, 3, 4, 2, 4, 6, 4, 3, 8, -1, -1, -1, -1],
    [1, 9, 4, 1, 4, 2, 2, 4, 6, -1, -1, -1, -1, -1, -1, -1],
    [8, 1, 3, 8, 6, 1, 8, 4, 6, 6, 10, 1, -1, -1, -1, -1],
    [10, 1, 0, 10, 0, 6, 6, 0, 4, -1, -1, -1, -1, -1, -1, -1],
    [4, 6, 3, 4, 3, 8, 6, 10, 3, 0, 3, 9, 10, 9, 3, -1],
    [10, 9, 4, 6, 10, 4, -1, -1, -1, -1, -1, -1, -1, -1, -1, -1]
  ] : List (List Int)) ++
  ([
    [4, 9, 5, 7, 6, 11, -1, -1, -1, -1, -1, -1, -1, -1, -1, -1],
    [0, 8, 3, 4, 9, 5, 11, 7, 6, -1, -1, -1, -1, -1, -1, -1],
    [5, 0, 1, 5, 4, 0, 7, 6, 11, -1, -1, -1, -1, -1, -1, -1],
    [11, 7, 6, 8, 3, 4, 3, 5, 4, 3, 1, 5, -1, -1, -1, -1],
    [9, 5, 4, 10, 1, 2, 7, 6, 11, -1, -1, -1, -1, -1, -1, -1],
    [6, 11, 7, 1, 2, 10, 0, 8, 3, 4, 9, 5, -1, -1, -1, -1],
    [7, 6, 11, 5, 4, 10, 4, 2, 10, 4, 0, 2, -1, -1, -1, -1],
    [3, 4, 8, 3, 5, 4, 3, 2, 5, 10, 5, 2, 11, 7, 6, -1],
    [7, 2, 3, 7, 6, 2, 5, 4, 9, -1, -1, -1, -1, -1, -1, -1],
    [9, 5, 4, 0, 8, 6, 0, 6, 2, 6, 8, 7, -1, -1, -1, -1],
    [3, 6, 2, 3, 7, 6, 1, 5, 0, 5, 4, 0, -1, -1, -1, -1],
    [6, 2, 8, 6, 8, 7, 2, 1, 8, 4, 8, 5, 1, 5, 8, -1],
    [9, 5, 4, 10, 1, 6, 1, 7, 6, 1, 3, 7, -1, -1, -1, -1],
    [1, 6, 10, 1, 7, 6, 1, 0, 7, 8, 7, 0, 9, 5, 4, -1],
    [4, 0, 10, 4, 10, 5, 0, 3, 10, 6, 10, 7, 3, 7, 10, -1],
    [7, 6, 10, 7, 10, 8, 5, 4, 10, 4, 8, 10, -1, -1, -1, -1],
    [6, 9, 5, 6, 11, 9, 11, 8, 9, -1, -1, -1, -1, -1, -1, -1],
    [3, 6, 11, 0, 6, 3, 0, 5, 6, 0, 9, 5, -1, -1, -1, -1],
    [0, 11, 8, 0, 5, 11, 0, 1, 5, 5, 6, 11, -1, -1, -1, -1],
    [6, 11, 3, 6, 3, 5, 5, 3, 1, -1, -1, -1, -1, -1, -1, -1],
    [1, 2, 10, 9, 5, 11, 9, 11, 8, 11, 5, 6, -1, -1, -1, -1],
    [0, 11, 3, 0, 6, 11, 0, 9, 6, 5, 6, 9, 1, 2, 10, -1],
    [11, 8, 5, 11, 5, 6, 8, 0, 5, 10, 5, 2, 0, 2, 5, -1],
    [6, 11, 3, 6, 3, 5, 2, 10, 3, 10, 5, 3, -1, -1, -1, -1],
    [5, 8, 9, 5, 2, 8, 5, 6, 2, 3, 8, 2, -1, -1, -1, -1],
    [9, 5, 6, 9, 6, 0, 0, 6, 2, -1, -1, -1, -1, -1, -1, -1],
    [1, 5, 8, 1, 8, 0, 5, 6, 8, 3, 8, 2, 6, 2, 8, -1],
    [1, 5, 6, 2, 1, 6, -1, -1, -1, -1, -1, -1, -1, -1, -1, -1],
    [1, 3, 6, 1, 6, 10, 3, 8, 6, 5, 6, 9, 8, 9, 6, -1],
    [10, 1, 0, 10, 0, 6, 9, 5, 0, 5, 6, 0, -1, -1, -1, -1],
    [0, 3, 8, 5, 6, 10, -1, -1, -1, -1, -1, -1, -1, -1, -1, -1],
    [10, 5, 6, -1, -1, -1, -1, -1, -1, -1, -1, -1, -1, -1, -1, -1]
  ] : List (List Int)) ++
  ([
    [11, 5, 10, 7, 5, 11, -1, -1, -1, -1, -1, -1, -1, -1, -1, -1],
    [11, 5, 10, 11, 7, 5, 8, 3, 0, -1, -1, -1, -1, -1, -1, -1],
    [5, 11, 7, 5, 10, 11, 1, 9, 0, -1, -1, -1, -1, -1, -1, -1],
    [10, 7, 5, 10, 11, 7, 9, 8, 1, 8, 3, 1, -1, -1, -1, -1],
    [11, 1, 2, 11, 7, 1, 7, 5, 1, -1, -1, -1, -1, -1, -1, -1],
    [0, 8, 3, 1, 2, 7, 1, 7, 5, 7, 2, 11, -1, -1, -1, -1],
    [9, 7, 5, 9, 2, 7, 9, 0, 2, 2, 11, 7, -1, -1, -1, -1],
    [7, 5, 2, 7, 2, 11, 5, 9, 2, 3, 2, 8, 9, 8, 2, -1],
    [2, 5, 10, 2, 3, 5, 3, 7, 5, -1, -1, -1, -1, -1, -1, -1],
    [8, 2, 0, 8, 5, 2, 8, 7, 5, 10, 2, 5, -1, -1, -1, -1],
    [9, 0, 1, 5, 10, 3, 5, 3, 7, 3, 10, 2, -1, -1, -1, -1],
    [9, 8, 2, 9, 2, 1, 8, 7, 2, 10, 2, 5, 7, 5, 2, -1],
    [1, 3, 5, 3, 7, 5, -1, -1, -1, -1, -1, -1, -1, -1, -1, -1],
    [0, 8, 7, 0, 7, 1, 1, 7, 5, -1, -1, -1, -1, -1, -1, -1],
    [9, 0, 3, 9, 3, 5, 5, 3, 7, -1, -1, -1, -1, -1, -1, -1],
    [9, 8, 7, 5, 9, 7, -1, -1, -1, -1, -1, -1, -1, -1, -1, -1],
    [5, 8, 4, 5, 10, 8, 10, 11, 8, -1, -1, -1, -1, -1, -1, -1],
    [5, 0, 4, 5, 11, 0, 5, 10, 11, 11, 3, 0, -1, -1, -1, -1],
    [0, 1, 9, 8, 4, 10, 8, 10, 11, 10, 4, 5, -1, -1, -1, -1],
    [10, 11, 4, 10, 4, 5, 11, 3, 4, 9, 4, 1, 3, 1, 4, -1],
    [2, 5, 1, 2, 8, 5, 2, 11, 8, 4, 5, 8, -1, -1, -1, -1],
    [0, 4, 11, 0, 11, 3, 4, 5, 11, 2, 11, 1, 5, 1, 11, -1],
    [0, 2, 5, 0, 5, 9, 2, 11, 5, 4, 5, 8, 11, 8, 5, -1],
    [9, 4, 5, 2, 11, 3, -1, -1, -1, -1, -1, -1, -1, -1, -1, -1],
    [2, 5, 10, 3, 5, 2, 3, 4, 5, 3, 8, 4, -1, -1, -1, -1],
    [5, 10, 2, 5, 2, 4, 4, 2, 0, -1, -1, -1, -1, -1, -1, -1],
    [3, 10, 2, 3, 5, 10, 3, 8, 5, 4, 5, 8, 0, 1, 9, -1],
    [5, 10, 2, 5, 2, 4, 1, 9, 2, 9, 4, 2, -1, -1, -1, -1],
    [8, 4, 5, 8, 5, 3, 3, 5, 1, -1, -1, -1, -1, -1, -1, -1],
    [0, 4, 5, 1, 0, 5, -1, -1, -1, -1, -1, -1, -1, -1, -1, -1],
    [8, 4, 5, 8, 5, 3, 9, 0, 5, 0, 3, 5, -1, -1, -1, -1],
    [9, 4, 5, -1, -1, -1, -1, -1, -1, -1, -1, -1, -1, -1, -1, -1]
  ] : List (List Int)) ++
  ([
    [4, 11, 7, 4, 9, 11, 9, 10, 11, -1, -1, -1, -1, -1, -1, -1],
    [0, 8, 3, 4, 9, 7, 9, 11, 7, 9, 10, 11, -1, -1, -1, -1],
    [1, 10, 11, 1, 11, 4, 1, 4, 0, 7, 4, 11, -1, -1, -1, -1],
    [3, 1, 4, 3, 4, 8, 1, 10, 4, 7, 4, 11, 10, 11, 4, -1],
    [4, 11, 7, 9, 11, 4, 9, 2, 11, 9, 1, 2, -1, -1, -1, -1],
    [9, 7, 4, 9, 11, 7, 9, 1, 11, 2, 11, 1, 0, 8, 3, -1],
    [11, 7, 4, 11, 4, 2, 2, 4, 0, -1, -1, -1, -1, -1, -1, -1],
    [11, 7, 4, 11, 4, 2, 8, 3, 4, 3, 2, 4, -1, -1, -1, -1],
    [2, 9, 10, 2, 7, 9, 2, 3, 7, 7, 4, 9, -1, -1, -1, -1],
    [9, 10, 7, 9, 7, 4, 10, 2, 7, 8, 7, 0, 2, 0, 7, -1],
    [3, 7, 10, 3, 10, 2, 7, 4, 10, 1, 10, 0, 4, 0, 10, -1],
    [1, 10, 2, 8, 7, 4, -1, -1, -1, -1, -1, -1, -1, -1, -1, -1],
    [4, 9, 1, 4, 1, 7, 7, 1, 3, -1, -1, -1, -1, -1, -1, -1],
    [4, 9, 1, 4, 1, 7, 0, 8, 1, 8, 7, 1, -1, -1, -1, -1],
    [4, 0, 3, 7, 4, 3, -1, -1, -1, -1, -1, -1, -1, -1, -1, -1],
    [4, 8, 7, -1, -1, -1, -1, -1, -1, -1, -1, -1, -1, -1, -1, -1],
    [9, 10, 8, 10, 11, 8, -1, -1, -1, -1, -1, -1, -1, -1, -1, -1],
    [3, 0, 9, 3, 9, 11, 11, 9, 10, -1, -1, -1, -1, -1, -1, -1],
    [0, 1, 10, 0, 10, 8, 8, 10, 11, -1, -1, -1, -1, -1, -1, -1],
    [3, 1, 10, 11, 3, 10, -1, -1, -1, -1, -1, -1, -1, -1, -1, -1],
    [1, 2, 11, 1, 11, 9, 9, 11, 8, -1, -1, -1, -1, -1, -1, -1],
    [3, 0, 9, 3, 9, 11, 1, 2, 9, 2, 11, 9, -1, -1, -1, -1],
    [0, 2, 11, 8, 0, 11, -1, -1, -1, -1, -1, -1, -1, -1, -1, -1],
    [3, 2, 11, -1, -1, -1, -1, -1, -1, -1, -1, -1, -1, -1, -1, -1],
    [2, 3, 8, 2, 8, 10, 10, 8, 9, -1, -1, -1, -1, -1, -1, -1],
    [9, 10, 2, 0, 9, 2, -1, -1, -1, -1, -1, -1, -1, -1, -1, -1],
    [2, 3, 8, 2, 8, 10, 0, 1, 8, 1, 10, 8, -1, -1, -1, -1],
    [1, 10, 2, -1, -1, -1, -1, -1, -1, -1, -1, -1, -1, -1, -1, -1],
    [1, 3, 8, 9, 1, 8, -1, -1, -1, -1, -1, -1, -1, -1, -1, -1],
    [0, 9, 1, -1, -1, -1, -1, -1, -1, -1, -1, -1, -1, -1, -1, -1],
    [0, 3, 8, -1, -1, -1, -1, -1, -1, -1, -1, -1, -1, -1, -1, -1],
    [-1, -1, -1, -1, -1, -1, -1, -1, -1, -1, -1, -1, -1, -1, -1, -1]
  ] : List (List Int))

/-- The table `MarchingCubes_Point[12][3]`: twice the position of the midpoint of
each cube edge (the code divides the entries by `2.0`). -/
def MarchingCubes_Point : List (List Int) :=
  [[1, 0, 0], [2, 1, 0], [1, 2, 0], [0, 1, 0],
   [1, 0, 2], [2, 1, 2], [1, 2, 2], [0, 1, 2],
   [0, 0, 1], [2, 0, 1], [2, 2, 1], [0, 2, 1]]

/-- The table `MarchingCubes_Vertex[8]`: the corner `j` of the cube, packed as
`0bzyx`. -/
def MarchingCubes_Vertex : List Int := [0, 1, 3, 2, 4, 5, 7, 6]

/-- The offset of corner `j` in the first loop of `MarchingCubes`:
`(V[j] & 0b1, (V[j] & 0b10) >> 1, (V[j] & 0b100) >> 2)`. -/
def marchingCorner (j : Nat) : List Int :=
  let v := MarchingCubes_Vertex.getD j 0
  [Int.land v 1, Int.shiftRight (Int.land v 2) 1, Int.shiftRight (Int.land v 4) 2]

/-- The second loop of `MarchingCubes` on one row of the table,
`for (j = 0; j < 15; j += 3)`, given the values of `j` still to come: it stops
at a `-1` in position `j`, and reads the three entries `j`, `j + 1`, `j + 2`
otherwise.  The result lists the values of `point` in the order in which they
index `MarchingCubes_Point`. -/
def marchingTriLoop (row : List Int) : List Nat → List Int
  | [] => []
  | j :: js =>
    if row.getD j 0 = -1 then []
    else row.getD j 0 :: row.getD (j + 1) 0 :: row.getD (j + 2) 0 :: marchingTriLoop row js

/-- The values of `point` that `MarchingCubes` reads for the configuration
`cubeindex`. -/
def marchingPoints (cubeindex : Nat) : List Int :=
  marchingTriLoop (MarchingCubes_TriTable.getD cubeindex []) [0, 3, 6, 9, 12]

/-- The entries of row `c` of `MarchingCubes_TriTable` before its first `-1`. -/
def triTablePrefix (c : Nat) : List Int :=
  (MarchingCubes_TriTable.getD c []).takeWhile (fun e => e != -1)

/-- Edge `e` is cut in configuration `c`: `MarchingCubes_Point[e]` is the sum of
the offsets of two corners `a`, `b` (so the position `MarchingCubes_Point[e] / 2`
is their midpoint), and exactly one of the bits `a`, `b` of `c` is set. -/
def marchingEdgeCut (c : Nat) (e : Int) : Bool :=
  (List.range 8).any fun a => (List.range 8).any fun b =>
    (MarchingCubes_Point.getD e.toNat [] ==
      List.zipWith (fun u v => u + v) (marchingCorner a) (marchingCorner b)) &&
    (c.testBit a != c.testBit b)

/-- The check of one row of the table. -/
def marchingRowOk (c : Nat) : Bool :=
  (triTablePrefix c).length % 3 == 0 && decide ((triTablePrefix c).length ≤ 15) &&
    (triTablePrefix c).all (fun e => decide (0 ≤ e) && decide (e ≤ 11) && marchingEdgeCut c e) &&
    (marchingPoints c == triTablePrefix c)

/-! ## The Hilbert curve with the `int` arithmetic checked, and its closed form -/

/-- The values an `int` holds (32 bits). -/
def fitsInt (v : Int) : Prop := -2147483648 ≤ v ∧ v ≤ 2147483647

instance fitsIntDecidable (v : Int) : Decidable (fitsInt v) := by
  unfold fitsInt
  infer_instance

/-- The loop of `HilbertCurve_xy2d` with the `int` arithmetic checked: `none` as
soon as one of `s * s`, `s * s * ((0b11 * rx) ^ ry)`, `distance + ...`, `n - 1`,
`n - 1 - x`, `n - 1 - y` is not an `int` (signed overflow, undefined in C++). -/
def xy2dLoopChecked (n s x y distance : Int) : Option Int :=
  if _h : s > 0 then
    let rx : Int := if Int.land x s > 0 then 1 else 0
    let ry : Int := if Int.land y s > 0 then 1 else 0
    let inc := s * s * Int.xor (3 * rx) ry
    let p : Int × Int :=
      if ry = 0 then
        let q : Int × Int := if rx = 1 then (n - 1 - x, n - 1 - y) else (x, y)
        (q.2, q.1)
      else (x, y)
    if fitsInt (s * s) ∧ fitsInt inc ∧ fitsInt (distance + inc) ∧
        ((ry = 0 ∧ rx = 1) → fitsInt (n - 1) ∧ fitsInt (n - 1 - x) ∧ fitsInt (n - 1 - y)) then
      xy2dLoopChecked n (Int.tdiv s 2) p.1 p.2 (distance + inc)
    else none
  else some distance
termination_by s.toNat
decreasing_by
  simp_wf
  have h2 : Int.tdiv s 2 = s / 2 := Int.tdiv_eq_ediv (le_of_lt _h) (by norm_num)
  rw [h2]
  omega

/-- The conversion `HilbertCurve_xy2d(n, x, y)` with the `int` arithmetic
checked. -/
def HilbertCurve_xy2dChecked (n x y : Int) : Option Int :=
  if fitsInt n ∧ fitsInt x ∧ fitsInt y then xy2dLoopChecked n (Int.tdiv n 2) x y 0 else none

/-- One level of the Hilbert curve on the `2s x 2s` grid: the quadrant of the
cell `(x, y)` in the order the curve visits them, and the cell of the `s x s`
grid that the rotation of `HilbertCurve_xy2d` leaves for the next level. -/
def hilbertQuad (s x y : Nat) : Nat × Nat × Nat :=
  if y < s then
    if x < s then (0, y, x) else (3, s - 1 - y, 2 * s - 1 - x)
  else
    if x < s then (1, x, y - s) else (2, x - s, y - s)

/-- The position of the cell `(x, y)` on the Hilbert curve of order `j` (on the
`2^j x 2^j` grid), level by level. -/
def hilbertD : Nat → Nat → Nat → Nat
  | 0, _, _ => 0
  | j + 1, x, y =>
    (hilbertQuad (2 ^ j) x y).1 * 4 ^ j
      + hilbertD j (hilbertQuad (2 ^ j) x y).2.1 (hilbertQuad (2 ^ j) x y).2.2

/-- Two cells are edge-adjacent. -/
def gridAdjacent (x y x' y' : Nat) : Prop :=
  (x' = x ∧ (y' = y + 1 ∨ y = y' + 1)) ∨ (y' = y ∧ (x' = x + 1 ∨ x = x' + 1))

/-- The accumulated colour of a bounce of `traceRay` on the selected primitive
`t`: the colour of the recursive call of the branch taken (`diffuseReflect`, the
reflection when the draw is below `material.reflect`, the refraction otherwise),
scaled by that branch's loss rate (`color *= reflectLossRate`,
`color *= refractLossRate`), before the tail of `traceRay`. -/
def bounceAcc (sc : Scene) (rnd : Nat → ℝ) (RaySt Ray color : Vec3) (level : Int)
    (st : TraceState) (t : Triangle) : Vec3 :=
  if t.material.diffuseReflect = true then
    Vec3.mul t.material.reflectLossRate
      (traceRay sc rnd (hitPoint sc RaySt Ray)
        (diffuseReflect Ray (hitFaceVec t (hitPoint sc RaySt Ray))
          (rnd (pathInit rnd level (entered st level RaySt Ray)).rand)
          (rnd ((pathInit rnd level (entered st level RaySt Ray)).rand + 1)))
        color (level + 1)
        { pathInit rnd level (entered st level RaySt Ray) with
          rand := (pathInit rnd level (entered st level RaySt Ray)).rand + 2 }).1
  else if rnd (pathInit rnd level (entered st level RaySt Ray)).rand < t.material.reflect then
    Vec3.mul t.material.reflectLossRate
      (traceRay sc rnd (hitPoint sc RaySt Ray)
        (reflect Ray (hitFaceVec t (hitPoint sc RaySt Ray))) color (level + 1)
        { pathInit rnd level (entered st level RaySt Ray) with
          rand := (pathInit rnd level (entered st level RaySt Ray)).rand + 1 }).1
  else
    Vec3.mul t.material.refractLossRate
      (traceRay sc rnd
        ((hitPoint sc RaySt Ray).add (Vec3.mul sc.eps
          (refract Ray (hitFaceVec t (hitPoint sc RaySt Ray))
            (pathInit rnd level (entered st level RaySt Ray)).refractRateBuf
            (refractRateOut t.material (pathInit rnd level (entered st level RaySt Ray))))))
        (refract Ray (hitFaceVec t (hitPoint sc RaySt Ray))
          (pathInit rnd level (entered st level RaySt Ray)).refractRateBuf
          (refractRateOut t.material (pathInit rnd level (entered st level RaySt Ray))))
        color (level + 1)
        (refractState t.material (pathInit rnd level (entered st level RaySt Ray))
          (hitPoint sc RaySt Ray)
          (refract Ray (hitFaceVec t (hitPoint sc RaySt Ray))
            (pathInit rnd level (entered st level RaySt Ray)).refractRateBuf
            (refractRateOut t.material
              (pathInit rnd level (entered st level RaySt Ray)))))).1

/-- A dispersive glass with a tint: colour `(1, 1/2, 1/4)`, always refracts
(`reflect = 0`), `refractLossRate = 1/2`, `refractRate = (3/2, 8/5, 17/10)`. -/
def tintedPrismMaterial : Material :=
  ⟨⟨1, 1 / 2, 1 / 4⟩, 0, false, false, 0, 1, 1 / 2, ⟨3 / 2, 8 / 5, 17 / 10⟩⟩

/-- A light source of colour `(1, 1/2, 1/4)`. -/
def amberLampMaterial : Material := ⟨⟨1, 1 / 2, 1 / 4⟩, 1, false, false, 0, 1, 1, ⟨1, 1, 1⟩⟩

/-- An amber lamp of radius `1/4` inside a tinted prism-glass unit sphere, both
around `(0, 0, 5)`; `eps = 1/8`, depth bound `0`. -/
def lampInPrism : Scene :=
  drawSphere (drawSphere ⟨[], [], 1 / 8, 0⟩ ⟨0, 0, 5⟩ 1 tintedPrismMaterial) ⟨0, 0, 5⟩ (1 / 4)
    amberLampMaterial

/-! ## Theorems -/

/-! ### Vector facts -/

theorem Vec3.norm_eq_one_iff (a : Vec3) : a.norm = 1 ↔ a.dot a = 1 := by
  unfold Vec3.norm
  exact Real.sqrt_eq_one

theorem Vec3.norm_nonneg (a : Vec3) : 0 ≤ a.norm := Real.sqrt_nonneg _

theorem Vec3.dot_self_nonneg (a : Vec3) : 0 ≤ a.dot a := by
  simp only [Vec3.dot]
  nlinarith [mul_self_nonneg a.x, mul_self_nonneg a.y, mul_self_nonneg a.z]

theorem Vec3.norm_sq (a : Vec3) : a.norm ^ 2 = a.dot a := by
  unfold Vec3.norm
  exact Real.sq_sqrt a.dot_self_nonneg

theorem Vec3.norm_eq_of_sq (a : Vec3) (r : ℝ) (hr : 0 ≤ r) (h : a.dot a = r ^ 2) :
    a.norm = r := by
  unfold Vec3.norm
  rw [h]
  exact Real.sqrt_sq hr

theorem Vec3.norm_mul (s : ℝ) (a : Vec3) (hs : 0 ≤ s) : (Vec3.mul s a).norm = s * a.norm := by
  apply Vec3.norm_eq_of_sq _ _ (mul_nonneg hs a.norm_nonneg)
  rw [mul_pow, Vec3.norm_sq]
  simp only [Vec3.dot, Vec3.mul]
  ring

theorem Vec3.normalize_eq_self (a : Vec3) (h : a.norm = 1) : a.normalize = a := by
  ext <;> simp [Vec3.normalize, h]

theorem Vec3.normalize_eq_mul (a : Vec3) : a.normalize = Vec3.mul (1 / a.norm) a := by
  ext <;> simp [Vec3.normalize, Vec3.mul] <;> ring

/-! ### Reflection and refraction -/

/-- The vector that `reflect` normalizes already has length one when the
incident vector and the face vector are unit vectors. -/
theorem reflect_pre_norm (I N : Vec3) (hI : I.norm = 1) (hN : N.norm = 1) :
    ((Vec3.mul (-2 * N.dot I) N).add I).norm = 1 := by
  have hI2 := (Vec3.norm_eq_one_iff I).1 hI
  have hN2 := (Vec3.norm_eq_one_iff N).1 hN
  rw [Vec3.norm_eq_one_iff]
  simp only [Vec3.dot, Vec3.add, Vec3.mul] at *
  linear_combination hI2 + 4 * (N.x * I.x + N.y * I.y + N.z * I.z) ^ 2 * hN2

/-- On unit vectors `reflect` is `I - 2 (N . I) N`, without rescaling. -/
theorem reflect_eq_of_unit (I N : Vec3) (hI : I.norm = 1) (hN : N.norm = 1) :
    reflect I N = (Vec3.mul (-2 * N.dot I) N).add I := by
  unfold reflect
  exact Vec3.normalize_eq_self _ (reflect_pre_norm I N hI hN)

/-- C7. Reflection law: for unit vectors `I` and `N`, `reflect I N` makes the
same angle with the normal on the other side, `reflect(I,N) . N = -(I . N)`,
and has length one. -/
theorem reflect_law (I N : Vec3) (hI : I.norm = 1) (hN : N.norm = 1) :
    (reflect I N).dot N = -(I.dot N) ∧ (reflect I N).norm = 1 := by
  have hN2 := (Vec3.norm_eq_one_iff N).1 hN
  refine ⟨?_, ?_⟩
  · rw [reflect_eq_of_unit I N hI hN]
    simp only [Vec3.dot, Vec3.add, Vec3.mul] at *
    linear_combination (-2 * (N.x * I.x + N.y * I.y + N.z * I.z)) * hN2
  · rw [reflect_eq_of_unit I N hI hN]
    exact reflect_pre_norm I N hI hN

/-- C7 at `I = (0, 0, 1)`, `N = (0, 0, 1)`. -/
theorem reflect_law_witness :
    (reflect ⟨0, 0, 1⟩ ⟨0, 0, 1⟩).dot ⟨0, 0, 1⟩ = -((⟨0, 0, 1⟩ : Vec3).dot ⟨0, 0, 1⟩) ∧
      (reflect ⟨0, 0, 1⟩ ⟨0, 0, 1⟩).norm = 1 :=
  reflect_law ⟨0, 0, 1⟩ ⟨0, 0, 1⟩ (by simp [Vec3.norm, Vec3.dot]) (by simp [Vec3.norm, Vec3.dot])

/-- C9. Total internal reflection: when `1 - (rateI/rateO)^2 (1 - (N . I)^2) < 0`,
`refract` returns exactly what `reflect` returns on the same vectors. -/
theorem refract_total_internal_reflection (I N : Vec3) (rateI rateO : ℝ)
    (h : 1 - (rateI / rateO) ^ 2 * (1 - (N.dot I) ^ 2) < 0) :
    refract I N rateI rateO = reflect I N := by
  simp only [refract, if_pos h]

/-- C9 at `I = (1, 0, 0)`, `N = (0, 0, 1)` (grazing incidence), rates `2` and `1`. -/
theorem refract_total_internal_reflection_witness :
    refract ⟨1, 0, 0⟩ ⟨0, 0, 1⟩ 2 1 = reflect ⟨1, 0, 0⟩ ⟨0, 0, 1⟩ :=
  refract_total_internal_reflection ⟨1, 0, 0⟩ ⟨0, 0, 1⟩ 2 1 (by norm_num [Vec3.dot])

theorem Vec3.dot_comm (a b : Vec3) : a.dot b = b.dot a := by
  simp only [Vec3.dot]
  ring

/-- The vector that `refract` normalizes has length `1 / k` (`k = rateI / rateO`);
`σ` is the sign the source picks and `s` the square root of `CosO`. -/
theorem refract_pre_norm (I N : Vec3) (k s σ : ℝ) (hI2 : I.dot I = 1) (hN2 : N.dot N = 1)
    (hk : 0 < k) (hσ : σ ^ 2 = 1) (hs : s ^ 2 = 1 - k ^ 2 * (1 - (N.dot I) ^ 2)) :
    (I.add (Vec3.mul (-(N.dot I) - σ * s / k) N)).norm = 1 / k := by
  apply Vec3.norm_eq_of_sq _ _ (by positivity)
  have hk0 : k ≠ 0 := ne_of_gt hk
  have key : (I.add (Vec3.mul (-(N.dot I) - σ * s / k) N)).dot
      (I.add (Vec3.mul (-(N.dot I) - σ * s / k) N))
      = 1 + 2 * (-(N.dot I) - σ * s / k) * N.dot I + (-(N.dot I) - σ * s / k) ^ 2 := by
    simp only [Vec3.dot, Vec3.add, Vec3.mul] at *
    linear_combination hI2 + (-(N.x * I.x + N.y * I.y + N.z * I.z) - σ * s / k) ^ 2 * hN2
  rw [key]
  generalize N.dot I = c at hs
  field_simp
  linear_combination (k * σ ^ 2) * hs + (k * (1 - k ^ 2 * (1 - c ^ 2))) * hσ

/-- Outside total internal reflection, on unit vectors and positive rates,
`refract` is `k (I + m N)` with `k = rateI / rateO` and
`m = -(N . I) - σ sqrt(CosO) / k`. -/
theorem refract_eq (I N : Vec3) (rateI rateO : ℝ) (hI : I.norm = 1) (hN : N.norm = 1)
    (hrI : 0 < rateI) (hrO : 0 < rateO)
    (hC : 0 ≤ 1 - (rateI / rateO) ^ 2 * (1 - (N.dot I) ^ 2)) :
    refract I N rateI rateO =
      Vec3.mul (rateI / rateO)
        (I.add (Vec3.mul (-(N.dot I) - (if N.dot I > 0 then -1 else 1) *
          Real.sqrt (1 - (rateI / rateO) ^ 2 * (1 - (N.dot I) ^ 2)) / (rateI / rateO)) N)) := by
  have hI2 := (Vec3.norm_eq_one_iff I).1 hI
  have hN2 := (Vec3.norm_eq_one_iff N).1 hN
  have hk : 0 < rateI / rateO := div_pos hrI hrO
  have hσ : ((if N.dot I > 0 then -1 else 1 : ℝ)) ^ 2 = 1 := by
    split_ifs <;> norm_num
  have hn := refract_pre_norm I N (rateI / rateO)
    (Real.sqrt (1 - (rateI / rateO) ^ 2 * (1 - (N.dot I) ^ 2)))
    (if N.dot I > 0 then -1 else 1) hI2 hN2 hk hσ (Real.sq_sqrt hC)
  simp only [refract, if_neg (not_lt.2 hC)]
  rw [Vec3.normalize_eq_mul, hn]
  simp

/-- C8. Snell's law: for unit `I`, `N` and positive rates outside total internal
reflection, `T = refract I N rateI rateO` has length one, lies in the plane of
`I` and `N`, its part tangent to the surface is `rateI / rateO` times that of
`I` (so `rateO sin(angle T) = rateI sin(angle I)`), and `T . N` has the sign of
`I . N`: the ray continues through the surface. -/
theorem refract_snell (I N : Vec3) (rateI rateO : ℝ) (hI : I.norm = 1) (hN : N.norm = 1)
    (hrI : 0 < rateI) (hrO : 0 < rateO)
    (hC : 0 ≤ 1 - (rateI / rateO) ^ 2 * (1 - (N.dot I) ^ 2)) :
    (refract I N rateI rateO).norm = 1 ∧
    (∃ a b : ℝ, refract I N rateI rateO = (Vec3.mul a I).add (Vec3.mul b N)) ∧
    ((refract I N rateI rateO).sub (Vec3.mul ((refract I N rateI rateO).dot N) N)).norm
      = rateI / rateO * (I.sub (Vec3.mul (I.dot N) N)).norm ∧
    rateO * ((refract I N rateI rateO).sub (Vec3.mul ((refract I N rateI rateO).dot N) N)).norm
      = rateI * (I.sub (Vec3.mul (I.dot N) N)).norm ∧
    (I.dot N ≤ 0 → (refract I N rateI rateO).dot N ≤ 0) ∧
    (0 < I.dot N → 0 ≤ (refract I N rateI rateO).dot N) := by
  have hI2 := (Vec3.norm_eq_one_iff I).1 hI
  have hN2 := (Vec3.norm_eq_one_iff N).1 hN
  have hk : 0 < rateI / rateO := div_pos hrI hrO
  have hk0 : rateI / rateO ≠ 0 := ne_of_gt hk
  have hσ : ((if N.dot I > 0 then -1 else 1 : ℝ)) ^ 2 = 1 := by
    split_ifs <;> norm_num
  have hs0 := Real.sqrt_nonneg (1 - (rateI / rateO) ^ 2 * (1 - (N.dot I) ^ 2))
  have hn := refract_pre_norm I N (rateI / rateO)
    (Real.sqrt (1 - (rateI / rateO) ^ 2 * (1 - (N.dot I) ^ 2)))
    (if N.dot I > 0 then -1 else 1) hI2 hN2 hk hσ (Real.sq_sqrt hC)
  have hT := refract_eq I N rateI rateO hI hN hrI hrO hC
  generalize Real.sqrt (1 - (rateI / rateO) ^ 2 * (1 - (N.dot I) ^ 2)) = s at hT hn hs0
  generalize hk' : rateI / rateO = k at hT hn hk hk0
  -- the component of `T` along the normal
  have hTN : (refract I N rateI rateO).dot N = -((if N.dot I > 0 then -1 else 1 : ℝ) * s) := by
    rw [hT]
    have e : (Vec3.mul k (I.add (Vec3.mul (-(N.dot I) - (if N.dot I > 0 then -1 else 1) * s / k)
        N))).dot N = k * (I.dot N + (-(N.dot I) - (if N.dot I > 0 then -1 else 1) * s / k) *
        N.dot N) := by
      simp only [Vec3.dot, Vec3.add, Vec3.mul]
      ring
    rw [e, hN2, Vec3.dot_comm I N]
    field_simp
    ring
  -- the part of `T` tangent to the surface
  have hTan : (refract I N rateI rateO).sub (Vec3.mul ((refract I N rateI rateO).dot N) N)
      = Vec3.mul k (I.sub (Vec3.mul (I.dot N) N)) := by
    rw [hTN, hT]
    have hc : N.dot I = I.dot N := Vec3.dot_comm N I
    rw [hc]
    generalize I.dot N = c
    generalize (if c > 0 then -1 else 1 : ℝ) = σ
    ext <;> simp only [Vec3.sub, Vec3.add, Vec3.mul] <;> field_simp <;> ring
  have hTanNorm : ((refract I N rateI rateO).sub
      (Vec3.mul ((refract I N rateI rateO).dot N) N)).norm
      = k * (I.sub (Vec3.mul (I.dot N) N)).norm := by
    rw [hTan]
    exact Vec3.norm_mul k _ (le_of_lt hk)
  refine ⟨?_, ?_, hTanNorm, ?_, ?_, ?_⟩
  · rw [hT, Vec3.norm_mul k _ (le_of_lt hk), hn]
    field_simp
  · refine ⟨k, k * (-(N.dot I) - (if N.dot I > 0 then -1 else 1) * s / k), ?_⟩
    rw [hT]
    ext <;> simp only [Vec3.add, Vec3.mul] <;> ring
  · rw [hTanNorm, ← hk']
    field_simp
  · intro h
    rw [hTN, if_neg (by rw [Vec3.dot_comm N I]; exact not_lt.2 h)]
    linarith
  · intro h
    rw [hTN, if_pos (by rw [Vec3.dot_comm N I]; exact h)]
    linarith

/-- C8 at normal incidence from air into glass: `I = (0, 0, -1)`, `N = (0, 0, 1)`,
rates `1` and `3/2`. -/
theorem refract_snell_witness :
    (refract ⟨0, 0, -1⟩ ⟨0, 0, 1⟩ 1 (3 / 2)).norm = 1 ∧
    (∃ a b : ℝ, refract ⟨0, 0, -1⟩ ⟨0, 0, 1⟩ 1 (3 / 2)
      = (Vec3.mul a ⟨0, 0, -1⟩).add (Vec3.mul b ⟨0, 0, 1⟩)) ∧
    ((refract ⟨0, 0, -1⟩ ⟨0, 0, 1⟩ 1 (3 / 2)).sub
      (Vec3.mul ((refract ⟨0, 0, -1⟩ ⟨0, 0, 1⟩ 1 (3 / 2)).dot ⟨0, 0, 1⟩) ⟨0, 0, 1⟩)).norm
      = 1 / (3 / 2) * ((⟨0, 0, -1⟩ : Vec3).sub
          (Vec3.mul ((⟨0, 0, -1⟩ : Vec3).dot ⟨0, 0, 1⟩) ⟨0, 0, 1⟩)).norm ∧
    (3 / 2) * ((refract ⟨0, 0, -1⟩ ⟨0, 0, 1⟩ 1 (3 / 2)).sub
      (Vec3.mul ((refract ⟨0, 0, -1⟩ ⟨0, 0, 1⟩ 1 (3 / 2)).dot ⟨0, 0, 1⟩) ⟨0, 0, 1⟩)).norm
      = 1 * ((⟨0, 0, -1⟩ : Vec3).sub
          (Vec3.mul ((⟨0, 0, -1⟩ : Vec3).dot ⟨0, 0, 1⟩) ⟨0, 0, 1⟩)).norm ∧
    ((⟨0, 0, -1⟩ : Vec3).dot ⟨0, 0, 1⟩ ≤ 0 →
      (refract ⟨0, 0, -1⟩ ⟨0, 0, 1⟩ 1 (3 / 2)).dot ⟨0, 0, 1⟩ ≤ 0) ∧
    (0 < (⟨0, 0, -1⟩ : Vec3).dot ⟨0, 0, 1⟩ →
      0 ≤ (refract ⟨0, 0, -1⟩ ⟨0, 0, 1⟩ 1 (3 / 2)).dot ⟨0, 0, 1⟩) :=
  refract_snell ⟨0, 0, -1⟩ ⟨0, 0, 1⟩ 1 (3 / 2) (by simp [Vec3.norm, Vec3.dot])
    (by simp [Vec3.norm, Vec3.dot]) (by norm_num) (by norm_num) (by norm_num [Vec3.dot])

/-! ### Ray/sphere intersection -/

theorem DBL_MAX_pos : 0 < DBL_MAX := by
  unfold DBL_MAX
  positivity

theorem Vec3.norm_sub_comm (a b : Vec3) : (a.sub b).norm = (b.sub a).norm := by
  unfold Vec3.norm
  congr 1
  simp only [Vec3.dot, Vec3.sub]
  ring

/-- From outside the sphere, aiming at the centre, `RaySphere` returns the
distance to the centre minus the radius. -/
theorem raySphere_toward_center (O C : Vec3) (R : ℝ) (hR : 0 < R)
    (hout : R < (O.sub C).norm) :
    RaySphere O (C.sub O).normalize C R = (O.sub C).norm - R := by
  have hL : (C.sub O).norm = (O.sub C).norm := Vec3.norm_sub_comm C O
  have hq : (O.sub C).dot (O.sub C) = (O.sub C).norm ^ 2 := ((O.sub C).norm_sq).symm
  have hLpos : 0 < (O.sub C).norm := lt_trans hR hout
  have hL0 : (O.sub C).norm ≠ 0 := ne_of_gt hLpos
  have hA : ((C.sub O).normalize).dot (C.sub O).normalize = 1 := by
    rw [Vec3.normalize_eq_mul, hL]
    have e : (Vec3.mul (1 / (O.sub C).norm) (C.sub O)).dot (Vec3.mul (1 / (O.sub C).norm) (C.sub O))
        = (1 / (O.sub C).norm) ^ 2 * (O.sub C).dot (O.sub C) := by
      simp only [Vec3.dot, Vec3.mul, Vec3.sub]
      ring
    rw [e, hq]
    field_simp
  have hB : ((C.sub O).normalize).dot (O.sub C) = -(O.sub C).norm := by
    rw [Vec3.normalize_eq_mul, hL]
    have e : (Vec3.mul (1 / (O.sub C).norm) (C.sub O)).dot (O.sub C)
        = -(1 / (O.sub C).norm) * (O.sub C).dot (O.sub C) := by
      simp only [Vec3.dot, Vec3.mul, Vec3.sub]
      ring
    rw [e, hq]
    field_simp
    ring
  have hD : 2 * -(O.sub C).norm * (2 * -(O.sub C).norm)
      - 4 * 1 * ((O.sub C).norm ^ 2 - R * R) = (2 * R) ^ 2 := by ring
  simp only [RaySphere]
  rw [hA, hB, hq, hD, Real.sqrt_sq (by linarith)]
  rw [if_neg (by nlinarith), if_pos (by linarith)]
  ring

/-- C10. Sphere round trip: from an origin `O` outside the sphere (centre `C`,
radius `R > 0`), the ray toward the centre gets the distance `d = |O - C| - R`
from `RaySphere`: positive, not the `-DBL_MAX` sentinel, and the point
`O + d * direction` lies on the sphere (so within `1e-6` of it). -/
theorem raySphere_round_trip (O C : Vec3) (R : ℝ) (hR : 0 < R)
    (hout : R < (O.sub C).norm) :
    RaySphere O (C.sub O).normalize C R = (O.sub C).norm - R ∧
    0 < RaySphere O (C.sub O).normalize C R ∧
    RaySphere O (C.sub O).normalize C R ≠ -DBL_MAX ∧
    ((O.add (Vec3.mul (RaySphere O (C.sub O).normalize C R) (C.sub O).normalize)).sub C).norm
      = R ∧
    |((O.add (Vec3.mul (RaySphere O (C.sub O).normalize C R) (C.sub O).normalize)).sub C).norm
      - R| < 1e-6 := by
  have hd := raySphere_toward_center O C R hR hout
  have hL : (C.sub O).norm = (O.sub C).norm := Vec3.norm_sub_comm C O
  have hLpos : 0 < (O.sub C).norm := lt_trans hR hout
  have hL0 : (O.sub C).norm ≠ 0 := ne_of_gt hLpos
  have hpos : 0 < RaySphere O (C.sub O).normalize C R := by
    rw [hd]
    linarith
  have hhit : ((O.add (Vec3.mul (RaySphere O (C.sub O).normalize C R)
      (C.sub O).normalize)).sub C).norm = R := by
    have e : (O.add (Vec3.mul (RaySphere O (C.sub O).normalize C R) (C.sub O).normalize)).sub C
        = Vec3.mul (R / (O.sub C).norm) (O.sub C) := by
      rw [hd, Vec3.normalize_eq_mul, hL]
      generalize (O.sub C).norm = L at hL0
      ext <;> simp only [Vec3.sub, Vec3.add, Vec3.mul] <;> field_simp <;> ring
    rw [e, Vec3.norm_mul _ _ (le_of_lt (div_pos hR hLpos))]
    field_simp
  refine ⟨hd, hpos, ?_, hhit, ?_⟩
  · have := DBL_MAX_pos
    linarith
  · rw [hhit]
    norm_num

/-- C10 at the unit sphere around the origin seen from `(0, 0, 3)`. -/
theorem raySphere_round_trip_witness :
    RaySphere ⟨0, 0, 3⟩ ((⟨0, 0, 0⟩ : Vec3).sub ⟨0, 0, 3⟩).normalize ⟨0, 0, 0⟩ 1
      = ((⟨0, 0, 3⟩ : Vec3).sub ⟨0, 0, 0⟩).norm - 1 ∧
    0 < RaySphere ⟨0, 0, 3⟩ ((⟨0, 0, 0⟩ : Vec3).sub ⟨0, 0, 3⟩).normalize ⟨0, 0, 0⟩ 1 ∧
    RaySphere ⟨0, 0, 3⟩ ((⟨0, 0, 0⟩ : Vec3).sub ⟨0, 0, 3⟩).normalize ⟨0, 0, 0⟩ 1 ≠ -DBL_MAX ∧
    (((⟨0, 0, 3⟩ : Vec3).add (Vec3.mul
      (RaySphere ⟨0, 0, 3⟩ ((⟨0, 0, 0⟩ : Vec3).sub ⟨0, 0, 3⟩).normalize ⟨0, 0, 0⟩ 1)
      ((⟨0, 0, 0⟩ : Vec3).sub ⟨0, 0, 3⟩).normalize)).sub ⟨0, 0, 0⟩).norm = 1 ∧
    |(((⟨0, 0, 3⟩ : Vec3).add (Vec3.mul
      (RaySphere ⟨0, 0, 3⟩ ((⟨0, 0, 0⟩ : Vec3).sub ⟨0, 0, 3⟩).normalize ⟨0, 0, 0⟩ 1)
      ((⟨0, 0, 0⟩ : Vec3).sub ⟨0, 0, 3⟩).normalize)).sub ⟨0, 0, 0⟩).norm - 1| < 1e-6 :=
  raySphere_round_trip ⟨0, 0, 3⟩ ⟨0, 0, 0⟩ 1 (by norm_num) (by
    have h : ((⟨0, 0, 3⟩ : Vec3).sub ⟨0, 0, 0⟩).norm = 3 :=
      Vec3.norm_eq_of_sq _ 3 (by norm_num) (by norm_num [Vec3.dot, Vec3.sub])
    rw [h]
    norm_num)

/-! ### The scan for the nearest hit -/

/-- What the scan loop guarantees from any starting pair `acc`: the distance only
goes down, the result is either the start or a primitive of the list with its
distance (beyond `eps`, below the start), and no primitive of the list beyond
`eps` is nearer than the result. -/
theorem scan_fold_spec (sc : Scene) (RaySt Ray : Vec3) (l : List Triangle) :
    ∀ acc : ℝ × Option Triangle,
      (l.foldl (scanStep sc RaySt Ray) acc).1 ≤ acc.1 ∧
      (l.foldl (scanStep sc RaySt Ray) acc = acc ∨
        ∃ t ∈ l, l.foldl (scanStep sc RaySt Ray) acc = (seekIntersection t RaySt Ray, some t) ∧
          sc.eps < seekIntersection t RaySt Ray ∧ seekIntersection t RaySt Ray < acc.1) ∧
      (∀ t ∈ l, sc.eps < seekIntersection t RaySt Ray →
        (l.foldl (scanStep sc RaySt Ray) acc).1 ≤ seekIntersection t RaySt Ray) := by
  induction l with
  | nil =>
    intro acc
    simp
  | cons t0 l ih =>
    intro acc
    rw [List.foldl_cons]
    obtain ⟨h1, h2, h3⟩ := ih (scanStep sc RaySt Ray acc t0)
    by_cases hc : seekIntersection t0 RaySt Ray > sc.eps ∧ seekIntersection t0 RaySt Ray < acc.1
    · have hstep : scanStep sc RaySt Ray acc t0 = (seekIntersection t0 RaySt Ray, some t0) := by
        simp only [scanStep, if_pos hc]
      rw [hstep] at h1 h2 h3 ⊢
      refine ⟨le_trans h1 (le_of_lt hc.2), ?_, ?_⟩
      · right
        rcases h2 with h2 | ⟨t, ht, hr, he, hlt⟩
        · exact ⟨t0, List.mem_cons_self _ _, h2, hc.1, hc.2⟩
        · exact ⟨t, List.mem_cons_of_mem _ ht, hr, he, lt_trans hlt hc.2⟩
      · intro t ht he
        rcases List.mem_cons.1 ht with rfl | ht
        · exact h1
        · exact h3 t ht he
    · have hstep : scanStep sc RaySt Ray acc t0 = acc := by
        simp only [scanStep, if_neg hc]
      rw [hstep] at h1 h2 h3 ⊢
      refine ⟨h1, ?_, ?_⟩
      · rcases h2 with h2 | ⟨t, ht, hr, he, hlt⟩
        · exact Or.inl h2
        · exact Or.inr ⟨t, List.mem_cons_of_mem _ ht, hr, he, hlt⟩
      · intro t ht he
        rcases List.mem_cons.1 ht with rfl | ht
        · have : acc.1 ≤ seekIntersection t RaySt Ray := by
            by_contra hlt
            exact hc ⟨he, not_le.1 hlt⟩
          exact le_trans h1 this
        · exact h3 t ht he

/-- A selected primitive belongs to the scene, the recorded distance is its own,
lies beyond `eps` and below `DBL_MAX`, and no primitive beyond `eps` is nearer. -/
theorem nearestHit_some (sc : Scene) (RaySt Ray : Vec3) (t : Triangle)
    (h : (nearestHit sc RaySt Ray).2 = some t) :
    t ∈ sc.TriangleSet ∧ (nearestHit sc RaySt Ray).1 = seekIntersection t RaySt Ray ∧
      sc.eps < seekIntersection t RaySt Ray ∧ seekIntersection t RaySt Ray < DBL_MAX ∧
      ∀ u ∈ sc.TriangleSet, sc.eps < seekIntersection u RaySt Ray →
        seekIntersection t RaySt Ray ≤ seekIntersection u RaySt Ray := by
  obtain ⟨_, h2, h3⟩ := scan_fold_spec sc RaySt Ray sc.TriangleSet (DBL_MAX, none)
  unfold nearestHit at h ⊢
  rcases h2 with h2 | ⟨t1, ht1, hr, he, hlt⟩
  · rw [h2] at h
    simp at h
  · rw [hr] at h h3 ⊢
    simp only [Option.some.injEq] at h
    subst h
    exact ⟨ht1, rfl, he, hlt, h3⟩

/-- The scan selects nothing exactly when it leaves `minDis` at `DBL_MAX`. -/
theorem nearestHit_none_iff (sc : Scene) (RaySt Ray : Vec3) :
    (nearestHit sc RaySt Ray).1 = DBL_MAX ↔ (nearestHit sc RaySt Ray).2 = none := by
  obtain ⟨_, h2, _⟩ := scan_fold_spec sc RaySt Ray sc.TriangleSet (DBL_MAX, none)
  unfold nearestHit
  rcases h2 with h2 | ⟨t1, _, hr, _, hlt⟩
  · rw [h2]
    simp
  · rw [hr]
    simp only [reduceCtorEq, iff_false]
    exact ne_of_lt hlt

/-- When no primitive has a distance beyond `eps`, the scan ends as it started. -/
theorem nearestHit_miss (sc : Scene) (RaySt Ray : Vec3)
    (h : ∀ t ∈ sc.TriangleSet, ¬ sc.eps < seekIntersection t RaySt Ray) :
    nearestHit sc RaySt Ray = (DBL_MAX, none) := by
  obtain ⟨_, h2, _⟩ := scan_fold_spec sc RaySt Ray sc.TriangleSet (DBL_MAX, none)
  unfold nearestHit
  rcases h2 with h2 | ⟨t1, ht1, _, he, _⟩
  · exact h2
  · exact absurd he (h t1 ht1)

/-- Whenever a primitive of the scene has a distance beyond `eps` and below the
start value `DBL_MAX`, the scan selects a primitive. -/
theorem nearestHit_selects (sc : Scene) (RaySt Ray : Vec3)
    (h : ∃ u ∈ sc.TriangleSet, sc.eps < seekIntersection u RaySt Ray ∧
      seekIntersection u RaySt Ray < DBL_MAX) :
    ∃ t, (nearestHit sc RaySt Ray).2 = some t := by
  obtain ⟨u, hu, he, hlt⟩ := h
  obtain ⟨_, _, h3⟩ := scan_fold_spec sc RaySt Ray sc.TriangleSet (DBL_MAX, none)
  have hle : (nearestHit sc RaySt Ray).1 ≤ seekIntersection u RaySt Ray := h3 u hu he
  have hne : (nearestHit sc RaySt Ray).1 ≠ DBL_MAX := ne_of_lt (lt_of_le_of_lt hle hlt)
  cases hsel : (nearestHit sc RaySt Ray).2 with
  | none => exact absurd ((nearestHit_none_iff sc RaySt Ray).2 hsel) hne
  | some t => exact ⟨t, rfl⟩

/-- C1. Nearest-hit selection: the primitive the scan of `traceRay` selects (the
one it goes on to shade) belongs to the scene, its `seekIntersection` distance is
the recorded `minDis`, is strictly greater than `eps`, lies below the start value
`DBL_MAX`, and is the minimum of all primitive distances strictly greater than
`eps`; a primitive is selected whenever some primitive has a distance beyond
`eps` and below `DBL_MAX`; if no primitive has a distance greater than `eps`,
none is selected (and `traceRay` sees `minDis = DBL_MAX` exactly when none is
selected). -/
theorem traceRay_nearest_hit (sc : Scene) (RaySt Ray : Vec3) :
    (∀ t, (nearestHit sc RaySt Ray).2 = some t →
      t ∈ sc.TriangleSet ∧ (nearestHit sc RaySt Ray).1 = seekIntersection t RaySt Ray ∧
        sc.eps < seekIntersection t RaySt Ray ∧ seekIntersection t RaySt Ray < DBL_MAX ∧
        ∀ u ∈ sc.TriangleSet, sc.eps < seekIntersection u RaySt Ray →
          seekIntersection t RaySt Ray ≤ seekIntersection u RaySt Ray) ∧
    ((∃ u ∈ sc.TriangleSet, sc.eps < seekIntersection u RaySt Ray ∧
        seekIntersection u RaySt Ray < DBL_MAX) →
      ∃ t, (nearestHit sc RaySt Ray).2 = some t) ∧
    ((∀ t ∈ sc.TriangleSet, ¬ sc.eps < seekIntersection t RaySt Ray) →
      (nearestHit sc RaySt Ray).2 = none) ∧
    ((nearestHit sc RaySt Ray).1 = DBL_MAX ↔ (nearestHit sc RaySt Ray).2 = none) := by
  refine ⟨?_, nearestHit_selects sc RaySt Ray, ?_, nearestHit_none_iff sc RaySt Ray⟩
  · intro t ht
    exact nearestHit_some sc RaySt Ray t ht
  · intro h
    rw [nearestHit_miss sc RaySt Ray h]

/-! ### The terminal cases of `traceRay` -/

/-- A miss: `traceRay` returns the accumulator as it got it, and does nothing else. -/
theorem traceRay_of_miss (sc : Scene) (rnd : Nat → ℝ) (RaySt Ray color : Vec3) (level : Int)
    (st : TraceState) (h : (nearestHit sc RaySt Ray).1 = DBL_MAX) :
    traceRay sc rnd RaySt Ray color level st = (color, entered st level RaySt Ray) := by
  rw [traceRay]
  simp only [h, if_true, entered]

/-- A hit on a light source: `traceRay` returns the material's colour, and does
nothing else. -/
theorem traceRay_of_light (sc : Scene) (rnd : Nat → ℝ) (RaySt Ray color : Vec3) (level : Int)
    (st : TraceState) (t : Triangle) (h : (nearestHit sc RaySt Ray).2 = some t)
    (hrad : t.material.rediate ≠ 0) :
    traceRay sc rnd RaySt Ray color level st
      = (t.material.color, entered st level RaySt Ray) := by
  have hne : (nearestHit sc RaySt Ray).1 ≠ DBL_MAX := by
    intro h1
    rw [(nearestHit_none_iff sc RaySt Ray).1 h1] at h
    simp at h
  rw [traceRay]
  simp only [hne, if_false, h, hrad, ne_eq, not_false_eq_true, if_true, entered]

/-- A hit beyond the depth bound on a material that is no light source:
`traceRay` returns the accumulator as it got it, and does nothing else. -/
theorem traceRay_of_cutoff (sc : Scene) (rnd : Nat → ℝ) (RaySt Ray color : Vec3) (level : Int)
    (st : TraceState) (t : Triangle) (h : (nearestHit sc RaySt Ray).2 = some t)
    (hrad : t.material.rediate = 0) (hlevel : level > sc.maxRayLevel) :
    traceRay sc rnd RaySt Ray color level st = (color, entered st level RaySt Ray) := by
  have hne : (nearestHit sc RaySt Ray).1 ≠ DBL_MAX := by
    intro h1
    rw [(nearestHit_none_iff sc RaySt Ray).1 h1] at h
    simp at h
  rw [traceRay]
  simp only [hne, if_false, h, hrad, ne_eq, not_true_eq_false, hlevel, dite_true, entered]

/-! ### The shading cases of `traceRay` -/

theorem callCount_append (l1 l2 : List TraceEvent) :
    callCount (l1 ++ l2) = callCount l1 + callCount l2 := by
  simp [callCount, List.countP_append]

theorem callCount_call (level : Int) (RaySt Ray : Vec3) :
    callCount [TraceEvent.call level RaySt Ray] = 1 := by
  simp [callCount, TraceEvent.isCall]

theorem callCount_refract (i : Int) (rateI rateO : ℝ) (hitPoint RayO rates : Vec3) :
    callCount [TraceEvent.refract i rateI rateO hitPoint RayO rates] = 0 := by
  simp [callCount, TraceEvent.isCall]

theorem entered_log (st : TraceState) (level : Int) (RaySt Ray : Vec3) :
    (entered st level RaySt Ray).log = st.log ++ [TraceEvent.call level RaySt Ray] := rfl

theorem pathInit_log (rnd : Nat → ℝ) (level : Int) (st : TraceState) :
    (pathInit rnd level st).log = st.log := by
  unfold pathInit
  split_ifs <;> rfl

theorem finish_snd (material : Material) (level : Int) (color : Vec3) (st : TraceState) :
    (finish material level color st).2 = st := rfl

/-- A hit within the depth bound on a `quickReflect` material that is no light
source: no recursive call, the state only records the call (and, at level 0,
the draw of the channel index). -/
theorem traceRay_of_quick (sc : Scene) (rnd : Nat → ℝ) (RaySt Ray color : Vec3) (level : Int)
    (st : TraceState) (t : Triangle) (h : (nearestHit sc RaySt Ray).2 = some t)
    (hrad : t.material.rediate = 0) (hlevel : ¬ level > sc.maxRayLevel)
    (hquick : t.material.quickReflect = true) :
    ∃ c st1, traceRay sc rnd RaySt Ray color level st = finish t.material level c st1 ∧
      st1.log = st.log ++ [TraceEvent.call level RaySt Ray] := by
  have hne : (nearestHit sc RaySt Ray).1 ≠ DBL_MAX := by
    intro h1
    rw [(nearestHit_none_iff sc RaySt Ray).1 h1] at h
    simp at h
  rw [traceRay]
  simp only [hne, if_false, h, hrad, ne_eq, not_true_eq_false, hlevel, dite_false, hquick,
    if_true]
  exact ⟨_, _, rfl, by rw [pathInit_log, entered_log]⟩

/-- A hit within the depth bound on a material that is neither a light source
nor `quickReflect`: exactly one recursive call, at `level + 1`, with the same
accumulator; its colour is scaled by a loss rate and handed to `finish`.  The
state handed down records this call and has the same number of recorded calls
otherwise. -/
theorem traceRay_of_bounce (sc : Scene) (rnd : Nat → ℝ) (RaySt Ray color : Vec3) (level : Int)
    (st : TraceState) (t : Triangle) (h : (nearestHit sc RaySt Ray).2 = some t)
    (hrad : t.material.rediate = 0) (hlevel : ¬ level > sc.maxRayLevel)
    (hquick : t.material.quickReflect = false) :
    ∃ RaySt1 Ray1 st1 loss,
      traceRay sc rnd RaySt Ray color level st =
        finish t.material level
          (Vec3.mul loss (traceRay sc rnd RaySt1 Ray1 color (level + 1) st1).1)
          (traceRay sc rnd RaySt1 Ray1 color (level + 1) st1).2 ∧
      callCount st1.log = callCount st.log + 1 := by
  have hne : (nearestHit sc RaySt Ray).1 ≠ DBL_MAX := by
    intro h1
    rw [(nearestHit_none_iff sc RaySt Ray).1 h1] at h
    simp at h
  rw [traceRay]
  simp only [hne, if_false, h, hrad, ne_eq, not_true_eq_false, hlevel, dite_false, hquick,
    Bool.false_eq_true]
  by_cases hd : t.material.diffuseReflect = true
  · simp only [hd, if_true]
    exact ⟨_, _, _, _, rfl, by simp only [pathInit_log, entered_log, callCount_append, callCount_call]⟩
  · simp only [hd, if_false]
    by_cases hr : rnd (pathInit rnd level (entered st level RaySt Ray)).rand < t.material.reflect
    · simp only [hr, if_true]
      exact ⟨_, _, _, _, rfl,
        by simp only [pathInit_log, entered_log, callCount_append, callCount_call]⟩
    · simp only [hr, if_false]
      exact ⟨_, _, _, _, rfl,
        by simp only [pathInit_log, entered_log, callCount_append, callCount_call, callCount_refract,
          Nat.add_zero]⟩

/-- The tail of `traceRay` keeps a zero colour zero. -/
theorem finish_zero (material : Material) (level : Int) (a : ℝ) (st : TraceState) :
    (finish material level (Vec3.mul a Vec3.zero) st).1 = Vec3.zero := by
  simp only [finish]
  split_ifs <;> ext <;>
    simp [Vec3.mul, Vec3.zero, Vec3.single, Vec3.get, Vec3.elementMul]

/-- Without light sources and without `quickReflect` materials nothing ever
writes a non-zero value: started on a zero accumulator, `traceRay` returns
zero, at every level. -/
theorem traceRay_black (sc : Scene) (rnd : Nat → ℝ)
    (hsc : ∀ t ∈ sc.TriangleSet, t.material.rediate = 0 ∧ t.material.quickReflect = false)
    (n : Nat) :
    ∀ (level : Int) (RaySt Ray : Vec3) (st : TraceState),
      (sc.maxRayLevel + 1 - level).toNat = n →
      (traceRay sc rnd RaySt Ray Vec3.zero level st).1 = Vec3.zero := by
  induction n using Nat.strong_induction_on with
  | _ n ih =>
    intro level RaySt Ray st hn
    cases hhit : (nearestHit sc RaySt Ray).2 with
    | none =>
      rw [traceRay_of_miss sc rnd RaySt Ray _ level st
        ((nearestHit_none_iff sc RaySt Ray).2 hhit)]
    | some t =>
      obtain ⟨hmem, -⟩ := nearestHit_some sc RaySt Ray t hhit
      obtain ⟨hrad, hquick⟩ := hsc t hmem
      by_cases hlevel : level > sc.maxRayLevel
      · rw [traceRay_of_cutoff sc rnd RaySt Ray _ level st t hhit hrad hlevel]
      · obtain ⟨RaySt1, Ray1, st1, loss, heq, -⟩ :=
          traceRay_of_bounce sc rnd RaySt Ray Vec3.zero level st t hhit hrad hlevel hquick
        rw [heq, ih ((sc.maxRayLevel + 1 - (level + 1)).toNat) (by omega) (level + 1)
          RaySt1 Ray1 st1 rfl]
        exact finish_zero _ _ _ _

/-- A `traceRay` call at `level` records at most `1 + (maxRayLevel + 1 - level)`
calls (itself included), whatever the scene, the materials and the draws. -/
theorem traceRay_calls_le (sc : Scene) (rnd : Nat → ℝ) (n : Nat) :
    ∀ (level : Int) (RaySt Ray color : Vec3) (st : TraceState),
      (sc.maxRayLevel + 1 - level).toNat = n →
      callCount (traceRay sc rnd RaySt Ray color level st).2.log ≤ callCount st.log + 1 + n := by
  induction n using Nat.strong_induction_on with
  | _ n ih =>
    intro level RaySt Ray color st hn
    cases hhit : (nearestHit sc RaySt Ray).2 with
    | none =>
      rw [traceRay_of_miss sc rnd RaySt Ray _ level st
        ((nearestHit_none_iff sc RaySt Ray).2 hhit)]
      simp only [entered_log, callCount_append, callCount_call]
      omega
    | some t =>
      by_cases hrad : t.material.rediate = 0
      · by_cases hlevel : level > sc.maxRayLevel
        · rw [traceRay_of_cutoff sc rnd RaySt Ray _ level st t hhit hrad hlevel]
          simp only [entered_log, callCount_append, callCount_call]
          omega
        · cases hquick : t.material.quickReflect with
          | true =>
            obtain ⟨c, st1, heq, hlog⟩ :=
              traceRay_of_quick sc rnd RaySt Ray color level st t hhit hrad hlevel hquick
            rw [heq, finish_snd, hlog]
            simp only [callCount_append, callCount_call]
            omega
          | false =>
            obtain ⟨RaySt1, Ray1, st1, loss, heq, hcount⟩ :=
              traceRay_of_bounce sc rnd RaySt Ray color level st t hhit hrad hlevel hquick
            have := ih ((sc.maxRayLevel + 1 - (level + 1)).toNat) (by omega) (level + 1)
              RaySt1 Ray1 color st1 rfl
            rw [heq, finish_snd]
            omega
      · rw [traceRay_of_light sc rnd RaySt Ray _ level st t hhit hrad]
        simp only [entered_log, callCount_append, callCount_call]
        omega

/-! ### Concrete scenes -/

theorem sqrt_four : Real.sqrt 4 = 2 := by
  rw [show (4 : ℝ) = 2 ^ 2 by norm_num]
  exact Real.sqrt_sq (by norm_num)

theorem four_lt_DBL_MAX : (4 : ℝ) < DBL_MAX := by
  unfold DBL_MAX
  norm_num

/-- The ray from the origin along `z` meets the unit sphere around `(0, 0, 5)`
at distance `4`. -/
theorem raySphere_light_ball : RaySphere ⟨0, 0, 0⟩ ⟨0, 0, 1⟩ ⟨0, 0, 5⟩ 1 = 4 := by
  simp only [RaySphere, Vec3.dot, Vec3.sub]
  norm_num [sqrt_four]

/-- In a scene made of the unit sphere around `(0, 0, 5)` alone, the scan for
the ray from the origin along `z` selects the sphere, at distance `4`. -/
theorem nearestHit_light_ball (lights : List Vec3) (eps : ℝ) (D : Int) (m : Material)
    (heps : eps < 4) :
    nearestHit (drawSphere ⟨[], lights, eps, D⟩ ⟨0, 0, 5⟩ 1 m) ⟨0, 0, 0⟩ ⟨0, 0, 1⟩
      = (4, some ⟨⟨0, 0, 5⟩, ⟨1, 1, 1⟩, ⟨DBL_MAX, 0, 0⟩, m⟩) := by
  simp only [nearestHit, drawSphere, drawTriangle, List.nil_append, List.foldl_cons,
    List.foldl_nil, scanStep, seekIntersection, if_true, raySphere_light_ball]
  rw [if_pos ⟨heps, four_lt_DBL_MAX⟩]

/-! ### Claims on the terminal cases -/

/-- C2. Emissive terminal: when the primitive selected by the scan has a material
with `rediate != 0`, `traceRay` returns exactly that material's colour, at every
level (also beyond `maxRayLevel`) and whatever the accumulator held, and does
nothing but record its own call: no recursive call, no draw, statics untouched.
In particular, for an emissive unit sphere around `(0, 0, 5)` with colour
`(1, 1, 1)` alone in the scene (any `eps < 4`), the ray from the origin along
`(0, 0, 1)` returns `(1, 1, 1)`. -/
theorem traceRay_emissive (sc : Scene) (rnd : Nat → ℝ) (RaySt Ray color : Vec3) (level : Int)
    (st : TraceState) (t : Triangle) (hhit : (nearestHit sc RaySt Ray).2 = some t)
    (hrad : t.material.rediate ≠ 0) :
    traceRay sc rnd RaySt Ray color level st
      = (t.material.color, entered st level RaySt Ray) ∧
    ∀ (lights : List Vec3) (eps : ℝ) (D : Int) (m : Material),
      eps < 4 → m.rediate ≠ 0 → m.color = ⟨1, 1, 1⟩ →
      (traceRay (drawSphere ⟨[], lights, eps, D⟩ ⟨0, 0, 5⟩ 1 m) rnd ⟨0, 0, 0⟩ ⟨0, 0, 1⟩
        color level st).1 = ⟨1, 1, 1⟩ := by
  refine ⟨traceRay_of_light sc rnd RaySt Ray color level st t hhit hrad, ?_⟩
  intro lights eps D m heps hm hcol
  rw [traceRay_of_light _ rnd _ _ color level st ⟨⟨0, 0, 5⟩, ⟨1, 1, 1⟩, ⟨DBL_MAX, 0, 0⟩, m⟩
    (by rw [nearestHit_light_ball lights eps D m heps]) hm]
  exact hcol

/-- C2 on the scene of spec §8, at level 0 from a zero accumulator. -/
theorem traceRay_emissive_witness :
    traceRay lampScene (fun _ => 0) ⟨0, 0, 0⟩ ⟨0, 0, 1⟩ Vec3.zero 0 freshState
      = (⟨1, 1, 1⟩, entered freshState 0 ⟨0, 0, 0⟩ ⟨0, 0, 1⟩) :=
  (traceRay_emissive lampScene (fun _ => 0) ⟨0, 0, 0⟩ ⟨0, 0, 1⟩ Vec3.zero 0 freshState
    ⟨⟨0, 0, 5⟩, ⟨1, 1, 1⟩, ⟨DBL_MAX, 0, 0⟩, lampMaterial⟩
    (by
      unfold lampScene
      rw [nearestHit_light_ball [] 1e-4 5 lampMaterial (by norm_num)])
    (by norm_num [lampMaterial])).1

/-- C3. Miss returns background: when no primitive of the scene has a distance
greater than `eps` on the ray (so also in the empty scene), `traceRay` returns
its accumulator untouched, at every level; called on a zero accumulator, as
`paint` does, it returns `(0, 0, 0)`. -/
theorem traceRay_miss_background (sc : Scene) (rnd : Nat → ℝ) (RaySt Ray : Vec3) (level : Int)
    (st : TraceState)
    (hmiss : ∀ t ∈ sc.TriangleSet, ¬ sc.eps < seekIntersection t RaySt Ray) :
    (traceRay sc rnd RaySt Ray Vec3.zero level st).1 = ⟨0, 0, 0⟩ ∧
    ∀ color, traceRay sc rnd RaySt Ray color level st = (color, entered st level RaySt Ray) := by
  have h : (nearestHit sc RaySt Ray).1 = DBL_MAX := by
    rw [nearestHit_miss sc RaySt Ray hmiss]
  refine ⟨?_, fun color => traceRay_of_miss sc rnd RaySt Ray color level st h⟩
  rw [traceRay_of_miss sc rnd RaySt Ray _ level st h]
  rfl

/-- C3 on the scene of spec §8: the ray from the origin along `(0, 0, -1)` points
away from the sphere. -/
theorem traceRay_miss_background_witness :
    (traceRay lampScene (fun _ => 0) ⟨0, 0, 0⟩ ⟨0, 0, -1⟩ Vec3.zero 0 freshState).1
        = ⟨0, 0, 0⟩ ∧
      ∀ color, traceRay lampScene (fun _ => 0) ⟨0, 0, 0⟩ ⟨0, 0, -1⟩ color 0 freshState
        = (color, entered freshState 0 ⟨0, 0, 0⟩ ⟨0, 0, -1⟩) :=
  traceRay_miss_background lampScene (fun _ => 0) ⟨0, 0, 0⟩ ⟨0, 0, -1⟩ 0 freshState (by
    intro t ht
    simp only [lampScene, drawSphere, drawTriangle, List.nil_append, List.mem_singleton] at ht
    subst ht
    simp only [seekIntersection, if_true, RaySphere, Vec3.dot, Vec3.sub]
    norm_num [sqrt_four, lampScene, drawSphere, drawTriangle])

/-! ### Mirrors and the depth bound -/

/-- C4. Depth termination returns black: in a scene without light sources whose
materials are all pure mirrors (`quickReflect` and `diffuseReflect` off,
`reflect = 1`), for every depth bound `D >= 0`, every ray and every stream of
draws, the level-0 `traceRay` call on a zero accumulator returns `(0, 0, 0)`,
after at most `D + 2` calls of `traceRay` in all. -/
theorem traceRay_mirror_black (sc : Scene) (rnd : Nat → ℝ) (RaySt Ray : Vec3)
    (st : TraceState) (hD : 0 ≤ sc.maxRayLevel)
    (hsc : ∀ t ∈ sc.TriangleSet, t.material.rediate = 0 ∧ t.material.quickReflect = false ∧
      t.material.diffuseReflect = false ∧ t.material.reflect = 1) :
    (traceRay sc rnd RaySt Ray Vec3.zero 0 st).1 = ⟨0, 0, 0⟩ ∧
    callCount (traceRay sc rnd RaySt Ray Vec3.zero 0 st).2.log
      ≤ callCount st.log + (sc.maxRayLevel + 2).toNat := by
  constructor
  · exact traceRay_black sc rnd (fun t ht => ⟨(hsc t ht).1, (hsc t ht).2.1⟩) _ 0 RaySt Ray st rfl
  · have := traceRay_calls_le sc rnd _ 0 RaySt Ray Vec3.zero st rfl
    omega

/-- C4 inside the mirror ball with depth bound `3`. -/
theorem traceRay_mirror_black_witness :
    (traceRay (mirrorBall 3) (fun _ => 0) ⟨0, 0, 0⟩ ⟨0, 0, 1⟩ Vec3.zero 0 freshState).1
        = ⟨0, 0, 0⟩ ∧
      callCount
          (traceRay (mirrorBall 3) (fun _ => 0) ⟨0, 0, 0⟩ ⟨0, 0, 1⟩ Vec3.zero 0 freshState).2.log
        ≤ callCount freshState.log + ((mirrorBall 3).maxRayLevel + 2).toNat :=
  traceRay_mirror_black (mirrorBall 3) (fun _ => 0) ⟨0, 0, 0⟩ ⟨0, 0, 1⟩ freshState
    (by norm_num [mirrorBall, drawSphere, drawTriangle])
    (by
      intro t ht
      simp only [mirrorBall, drawSphere, drawTriangle, List.nil_append,
        List.mem_singleton] at ht
      subst ht
      simp [mirrorMaterial])

/-- A hit within the depth bound on a mirror-like material (no light source,
`quickReflect` and `diffuseReflect` off) when the draw falls below `reflect`:
the recursive call starts at the hit point with the reflected direction. -/
theorem traceRay_of_reflect (sc : Scene) (rnd : Nat → ℝ) (RaySt Ray color : Vec3) (level : Int)
    (st : TraceState) (t : Triangle) (h : (nearestHit sc RaySt Ray).2 = some t)
    (hrad : t.material.rediate = 0) (hlevel : ¬ level > sc.maxRayLevel)
    (hquick : t.material.quickReflect = false) (hdiff : t.material.diffuseReflect = false)
    (hdraw : rnd (pathInit rnd level (entered st level RaySt Ray)).rand < t.material.reflect) :
    traceRay sc rnd RaySt Ray color level st =
      finish t.material level
        (Vec3.mul t.material.reflectLossRate
          (traceRay sc rnd (RaySt.add (Vec3.mul (nearestHit sc RaySt Ray).1 Ray))
            (reflect Ray (hitFaceVec t (RaySt.add (Vec3.mul (nearestHit sc RaySt Ray).1 Ray))))
            color (level + 1)
            { pathInit rnd level (entered st level RaySt Ray) with
              rand := (pathInit rnd level (entered st level RaySt Ray)).rand + 1 }).1)
        (traceRay sc rnd (RaySt.add (Vec3.mul (nearestHit sc RaySt Ray).1 Ray))
            (reflect Ray (hitFaceVec t (RaySt.add (Vec3.mul (nearestHit sc RaySt Ray).1 Ray))))
            color (level + 1)
            { pathInit rnd level (entered st level RaySt Ray) with
              rand := (pathInit rnd level (entered st level RaySt Ray)).rand + 1 }).2 := by
  have hne : (nearestHit sc RaySt Ray).1 ≠ DBL_MAX := by
    intro h1
    rw [(nearestHit_none_iff sc RaySt Ray).1 h1] at h
    simp at h
  rw [traceRay]
  simp only [hne, if_false, h, hrad, ne_eq, not_true_eq_false, hlevel, dite_false, hquick,
    Bool.false_eq_true, hdiff, hdraw, if_true]

/-- Inside the mirror ball, on the `z` axis: from the pole `(0, 0, s)` toward the
centre the scan selects the ball at distance `2`. -/
theorem nearestHit_mirror_ball (D : Int) (s : ℝ) (hs : s = 1 ∨ s = -1) :
    nearestHit (mirrorBall D) ⟨0, 0, s⟩ ⟨0, 0, -s⟩
      = (2, some ⟨⟨0, 0, 0⟩, ⟨1, 1, 1⟩, ⟨DBL_MAX, 0, 0⟩, mirrorMaterial⟩) := by
  have hd : RaySphere ⟨0, 0, s⟩ ⟨0, 0, -s⟩ ⟨0, 0, 0⟩ 1 = 2 := by
    rcases hs with rfl | rfl <;> simp only [RaySphere, Vec3.dot, Vec3.sub] <;>
      norm_num [sqrt_four]
  simp only [nearestHit, mirrorBall, drawSphere, drawTriangle, List.nil_append, List.foldl_cons,
    List.foldl_nil, scanStep, seekIntersection, if_true, hd]
  rw [if_pos ⟨by norm_num, lt_trans (by norm_num) four_lt_DBL_MAX⟩]

/-- Inside the mirror ball, from the centre along `z`, the scan selects the ball
at distance `1`. -/
theorem nearestHit_mirror_ball_centre (D : Int) :
    nearestHit (mirrorBall D) ⟨0, 0, 0⟩ ⟨0, 0, 1⟩
      = (1, some ⟨⟨0, 0, 0⟩, ⟨1, 1, 1⟩, ⟨DBL_MAX, 0, 0⟩, mirrorMaterial⟩) := by
  have hd : RaySphere ⟨0, 0, 0⟩ ⟨0, 0, 1⟩ ⟨0, 0, 0⟩ 1 = 1 := by
    simp only [RaySphere, Vec3.dot, Vec3.sub]
    norm_num [sqrt_four]
  simp only [nearestHit, mirrorBall, drawSphere, drawTriangle, List.nil_append, List.foldl_cons,
    List.foldl_nil, scanStep, seekIntersection, if_true, hd]
  rw [if_pos ⟨by norm_num, lt_trans (by norm_num) four_lt_DBL_MAX⟩]

/-- The bounce at a pole of the mirror ball: the reflected ray leaves the hit
point `(0, 0, -s)` back toward the centre. -/
theorem mirror_ball_bounce (s : ℝ) (hs : s = 1 ∨ s = -1) :
    (⟨0, 0, s⟩ : Vec3).add (Vec3.mul 2 ⟨0, 0, -s⟩) = ⟨0, 0, -s⟩ ∧
    reflect ⟨0, 0, -s⟩
      (hitFaceVec ⟨⟨0, 0, 0⟩, ⟨1, 1, 1⟩, ⟨DBL_MAX, 0, 0⟩, mirrorMaterial⟩ ⟨0, 0, -s⟩)
      = ⟨0, 0, - -s⟩ := by
  have hn : ∀ a : ℝ, a = 1 ∨ a = -1 → (⟨0, 0, a⟩ : Vec3).normalize = ⟨0, 0, a⟩ := by
    intro a ha
    apply Vec3.normalize_eq_self
    rcases ha with rfl | rfl <;> simp [Vec3.norm, Vec3.dot]
  constructor
  · ext <;> simp [Vec3.add, Vec3.mul]
    ring
  · have hf : hitFaceVec ⟨⟨0, 0, 0⟩, ⟨1, 1, 1⟩, ⟨DBL_MAX, 0, 0⟩, mirrorMaterial⟩ ⟨0, 0, -s⟩
        = ⟨0, 0, -s⟩ := by
      simp only [hitFaceVec, if_true, Vec3.sub, sub_zero]
      exact hn (-s) (by rcases hs with rfl | rfl <;> simp)
    rw [hf]
    have hr : (Vec3.mul (-2 * (⟨0, 0, -s⟩ : Vec3).dot ⟨0, 0, -s⟩) ⟨0, 0, -s⟩).add ⟨0, 0, -s⟩
        = ⟨0, 0, - -s⟩ := by
      rcases hs with rfl | rfl <;> ext <;> simp [Vec3.add, Vec3.mul, Vec3.dot] <;> norm_num
    unfold reflect
    rw [hr]
    exact hn (- -s) (by rcases hs with rfl | rfl <;> simp)

/-- Inside the mirror ball every bounce hits again: a call at `level` from a pole
toward the centre records exactly `1 + (D + 1 - level)` calls. -/
theorem mirror_ball_calls (D : Int) (n : Nat) :
    ∀ (level : Int) (s : ℝ) (color : Vec3) (st : TraceState), (s = 1 ∨ s = -1) →
      (D + 1 - level).toNat = n →
      callCount (traceRay (mirrorBall D) (fun _ => 0) ⟨0, 0, s⟩ ⟨0, 0, -s⟩ color level st).2.log
        = callCount st.log + 1 + n := by
  induction n with
  | zero =>
    intro level s color st hs hn
    rw [traceRay_of_cutoff (mirrorBall D) _ _ _ color level st
      ⟨⟨0, 0, 0⟩, ⟨1, 1, 1⟩, ⟨DBL_MAX, 0, 0⟩, mirrorMaterial⟩
      (by rw [nearestHit_mirror_ball D s hs]) rfl
      (by simp only [mirrorBall, drawSphere, drawTriangle]; omega)]
    simp only [entered_log, callCount_append, callCount_call, Nat.add_zero]
  | succ n ih =>
    intro level s color st hs hn
    rw [traceRay_of_reflect (mirrorBall D) _ _ _ color level st
      ⟨⟨0, 0, 0⟩, ⟨1, 1, 1⟩, ⟨DBL_MAX, 0, 0⟩, mirrorMaterial⟩
      (by rw [nearestHit_mirror_ball D s hs]) rfl
      (by simp only [mirrorBall, drawSphere, drawTriangle]; omega) rfl rfl
      (by norm_num [mirrorMaterial])]
    rw [finish_snd, nearestHit_mirror_ball D s hs]
    simp only [(mirror_ball_bounce s hs).1, (mirror_ball_bounce s hs).2]
    rw [ih (level + 1) (-s) color _ (by rcases hs with rfl | rfl <;> simp) (by omega)]
    simp only [pathInit_log, entered_log, callCount_append, callCount_call]
    omega

/-- C5, the code at a failing input: inside a mirror ball (only mirror material,
no light source) with depth bound `D`, the level-0 call for the ray from the
centre along `z` records `D + 2` calls of `traceRay`: itself and `D + 1`
recursive calls, one more than the `D` of the claim. -/
theorem mirror_ball_recursive_calls (D : Nat) :
    callCount
        (traceRay (mirrorBall D) (fun _ => 0) ⟨0, 0, 0⟩ ⟨0, 0, 1⟩ Vec3.zero 0 freshState).2.log
      = 1 + (D + 1) := by
  rw [traceRay_of_reflect (mirrorBall D) _ _ _ Vec3.zero 0 freshState
    ⟨⟨0, 0, 0⟩, ⟨1, 1, 1⟩, ⟨DBL_MAX, 0, 0⟩, mirrorMaterial⟩
    (by rw [nearestHit_mirror_ball_centre D]) rfl
    (by simp only [mirrorBall, drawSphere, drawTriangle]; omega) rfl rfl
    (by norm_num [mirrorMaterial])]
  rw [finish_snd, nearestHit_mirror_ball_centre D]
  have h1 : (⟨0, 0, 0⟩ : Vec3).add (Vec3.mul 1 ⟨0, 0, 1⟩) = ⟨0, 0, 1⟩ := by
    ext <;> simp [Vec3.add, Vec3.mul]
  have h2 : reflect ⟨0, 0, 1⟩
      (hitFaceVec ⟨⟨0, 0, 0⟩, ⟨1, 1, 1⟩, ⟨DBL_MAX, 0, 0⟩, mirrorMaterial⟩ ⟨0, 0, 1⟩)
      = ⟨0, 0, -1⟩ := by
    have := (mirror_ball_bounce (-1) (Or.inr rfl)).2
    simpa using this
  rw [h1, h2]
  rw [mirror_ball_calls D D (0 + 1) 1 Vec3.zero _ (Or.inl rfl) (by omega)]
  have h0 : callCount freshState.log = 0 := rfl
  simp only [pathInit_log, entered_log, callCount_append, callCount_call, h0]
  omega

/-! ### The running average of `paint` -/

theorem paintPixel_rows (colorOf : Int → Nat → Nat → Vec3) (sample : Int) (x y : Nat)
    (ps : PaintState) :
    (paintPixel colorOf sample x y ps).rows = ps.rows ∧
      (paintPixel colorOf sample x y ps).cols = ps.cols := ⟨rfl, rfl⟩

/-- The pixel loop over a duplicate-free list of columns `ys` of row `x`: each
listed cell of the row is blended once, every other cell of `Screen` is kept. -/
theorem paintPixels_screen (colorOf : Int → Nat → Nat → Vec3) (sample : Int) (x : Nat)
    (ys : List Nat) (hys : ys.Nodup) :
    ∀ (ps : PaintState) (i j : Nat),
      ((ys.foldl (fun ps y => paintPixel colorOf sample x y ps) ps).rows = ps.rows ∧
        (ys.foldl (fun ps y => paintPixel colorOf sample x y ps) ps).cols = ps.cols) ∧
      (ys.foldl (fun ps y => paintPixel colorOf sample x y ps) ps).Screen i j =
        if i = x ∧ j ∈ ys then blend (ps.Screen i j) (colorOf sample i j) sample
        else ps.Screen i j := by
  induction ys with
  | nil =>
    intro ps i j
    simp
  | cons y ys ih =>
    intro ps i j
    rw [List.foldl_cons]
    obtain ⟨hy, hys1⟩ := List.nodup_cons.1 hys
    obtain ⟨hdim, hscr⟩ := ih hys1 (paintPixel colorOf sample x y ps) i j
    refine ⟨hdim, ?_⟩
    rw [hscr]
    simp only [paintPixel, setCell, List.mem_cons]
    by_cases hi : i = x
    · by_cases hj : j ∈ ys
      · have hne : j ≠ y := fun h => hy (h ▸ hj)
        simp [hi, hj, hne]
      · by_cases hjy : j = y
        · simp [hi, hj, hjy, hy]
        · simp [hi, hj, hjy]
    · simp [hi]

/-- One row of `paint`: the cells `(x, j)` with `j < cols` are blended once. -/
theorem paintRow_screen (colorOf : Int → Nat → Nat → Vec3) (sample : Int) (x : Nat)
    (ps : PaintState) (i j : Nat) :
    ((paintRow colorOf sample x ps).rows = ps.rows ∧
      (paintRow colorOf sample x ps).cols = ps.cols) ∧
    (paintRow colorOf sample x ps).Screen i j =
      if i = x ∧ j < ps.cols then blend (ps.Screen i j) (colorOf sample i j) sample
      else ps.Screen i j := by
  have h := paintPixels_screen colorOf sample x (List.range ps.cols) (List.nodup_range _) ps i j
  simp only [List.mem_range] at h
  exact h

/-- The row loop over a duplicate-free list of rows `xs`. -/
theorem paintRows_screen (colorOf : Int → Nat → Nat → Vec3) (sample : Int)
    (xs : List Nat) (hxs : xs.Nodup) :
    ∀ (ps : PaintState) (i j : Nat),
      ((xs.foldl (fun ps x => paintRow colorOf sample x ps) ps).rows = ps.rows ∧
        (xs.foldl (fun ps x => paintRow colorOf sample x ps) ps).cols = ps.cols) ∧
      (xs.foldl (fun ps x => paintRow colorOf sample x ps) ps).Screen i j =
        if i ∈ xs ∧ j < ps.cols then blend (ps.Screen i j) (colorOf sample i j) sample
        else ps.Screen i j := by
  induction xs with
  | nil =>
    intro ps i j
    simp
  | cons x xs ih =>
    intro ps i j
    rw [List.foldl_cons]
    obtain ⟨hx, hxs1⟩ := List.nodup_cons.1 hxs
    obtain ⟨hdim, hscr⟩ := ih hxs1 (paintRow colorOf sample x ps) i j
    obtain ⟨hdim0, hscr0⟩ := paintRow_screen colorOf sample x ps i j
    refine ⟨⟨hdim.1.trans hdim0.1, hdim.2.trans hdim0.2⟩, ?_⟩
    rw [hscr, hscr0, hdim0.2]
    simp only [List.mem_cons]
    by_cases hj : j < ps.cols
    · by_cases hi : i ∈ xs
      · have hne : i ≠ x := fun h => hx (h ▸ hi)
        simp [hi, hj, hne]
      · by_cases hix : i = x
        · simp [hi, hj, hix, hx]
        · simp [hi, hj, hix]
    · simp [hj]

/-- One sample of `paint`: every cell of `Screen` inside the buffer is blended
once with this sample's colour; the size of the buffer is kept. -/
theorem paintSample_screen (colorOf : Int → Nat → Nat → Vec3) (sample : Int)
    (ps : PaintState) (i j : Nat) :
    ((paintSample colorOf sample ps).rows = ps.rows ∧
      (paintSample colorOf sample ps).cols = ps.cols) ∧
    (paintSample colorOf sample ps).Screen i j =
      if i < ps.rows ∧ j < ps.cols then blend (ps.Screen i j) (colorOf sample i j) sample
      else ps.Screen i j := by
  have h := paintRows_screen colorOf sample (List.range ps.rows) (List.nodup_range _)
    { ps with written := ps.written ++ [ps.ScreenPix] } i j
  simp only [List.mem_range] at h
  exact h

/-- The incremental mean: blending the mean of `k` colours (anything when `k = 0`)
with the next colour at sample index `k` gives the mean of `k + 1` colours. -/
theorem blend_mean (c : Nat → Vec3) (k : Nat) (X : Vec3) (hX : k ≠ 0 → X = meanColor c k) :
    blend X (c k) (k : Int) = meanColor c (k + 1) := by
  have hk1 : ((k : ℝ) + 1) ≠ 0 := by positivity
  rcases Nat.eq_zero_or_pos k with h0 | hpos
  · subst h0
    ext <;> simp [blend, meanColor, sumColors, Vec3.add, Vec3.mul, Vec3.zero]
  · have hk : (k : ℝ) ≠ 0 := by
      have : (0 : ℝ) < k := by exact_mod_cast hpos
      exact ne_of_gt this
    rw [hX (Nat.pos_iff_ne_zero.1 hpos)]
    ext <;> simp only [blend, meanColor, sumColors, Vec3.add, Vec3.mul] <;> push_cast <;>
      field_simp <;> ring

/-- The sample loop on one cell: started at sample index `a` on the mean of the
first `a` colours, `n` iterations leave the mean of the first `a + n` colours. -/
theorem paintLoop_mean (colorOf : Int → Nat → Nat → Vec3) (x y : Nat) (c : Nat → Vec3)
    (n : Nat) :
    ∀ (a : Nat) (ps : PaintState), x < ps.rows → y < ps.cols →
      (∀ i, a ≤ i → i < a + n → c i = colorOf (i : Int) x y) →
      (a ≠ 0 → ps.Screen x y = meanColor c a) →
      (a + n ≠ 0 → (paintLoop colorOf n (a : Int) ps).Screen x y = meanColor c (a + n)) := by
  induction n with
  | zero =>
    intro a ps _ _ _ hX hne
    exact hX hne
  | succ n ih =>
    intro a ps hx hy hc hX _
    obtain ⟨hdim, hscr⟩ := paintSample_screen colorOf (a : Int) ps x y
    have hnext : (paintSample colorOf (a : Int) ps).Screen x y = meanColor c (a + 1) := by
      rw [hscr, if_pos ⟨hx, hy⟩, ← hc a (le_refl a) (by omega)]
      exact blend_mean c a _ hX
    have h := ih (a + 1) (paintSample colorOf (a : Int) ps) (by rw [hdim.1]; exact hx)
      (by rw [hdim.2]; exact hy) (fun i h1 h2 => hc i (by omega) (by omega))
      (fun _ => hnext) (by omega)
    have e : a + (n + 1) = a + 1 + n := by omega
    rw [e, ← h]
    simp only [paintLoop]
    push_cast
    rfl

/-- Splitting the sample loop: `n + m` iterations are `n` iterations followed by
`m` iterations from sample index `sample + n`. -/
theorem paintLoop_add (colorOf : Int → Nat → Nat → Vec3) (n m : Nat) :
    ∀ (sample : Int) (ps : PaintState),
      paintLoop colorOf (n + m) sample ps
        = paintLoop colorOf m (sample + n) (paintLoop colorOf n sample ps) := by
  induction n with
  | zero =>
    intro sample ps
    simp [paintLoop]
  | succ n ih =>
    intro sample ps
    have e : n + 1 + m = (n + m) + 1 := by omega
    rw [e]
    simp only [paintLoop]
    rw [ih]
    push_cast
    congr 1
    ring

/-- C6. Progressive average is the exact mean.  For a cell `(x, y)` of the buffer
and a sample range `a <= b` with `b >= 1`: if before `paint(file, a, b)` the
`Screen` entry holds the mean of `a` earlier colours (anything when `a = 0`),
then afterwards it holds the mean of all `b` colours, the colours of the samples
`a .. b - 1` being those of this run; `paint(0, b)` from any buffer leaves
`(c_0 + ... + c_(b-1)) / b`; and `paint(0, a)` followed by `paint(a, b)` is
`paint(0, b)`. -/
theorem paint_progressive_mean (colorOf : Int → Nat → Nat → Vec3) (ps : PaintState)
    (x y : Nat) (hx : x < ps.rows) (hy : y < ps.cols) (a b : Nat) (hab : a ≤ b) (hb : 0 < b) :
    (∀ c : Nat → Vec3, (∀ i, a ≤ i → i < b → c i = colorOf (i : Int) x y) →
      (a ≠ 0 → ps.Screen x y = meanColor c a) →
      (paint colorOf (a : Int) (b : Int) ps).Screen x y = meanColor c b) ∧
    (paint colorOf 0 (b : Int) ps).Screen x y = meanColor (fun i => colorOf (i : Int) x y) b ∧
    paint colorOf (a : Int) (b : Int) (paint colorOf 0 (a : Int) ps) = paint colorOf 0 (b : Int) ps := by
  refine ⟨?_, ?_, ?_⟩
  · intro c hc hX
    have hn : ((b : Int) - (a : Int)).toNat = b - a := by omega
    have h := paintLoop_mean colorOf x y c (b - a) a ps hx hy
      (fun i h1 h2 => hc i h1 (by omega)) hX (by omega)
    have e : a + (b - a) = b := by omega
    rw [e] at h
    simp only [paint, hn]
    exact h
  · have hn : ((b : Int) - 0).toNat = b := by omega
    have h := paintLoop_mean colorOf x y (fun i => colorOf (i : Int) x y) b 0 ps hx hy
      (fun i _ _ => rfl) (fun h => absurd rfl h) (by omega)
    simp only [Nat.zero_add] at h
    simp only [paint, hn]
    exact h
  · have hn1 : ((b : Int) - (a : Int)).toNat = b - a := by omega
    have hn2 : ((a : Int) - 0).toNat = a := by omega
    have hn3 : ((b : Int) - 0).toNat = b := by omega
    simp only [paint, hn1, hn2, hn3]
    have e : b = a + (b - a) := by omega
    conv_rhs => rw [e]
    rw [paintLoop_add colorOf a (b - a) 0 ps]
    simp

/-- C6 on a `1 x 1` buffer that holds the first white sample: `paint(1, 2)` leaves
the mean of two samples, `paint(0, 2)` too, and `paint(0, 1)` then `paint(1, 2)`
is `paint(0, 2)`. -/
theorem paint_progressive_mean_witness :
    (∀ c : Nat → Vec3, (∀ i, 1 ≤ i → i < 2 → c i = whiteSample (i : Int) 0 0) →
      (1 ≠ 0 → (paint whiteSample 0 1 (init 1 1)).Screen 0 0 = meanColor c 1) →
      (paint whiteSample ((1 : Nat) : Int) ((2 : Nat) : Int)
        (paint whiteSample 0 1 (init 1 1))).Screen 0 0 = meanColor c 2) ∧
    (paint whiteSample 0 ((2 : Nat) : Int) (paint whiteSample 0 1 (init 1 1))).Screen 0 0
      = meanColor (fun i => whiteSample (i : Int) 0 0) 2 ∧
    paint whiteSample ((1 : Nat) : Int) ((2 : Nat) : Int)
        (paint whiteSample 0 ((1 : Nat) : Int) (paint whiteSample 0 1 (init 1 1)))
      = paint whiteSample 0 ((2 : Nat) : Int) (paint whiteSample 0 1 (init 1 1)) :=
  paint_progressive_mean whiteSample (paint whiteSample 0 1 (init 1 1)) 0 0
    (by
      have e : paint whiteSample 0 1 (init 1 1) = paintSample whiteSample 0 (init 1 1) := by
        simp [paint, paintLoop]
      rw [e, (paintSample_screen whiteSample 0 (init 1 1) 0 0).1.1]
      simp [init])
    (by
      have e : paint whiteSample 0 1 (init 1 1) = paintSample whiteSample 0 (init 1 1) := by
        simp [paint, paintLoop]
      rw [e, (paintSample_screen whiteSample 0 (init 1 1) 0 0).1.2]
      simp [init])
    1 2 (by decide) (by decide)

/-! ### The root chosen by `RaySphere` -/

theorem Vec3.dot_self_pos (a : Vec3) (h : a ≠ ⟨0, 0, 0⟩) : 0 < a.dot a := by
  rcases lt_or_eq_of_le a.dot_self_nonneg with hlt | heq
  · exact hlt
  · exfalso
    apply h
    simp only [Vec3.dot] at heq
    have hx : a.x = 0 := by nlinarith [mul_self_nonneg a.x, mul_self_nonneg a.y, mul_self_nonneg a.z]
    have hy : a.y = 0 := by nlinarith [mul_self_nonneg a.x, mul_self_nonneg a.y, mul_self_nonneg a.z]
    have hz : a.z = 0 := by nlinarith [mul_self_nonneg a.x, mul_self_nonneg a.y, mul_self_nonneg a.z]
    ext <;> assumption

/-- The choice between the two roots of `A t^2 + B t + C` that `RaySphere`
makes: with `A > 0`, a non-negative discriminant and some positive root, the
chosen value is a positive root and no positive root is smaller. -/
theorem quadratic_root_choice (A B Cq : ℝ) (hA : 0 < A) (hΔ : 0 ≤ B * B - 4 * A * Cq)
    (hpos : ∃ t, 0 < t ∧ A * t ^ 2 + B * t + Cq = 0) :
    0 < (-B + (if -B - Real.sqrt (B * B - 4 * A * Cq) > 0
        then -Real.sqrt (B * B - 4 * A * Cq) else Real.sqrt (B * B - 4 * A * Cq))) / (2 * A) ∧
    A * ((-B + (if -B - Real.sqrt (B * B - 4 * A * Cq) > 0
        then -Real.sqrt (B * B - 4 * A * Cq) else Real.sqrt (B * B - 4 * A * Cq))) / (2 * A)) ^ 2
      + B * ((-B + (if -B - Real.sqrt (B * B - 4 * A * Cq) > 0
        then -Real.sqrt (B * B - 4 * A * Cq) else Real.sqrt (B * B - 4 * A * Cq))) / (2 * A))
      + Cq = 0 ∧
    ∀ t, 0 < t → A * t ^ 2 + B * t + Cq = 0 →
      (-B + (if -B - Real.sqrt (B * B - 4 * A * Cq) > 0
        then -Real.sqrt (B * B - 4 * A * Cq) else Real.sqrt (B * B - 4 * A * Cq))) / (2 * A)
        ≤ t := by
  have hs := Real.mul_self_sqrt hΔ
  have hs0 := Real.sqrt_nonneg (B * B - 4 * A * Cq)
  generalize Real.sqrt (B * B - 4 * A * Cq) = s at hs hs0
  have h2A : 0 < 2 * A := by linarith
  have hA0 : A ≠ 0 := ne_of_gt hA
  -- every root is one of the two candidates
  have hroot : ∀ t, A * t ^ 2 + B * t + Cq = 0 → 2 * A * t = -B + s ∨ 2 * A * t = -B - s := by
    intro t ht
    have hsq : (2 * A * t + B) * (2 * A * t + B) = s * s := by
      rw [hs]
      linear_combination (4 * A) * ht
    rcases mul_self_eq_mul_self_iff.1 hsq with h | h
    · left
      linarith
    · right
      linarith
  -- and both candidates are roots
  have hisroot : ∀ r, 2 * A * r = -B + s ∨ 2 * A * r = -B - s → A * r ^ 2 + B * r + Cq = 0 := by
    intro r h
    have h4 : 4 * A * (A * r ^ 2 + B * r + Cq) = 0 := by
      rcases h with h | h
      · linear_combination (2 * A * r + B + s) * h + hs
      · linear_combination (2 * A * r + B - s) * h + hs
    rcases mul_eq_zero.1 h4 with h | h
    · exfalso
      linarith
    · exact h
  by_cases hc : -B - s > 0
  · rw [if_pos hc]
    refine ⟨div_pos (by linarith) h2A, ?_, ?_⟩
    · apply hisroot
      right
      field_simp
      ring
    · intro t _ ht
      rw [div_le_iff₀ h2A]
      rcases hroot t ht with h | h <;> nlinarith
  · rw [if_neg hc]
    obtain ⟨t0, ht0, hq0⟩ := hpos
    have h0 : 2 * A * t0 = -B + s := by
      rcases hroot t0 hq0 with h | h
      · exact h
      · exfalso
        have : 0 < 2 * A * t0 := mul_pos h2A ht0
        linarith
    have hnum : 0 < -B + s := by
      have : 0 < 2 * A * t0 := mul_pos h2A ht0
      linarith
    refine ⟨div_pos hnum h2A, ?_, ?_⟩
    · apply hisroot
      left
      field_simp
    · intro t htpos ht
      rw [div_le_iff₀ h2A]
      rcases hroot t ht with h | h
      · linarith
      · exfalso
        have : 0 < 2 * A * t := mul_pos h2A htpos
        linarith

/-- The squared distance from the centre of the point at ray parameter `t`. -/
theorem sphere_point_dist (O D C : Vec3) (R t : ℝ) :
    ((O.add (Vec3.mul t D)).sub C).dot ((O.add (Vec3.mul t D)).sub C)
      = sphereQuadratic O D C R t + R * R := by
  simp only [sphereQuadratic, Vec3.dot, Vec3.add, Vec3.mul, Vec3.sub]
  ring

/-- C11. `RaySphere` returns the smaller positive root: for a non-zero direction,
a non-negative discriminant and at least one strictly positive root of
`A t^2 + B t + C`, the returned value is a strictly positive root, no strictly
positive root is smaller, and the point `O + t D` there lies on the sphere; it is
the near root `(-B - sqrt Δ) / 2A` when the origin is outside with the sphere
ahead (`C > 0`, `B < 0`) and the far root `(-B + sqrt Δ) / 2A` when the origin is
inside (`C < 0`). -/
theorem raySphere_smallest_positive_root (O D C : Vec3) (R : ℝ) (hD : D ≠ ⟨0, 0, 0⟩)
    (hΔ : 0 ≤ sphereDiscriminant O D C R)
    (hpos : ∃ t, 0 < t ∧ sphereQuadratic O D C R t = 0) :
    0 < RaySphere O D C R ∧
    sphereQuadratic O D C R (RaySphere O D C R) = 0 ∧
    (∀ t, 0 < t → sphereQuadratic O D C R t = 0 → RaySphere O D C R ≤ t) ∧
    ((O.add (Vec3.mul (RaySphere O D C R) D)).sub C).dot
      ((O.add (Vec3.mul (RaySphere O D C R) D)).sub C) = R * R ∧
    (0 < (O.sub C).dot (O.sub C) - R * R → D.dot (O.sub C) < 0 →
      RaySphere O D C R
        = (-(2 * D.dot (O.sub C)) - Real.sqrt (sphereDiscriminant O D C R)) / (2 * D.dot D)) ∧
    ((O.sub C).dot (O.sub C) - R * R < 0 →
      RaySphere O D C R
        = (-(2 * D.dot (O.sub C)) + Real.sqrt (sphereDiscriminant O D C R)) / (2 * D.dot D)) := by
  have hA := Vec3.dot_self_pos D hD
  have hchoice := quadratic_root_choice (D.dot D) (2 * D.dot (O.sub C))
    ((O.sub C).dot (O.sub C) - R * R) hA hΔ hpos
  have hval : RaySphere O D C R =
      (-(2 * D.dot (O.sub C)) + (if -(2 * D.dot (O.sub C))
          - Real.sqrt (sphereDiscriminant O D C R) > 0
        then -Real.sqrt (sphereDiscriminant O D C R)
        else Real.sqrt (sphereDiscriminant O D C R))) / (2 * D.dot D) := by
    have hΔ1 := hΔ
    unfold sphereDiscriminant at hΔ1
    simp only [RaySphere, sphereDiscriminant, if_neg (not_lt.2 hΔ1)]
  have hs := Real.mul_self_sqrt hΔ
  have hs0 := Real.sqrt_nonneg (sphereDiscriminant O D C R)
  obtain ⟨h1, h2, h3⟩ := hchoice
  have hq : sphereQuadratic O D C R (RaySphere O D C R) = 0 := by
    rw [hval]
    exact h2
  refine ⟨?_, hq, ?_, ?_, ?_, ?_⟩
  · rw [hval]
    exact h1
  · rw [hval]
    exact h3
  · rw [sphere_point_dist O D C R, hq, zero_add]
  · intro hout hahead
    rw [hval, if_pos]
    · ring
    · have hlt : Real.sqrt (sphereDiscriminant O D C R) * Real.sqrt (sphereDiscriminant O D C R)
          < (2 * D.dot (O.sub C)) * (2 * D.dot (O.sub C)) := by
        rw [hs]
        unfold sphereDiscriminant
        nlinarith [mul_pos hA hout]
      nlinarith
  · intro hin
    rw [hval, if_neg]
    have hgt : (2 * D.dot (O.sub C)) * (2 * D.dot (O.sub C))
        < Real.sqrt (sphereDiscriminant O D C R) * Real.sqrt (sphereDiscriminant O D C R) := by
      rw [hs]
      unfold sphereDiscriminant
      nlinarith [mul_pos hA (neg_pos.2 hin)]
    intro hc
    nlinarith

/-- C11 on the unit sphere around `(0, 0, 5)` and the ray from the origin along
`z`: the quadratic has the positive root `4`. -/
theorem raySphere_smallest_positive_root_witness :
    0 < RaySphere ⟨0, 0, 0⟩ ⟨0, 0, 1⟩ ⟨0, 0, 5⟩ 1 ∧
    sphereQuadratic ⟨0, 0, 0⟩ ⟨0, 0, 1⟩ ⟨0, 0, 5⟩ 1
      (RaySphere ⟨0, 0, 0⟩ ⟨0, 0, 1⟩ ⟨0, 0, 5⟩ 1) = 0 ∧
    (∀ t, 0 < t → sphereQuadratic ⟨0, 0, 0⟩ ⟨0, 0, 1⟩ ⟨0, 0, 5⟩ 1 t = 0 →
      RaySphere ⟨0, 0, 0⟩ ⟨0, 0, 1⟩ ⟨0, 0, 5⟩ 1 ≤ t) :=
  have h := raySphere_smallest_positive_root ⟨0, 0, 0⟩ ⟨0, 0, 1⟩ ⟨0, 0, 5⟩ 1
    (by
      intro h
      have := congrArg Vec3.z h
      norm_num at this)
    (by norm_num [sphereDiscriminant, Vec3.dot, Vec3.sub])
    ⟨4, by norm_num, by norm_num [sphereQuadratic, Vec3.dot, Vec3.sub]⟩
  ⟨h.1, h.2.1, h.2.2.1⟩

/-! ### Ray/triangle intersection -/

/-- The code of `RayTriangle` computes the triple-product ratios of its doc
comment, for both signs of the determinant: it compares `|det|` with `1e-4`,
tests `u`, then `v` and `u + v`, and returns `t`. -/
theorem rayTriangle_eq (O D p1 p2 p3 : Vec3) :
    RayTriangle O D p1 p2 p3 =
      if |mtDet D p1 p2 p3| < 1e-4 then -DBL_MAX
      else if mtU O D p1 p2 p3 < 0 ∨ mtU O D p1 p2 p3 > 1 then -DBL_MAX
      else if mtV O D p1 p2 p3 < 0 ∨ mtU O D p1 p2 p3 + mtV O D p1 p2 p3 > 1 then -DBL_MAX
      else mtT O D p1 p2 p3 := by
  have hdet : (Vec3.cross_ D (p3.sub p1)).dot (p2.sub p1) = mtDet D p1 p2 p3 := rfl
  by_cases h : mtDet D p1 p2 p3 > 0
  · simp only [RayTriangle, hdet, if_pos h, abs_of_pos h, mtU, mtV, mtT]
  · have hle : mtDet D p1 p2 p3 ≤ 0 := not_lt.1 h
    have e1 : (Vec3.cross_ D (p3.sub p1)).dot (p1.sub O) / -mtDet D p1 p2 p3
        = mtU O D p1 p2 p3 := by
      have : (Vec3.cross_ D (p3.sub p1)).dot (p1.sub O)
          = -((Vec3.cross_ D (p3.sub p1)).dot (O.sub p1)) := by
        simp only [Vec3.dot, Vec3.cross_, Vec3.sub]
        ring
      rw [this, neg_div_neg_eq, mtU]
    have e2 : (Vec3.cross_ (p1.sub O) (p2.sub p1)).dot D / -mtDet D p1 p2 p3
        = mtV O D p1 p2 p3 := by
      have : (Vec3.cross_ (p1.sub O) (p2.sub p1)).dot D
          = -((Vec3.cross_ (O.sub p1) (p2.sub p1)).dot D) := by
        simp only [Vec3.dot, Vec3.cross_, Vec3.sub]
        ring
      rw [this, neg_div_neg_eq, mtV]
    have e3 : (Vec3.cross_ (p1.sub O) (p2.sub p1)).dot (p3.sub p1) / -mtDet D p1 p2 p3
        = mtT O D p1 p2 p3 := by
      have : (Vec3.cross_ (p1.sub O) (p2.sub p1)).dot (p3.sub p1)
          = -((Vec3.cross_ (O.sub p1) (p2.sub p1)).dot (p3.sub p1)) := by
        simp only [Vec3.dot, Vec3.cross_, Vec3.sub]
        ring
      rw [this, neg_div_neg_eq, mtT]
    simp only [RayTriangle, hdet, if_neg h, abs_of_nonpos hle, e1, e2, e3]

/-- Cramer's rule, one way: with a non-zero determinant, the point at ray
parameter `mtT` is the point of the plane with weights `mtU`, `mtV`. -/
theorem mt_point (O D p1 p2 p3 : Vec3) (h : mtDet D p1 p2 p3 ≠ 0) :
    O.add (Vec3.mul (mtT O D p1 p2 p3) D)
      = baryPoint p1 p2 p3 (mtU O D p1 p2 p3) (mtV O D p1 p2 p3) := by
  simp only [mtT, mtU, mtV, baryPoint]
  generalize hd : mtDet D p1 p2 p3 = d at h
  simp only [mtDet, Vec3.dot, Vec3.cross_, Vec3.sub] at hd
  ext <;> simp only [Vec3.dot, Vec3.cross_, Vec3.sub, Vec3.add, Vec3.mul] <;> field_simp <;>
    rw [← hd] <;> ring

/-- Cramer's rule, the other way: if the point at ray parameter `t` is the point
of the plane with weights `u`, `v`, then the three triple products are `t`, `u`,
`v` times the determinant. -/
theorem mt_unique (O D p1 p2 p3 : Vec3) (t u v : ℝ)
    (hmeet : O.add (Vec3.mul t D) = baryPoint p1 p2 p3 u v) :
    (Vec3.cross_ D (p3.sub p1)).dot (O.sub p1) = u * mtDet D p1 p2 p3 ∧
    (Vec3.cross_ (O.sub p1) (p2.sub p1)).dot D = v * mtDet D p1 p2 p3 ∧
    (Vec3.cross_ (O.sub p1) (p2.sub p1)).dot (p3.sub p1) = t * mtDet D p1 p2 p3 := by
  have hx := congrArg Vec3.x hmeet
  have hy := congrArg Vec3.y hmeet
  have hz := congrArg Vec3.z hmeet
  simp only [baryPoint, Vec3.add, Vec3.mul] at hx hy hz
  have ex : O.x = (1 - u - v) * p1.x + u * p2.x + v * p3.x - t * D.x := by linarith
  have ey : O.y = (1 - u - v) * p1.y + u * p2.y + v * p3.y - t * D.y := by linarith
  have ez : O.z = (1 - u - v) * p1.z + u * p2.z + v * p3.z - t * D.z := by linarith
  simp only [mtDet, Vec3.dot, Vec3.cross_, Vec3.sub]
  rw [ex, ey, ez]
  refine ⟨?_, ?_, ?_⟩ <;> ring

/-- When the ray's line meets the plane at the point with weights `u`, `v` (at
ray parameter `t`) and the determinant passes the `1e-4` test, `RayTriangle`
tests exactly these weights and returns `t` if they pass. -/
theorem rayTriangle_of_meet (O D p1 p2 p3 : Vec3) (t u v : ℝ)
    (hmeet : O.add (Vec3.mul t D) = baryPoint p1 p2 p3 u v)
    (hdet : ¬ |mtDet D p1 p2 p3| < 1e-4) :
    RayTriangle O D p1 p2 p3 =
      if u < 0 ∨ u > 1 then -DBL_MAX
      else if v < 0 ∨ u + v > 1 then -DBL_MAX
      else t := by
  have h0 : mtDet D p1 p2 p3 ≠ 0 := by
    intro h
    apply hdet
    rw [h]
    norm_num
  obtain ⟨hu, hv, ht⟩ := mt_unique O D p1 p2 p3 t u v hmeet
  have eu : mtU O D p1 p2 p3 = u := by
    rw [mtU, hu]
    field_simp
  have ev : mtV O D p1 p2 p3 = v := by
    rw [mtV, hv]
    field_simp
  have et : mtT O D p1 p2 p3 = t := by
    rw [mtT, ht]
    field_simp
  rw [rayTriangle_eq, if_neg hdet, eu, ev, et]

/-- C14. Möller–Trumbore soundness: whenever `RayTriangle` returns a value `t`
other than the `-DBL_MAX` sentinel, the weights `u`, `v` of its doc comment
satisfy `u >= 0`, `v >= 0`, `u + v <= 1` and
`O + t D = (1 - u - v) p1 + u p2 + v p3`, whatever the sign of the determinant. -/
theorem rayTriangle_sound (O D p1 p2 p3 : Vec3) (h : RayTriangle O D p1 p2 p3 ≠ -DBL_MAX) :
    ∃ u v : ℝ, u = mtU O D p1 p2 p3 ∧ v = mtV O D p1 p2 p3 ∧ 0 ≤ u ∧ 0 ≤ v ∧ u + v ≤ 1 ∧
      O.add (Vec3.mul (RayTriangle O D p1 p2 p3) D) = baryPoint p1 p2 p3 u v := by
  rw [rayTriangle_eq] at h ⊢
  by_cases h1 : |mtDet D p1 p2 p3| < 1e-4
  · rw [if_pos h1] at h
    exact absurd rfl h
  · rw [if_neg h1] at h ⊢
    by_cases h2 : mtU O D p1 p2 p3 < 0 ∨ mtU O D p1 p2 p3 > 1
    · rw [if_pos h2] at h
      exact absurd rfl h
    · rw [if_neg h2] at h ⊢
      by_cases h3 : mtV O D p1 p2 p3 < 0 ∨ mtU O D p1 p2 p3 + mtV O D p1 p2 p3 > 1
      · rw [if_pos h3] at h
        exact absurd rfl h
      · rw [if_neg h3]
        have h0 : mtDet D p1 p2 p3 ≠ 0 := by
          intro h0
          apply h1
          rw [h0]
          norm_num
        refine ⟨_, _, rfl, rfl, ?_, ?_, ?_, mt_point O D p1 p2 p3 h0⟩
        · exact not_lt.1 (fun hlt => h2 (Or.inl hlt))
        · exact not_lt.1 (fun hlt => h3 (Or.inl hlt))
        · exact not_lt.1 (fun hlt => h3 (Or.inr hlt))

/-- The ray from `(1/4, 1/4, 1)` straight down meets the unit right triangle at
distance `1`, for both windings. -/
theorem rayTriangle_unit_down :
    RayTriangle ⟨1 / 4, 1 / 4, 1⟩ ⟨0, 0, -1⟩ ⟨0, 0, 0⟩ ⟨1, 0, 0⟩ ⟨0, 1, 0⟩ = 1 ∧
    RayTriangle ⟨1 / 4, 1 / 4, 1⟩ ⟨0, 0, -1⟩ ⟨0, 0, 0⟩ ⟨0, 1, 0⟩ ⟨1, 0, 0⟩ = 1 := by
  constructor
  · rw [rayTriangle_of_meet _ _ _ _ _ 1 (1 / 4) (1 / 4)
      (by ext <;> norm_num [baryPoint, Vec3.add, Vec3.mul])
      (by norm_num [mtDet, Vec3.dot, Vec3.cross_, Vec3.sub])]
    norm_num
  · rw [rayTriangle_of_meet _ _ _ _ _ 1 (1 / 4) (1 / 4)
      (by ext <;> norm_num [baryPoint, Vec3.add, Vec3.mul])
      (by norm_num [mtDet, Vec3.dot, Vec3.cross_, Vec3.sub])]
    norm_num

/-- C14 on the unit right triangle hit from above, with positive determinant and,
the winding reversed, with negative determinant. -/
theorem rayTriangle_sound_witness :
    (∃ u v : ℝ, u = mtU ⟨1 / 4, 1 / 4, 1⟩ ⟨0, 0, -1⟩ ⟨0, 0, 0⟩ ⟨1, 0, 0⟩ ⟨0, 1, 0⟩ ∧
      v = mtV ⟨1 / 4, 1 / 4, 1⟩ ⟨0, 0, -1⟩ ⟨0, 0, 0⟩ ⟨1, 0, 0⟩ ⟨0, 1, 0⟩ ∧
      0 ≤ u ∧ 0 ≤ v ∧ u + v ≤ 1 ∧
      (⟨1 / 4, 1 / 4, 1⟩ : Vec3).add (Vec3.mul
        (RayTriangle ⟨1 / 4, 1 / 4, 1⟩ ⟨0, 0, -1⟩ ⟨0, 0, 0⟩ ⟨1, 0, 0⟩ ⟨0, 1, 0⟩) ⟨0, 0, -1⟩)
        = baryPoint ⟨0, 0, 0⟩ ⟨1, 0, 0⟩ ⟨0, 1, 0⟩ u v) ∧
    (∃ u v : ℝ, u = mtU ⟨1 / 4, 1 / 4, 1⟩ ⟨0, 0, -1⟩ ⟨0, 0, 0⟩ ⟨0, 1, 0⟩ ⟨1, 0, 0⟩ ∧
      v = mtV ⟨1 / 4, 1 / 4, 1⟩ ⟨0, 0, -1⟩ ⟨0, 0, 0⟩ ⟨0, 1, 0⟩ ⟨1, 0, 0⟩ ∧
      0 ≤ u ∧ 0 ≤ v ∧ u + v ≤ 1 ∧
      (⟨1 / 4, 1 / 4, 1⟩ : Vec3).add (Vec3.mul
        (RayTriangle ⟨1 / 4, 1 / 4, 1⟩ ⟨0, 0, -1⟩ ⟨0, 0, 0⟩ ⟨0, 1, 0⟩ ⟨1, 0, 0⟩) ⟨0, 0, -1⟩)
        = baryPoint ⟨0, 0, 0⟩ ⟨0, 1, 0⟩ ⟨1, 0, 0⟩ u v) :=
  ⟨rayTriangle_sound ⟨1 / 4, 1 / 4, 1⟩ ⟨0, 0, -1⟩ ⟨0, 0, 0⟩ ⟨1, 0, 0⟩ ⟨0, 1, 0⟩ (by
      rw [rayTriangle_unit_down.1]
      have := DBL_MAX_pos
      linarith),
    rayTriangle_sound ⟨1 / 4, 1 / 4, 1⟩ ⟨0, 0, -1⟩ ⟨0, 0, 0⟩ ⟨0, 1, 0⟩ ⟨1, 0, 0⟩ (by
      rw [rayTriangle_unit_down.2]
      have := DBL_MAX_pos
      linarith)⟩

/-- C13. Triangle containment, miss case: when the line of the ray meets the
triangle's plane at a point whose weights `(u, v)` violate `u >= 0`, `v >= 0` or
`u + v <= 1`, `RayTriangle` returns the sentinel `-DBL_MAX`. -/
theorem rayTriangle_miss_outside (O D p1 p2 p3 : Vec3) (t u v : ℝ)
    (hmeet : O.add (Vec3.mul t D) = baryPoint p1 p2 p3 u v)
    (hout : u < 0 ∨ v < 0 ∨ 1 < u + v) :
    RayTriangle O D p1 p2 p3 = -DBL_MAX := by
  by_cases hdet : |mtDet D p1 p2 p3| < 1e-4
  · rw [rayTriangle_eq, if_pos hdet]
  · rw [rayTriangle_of_meet O D p1 p2 p3 t u v hmeet hdet]
    by_cases h2 : u < 0 ∨ u > 1
    · rw [if_pos h2]
    · rw [if_neg h2, if_pos]
      rcases hout with h | h | h
      · exact absurd (Or.inl h) h2
      · exact Or.inl h
      · exact Or.inr h

/-- C13 on the unit right triangle: the ray straight down from `(2, 2, 1)` meets
the plane at weights `(2, 2)`. -/
theorem rayTriangle_miss_outside_witness :
    RayTriangle ⟨2, 2, 1⟩ ⟨0, 0, -1⟩ ⟨0, 0, 0⟩ ⟨1, 0, 0⟩ ⟨0, 1, 0⟩ = -DBL_MAX :=
  rayTriangle_miss_outside ⟨2, 2, 1⟩ ⟨0, 0, -1⟩ ⟨0, 0, 0⟩ ⟨1, 0, 0⟩ ⟨0, 1, 0⟩ 1 2 2
    (by ext <;> norm_num [baryPoint, Vec3.add, Vec3.mul])
    (by norm_num)

/-- C12 as stated fails: the triangle `(0,0,0)`, `(1/1000,0,0)`, `(0,1/1000,0)` has
non-collinear vertices (`E1 × E2 ≠ 0`), the origin `(1/3000, 1/3000, 1)` is not in
its plane (`(O - p1) . (E1 × E2) ≠ 0`), and for the normalized direction toward
the centroid `RayTriangle` returns the sentinel `-DBL_MAX`: the determinant
`1e-6` is below the `1e-4` of the parallelism test. -/
theorem rayTriangle_centroid_small_triangle :
    Vec3.cross_ ((⟨1 / 1000, 0, 0⟩ : Vec3).sub ⟨0, 0, 0⟩) ((⟨0, 1 / 1000, 0⟩ : Vec3).sub ⟨0, 0, 0⟩)
      ≠ ⟨0, 0, 0⟩ ∧
    ((⟨1 / 3000, 1 / 3000, 1⟩ : Vec3).sub ⟨0, 0, 0⟩).dot
      (Vec3.cross_ ((⟨1 / 1000, 0, 0⟩ : Vec3).sub ⟨0, 0, 0⟩)
        ((⟨0, 1 / 1000, 0⟩ : Vec3).sub ⟨0, 0, 0⟩)) ≠ 0 ∧
    RayTriangle ⟨1 / 3000, 1 / 3000, 1⟩
      ((centroid ⟨0, 0, 0⟩ ⟨1 / 1000, 0, 0⟩ ⟨0, 1 / 1000, 0⟩).sub
        ⟨1 / 3000, 1 / 3000, 1⟩).normalize
      ⟨0, 0, 0⟩ ⟨1 / 1000, 0, 0⟩ ⟨0, 1 / 1000, 0⟩ = -DBL_MAX := by
  refine ⟨?_, ?_, ?_⟩
  · intro h
    have := congrArg Vec3.z h
    norm_num [Vec3.cross_, Vec3.sub] at this
  · norm_num [Vec3.dot, Vec3.cross_, Vec3.sub]
  · have hdir : ((centroid ⟨0, 0, 0⟩ ⟨1 / 1000, 0, 0⟩ ⟨0, 1 / 1000, 0⟩).sub
        ⟨1 / 3000, 1 / 3000, 1⟩).normalize = ⟨0, 0, -1⟩ := by
      have e : (centroid ⟨0, 0, 0⟩ ⟨1 / 1000, 0, 0⟩ ⟨0, 1 / 1000, 0⟩).sub
          ⟨1 / 3000, 1 / 3000, 1⟩ = ⟨0, 0, -1⟩ := by
        ext <;> norm_num [centroid, Vec3.sub, Vec3.add, Vec3.mul]
      rw [e]
      apply Vec3.normalize_eq_self
      simp [Vec3.norm, Vec3.dot]
    rw [hdir, rayTriangle_eq, if_pos]
    norm_num [mtDet, Vec3.dot, Vec3.cross_, Vec3.sub, abs_lt]

/-- C12, amended. Triangle containment, hit case: when the normalized direction
`D` from `O` toward the centroid passes the parallelism test of the code,
`|D × E2 . E1| >= 1e-4` (so the vertices are not collinear and `O` is not in the
plane), `RayTriangle` reports an intersection: it returns the distance
`|centroid - O|`, not the sentinel, and the weights are `u = v = 1/3`, so
`u, v >= 0` and `u + v <= 1`. -/
theorem rayTriangle_centroid (O p1 p2 p3 : Vec3)
    (hdet : ¬ |mtDet ((centroid p1 p2 p3).sub O).normalize p1 p2 p3| < 1e-4) :
    RayTriangle O ((centroid p1 p2 p3).sub O).normalize p1 p2 p3
      = ((centroid p1 p2 p3).sub O).norm ∧
    RayTriangle O ((centroid p1 p2 p3).sub O).normalize p1 p2 p3 ≠ -DBL_MAX ∧
    mtU O ((centroid p1 p2 p3).sub O).normalize p1 p2 p3 = 1 / 3 ∧
    mtV O ((centroid p1 p2 p3).sub O).normalize p1 p2 p3 = 1 / 3 := by
  have hL0 : ((centroid p1 p2 p3).sub O).norm ≠ 0 := by
    intro h0
    apply hdet
    have hz : ((centroid p1 p2 p3).sub O).normalize = ⟨0, 0, 0⟩ := by
      ext <;> simp [Vec3.normalize, h0]
    rw [hz]
    norm_num [mtDet, Vec3.dot, Vec3.cross_]
  have hLpos : 0 < ((centroid p1 p2 p3).sub O).norm :=
    lt_of_le_of_ne (Vec3.norm_nonneg _) (Ne.symm hL0)
  have hmeet : O.add (Vec3.mul ((centroid p1 p2 p3).sub O).norm
      ((centroid p1 p2 p3).sub O).normalize) = baryPoint p1 p2 p3 (1 / 3) (1 / 3) := by
    rw [Vec3.normalize_eq_mul]
    generalize ((centroid p1 p2 p3).sub O).norm = L at hL0
    ext <;> simp only [baryPoint, centroid, Vec3.add, Vec3.mul, Vec3.sub] <;> field_simp <;> ring
  have h0 : mtDet ((centroid p1 p2 p3).sub O).normalize p1 p2 p3 ≠ 0 := by
    intro h
    apply hdet
    rw [h]
    norm_num
  obtain ⟨hu, hv, -⟩ := mt_unique O _ p1 p2 p3 _ (1 / 3) (1 / 3) hmeet
  have hval := rayTriangle_of_meet O _ p1 p2 p3 _ (1 / 3) (1 / 3) hmeet hdet
  rw [if_neg (by norm_num), if_neg (by norm_num)] at hval
  refine ⟨hval, ?_, ?_, ?_⟩
  · rw [hval]
    have := DBL_MAX_pos
    linarith
  · rw [mtU, hu]
    field_simp
    ring
  · rw [mtV, hv]
    field_simp
    ring

/-- C12, amended, on the unit right triangle seen from `(1/3, 1/3, 1)`, straight
above the centroid. -/
theorem rayTriangle_centroid_witness :
    RayTriangle ⟨1 / 3, 1 / 3, 1⟩
        ((centroid ⟨0, 0, 0⟩ ⟨1, 0, 0⟩ ⟨0, 1, 0⟩).sub ⟨1 / 3, 1 / 3, 1⟩).normalize
        ⟨0, 0, 0⟩ ⟨1, 0, 0⟩ ⟨0, 1, 0⟩
      = ((centroid ⟨0, 0, 0⟩ ⟨1, 0, 0⟩ ⟨0, 1, 0⟩).sub ⟨1 / 3, 1 / 3, 1⟩).norm ∧
    RayTriangle ⟨1 / 3, 1 / 3, 1⟩
        ((centroid ⟨0, 0, 0⟩ ⟨1, 0, 0⟩ ⟨0, 1, 0⟩).sub ⟨1 / 3, 1 / 3, 1⟩).normalize
        ⟨0, 0, 0⟩ ⟨1, 0, 0⟩ ⟨0, 1, 0⟩ ≠ -DBL_MAX ∧
    mtU ⟨1 / 3, 1 / 3, 1⟩
        ((centroid ⟨0, 0, 0⟩ ⟨1, 0, 0⟩ ⟨0, 1, 0⟩).sub ⟨1 / 3, 1 / 3, 1⟩).normalize
        ⟨0, 0, 0⟩ ⟨1, 0, 0⟩ ⟨0, 1, 0⟩ = 1 / 3 ∧
    mtV ⟨1 / 3, 1 / 3, 1⟩
        ((centroid ⟨0, 0, 0⟩ ⟨1, 0, 0⟩ ⟨0, 1, 0⟩).sub ⟨1 / 3, 1 / 3, 1⟩).normalize
        ⟨0, 0, 0⟩ ⟨1, 0, 0⟩ ⟨0, 1, 0⟩ = 1 / 3 :=
  rayTriangle_centroid ⟨1 / 3, 1 / 3, 1⟩ ⟨0, 0, 0⟩ ⟨1, 0, 0⟩ ⟨0, 1, 0⟩ (by
    have hdir : ((centroid ⟨0, 0, 0⟩ ⟨1, 0, 0⟩ ⟨0, 1, 0⟩).sub ⟨1 / 3, 1 / 3, 1⟩).normalize
        = ⟨0, 0, -1⟩ := by
      have e : (centroid ⟨0, 0, 0⟩ ⟨1, 0, 0⟩ ⟨0, 1, 0⟩).sub ⟨1 / 3, 1 / 3, 1⟩
          = ⟨0, 0, -1⟩ := by
        ext <;> norm_num [centroid, Vec3.sub, Vec3.add, Vec3.mul]
      rw [e]
      apply Vec3.normalize_eq_self
      simp [Vec3.norm, Vec3.dot]
    rw [hdir]
    norm_num [mtDet, Vec3.dot, Vec3.cross_, Vec3.sub])

/-! ### The screen basis -/

/-- C20, the code at a failing input: for the eye at the origin looking along
`y` (`gCenter = (0, 1, 0)`; the view direction is non-zero and not parallel to
the `z` axis) `paint` computes `ScreenYVec = (0, 1, 0)`, the view direction
itself, so `ScreenVec . ScreenYVec = 1` and `ScreenXVec` is the zero vector. -/
theorem screenBasis_looking_along_y :
    screenBasis ⟨0, 0, 0⟩ ⟨0, 1, 0⟩ = (⟨0, 1, 0⟩, ⟨0, 0, 0⟩, ⟨0, 1, 0⟩) ∧
    (screenBasis ⟨0, 0, 0⟩ ⟨0, 1, 0⟩).1.dot (screenBasis ⟨0, 0, 0⟩ ⟨0, 1, 0⟩).2.2 = 1 := by
  have hy : (⟨0, 1, 0⟩ : Vec3).normalize = ⟨0, 1, 0⟩ := by
    apply Vec3.normalize_eq_self
    simp [Vec3.norm, Vec3.dot]
  have hb : screenBasis ⟨0, 0, 0⟩ ⟨0, 1, 0⟩ = (⟨0, 1, 0⟩, ⟨0, 0, 0⟩, ⟨0, 1, 0⟩) := by
    simp only [screenBasis, Vec3.sub, sub_zero, if_true, hy]
    have hx : (Vec3.cross_ ⟨0, 1, 0⟩ ⟨0, 1, 0⟩).normalize = ⟨0, 0, 0⟩ := by
      ext <;> simp [Vec3.normalize, Vec3.cross_]
    rw [hx]
  refine ⟨hb, ?_⟩
  rw [hb]
  simp [Vec3.dot]

theorem Vec3.norm_pos_of_dot_pos (a : Vec3) (h : 0 < a.dot a) : 0 < a.norm :=
  Real.sqrt_pos.2 h

theorem Vec3.normalize_norm (a : Vec3) (h : 0 < a.dot a) : a.normalize.norm = 1 := by
  have hn := a.norm_pos_of_dot_pos h
  rw [Vec3.normalize_eq_mul, Vec3.norm_mul _ _ (by positivity)]
  field_simp

theorem Vec3.dot_normalize (a b : Vec3) : a.dot b.normalize = a.dot b / b.norm := by
  simp only [Vec3.dot, Vec3.normalize]
  ring

theorem Vec3.normalize_dot (a b : Vec3) : a.normalize.dot b = a.dot b / a.norm := by
  simp only [Vec3.dot, Vec3.normalize]
  ring

theorem Vec3.cross_dot_left (a b : Vec3) : (Vec3.cross_ a b).dot a = 0 := by
  simp only [Vec3.dot, Vec3.cross_]
  ring

theorem Vec3.cross_dot_right (a b : Vec3) : (Vec3.cross_ a b).dot b = 0 := by
  simp only [Vec3.dot, Vec3.cross_]
  ring

/-- Lagrange's identity, `|a × b|^2 = |a|^2 |b|^2 - (a . b)^2`. -/
theorem Vec3.cross_dot_self (a b : Vec3) :
    (Vec3.cross_ a b).dot (Vec3.cross_ a b) = a.dot a * b.dot b - (a.dot b) ^ 2 := by
  simp only [Vec3.dot, Vec3.cross_]
  ring

/-- Where the first component of the view direction is non-zero, the basis that
`paint` computes is as intended: three non-zero, pairwise orthogonal vectors. -/
theorem screenBasis_orthogonal (Eye gCenter : Vec3) (hx : (gCenter.sub Eye).x ≠ 0) :
    (screenBasis Eye gCenter).1 ≠ ⟨0, 0, 0⟩ ∧
    (screenBasis Eye gCenter).2.1.norm = 1 ∧
    (screenBasis Eye gCenter).2.2.norm = 1 ∧
    (screenBasis Eye gCenter).1.dot (screenBasis Eye gCenter).2.1 = 0 ∧
    (screenBasis Eye gCenter).1.dot (screenBasis Eye gCenter).2.2 = 0 ∧
    (screenBasis Eye gCenter).2.1.dot (screenBasis Eye gCenter).2.2 = 0 := by
  simp only [screenBasis, if_neg hx]
  generalize gCenter.sub Eye = S at hx
  have hS : 0 < S.dot S := by
    simp only [Vec3.dot]
    nlinarith [mul_self_pos.2 hx, mul_self_nonneg S.y, mul_self_nonneg S.z]
  -- the Y axis
  have hY0 : 0 < (⟨-S.y / S.x, 1, 0⟩ : Vec3).dot ⟨-S.y / S.x, 1, 0⟩ := by
    simp only [Vec3.dot]
    nlinarith [mul_self_nonneg (-S.y / S.x)]
  have hYn := Vec3.normalize_norm _ hY0
  have hSY : S.dot (⟨-S.y / S.x, 1, 0⟩ : Vec3).normalize = 0 := by
    rw [Vec3.dot_normalize]
    have : S.dot ⟨-S.y / S.x, 1, 0⟩ = 0 := by
      simp only [Vec3.dot]
      field_simp
      ring
    rw [this, zero_div]
  generalize (⟨-S.y / S.x, 1, 0⟩ : Vec3).normalize = Y at hYn hSY
  have hYY : Y.dot Y = 1 := (Vec3.norm_eq_one_iff Y).1 hYn
  -- the X axis
  have hX0 : 0 < (Vec3.cross_ S Y).dot (Vec3.cross_ S Y) := by
    rw [Vec3.cross_dot_self, hYY, hSY]
    linarith
  refine ⟨?_, Vec3.normalize_norm _ hX0, hYn, ?_, hSY, ?_⟩
  · intro h
    rw [h] at hS
    simp [Vec3.dot] at hS
  · rw [Vec3.dot_normalize, Vec3.dot_comm, Vec3.cross_dot_left, zero_div]
  · rw [Vec3.normalize_dot, Vec3.cross_dot_right, zero_div]

/-! ### Diffuse scattering -/

theorem sqrt_half_mul_self : Real.sqrt (1 / 2) * Real.sqrt (1 / 2) = 1 / 2 :=
  Real.mul_self_sqrt (by norm_num)

theorem sqrt_half_eq : Real.sqrt (1 / 2) = Real.sqrt 2 / 2 := by
  have h2 : Real.sqrt 2 * Real.sqrt 2 = 2 := Real.mul_self_sqrt (by norm_num)
  rw [Real.sqrt_eq_iff_mul_self_eq (by norm_num) (by positivity)]
  nlinarith

theorem cos_three_quarter_pi : Real.cos (2 * Real.pi * (3 / 8)) * Real.sqrt (1 / 2) = -(1 / 2) := by
  have e : 2 * Real.pi * (3 / 8) = Real.pi - Real.pi / 4 := by ring
  have h2 : Real.sqrt 2 * Real.sqrt 2 = 2 := Real.mul_self_sqrt (by norm_num)
  rw [e, Real.cos_pi_sub, Real.cos_pi_div_four, sqrt_half_eq]
  nlinarith

theorem sin_three_quarter_pi : Real.sin (2 * Real.pi * (3 / 8)) * Real.sqrt (1 / 2) = 1 / 2 := by
  have e : 2 * Real.pi * (3 / 8) = Real.pi - Real.pi / 4 := by ring
  have h2 : Real.sqrt 2 * Real.sqrt 2 = 2 := Real.mul_self_sqrt (by norm_num)
  rw [e, Real.sin_pi_sub, Real.sin_pi_div_four, sqrt_half_eq]
  nlinarith

/-- C16, the code at a failing input: for the incident ray `(0, 0, -1)` on the
face vector `(0, 0, 1)` with the draws `3/8` (so `r1 = 3 π / 4`, `cos r1 < 0`)
and `1/2`, `diffuseReflect` returns `(-1/2, 1/2, sqrt(1/2))`, while the formula
of the claim gives `(1/2, 1/2, sqrt(1/2))`: the `v` component has the opposite
sign, because `v` is built from the `u` already scaled by `cos(r1) sqrt(r2)`. -/
theorem diffuseReflect_flips_v :
    diffuseReflect ⟨0, 0, -1⟩ ⟨0, 0, 1⟩ (3 / 8) (1 / 2) = ⟨-(1 / 2), 1 / 2, Real.sqrt (1 / 2)⟩ ∧
    diffuseFormula ⟨0, 0, -1⟩ ⟨0, 0, 1⟩ (3 / 8) (1 / 2) = ⟨1 / 2, 1 / 2, Real.sqrt (1 / 2)⟩ ∧
    diffuseReflect ⟨0, 0, -1⟩ ⟨0, 0, 1⟩ (3 / 8) (1 / 2)
      ≠ diffuseFormula ⟨0, 0, -1⟩ ⟨0, 0, 1⟩ (3 / 8) (1 / 2) := by
  have hn : Vec3.mul (if (⟨0, 0, 1⟩ : Vec3).dot ⟨0, 0, -1⟩ > 0 then -1 else 1) ⟨0, 0, 1⟩
      = ⟨0, 0, 1⟩ := by
    rw [if_neg (by norm_num [Vec3.dot])]
    ext <;> simp [Vec3.mul]
  have hu0 : (Vec3.cross_ ⟨1, 0, 0⟩ ⟨0, 0, 1⟩).normalize = ⟨0, -1, 0⟩ := by
    have e : Vec3.cross_ ⟨1, 0, 0⟩ ⟨0, 0, 1⟩ = ⟨0, -1, 0⟩ := by
      ext <;> simp [Vec3.cross_]
    rw [e]
    apply Vec3.normalize_eq_self
    simp [Vec3.norm, Vec3.dot]
  have hu : Vec3.mul (Real.cos (2 * Real.pi * (3 / 8)) * Real.sqrt (1 / 2)) ⟨0, -1, 0⟩
      = ⟨0, 1 / 2, 0⟩ := by
    rw [cos_three_quarter_pi]
    ext <;> simp [Vec3.mul]
  have hv0 : (Vec3.cross_ ⟨0, 0, 1⟩ ⟨0, 1 / 2, 0⟩).normalize = ⟨-1, 0, 0⟩ := by
    have e : Vec3.cross_ ⟨0, 0, 1⟩ ⟨0, 1 / 2, 0⟩ = ⟨-(1 / 2), 0, 0⟩ := by
      ext <;> simp [Vec3.cross_]
    have hnorm : (⟨-(1 / 2), 0, 0⟩ : Vec3).norm = 1 / 2 :=
      Vec3.norm_eq_of_sq _ _ (by norm_num) (by norm_num [Vec3.dot])
    rw [e]
    ext <;> simp only [Vec3.normalize, hnorm] <;> norm_num
  have hcode : diffuseReflect ⟨0, 0, -1⟩ ⟨0, 0, 1⟩ (3 / 8) (1 / 2)
      = ⟨-(1 / 2), 1 / 2, Real.sqrt (1 / 2)⟩ := by
    simp only [diffuseReflect, hn]
    have ht : (if |(0 : ℝ)| > 0.1 then (0 : ℝ) else 1) = 1 := by norm_num
    simp only [ht, one_ne_zero, if_false, hu0, hu, hv0, sin_three_quarter_pi]
    have hsum : (Vec3.mul (Real.sqrt (1 - 1 / 2)) ⟨0, 0, 1⟩).add
        ((⟨0, 1 / 2, 0⟩ : Vec3).add (Vec3.mul (1 / 2) ⟨-1, 0, 0⟩))
        = ⟨-(1 / 2), 1 / 2, Real.sqrt (1 / 2)⟩ := by
      ext <;> norm_num [Vec3.add, Vec3.mul]
    rw [hsum]
    apply Vec3.normalize_eq_self
    rw [Vec3.norm_eq_one_iff]
    simp only [Vec3.dot, sqrt_half_mul_self]
    norm_num
  have hformula : diffuseFormula ⟨0, 0, -1⟩ ⟨0, 0, 1⟩ (3 / 8) (1 / 2)
      = ⟨1 / 2, 1 / 2, Real.sqrt (1 / 2)⟩ := by
    simp only [diffuseFormula, hn]
    have ht : (if |(0 : ℝ)| > 0.1 then (0 : ℝ) else 1) = 1 := by norm_num
    simp only [ht, one_ne_zero, if_false, hu0, hu, cos_three_quarter_pi, sin_three_quarter_pi]
    ext <;> norm_num [Vec3.add, Vec3.mul, Vec3.cross_]
  refine ⟨hcode, hformula, ?_⟩
  rw [hcode, hformula]
  intro h
  have := congrArg Vec3.x h
  norm_num at this

/-! ### The `quickReflect` branch -/

theorem lightFold_eq (n P : Vec3) (lights : List Vec3) :
    ∀ init : ℝ,
      lights.foldl
          (fun lc L =>
            let t := n.dot (L.sub P).normalize
            if t > lc then t else lc)
          init
        = lights.foldr (fun L m => max (n.dot (L.sub P).normalize) m) init := by
  induction lights with
  | nil =>
    intro init
    rfl
  | cons L ls ih =>
    intro init
    have hcomm : ∀ (l : List Vec3) (a b : ℝ),
        l.foldr (fun L m => max (n.dot (L.sub P).normalize) m) (max a b)
          = max a (l.foldr (fun L m => max (n.dot (L.sub P).normalize) m) b) := by
      intro l
      induction l with
      | nil =>
        intro a b
        rfl
      | cons M ms ihm =>
        intro a b
        simp only [List.foldr_cons]
        rw [ihm, max_left_comm]
    simp only [List.foldl_cons, List.foldr_cons]
    rw [ih]
    have hstep : (if n.dot (L.sub P).normalize > init then n.dot (L.sub P).normalize else init)
        = max (n.dot (L.sub P).normalize) init := by
      split_ifs with h
      · exact (max_eq_left (le_of_lt h)).symm
      · exact (max_eq_right (not_lt.1 h)).symm
    rw [hstep, hcomm]

/-- The loop of the `quickReflect` branch computes the intensity of the spec. -/
theorem lightCos_eq (n P : Vec3) (lights : List Vec3) :
    lightCos n P lights = lightIntensity n P lights :=
  lightFold_eq n P lights 0

theorem pathInit_flag (rnd : Nat → ℝ) (st : TraceState) :
    (pathInit rnd 0 st).isChromaticDisperson = false := by
  simp [pathInit]

/-- In the `quickReflect` branch the tail of `traceRay` never collapses the
colour: at level 0 the flag has just been reset. -/
theorem finish_after_init (rnd : Nat → ℝ) (material : Material) (level : Int) (c : Vec3)
    (st : TraceState) :
    finish material level c (pathInit rnd level st)
      = (c.elementMul material.color, pathInit rnd level st) := by
  unfold finish
  by_cases h : level = 0
  · subst h
    simp [pathInit_flag]
  · simp [h]

theorem facing_dot_le (faceVec Ray : Vec3) : (facing faceVec Ray).dot Ray ≤ 0 := by
  unfold facing
  split_ifs with h
  · have : (Vec3.mul (-1) faceVec).dot Ray = -(faceVec.dot Ray) := by
      simp only [Vec3.dot, Vec3.mul]
      ring
    rw [this]
    linarith
  · have : (Vec3.mul 1 faceVec).dot Ray = faceVec.dot Ray := by
      simp only [Vec3.dot, Vec3.mul]
      ring
    rw [this]
    exact not_lt.1 h

/-- A normalized vector has length one, or is the zero vector. -/
theorem Vec3.normalize_unit_or_zero (a : Vec3) :
    a.normalize.norm = 1 ∨ a.normalize = ⟨0, 0, 0⟩ := by
  rcases lt_or_eq_of_le a.dot_self_nonneg with h | h
  · exact Or.inl (Vec3.normalize_norm a h)
  · right
    have hn : a.norm = 0 := by
      unfold Vec3.norm
      rw [← h]
      exact Real.sqrt_zero
    ext <;> simp [Vec3.normalize, hn]

theorem facing_unit_or_zero (faceVec Ray : Vec3)
    (h : faceVec.norm = 1 ∨ faceVec = ⟨0, 0, 0⟩) :
    (facing faceVec Ray).norm = 1 ∨ facing faceVec Ray = ⟨0, 0, 0⟩ := by
  rcases h with h | h
  · left
    have hd : (facing faceVec Ray).dot (facing faceVec Ray) = faceVec.dot faceVec := by
      unfold facing
      split_ifs <;> simp only [Vec3.dot, Vec3.mul] <;> ring
    rw [Vec3.norm_eq_one_iff, hd]
    exact (Vec3.norm_eq_one_iff _).1 h
  · right
    rw [h]
    unfold facing
    ext <;> simp [Vec3.mul]

theorem hitFaceVec_unit_or_zero (t : Triangle) (P : Vec3) :
    (hitFaceVec t P).norm = 1 ∨ hitFaceVec t P = ⟨0, 0, 0⟩ := by
  unfold hitFaceVec
  split_ifs <;> exact Vec3.normalize_unit_or_zero _

/-- The value of `traceRay` in the `quickReflect` branch. -/
theorem traceRay_quickReflect_aux (sc : Scene) (rnd : Nat → ℝ) (RaySt Ray color : Vec3)
    (level : Int) (st : TraceState) (t : Triangle)
    (hhit : (nearestHit sc RaySt Ray).2 = some t) (hrad : t.material.rediate = 0)
    (hlevel : ¬ level > sc.maxRayLevel) (hquick : t.material.quickReflect = true) :
    traceRay sc rnd RaySt Ray color level st
      = (Vec3.mul
          (lightIntensity (facing (hitFaceVec t (hitPoint sc RaySt Ray)) Ray)
            (hitPoint sc RaySt Ray) sc.PointLight)
          t.material.color,
        pathInit rnd level (entered st level RaySt Ray)) ∧ True := by
  have hne : (nearestHit sc RaySt Ray).1 ≠ DBL_MAX := by
    intro h1
    rw [(nearestHit_none_iff sc RaySt Ray).1 h1] at hhit
    simp at hhit
  refine ⟨?_, trivial⟩
  rw [traceRay]
  simp only [hne, if_false, hhit, hrad, ne_eq, not_true_eq_false, hlevel,
    dite_false, hquick, if_true]
  rw [finish_after_init, lightCos_eq]
  simp only [hitPoint, facing, Prod.mk.injEq, and_true]
  ext <;> simp [Vec3.mul, Vec3.fill, Vec3.elementMul]

/-- C15. `quickReflect` shading: for a hit at `level <= maxRayLevel` on a material
that is no light source and has `quickReflect` set (whatever `diffuseReflect`
and `reflect` are), `traceRay` returns `material.color * m` with
`m = max(0, max over the point lights L of n . normalize(L - hitPoint))`, where
`n` is the face vector at the hit point, normalized (so of length one unless
the geometry is degenerate) and turned against the incoming ray; it makes no
recursive call (its own call is the only one it records); with no point lights
it returns `(0, 0, 0)`. -/
theorem traceRay_quickReflect (sc : Scene) (rnd : Nat → ℝ) (RaySt Ray color : Vec3)
    (level : Int) (st : TraceState) (t : Triangle)
    (hhit : (nearestHit sc RaySt Ray).2 = some t) (hrad : t.material.rediate = 0)
    (hlevel : level ≤ sc.maxRayLevel) (hquick : t.material.quickReflect = true) :
    traceRay sc rnd RaySt Ray color level st
      = (Vec3.mul
          (lightIntensity (facing (hitFaceVec t (hitPoint sc RaySt Ray)) Ray)
            (hitPoint sc RaySt Ray) sc.PointLight)
          t.material.color,
        pathInit rnd level (entered st level RaySt Ray)) ∧
    (facing (hitFaceVec t (hitPoint sc RaySt Ray)) Ray).dot Ray ≤ 0 ∧
    ((facing (hitFaceVec t (hitPoint sc RaySt Ray)) Ray).norm = 1 ∨
      facing (hitFaceVec t (hitPoint sc RaySt Ray)) Ray = ⟨0, 0, 0⟩) ∧
    (traceRay sc rnd RaySt Ray color level st).2.log
      = st.log ++ [TraceEvent.call level RaySt Ray] ∧
    (sc.PointLight = [] → (traceRay sc rnd RaySt Ray color level st).1 = ⟨0, 0, 0⟩) := by
  have hne : (nearestHit sc RaySt Ray).1 ≠ DBL_MAX := by
    intro h1
    rw [(nearestHit_none_iff sc RaySt Ray).1 h1] at hhit
    simp at hhit
  have hval : traceRay sc rnd RaySt Ray color level st
      = (Vec3.mul
          (lightIntensity (facing (hitFaceVec t (hitPoint sc RaySt Ray)) Ray)
            (hitPoint sc RaySt Ray) sc.PointLight)
          t.material.color,
        pathInit rnd level (entered st level RaySt Ray)) := by
    rw [traceRay]
    simp only [hne, if_false, hhit, hrad, ne_eq, not_true_eq_false, not_lt.2 hlevel,
      dite_false, hquick, if_true]
    rw [finish_after_init, lightCos_eq]
    simp only [hitPoint, facing, Prod.mk.injEq, and_true]
    ext <;> simp [Vec3.mul, Vec3.fill, Vec3.elementMul]
  refine ⟨hval, facing_dot_le _ _, facing_unit_or_zero _ _ (hitFaceVec_unit_or_zero _ _), ?_, ?_⟩
  · rw [hval, pathInit_log, entered_log]
  · intro hl
    rw [hval, hl]
    ext <;> simp [lightIntensity, Vec3.mul]

/-- C15 on a `quickReflect` unit sphere around `(0, 0, 5)` lit by a point light at
the origin, for the ray from the origin along `z`. -/
theorem traceRay_quickReflect_witness :
    traceRay (drawSphere ⟨[], [⟨0, 0, 0⟩], 1e-4, 5⟩ ⟨0, 0, 5⟩ 1
        ⟨⟨1, 1, 1⟩, 0, true, false, 1, 1, 1, ⟨1, 1, 1⟩⟩)
        (fun _ => 0) ⟨0, 0, 0⟩ ⟨0, 0, 1⟩ Vec3.zero 0 freshState
      = (Vec3.mul
          (lightIntensity
            (facing (hitFaceVec
              ⟨⟨0, 0, 5⟩, ⟨1, 1, 1⟩, ⟨DBL_MAX, 0, 0⟩, ⟨⟨1, 1, 1⟩, 0, true, false, 1, 1, 1, ⟨1, 1, 1⟩⟩⟩
              (hitPoint (drawSphere ⟨[], [⟨0, 0, 0⟩], 1e-4, 5⟩ ⟨0, 0, 5⟩ 1
                ⟨⟨1, 1, 1⟩, 0, true, false, 1, 1, 1, ⟨1, 1, 1⟩⟩) ⟨0, 0, 0⟩ ⟨0, 0, 1⟩))
              ⟨0, 0, 1⟩)
            (hitPoint (drawSphere ⟨[], [⟨0, 0, 0⟩], 1e-4, 5⟩ ⟨0, 0, 5⟩ 1
              ⟨⟨1, 1, 1⟩, 0, true, false, 1, 1, 1, ⟨1, 1, 1⟩⟩) ⟨0, 0, 0⟩ ⟨0, 0, 1⟩)
            [⟨0, 0, 0⟩])
          ⟨1, 1, 1⟩,
        pathInit (fun _ => 0) 0 (entered freshState 0 ⟨0, 0, 0⟩ ⟨0, 0, 1⟩)) :=
  (traceRay_quickReflect (drawSphere ⟨[], [⟨0, 0, 0⟩], 1e-4, 5⟩ ⟨0, 0, 5⟩ 1
      ⟨⟨1, 1, 1⟩, 0, true, false, 1, 1, 1, ⟨1, 1, 1⟩⟩)
    (fun _ => 0) ⟨0, 0, 0⟩ ⟨0, 0, 1⟩ Vec3.zero 0 freshState
    ⟨⟨0, 0, 5⟩, ⟨1, 1, 1⟩, ⟨DBL_MAX, 0, 0⟩, ⟨⟨1, 1, 1⟩, 0, true, false, 1, 1, 1, ⟨1, 1, 1⟩⟩⟩
    (by rw [nearestHit_light_ball _ _ _ _ (by norm_num)])
    rfl
    (by simp [drawSphere, drawTriangle])
    rfl).1

/-! ### The recursive branches of `traceRay`, step by step -/

theorem nearestHit_ne_of_some (sc : Scene) (RaySt Ray : Vec3) (t : Triangle)
    (h : (nearestHit sc RaySt Ray).2 = some t) : (nearestHit sc RaySt Ray).1 ≠ DBL_MAX := by
  intro h1
  rw [(nearestHit_none_iff sc RaySt Ray).1 h1] at h
  simp at h

/-- The `diffuseReflect` branch: the recursive call starts at the hit point with
the scattered direction, after two draws; the colour is scaled by
`reflectLossRate`. -/
theorem traceRay_of_diffuse (sc : Scene) (rnd : Nat → ℝ) (RaySt Ray color : Vec3) (level : Int)
    (st : TraceState) (t : Triangle) (h : (nearestHit sc RaySt Ray).2 = some t)
    (hrad : t.material.rediate = 0) (hlevel : ¬ level > sc.maxRayLevel)
    (hquick : t.material.quickReflect = false) (hdiff : t.material.diffuseReflect = true) :
    traceRay sc rnd RaySt Ray color level st =
      finish t.material level
        (Vec3.mul t.material.reflectLossRate
          (traceRay sc rnd (hitPoint sc RaySt Ray)
            (diffuseReflect Ray (hitFaceVec t (hitPoint sc RaySt Ray))
              (rnd (pathInit rnd level (entered st level RaySt Ray)).rand)
              (rnd ((pathInit rnd level (entered st level RaySt Ray)).rand + 1)))
            color (level + 1)
            { pathInit rnd level (entered st level RaySt Ray) with
              rand := (pathInit rnd level (entered st level RaySt Ray)).rand + 2 }).1)
        (traceRay sc rnd (hitPoint sc RaySt Ray)
            (diffuseReflect Ray (hitFaceVec t (hitPoint sc RaySt Ray))
              (rnd (pathInit rnd level (entered st level RaySt Ray)).rand)
              (rnd ((pathInit rnd level (entered st level RaySt Ray)).rand + 1)))
            color (level + 1)
            { pathInit rnd level (entered st level RaySt Ray) with
              rand := (pathInit rnd level (entered st level RaySt Ray)).rand + 2 }).2 := by
  have hne := nearestHit_ne_of_some sc RaySt Ray t h
  rw [traceRay]
  simp only [hne, if_false, h, hrad, ne_eq, not_true_eq_false, hlevel, dite_false, hquick,
    Bool.false_eq_true, hdiff, if_true, hitPoint]

/-- The reflection branch, with the hit point named. -/
theorem traceRay_of_mirror (sc : Scene) (rnd : Nat → ℝ) (RaySt Ray color : Vec3) (level : Int)
    (st : TraceState) (t : Triangle) (h : (nearestHit sc RaySt Ray).2 = some t)
    (hrad : t.material.rediate = 0) (hlevel : ¬ level > sc.maxRayLevel)
    (hquick : t.material.quickReflect = false) (hdiff : t.material.diffuseReflect = false)
    (hdraw : rnd (pathInit rnd level (entered st level RaySt Ray)).rand < t.material.reflect) :
    traceRay sc rnd RaySt Ray color level st =
      finish t.material level
        (Vec3.mul t.material.reflectLossRate
          (traceRay sc rnd (hitPoint sc RaySt Ray)
            (reflect Ray (hitFaceVec t (hitPoint sc RaySt Ray))) color (level + 1)
            { pathInit rnd level (entered st level RaySt Ray) with
              rand := (pathInit rnd level (entered st level RaySt Ray)).rand + 1 }).1)
        (traceRay sc rnd (hitPoint sc RaySt Ray)
            (reflect Ray (hitFaceVec t (hitPoint sc RaySt Ray))) color (level + 1)
            { pathInit rnd level (entered st level RaySt Ray) with
              rand := (pathInit rnd level (entered st level RaySt Ray)).rand + 1 }).2 :=
  traceRay_of_reflect sc rnd RaySt Ray color level st t h hrad hlevel hquick hdiff hdraw

/-- The refraction branch: `refract` is called with the buffered rate and the
outgoing rate, the recursive call starts at `hitPoint + eps * RayO` with the
refracted direction `RayO`; the colour is scaled by `refractLossRate`. -/
theorem traceRay_of_refract (sc : Scene) (rnd : Nat → ℝ) (RaySt Ray color : Vec3) (level : Int)
    (st : TraceState) (t : Triangle) (h : (nearestHit sc RaySt Ray).2 = some t)
    (hrad : t.material.rediate = 0) (hlevel : ¬ level > sc.maxRayLevel)
    (hquick : t.material.quickReflect = false) (hdiff : t.material.diffuseReflect = false)
    (hdraw : ¬ rnd (pathInit rnd level (entered st level RaySt Ray)).rand < t.material.reflect) :
    traceRay sc rnd RaySt Ray color level st =
      finish t.material level
        (Vec3.mul t.material.refractLossRate
          (traceRay sc rnd
            ((hitPoint sc RaySt Ray).add (Vec3.mul sc.eps
              (refract Ray (hitFaceVec t (hitPoint sc RaySt Ray))
                (pathInit rnd level (entered st level RaySt Ray)).refractRateBuf
                (refractRateOut t.material (pathInit rnd level (entered st level RaySt Ray))))))
            (refract Ray (hitFaceVec t (hitPoint sc RaySt Ray))
              (pathInit rnd level (entered st level RaySt Ray)).refractRateBuf
              (refractRateOut t.material (pathInit rnd level (entered st level RaySt Ray))))
            color (level + 1)
            (refractState t.material (pathInit rnd level (entered st level RaySt Ray))
              (hitPoint sc RaySt Ray)
              (refract Ray (hitFaceVec t (hitPoint sc RaySt Ray))
                (pathInit rnd level (entered st level RaySt Ray)).refractRateBuf
                (refractRateOut t.material
                  (pathInit rnd level (entered st level RaySt Ray)))))).1)
        (traceRay sc rnd
            ((hitPoint sc RaySt Ray).add (Vec3.mul sc.eps
              (refract Ray (hitFaceVec t (hitPoint sc RaySt Ray))
                (pathInit rnd level (entered st level RaySt Ray)).refractRateBuf
                (refractRateOut t.material (pathInit rnd level (entered st level RaySt Ray))))))
            (refract Ray (hitFaceVec t (hitPoint sc RaySt Ray))
              (pathInit rnd level (entered st level RaySt Ray)).refractRateBuf
              (refractRateOut t.material (pathInit rnd level (entered st level RaySt Ray))))
            color (level + 1)
            (refractState t.material (pathInit rnd level (entered st level RaySt Ray))
              (hitPoint sc RaySt Ray)
              (refract Ray (hitFaceVec t (hitPoint sc RaySt Ray))
                (pathInit rnd level (entered st level RaySt Ray)).refractRateBuf
                (refractRateOut t.material
                  (pathInit rnd level (entered st level RaySt Ray)))))).2 := by
  have hne := nearestHit_ne_of_some sc RaySt Ray t h
  rw [traceRay]
  simp only [hne, if_false, h, hrad, ne_eq, not_true_eq_false, hlevel, dite_false, hquick,
    Bool.false_eq_true, hdiff, hdraw, hitPoint, refractState, refractRateOut]

/-! ### What a path records -/

theorem pathInit_of_ne (rnd : Nat → ℝ) (level : Int) (st : TraceState) (h : level ≠ 0) :
    pathInit rnd level st = st := by
  simp [pathInit, h]

/-- A call that records nothing after its own entry and, at a level other than
0, leaves index and flag as they were. -/
theorem pathInv_nil (eps n : ℝ) (level : Int) (st1 res : TraceState)
    (h : level ≠ 0 → res.refractColorIndex = st1.refractColorIndex ∧
      res.isChromaticDisperson = st1.isChromaticDisperson) :
    PathInv eps n level st1 res [] := by
  refine ⟨trivial, fun _ => trivial, ?_⟩
  intro hl
  rcases hl with hl | hl
  · obtain ⟨h1, h2⟩ := h hl
    refine ⟨h1, ?_⟩
    rw [h2]
    simp
  · exact absurd rfl hl

/-- The events of a call whose recursive call follows directly (the diffuse and
the reflection branch). -/
theorem pathInv_step (eps n : ℝ) (level : Int) (st1 st2 res : TraceState) (S D : Vec3)
    (rest : List TraceEvent)
    (hidx : st2.refractColorIndex = st1.refractColorIndex)
    (hbuf : st2.refractRateBuf = st1.refractRateBuf)
    (hflag : st2.isChromaticDisperson = st1.isChromaticDisperson)
    (h : PathInv eps n (level + 1) st2 res rest) (hl : level + 1 ≠ 0) :
    PathInv eps n level st1 res (TraceEvent.call (level + 1) S D :: rest) := by
  obtain ⟨h1, h2, h3⟩ := h
  refine ⟨h1, ?_, ?_⟩
  · intro hall
    have := h2 (fun e he => hall e (List.mem_cons_of_mem _ he))
    rw [hidx, hbuf] at this
    exact this
  · intro _
    obtain ⟨h4, h5⟩ := h3 (Or.inl hl)
    refine ⟨h4.trans hidx, ?_⟩
    rw [h5, hflag]
    constructor
    · rintro (h | ⟨e, he, hd⟩)
      · exact Or.inl h
      · exact Or.inr ⟨e, List.mem_cons_of_mem _ he, hd⟩
    · rintro (h | ⟨e, he, hd⟩)
      · exact Or.inl h
      · rcases List.mem_cons.1 he with rfl | he
        · exact absurd hd (by simp [TraceEvent.isDispersive])
        · exact Or.inr ⟨e, he, hd⟩

/-- The events of a call that refracts: the `refract` event, then the recursive
call from `hitPoint + eps * RayO`. -/
theorem pathInv_refract (eps n : ℝ) (level : Int) (material : Material)
    (st1 st2 res : TraceState) (P RayO : Vec3) (rest : List TraceEvent)
    (hidx : st2.refractColorIndex = st1.refractColorIndex)
    (hbuf : st2.refractRateBuf = refractRateOut material st1)
    (hflag : st2.isChromaticDisperson =
      (if material.refractRate.get 0 ≠ material.refractRate.get 1 ∨
          material.refractRate.get 0 ≠ material.refractRate.get 2 then true
        else st1.isChromaticDisperson))
    (h : PathInv eps n (level + 1) st2 res rest) (hl : level + 1 ≠ 0) :
    PathInv eps n level st1 res
      (TraceEvent.refract st1.refractColorIndex st1.refractRateBuf
          (refractRateOut material st1) P RayO material.refractRate ::
        TraceEvent.call (level + 1) (P.add (Vec3.mul eps RayO)) RayO :: rest) := by
  obtain ⟨h1, h2, h3⟩ := h
  refine ⟨⟨⟨_, _, rfl⟩, h1⟩, ?_, ?_⟩
  · intro hall
    have h0 : material.refractRate.get st1.refractColorIndex = n :=
      hall _ (List.mem_cons_self _ _)
    have hout : refractRateOut material st1 = if st1.refractRateBuf = n then 1 else n := by
      simp only [refractRateOut, h0]
    have := h2 (fun e he => hall e (List.mem_cons_of_mem _ (List.mem_cons_of_mem _ he)))
    rw [hidx, hbuf, hout] at this
    exact ⟨rfl, rfl, hout, this⟩
  · intro _
    obtain ⟨h4, h5⟩ := h3 (Or.inl hl)
    refine ⟨h4.trans hidx, ?_⟩
    rw [h5, hflag]
    by_cases hd : material.refractRate.get 0 ≠ material.refractRate.get 1 ∨
        material.refractRate.get 0 ≠ material.refractRate.get 2
    · simp only [if_pos hd, true_or, true_iff]
      exact Or.inr ⟨_, List.mem_cons_self _ _, hd⟩
    · simp only [if_neg hd]
      constructor
      · rintro (h | ⟨e, he, hde⟩)
        · exact Or.inl h
        · exact Or.inr
            ⟨e, List.mem_cons_of_mem _ (List.mem_cons_of_mem _ he), hde⟩
      · rintro (h | ⟨e, he, hde⟩)
        · exact Or.inl h
        · rcases List.mem_cons.1 he with rfl | he
          · exact absurd hde hd
          · rcases List.mem_cons.1 he with rfl | he
            · exact absurd hde (by simp [TraceEvent.isDispersive])
            · exact Or.inr ⟨e, he, hde⟩

/-- The invariant of a call from the one of its recursive call, when the
recursive call follows directly. -/
theorem pathInv_step_exists (rnd : Nat → ℝ) (eps n : ℝ) (level : Int)
    (st1 st2 res : TraceState) (log0 : List TraceEvent) (e0 : TraceEvent) (S D : Vec3)
    (hlog : st2.log = log0 ++ [e0])
    (hidx : st2.refractColorIndex = st1.refractColorIndex)
    (hbuf : st2.refractRateBuf = st1.refractRateBuf)
    (hflag : st2.isChromaticDisperson = st1.isChromaticDisperson)
    (hl : level + 1 ≠ 0)
    (h : ∃ rest, res.log = st2.log ++ TraceEvent.call (level + 1) S D :: rest ∧
      PathInv eps n (level + 1) (pathInit rnd (level + 1) (entered st2 (level + 1) S D))
        res rest) :
    ∃ rest, res.log = log0 ++ e0 :: rest ∧ PathInv eps n level st1 res rest := by
  obtain ⟨rest, h1, h2⟩ := h
  refine ⟨TraceEvent.call (level + 1) S D :: rest, ?_, ?_⟩
  · rw [h1, hlog]
    simp only [List.append_assoc, List.singleton_append]
  · rw [pathInit_of_ne rnd (level + 1) _ hl] at h2
    exact pathInv_step eps n level st1 _ res S D rest hidx hbuf hflag h2 hl

/-- The invariant of a call that refracts from the one of its recursive call. -/
theorem pathInv_refract_exists (rnd : Nat → ℝ) (eps n : ℝ) (level : Int)
    (material : Material) (st1 res : TraceState) (log0 : List TraceEvent) (e0 : TraceEvent)
    (P RayO : Vec3) (hlog : st1.log = log0 ++ [e0]) (hl : level + 1 ≠ 0)
    (h : ∃ rest, res.log = (refractState material st1 P RayO).log ++
        TraceEvent.call (level + 1) (P.add (Vec3.mul eps RayO)) RayO :: rest ∧
      PathInv eps n (level + 1)
        (pathInit rnd (level + 1)
          (entered (refractState material st1 P RayO) (level + 1)
            (P.add (Vec3.mul eps RayO)) RayO))
        res rest) :
    ∃ rest, res.log = log0 ++ e0 :: rest ∧ PathInv eps n level st1 res rest := by
  obtain ⟨rest, h1, h2⟩ := h
  refine ⟨TraceEvent.refract st1.refractColorIndex st1.refractRateBuf
      (refractRateOut material st1) P RayO material.refractRate ::
    TraceEvent.call (level + 1) (P.add (Vec3.mul eps RayO)) RayO :: rest, ?_, ?_⟩
  · rw [h1]
    simp only [refractState, hlog, List.append_assoc, List.singleton_append, List.cons_append,
      List.nil_append]
  · rw [pathInit_of_ne rnd (level + 1) _ hl] at h2
    exact pathInv_refract eps n level material st1
      (entered (refractState material st1 P RayO) (level + 1) (P.add (Vec3.mul eps RayO)) RayO)
      res P RayO rest rfl rfl rfl h2 hl

/-- The path invariant: a `traceRay` call at a level `>= 0` records its own
call and then events that satisfy `PathInv`. -/
theorem path_invariant (sc : Scene) (rnd : Nat → ℝ) (n : ℝ) (m : Nat) :
    ∀ (level : Int) (RaySt Ray color : Vec3) (st : TraceState), 0 ≤ level →
      (sc.maxRayLevel + 1 - level).toNat = m →
      ∃ rest,
        (traceRay sc rnd RaySt Ray color level st).2.log
          = st.log ++ TraceEvent.call level RaySt Ray :: rest ∧
        PathInv sc.eps n level (pathInit rnd level (entered st level RaySt Ray))
          (traceRay sc rnd RaySt Ray color level st).2 rest := by
  induction m using Nat.strong_induction_on with
  | _ m ih =>
    intro level RaySt Ray color st hl0 hm
    have hterm : ∀ res : TraceState, res = entered st level RaySt Ray →
        res.log = st.log ++ TraceEvent.call level RaySt Ray :: [] ∧
        PathInv sc.eps n level (pathInit rnd level (entered st level RaySt Ray)) res [] := by
      intro res hres
      subst hres
      refine ⟨rfl, pathInv_nil _ _ _ _ _ ?_⟩
      intro hne
      rw [pathInit_of_ne rnd level _ hne]
      exact ⟨rfl, rfl⟩
    have hl1 : level + 1 ≠ 0 := by omega
    have hlog1 : (pathInit rnd level (entered st level RaySt Ray)).log
        = st.log ++ [TraceEvent.call level RaySt Ray] := by
      rw [pathInit_log, entered_log]
    cases hhit : (nearestHit sc RaySt Ray).2 with
    | none =>
      rw [traceRay_of_miss sc rnd RaySt Ray color level st
        ((nearestHit_none_iff sc RaySt Ray).2 hhit)]
      exact ⟨[], hterm _ rfl⟩
    | some t =>
      by_cases hrad : t.material.rediate = 0
      · by_cases hlevel : level > sc.maxRayLevel
        · rw [traceRay_of_cutoff sc rnd RaySt Ray color level st t hhit hrad hlevel]
          exact ⟨[], hterm _ rfl⟩
        · cases hquick : t.material.quickReflect with
          | true =>
            obtain ⟨hval, -⟩ := traceRay_quickReflect_aux sc rnd RaySt Ray color level st t hhit
              hrad hlevel hquick
            rw [hval]
            refine ⟨[], hlog1, pathInv_nil _ _ _ _ _ ?_⟩
            intro _
            exact ⟨rfl, rfl⟩
          | false =>
            cases hdiff : t.material.diffuseReflect with
            | true =>
              rw [traceRay_of_diffuse sc rnd RaySt Ray color level st t hhit hrad hlevel
                hquick hdiff, finish_snd]
              refine pathInv_step_exists rnd _ _ _ _ _ _ _ _ _ _ ?_ ?_ ?_ ?_ hl1
                (ih _ (by omega) (level + 1) _ _ _ _ (by omega) rfl)
              · exact hlog1
              · rfl
              · rfl
              · rfl
            | false =>
              by_cases hdraw :
                  rnd (pathInit rnd level (entered st level RaySt Ray)).rand < t.material.reflect
              · rw [traceRay_of_mirror sc rnd RaySt Ray color level st t hhit hrad hlevel
                  hquick hdiff hdraw, finish_snd]
                refine pathInv_step_exists rnd _ _ _ _ _ _ _ _ _ _ ?_ ?_ ?_ ?_ hl1
                  (ih _ (by omega) (level + 1) _ _ _ _ (by omega) rfl)
                · exact hlog1
                · rfl
                · rfl
                · rfl
              · rw [traceRay_of_refract sc rnd RaySt Ray color level st t hhit hrad hlevel
                  hquick hdiff hdraw, finish_snd]
                refine pathInv_refract_exists rnd _ _ _ t.material _ _ _ _ _ _ ?_ hl1
                  (ih _ (by omega) (level + 1) _ _ _ _ (by omega) rfl)
                exact hlog1
      · rw [traceRay_of_light sc rnd RaySt Ray color level st t hhit hrad]
        exact ⟨[], hterm _ rfl⟩

/-- Either a call records nothing but its own entry, or it is a hit within the
depth bound on a material that is neither a light source nor `quickReflect`. -/
theorem traceRay_terminal_or_bounce (sc : Scene) (rnd : Nat → ℝ) (RaySt Ray color : Vec3)
    (level : Int) (st : TraceState) :
    (traceRay sc rnd RaySt Ray color level st).2.log
        = st.log ++ [TraceEvent.call level RaySt Ray] ∨
      ∃ t, (nearestHit sc RaySt Ray).2 = some t ∧ t.material.rediate = 0 ∧
        ¬ level > sc.maxRayLevel ∧ t.material.quickReflect = false := by
  cases hhit : (nearestHit sc RaySt Ray).2 with
  | none =>
    left
    rw [traceRay_of_miss sc rnd RaySt Ray color level st
      ((nearestHit_none_iff sc RaySt Ray).2 hhit)]
    rfl
  | some t =>
    by_cases hrad : t.material.rediate = 0
    · by_cases hlevel : level > sc.maxRayLevel
      · left
        rw [traceRay_of_cutoff sc rnd RaySt Ray color level st t hhit hrad hlevel]
        rfl
      · cases hquick : t.material.quickReflect with
        | true =>
          left
          rw [(traceRay_quickReflect_aux sc rnd RaySt Ray color level st t hhit hrad hlevel
            hquick).1, pathInit_log, entered_log]
        | false => exact Or.inr ⟨t, rfl, hrad, hlevel, hquick⟩
    · left
      rw [traceRay_of_light sc rnd RaySt Ray color level st t hhit hrad]
      rfl

/-- The recursive branches at once: one recursive call at `level + 1` on the same
accumulator, whose colour is scaled by `reflectLossRate` or `refractLossRate`
and handed to the tail; the state handed down has recorded this call. -/
theorem traceRay_of_bounce_loss (sc : Scene) (rnd : Nat → ℝ) (RaySt Ray color : Vec3)
    (level : Int) (st : TraceState) (t : Triangle) (h : (nearestHit sc RaySt Ray).2 = some t)
    (hrad : t.material.rediate = 0) (hlevel : ¬ level > sc.maxRayLevel)
    (hquick : t.material.quickReflect = false) :
    ∃ RaySt1 Ray1 st1 loss,
      traceRay sc rnd RaySt Ray color level st =
        finish t.material level
          (Vec3.mul loss (traceRay sc rnd RaySt1 Ray1 color (level + 1) st1).1)
          (traceRay sc rnd RaySt1 Ray1 color (level + 1) st1).2 ∧
      callCount st1.log = callCount st.log + 1 ∧
      (loss = t.material.reflectLossRate ∨ loss = t.material.refractLossRate) := by
  cases hdiff : t.material.diffuseReflect with
  | true =>
    exact ⟨_, _, _, _,
      traceRay_of_diffuse sc rnd RaySt Ray color level st t h hrad hlevel hquick hdiff,
      by simp only [pathInit_log, entered_log, callCount_append, callCount_call], Or.inl rfl⟩
  | false =>
    by_cases hdraw :
        rnd (pathInit rnd level (entered st level RaySt Ray)).rand < t.material.reflect
    · exact ⟨_, _, _, _,
        traceRay_of_mirror sc rnd RaySt Ray color level st t h hrad hlevel hquick hdiff hdraw,
        by simp only [pathInit_log, entered_log, callCount_append, callCount_call], Or.inl rfl⟩
    · exact ⟨_, _, _, _,
        traceRay_of_refract sc rnd RaySt Ray color level st t h hrad hlevel hquick hdiff hdraw,
        by simp only [refractState, pathInit_log, entered_log, callCount_append, callCount_call,
          callCount_refract, Nat.add_zero],
        Or.inr rfl⟩

/-- Every call records at least its own entry. -/
theorem traceRay_calls_ge (sc : Scene) (rnd : Nat → ℝ) (RaySt Ray color : Vec3) (level : Int)
    (st : TraceState) (hl : 0 ≤ level) :
    callCount st.log + 1 ≤ callCount (traceRay sc rnd RaySt Ray color level st).2.log := by
  obtain ⟨rest, hlog, -⟩ := path_invariant sc rnd 0 _ level RaySt Ray color st hl rfl
  rw [hlog]
  have : st.log ++ TraceEvent.call level RaySt Ray :: rest
      = st.log ++ [TraceEvent.call level RaySt Ray] ++ rest := by simp
  rw [this, callCount_append, callCount_append, callCount_call]
  omega

/-- In the recursive branches something is recorded after the call's own entry. -/
theorem rest_ne_nil_of_bounce (sc : Scene) (rnd : Nat → ℝ) (RaySt Ray color : Vec3)
    (level : Int) (st : TraceState) (t : Triangle) (hl : 0 ≤ level)
    (h : (nearestHit sc RaySt Ray).2 = some t)
    (hrad : t.material.rediate = 0) (hlevel : ¬ level > sc.maxRayLevel)
    (hquick : t.material.quickReflect = false) (rest : List TraceEvent)
    (hlog : (traceRay sc rnd RaySt Ray color level st).2.log
      = st.log ++ TraceEvent.call level RaySt Ray :: rest) : rest ≠ [] := by
  intro hnil
  obtain ⟨RaySt1, Ray1, st1, loss, heq, hcount, -⟩ :=
    traceRay_of_bounce_loss sc rnd RaySt Ray color level st t h hrad hlevel hquick
  have hge := traceRay_calls_ge sc rnd RaySt1 Ray1 color (level + 1) st1 (by omega)
  rw [heq, finish_snd, hnil] at hlog
  rw [hlog, callCount_append, callCount_call] at hge
  omega

theorem rest_nil_of_terminal (log : List TraceEvent) (e : TraceEvent) (rest : List TraceEvent)
    (l : List TraceEvent) (h1 : l = log ++ e :: rest) (h2 : l = log ++ [e]) : rest = [] := by
  rw [h1] at h2
  have := List.append_cancel_left h2
  simpa using this

/-! ### Chromatic dispersion -/

theorem single_elementMul_get_ne (i j : Int) (v : ℝ) (c : Vec3) (h : j ≠ i) :
    ((Vec3.single i v).elementMul c).get j = 0 := by
  simp only [Vec3.get, Vec3.single, Vec3.elementMul]
  split_ifs <;> first | rfl | simp_all

theorem single_elementMul_get_self (i : Int) (v : ℝ) (c : Vec3) :
    ((Vec3.single i v).elementMul c).get i = v * c.get i := by
  simp only [Vec3.get, Vec3.single, Vec3.elementMul]
  split_ifs <;> simp_all

theorem pathInit_zero_index (rnd : Nat → ℝ) (st : TraceState) (RaySt Ray : Vec3) :
    (pathInit rnd 0 (entered st 0 RaySt Ray)).refractColorIndex = toInt (rnd st.rand * 3) := by
  simp [pathInit, entered]

theorem pathInit_zero_buf (rnd : Nat → ℝ) (st : TraceState) (RaySt Ray : Vec3) :
    (pathInit rnd 0 (entered st 0 RaySt Ray)).refractRateBuf = 1 := by
  simp [pathInit]

/-- A bounce is the tail of `traceRay` applied to the accumulated colour of the
branch taken and to the statics as the recursive call left them. -/
theorem traceRay_bounce_acc (sc : Scene) (rnd : Nat → ℝ) (RaySt Ray color : Vec3)
    (level : Int) (st : TraceState) (t : Triangle)
    (hhit : (nearestHit sc RaySt Ray).2 = some t) (hrad : t.material.rediate = 0)
    (hlevel : ¬ level > sc.maxRayLevel) (hquick : t.material.quickReflect = false) :
    traceRay sc rnd RaySt Ray color level st
      = finish t.material level (bounceAcc sc rnd RaySt Ray color level st t)
          (traceRay sc rnd RaySt Ray color level st).2 := by
  cases hdiff : t.material.diffuseReflect with
  | true =>
    have e := traceRay_of_diffuse sc rnd RaySt Ray color level st t hhit hrad hlevel hquick
      hdiff
    have hacc : bounceAcc sc rnd RaySt Ray color level st t
        = Vec3.mul t.material.reflectLossRate
          (traceRay sc rnd (hitPoint sc RaySt Ray)
            (diffuseReflect Ray (hitFaceVec t (hitPoint sc RaySt Ray))
              (rnd (pathInit rnd level (entered st level RaySt Ray)).rand)
              (rnd ((pathInit rnd level (entered st level RaySt Ray)).rand + 1)))
            color (level + 1)
            { pathInit rnd level (entered st level RaySt Ray) with
              rand := (pathInit rnd level (entered st level RaySt Ray)).rand + 2 }).1 := by
      simp only [bounceAcc, hdiff, if_true]
    rw [hacc]
    conv_rhs => rw [e, finish_snd]
    exact e
  | false =>
    by_cases hdraw :
        rnd (pathInit rnd level (entered st level RaySt Ray)).rand < t.material.reflect
    · have e := traceRay_of_mirror sc rnd RaySt Ray color level st t hhit hrad hlevel hquick
        hdiff hdraw
      have hacc : bounceAcc sc rnd RaySt Ray color level st t
          = Vec3.mul t.material.reflectLossRate
            (traceRay sc rnd (hitPoint sc RaySt Ray)
              (reflect Ray (hitFaceVec t (hitPoint sc RaySt Ray))) color (level + 1)
              { pathInit rnd level (entered st level RaySt Ray) with
                rand := (pathInit rnd level (entered st level RaySt Ray)).rand + 1 }).1 := by
        simp only [bounceAcc, hdiff, Bool.false_eq_true, if_false, hdraw, if_true]
      rw [hacc]
      conv_rhs => rw [e, finish_snd]
      exact e
    · have e := traceRay_of_refract sc rnd RaySt Ray color level st t hhit hrad hlevel hquick
        hdiff hdraw
      have hacc : bounceAcc sc rnd RaySt Ray color level st t
          = Vec3.mul t.material.refractLossRate
            (traceRay sc rnd
              ((hitPoint sc RaySt Ray).add (Vec3.mul sc.eps
                (refract Ray (hitFaceVec t (hitPoint sc RaySt Ray))
                  (pathInit rnd level (entered st level RaySt Ray)).refractRateBuf
                  (refractRateOut t.material
                    (pathInit rnd level (entered st level RaySt Ray))))))
              (refract Ray (hitFaceVec t (hitPoint sc RaySt Ray))
                (pathInit rnd level (entered st level RaySt Ray)).refractRateBuf
                (refractRateOut t.material (pathInit rnd level (entered st level RaySt Ray))))
              color (level + 1)
              (refractState t.material (pathInit rnd level (entered st level RaySt Ray))
                (hitPoint sc RaySt Ray)
                (refract Ray (hitFaceVec t (hitPoint sc RaySt Ray))
                  (pathInit rnd level (entered st level RaySt Ray)).refractRateBuf
                  (refractRateOut t.material
                    (pathInit rnd level (entered st level RaySt Ray)))))).1 := by
        simp only [bounceAcc, hdiff, Bool.false_eq_true, if_false, hdraw]
      rw [hacc]
      conv_rhs => rw [e, finish_snd]
      exact e

/-- C17. Chromatic dispersion collapse, for a level-0 call and the events `rest`
it records after its own entry.  If a refraction on a material with unequal
`refractRate` channels is among them, the call hit a primitive `t` that is no
light source and has no `quickReflect`, and with `acc = bounceAcc ...` the
accumulated colour (the colour of the recursive call of the branch taken at
level 0, scaled by that branch's loss rate) and `idx` the channel drawn at level
0, the returned colour is zero in every channel other than `idx` and is
`3 * acc[idx] * t.material.color[idx]` in channel `idx`.  If no such refraction
is among them, the colour of a bounce is not collapsed: it is `acc` times the
material's colour, channel by channel. -/
theorem traceRay_dispersion_collapse (sc : Scene) (rnd : Nat → ℝ) (RaySt Ray color : Vec3)
    (st : TraceState) :
    ∃ rest,
      (traceRay sc rnd RaySt Ray color 0 st).2.log
        = st.log ++ TraceEvent.call 0 RaySt Ray :: rest ∧
      ((∃ e ∈ rest, TraceEvent.isDispersive e) →
        ∃ t,
          (nearestHit sc RaySt Ray).2 = some t ∧ t.material.rediate = 0 ∧
          t.material.quickReflect = false ∧ 0 ≤ sc.maxRayLevel ∧
          (traceRay sc rnd RaySt Ray color 0 st).1
            = (Vec3.single (toInt (rnd st.rand * 3))
                (3 * (bounceAcc sc rnd RaySt Ray color 0 st t).get
                  (toInt (rnd st.rand * 3)))).elementMul t.material.color ∧
          (∀ j, j ≠ toInt (rnd st.rand * 3) →
            (traceRay sc rnd RaySt Ray color 0 st).1.get j = 0) ∧
          (traceRay sc rnd RaySt Ray color 0 st).1.get (toInt (rnd st.rand * 3))
            = 3 * (bounceAcc sc rnd RaySt Ray color 0 st t).get (toInt (rnd st.rand * 3))
              * t.material.color.get (toInt (rnd st.rand * 3))) ∧
      ((¬ ∃ e ∈ rest, TraceEvent.isDispersive e) →
        ∀ t, (nearestHit sc RaySt Ray).2 = some t → t.material.rediate = 0 →
          0 ≤ sc.maxRayLevel → t.material.quickReflect = false →
          (traceRay sc rnd RaySt Ray color 0 st).1
            = (bounceAcc sc rnd RaySt Ray color 0 st t).elementMul t.material.color) := by
  obtain ⟨rest, hlog, -, -, hinv⟩ := path_invariant sc rnd 0 _ 0 RaySt Ray color st le_rfl rfl
  rw [pathInit_zero_index] at hinv
  have hflag0 : (pathInit rnd 0 (entered st 0 RaySt Ray)).isChromaticDisperson = false :=
    pathInit_flag rnd _
  refine ⟨rest, hlog, ?_, ?_⟩
  · rintro ⟨e, he, hd⟩
    have hne : rest ≠ [] := List.ne_nil_of_mem he
    rcases traceRay_terminal_or_bounce sc rnd RaySt Ray color 0 st with hterm | ⟨t, hhit, hrad,
      hlevel, hquick⟩
    · exact absurd (rest_nil_of_terminal _ _ _ _ hlog hterm) hne
    · have heq := traceRay_bounce_acc sc rnd RaySt Ray color 0 st t hhit hrad hlevel hquick
      obtain ⟨hidx, hfl⟩ := hinv (Or.inr hne)
      have hflag : (traceRay sc rnd RaySt Ray color 0 st).2.isChromaticDisperson = true :=
        hfl.2 (Or.inr ⟨e, he, hd⟩)
      have hval : (traceRay sc rnd RaySt Ray color 0 st).1
          = (Vec3.single (toInt (rnd st.rand * 3))
              (3 * (bounceAcc sc rnd RaySt Ray color 0 st t).get
                (toInt (rnd st.rand * 3)))).elementMul t.material.color := by
        conv_lhs => rw [heq]
        simp only [finish, hflag, hidx, and_self, if_true]
      refine ⟨t, hhit, hrad, hquick, not_lt.1 hlevel, hval, ?_, ?_⟩
      · intro j hj
        rw [hval]
        exact single_elementMul_get_ne _ _ _ _ hj
      · rw [hval]
        exact single_elementMul_get_self _ _ _
  · intro hno t hhit hrad hmax hquick
    have hlevel : ¬ (0 : Int) > sc.maxRayLevel := not_lt.2 hmax
    have heq := traceRay_bounce_acc sc rnd RaySt Ray color 0 st t hhit hrad hlevel hquick
    have hne := rest_ne_nil_of_bounce sc rnd RaySt Ray color 0 st t le_rfl hhit hrad hlevel
      hquick rest hlog
    obtain ⟨-, hfl⟩ := hinv (Or.inr hne)
    have hflag : (traceRay sc rnd RaySt Ray color 0 st).2.isChromaticDisperson = false := by
      cases hb : (traceRay sc rnd RaySt Ray color 0 st).2.isChromaticDisperson with
      | false => rfl
      | true =>
        rcases hfl.1 hb with h | h
        · rw [hflag0] at h
          exact absurd h (by simp)
        · exact absurd h hno
    conv_lhs => rw [heq]
    simp only [finish, hflag, Bool.false_eq_true, and_false, if_false]

/-! ### Medium toggling -/

theorem otherRate_otherRate (n b : ℝ) (hn : n ≠ 1) (hb : b = 1 ∨ b = n) :
    otherRate n (otherRate n b) = b := by
  rcases hb with rfl | rfl
  · simp [otherRate, Ne.symm hn]
  · simp [otherRate, Ne.symm hn]

/-- Along a toggling log that starts in medium `b` (one of `1`, `n`), the `k`-th
refraction event uses channel `idx` and goes from `b` to the other rate when `k`
is even, and back when `k` is odd. -/
theorem toggles_nth (idx : Int) (n : ℝ) (hn : n ≠ 1) :
    ∀ (rest : List TraceEvent) (b : ℝ), (b = 1 ∨ b = n) → Toggles idx n b rest →
      ∀ (k : Nat) (i : Int) (rI rO : ℝ), (refractEvents rest)[k]? = some (i, rI, rO) →
        i = idx ∧ rI = (if k % 2 = 0 then b else otherRate n b) ∧
          rO = (if k % 2 = 0 then otherRate n b else b) := by
  intro rest
  induction rest with
  | nil =>
    intro b _ _ k i rI rO hk
    simp [refractEvents] at hk
  | cons e es ih =>
    intro b hb ht k i rI rO hk
    cases e with
    | call l S D =>
      exact ih b hb ht k i rI rO hk
    | refract i0 rI0 rO0 P R rates =>
      obtain ⟨h1, h2, h3, h4⟩ := ht
      have hb1 : otherRate n b = 1 ∨ otherRate n b = n := by
        unfold otherRate
        split_ifs
        · exact Or.inl rfl
        · exact Or.inr rfl
      cases k with
      | zero =>
        simp only [refractEvents, List.getElem?_cons_zero, Option.some.injEq,
          Prod.mk.injEq] at hk
        obtain ⟨rfl, rfl, rfl⟩ := hk
        exact ⟨h1, by simpa using h2, by simpa [otherRate] using h3⟩
      | succ k =>
        simp only [refractEvents, List.getElem?_cons_succ] at hk
        obtain ⟨hi, hrI, hrO⟩ := ih (otherRate n b) hb1 h4 k i rI rO hk
        rw [otherRate_otherRate n b hn hb] at hrI hrO
        refine ⟨hi, ?_, ?_⟩
        · rw [hrI]
          rcases Nat.mod_two_eq_zero_or_one k with h | h <;>
            simp [h, Nat.succ_mod_two_eq_zero_iff, Nat.add_mod]
        · rw [hrO]
          rcases Nat.mod_two_eq_zero_or_one k with h | h <;>
            simp [h, Nat.succ_mod_two_eq_zero_iff, Nat.add_mod]

/-- In a log where every refraction is followed by its recursive call, the event
after a refraction at position `j` is the call that starts at
`hitPoint + eps * RayO` with direction `RayO`. -/
theorem followed_nth (eps : ℝ) :
    ∀ (rest : List TraceEvent), Followed eps rest →
      ∀ (j : Nat) (i : Int) (rI rO : ℝ) (P R rates : Vec3),
        rest[j]? = some (TraceEvent.refract i rI rO P R rates) →
        ∃ level, rest[j + 1]? = some (TraceEvent.call level (P.add (Vec3.mul eps R)) R) := by
  intro rest
  induction rest with
  | nil =>
    intro _ j i rI rO P R rates hj
    simp at hj
  | cons e es ih =>
    intro hf j i rI rO P R rates hj
    cases j with
    | zero =>
      simp only [List.getElem?_cons_zero, Option.some.injEq] at hj
      subst hj
      obtain ⟨⟨level, tl, hes⟩, -⟩ := hf
      exact ⟨level, by simp [hes]⟩
    | succ j =>
      simp only [List.getElem?_cons_succ] at hj ⊢
      have hf1 : Followed eps es := by
        cases e with
        | call l S D => exact hf
        | refract i0 rI0 rO0 P0 R0 rates0 => exact hf.2
      exact ih hf1 j i rI rO P R rates hj

/-- C18. Medium toggling along a primary-ray path: for a level-0 call and the
events `rest` it records after its own entry, every refraction event is directly
followed by the recursive call that starts at `hitPoint + eps * RayO` with the
refracted direction `RayO`; and if all refractions occur on materials whose
`refractRate` in the selected channel is the same `n != 1`, then the `k`-th
refraction event calls `refract` with rates `(1, n)` when `k` is even and
`(n, 1)` when `k` is odd, always with the channel index drawn at level 0. -/
theorem traceRay_medium_toggling (sc : Scene) (rnd : Nat → ℝ) (RaySt Ray color : Vec3)
    (st : TraceState) (n : ℝ) (hn : n ≠ 1) :
    ∃ rest,
      (traceRay sc rnd RaySt Ray color 0 st).2.log
        = st.log ++ TraceEvent.call 0 RaySt Ray :: rest ∧
      (∀ (j : Nat) (i : Int) (rI rO : ℝ) (P R rates : Vec3),
        rest[j]? = some (TraceEvent.refract i rI rO P R rates) →
        ∃ level, rest[j + 1]? = some (TraceEvent.call level (P.add (Vec3.mul sc.eps R)) R)) ∧
      ((∀ e ∈ rest, TraceEvent.onIndex n e) →
        ∀ (k : Nat) (i : Int) (rI rO : ℝ), (refractEvents rest)[k]? = some (i, rI, rO) →
          i = toInt (rnd st.rand * 3) ∧
          (rI, rO) = if k % 2 = 0 then (1, n) else (n, 1)) := by
  obtain ⟨rest, hlog, hfol, htog, -⟩ := path_invariant sc rnd n _ 0 RaySt Ray color st le_rfl rfl
  rw [pathInit_zero_index, pathInit_zero_buf] at htog
  refine ⟨rest, hlog, followed_nth sc.eps rest hfol, ?_⟩
  intro hall k i rI rO hk
  obtain ⟨hi, hrI, hrO⟩ := toggles_nth _ n hn rest 1 (Or.inl rfl) (htog hall) k i rI rO hk
  have ho : otherRate n 1 = n := by simp [otherRate, Ne.symm hn]
  rw [ho] at hrI hrO
  refine ⟨hi, ?_⟩
  rw [hrI, hrO]
  split_ifs <;> rfl

/-! ### The prism scene -/

/-- Beyond the depth bound a call records nothing but its own entry. -/
theorem traceRay_log_beyond (sc : Scene) (rnd : Nat → ℝ) (RaySt Ray color : Vec3)
    (level : Int) (st : TraceState) (h : level > sc.maxRayLevel) :
    (traceRay sc rnd RaySt Ray color level st).2.log
      = st.log ++ [TraceEvent.call level RaySt Ray] := by
  rcases traceRay_terminal_or_bounce sc rnd RaySt Ray color level st with hterm | ⟨t, -, -,
    hlevel, -⟩
  · exact hterm
  · exact absurd h hlevel

/-- The run of the prism scene (depth bound `0`, every draw `0`): the level-0
call refracts from air (`1`) into the glass (`3/2` in channel `0`), and the
recursive call at level 1 is cut off; three events are recorded. -/
theorem prism_log :
    ∃ P R : Vec3,
      (traceRay prismScene (fun _ => 0) ⟨0, 0, 0⟩ ⟨0, 0, 1⟩ Vec3.zero 0 freshState).2.log
        = [TraceEvent.call 0 ⟨0, 0, 0⟩ ⟨0, 0, 1⟩,
            TraceEvent.refract 0 1 (3 / 2) P R ⟨3 / 2, 8 / 5, 17 / 10⟩,
            TraceEvent.call 1 (P.add (Vec3.mul (1e-4) R)) R] := by
  have hhit : (nearestHit prismScene ⟨0, 0, 0⟩ ⟨0, 0, 1⟩).2
      = some ⟨⟨0, 0, 5⟩, ⟨1, 1, 1⟩, ⟨DBL_MAX, 0, 0⟩, prismMaterial⟩ := by
    unfold prismScene
    rw [nearestHit_light_ball [] 1e-4 0 prismMaterial (by norm_num)]
  have hmax : prismScene.maxRayLevel = 0 := rfl
  have heps : prismScene.eps = 1e-4 := rfl
  have hidx : (pathInit (fun _ => (0 : ℝ)) 0
      (entered freshState 0 ⟨0, 0, 0⟩ ⟨0, 0, 1⟩)).refractColorIndex = 0 := by
    rw [pathInit_zero_index]
    simp [toInt]
  have hbuf := pathInit_zero_buf (fun _ => (0 : ℝ)) freshState ⟨0, 0, 0⟩ ⟨0, 0, 1⟩
  have hout : refractRateOut prismMaterial
      (pathInit (fun _ => (0 : ℝ)) 0 (entered freshState 0 ⟨0, 0, 0⟩ ⟨0, 0, 1⟩)) = 3 / 2 := by
    simp only [refractRateOut, hidx, hbuf]
    norm_num [prismMaterial, Vec3.get]
  rw [traceRay_of_refract prismScene _ _ _ _ 0 freshState _ hhit rfl (by rw [hmax]; decide)
    rfl rfl (by norm_num [prismMaterial]), finish_snd,
    traceRay_log_beyond _ _ _ _ _ _ _ (by rw [hmax]; decide)]
  refine ⟨hitPoint prismScene ⟨0, 0, 0⟩ ⟨0, 0, 1⟩,
    refract ⟨0, 0, 1⟩
      (hitFaceVec ⟨⟨0, 0, 5⟩, ⟨1, 1, 1⟩, ⟨DBL_MAX, 0, 0⟩, prismMaterial⟩
        (hitPoint prismScene ⟨0, 0, 0⟩ ⟨0, 0, 1⟩)) 1 (3 / 2), ?_⟩
  simp only [refractState, pathInit_log, entered_log, hidx, hbuf, hout, heps, zero_add]
  rfl

/-- C18 on the prism scene, with `n = 3/2`: the one refraction event (the `0`-th)
goes from rate `1` to rate `3/2` in channel `0`. -/
theorem traceRay_medium_toggling_witness :
    ∃ rest,
      (traceRay prismScene (fun _ => 0) ⟨0, 0, 0⟩ ⟨0, 0, 1⟩ Vec3.zero 0 freshState).2.log
        = freshState.log ++ TraceEvent.call 0 ⟨0, 0, 0⟩ ⟨0, 0, 1⟩ :: rest ∧
      (refractEvents rest)[0]? = some (0, 1, 3 / 2) := by
  obtain ⟨rest, hlog, -, h2⟩ := traceRay_medium_toggling prismScene (fun _ => 0)
    ⟨0, 0, 0⟩ ⟨0, 0, 1⟩ Vec3.zero freshState (3 / 2) (by norm_num)
  refine ⟨rest, hlog, ?_⟩
  obtain ⟨P, R, hp⟩ := prism_log
  rw [hp] at hlog
  have hrest : rest = [TraceEvent.refract 0 1 (3 / 2) P R ⟨3 / 2, 8 / 5, 17 / 10⟩,
      TraceEvent.call 1 (P.add (Vec3.mul (1e-4) R)) R] := by
    simp only [freshState, List.nil_append, List.cons.injEq, true_and] at hlog
    exact hlog.symm
  have hall : ∀ e ∈ rest, TraceEvent.onIndex (3 / 2) e := by
    intro e he
    rw [hrest] at he
    rcases List.mem_cons.1 he with rfl | he
    · norm_num [TraceEvent.onIndex, Vec3.get]
    · rcases List.mem_cons.1 he with rfl | he
      · trivial
      · simp at he
  have hk : (refractEvents rest)[0]? = some (0, 1, 3 / 2) := by
    rw [hrest]
    rfl
  exact hk

/-! ### The guarded operations agree with the plain ones where they are defined -/

theorem divG_ok (x y : ℝ) (h : y ≠ 0) : divG x y = Except.ok (x / y) := by
  simp only [divG, if_neg h]

theorem Vec3.normalizeG_ok (a : Vec3) (h : 0 < a.dot a) :
    a.normalizeG = Except.ok a.normalize := by
  simp only [Vec3.normalizeG, if_neg (ne_of_gt (a.norm_pos_of_dot_pos h))]

theorem Vec3.normalize_dot_self (a : Vec3) (h : 0 < a.dot a) :
    a.normalize.dot a.normalize = 1 :=
  (Vec3.norm_eq_one_iff _).1 (Vec3.normalize_norm a h)

theorem Vec3.getG_ok (a : Vec3) (i : Int) (h : i = 0 ∨ i = 1 ∨ i = 2) :
    a.getG i = Except.ok (a.get i) := by
  simp only [Vec3.getG, if_pos h]

theorem reflect_pre_dot (I N : Vec3) (hI : I.dot I = 1) (hN : N.dot N = 1) :
    ((Vec3.mul (-2 * N.dot I) N).add I).dot ((Vec3.mul (-2 * N.dot I) N).add I) = 1 :=
  (Vec3.norm_eq_one_iff _).1
    (reflect_pre_norm I N ((Vec3.norm_eq_one_iff I).2 hI) ((Vec3.norm_eq_one_iff N).2 hN))

theorem reflectG_ok (I N : Vec3) (hI : I.dot I = 1) (hN : N.dot N = 1) :
    reflectG I N = Except.ok (reflect I N) ∧ (reflect I N).dot (reflect I N) = 1 := by
  have h := reflect_pre_dot I N hI hN
  have hpos : 0 < ((Vec3.mul (-2 * N.dot I) N).add I).dot ((Vec3.mul (-2 * N.dot I) N).add I) := by
    rw [h]
    exact one_pos
  exact ⟨Vec3.normalizeG_ok _ hpos, Vec3.normalize_dot_self _ hpos⟩

/-- The squared length of the refracted direction before normalisation is
`1 / k^2`, for any non-zero ratio `k`. -/
theorem refract_pre_dot (I N : Vec3) (k s σ : ℝ) (hI2 : I.dot I = 1) (hN2 : N.dot N = 1)
    (hk : k ≠ 0) (hσ : σ ^ 2 = 1) (hs : s ^ 2 = 1 - k ^ 2 * (1 - (N.dot I) ^ 2)) :
    (I.add (Vec3.mul (-(N.dot I) - σ * s / k) N)).dot
      (I.add (Vec3.mul (-(N.dot I) - σ * s / k) N)) = 1 / k ^ 2 := by
  have key : (I.add (Vec3.mul (-(N.dot I) - σ * s / k) N)).dot
      (I.add (Vec3.mul (-(N.dot I) - σ * s / k) N))
      = 1 + 2 * (-(N.dot I) - σ * s / k) * N.dot I + (-(N.dot I) - σ * s / k) ^ 2 := by
    simp only [Vec3.dot, Vec3.add, Vec3.mul] at *
    linear_combination hI2 + (-(N.x * I.x + N.y * I.y + N.z * I.z) - σ * s / k) ^ 2 * hN2
  rw [key]
  generalize N.dot I = c at hs
  field_simp
  linear_combination (k * σ ^ 2) * hs + (k * (1 - k ^ 2 * (1 - c ^ 2))) * hσ

theorem refractG_ok (I N : Vec3) (rateI rateO : ℝ) (hI : I.dot I = 1) (hN : N.dot N = 1)
    (hrI : rateI ≠ 0) (hrO : rateO ≠ 0) :
    refractG I N rateI rateO = Except.ok (refract I N rateI rateO) ∧
      (refract I N rateI rateO).dot (refract I N rateI rateO) = 1 := by
  have hk : rateI / rateO ≠ 0 := div_ne_zero hrI hrO
  by_cases hC : 1 - (rateI / rateO) ^ 2 * (1 - (N.dot I) ^ 2) < 0
  · simp only [refractG, refract, divG_ok _ _ hrO, if_pos hC]
    exact reflectG_ok I N hI hN
  · have hσ : ((if N.dot I > 0 then -1 else 1 : ℝ)) ^ 2 = 1 := by
      split_ifs <;> norm_num
    have hn := refract_pre_dot I N (rateI / rateO)
      (Real.sqrt (1 - (rateI / rateO) ^ 2 * (1 - (N.dot I) ^ 2)))
      (if N.dot I > 0 then -1 else 1) hI hN hk hσ (Real.sq_sqrt (not_lt.1 hC))
    have hpos : 0 < (I.add (Vec3.mul (-(N.dot I) - (if N.dot I > 0 then -1 else 1) *
        Real.sqrt (1 - (rateI / rateO) ^ 2 * (1 - (N.dot I) ^ 2)) / (rateI / rateO)) N)).dot
        (I.add (Vec3.mul (-(N.dot I) - (if N.dot I > 0 then -1 else 1) *
        Real.sqrt (1 - (rateI / rateO) ^ 2 * (1 - (N.dot I) ^ 2)) / (rateI / rateO)) N)) := by
      rw [hn]
      positivity
    simp only [refractG, refract, divG_ok _ _ hrO, divG_ok _ _ hk, if_neg hC]
    exact ⟨Vec3.normalizeG_ok _ hpos, Vec3.normalize_dot_self _ hpos⟩

/-- The helper axis of `diffuseReflect` is never parallel to a unit normal. -/
theorem diffuse_axis (n : Vec3) (hn : n.dot n = 1) :
    0 < (Vec3.cross_ ⟨if |n.x| > 0.1 then 0 else 1,
        if (if |n.x| > 0.1 then (0 : ℝ) else 1) = 0 then 1 else 0, 0⟩ n).dot
      (Vec3.cross_ ⟨if |n.x| > 0.1 then 0 else 1,
        if (if |n.x| > 0.1 then (0 : ℝ) else 1) = 0 then 1 else 0, 0⟩ n) := by
  simp only [Vec3.dot] at hn
  by_cases h : |n.x| > 0.1
  · simp only [if_pos h, if_true, Vec3.dot, Vec3.cross_]
    have hx : 0 < n.x * n.x := by
      have : n.x ≠ 0 := by
        intro h0
        rw [h0, abs_zero] at h
        norm_num at h
      exact mul_self_pos.2 this
    nlinarith [mul_self_nonneg n.z]
  · simp only [if_neg h, one_ne_zero, if_false, Vec3.dot, Vec3.cross_]
    have hx : |n.x| ≤ 0.1 := not_lt.1 h
    have hx2 : n.x * n.x ≤ 0.01 := by
      have h1 := abs_nonneg n.x
      have h2 : |n.x| * |n.x| ≤ 0.1 * 0.1 := mul_le_mul hx hx h1 (by norm_num)
      rw [abs_mul_abs_self] at h2
      linarith
    nlinarith [mul_self_nonneg n.z, mul_self_nonneg n.y]

/-- For a unit normal `n`, an axis `t` not parallel to it and a non-zero first
weight, neither of the two later normalisations of `diffuseReflect` meets the
zero vector. -/
theorem diffuse_core (t n : Vec3) (a c s : ℝ) (hn : n.dot n = 1)
    (ht : 0 < (Vec3.cross_ t n).dot (Vec3.cross_ t n)) (hc : c ≠ 0) :
    0 < (Vec3.cross_ n (Vec3.mul c (Vec3.cross_ t n).normalize)).dot
        (Vec3.cross_ n (Vec3.mul c (Vec3.cross_ t n).normalize)) ∧
    0 < ((Vec3.mul a n).add ((Vec3.mul c (Vec3.cross_ t n).normalize).add
          (Vec3.mul s (Vec3.cross_ n (Vec3.mul c (Vec3.cross_ t n).normalize)).normalize))).dot
        ((Vec3.mul a n).add ((Vec3.mul c (Vec3.cross_ t n).normalize).add
          (Vec3.mul s (Vec3.cross_ n (Vec3.mul c (Vec3.cross_ t n).normalize)).normalize))) := by
  have hu0 := Vec3.normalize_dot_self _ ht
  have hnu0 : n.dot (Vec3.cross_ t n).normalize = 0 := by
    rw [Vec3.dot_normalize]
    have : n.dot (Vec3.cross_ t n) = 0 := by
      simp only [Vec3.dot, Vec3.cross_]
      ring
    rw [this, zero_div]
  generalize (Vec3.cross_ t n).normalize = u0 at hu0 hnu0 ⊢
  have hw : (Vec3.cross_ n (Vec3.mul c u0)).dot (Vec3.cross_ n (Vec3.mul c u0)) = c ^ 2 := by
    rw [Vec3.cross_dot_self]
    have e1 : (Vec3.mul c u0).dot (Vec3.mul c u0) = c ^ 2 * u0.dot u0 := by
      simp only [Vec3.dot, Vec3.mul]
      ring
    have e2 : n.dot (Vec3.mul c u0) = c * n.dot u0 := by
      simp only [Vec3.dot, Vec3.mul]
      ring
    rw [e1, e2, hn, hu0, hnu0]
    ring
  have hwpos : 0 < (Vec3.cross_ n (Vec3.mul c u0)).dot (Vec3.cross_ n (Vec3.mul c u0)) := by
    rw [hw]
    positivity
  refine ⟨hwpos, ?_⟩
  have hv0 := Vec3.normalize_dot_self _ hwpos
  have hnv0 : n.dot (Vec3.cross_ n (Vec3.mul c u0)).normalize = 0 := by
    rw [Vec3.dot_normalize]
    have : n.dot (Vec3.cross_ n (Vec3.mul c u0)) = 0 := by
      simp only [Vec3.dot, Vec3.cross_, Vec3.mul]
      ring
    rw [this, zero_div]
  have huv0 : u0.dot (Vec3.cross_ n (Vec3.mul c u0)).normalize = 0 := by
    rw [Vec3.dot_normalize]
    have : u0.dot (Vec3.cross_ n (Vec3.mul c u0)) = 0 := by
      simp only [Vec3.dot, Vec3.cross_, Vec3.mul]
      ring
    rw [this, zero_div]
  generalize (Vec3.cross_ n (Vec3.mul c u0)).normalize = v0 at hv0 hnv0 huv0 ⊢
  have key : ((Vec3.mul a n).add ((Vec3.mul c u0).add (Vec3.mul s v0))).dot
      ((Vec3.mul a n).add ((Vec3.mul c u0).add (Vec3.mul s v0)))
      = a ^ 2 * n.dot n + c ^ 2 * u0.dot u0 + s ^ 2 * v0.dot v0
        + 2 * a * c * n.dot u0 + 2 * a * s * n.dot v0 + 2 * c * s * u0.dot v0 := by
    simp only [Vec3.dot, Vec3.add, Vec3.mul]
    ring
  rw [key, hn, hu0, hv0, hnu0, hnv0, huv0]
  have hc2 : 0 < c ^ 2 := by positivity
  nlinarith [sq_nonneg a, sq_nonneg s]

theorem diffuseReflectG_ok (I N : Vec3) (d1 d2 : ℝ) (hN : N.dot N = 1)
    (hc : Real.cos (2 * Real.pi * d1) ≠ 0) (h2 : 0 < d2) :
    diffuseReflectG I N d1 d2 = Except.ok (diffuseReflect I N d1 d2) ∧
      (diffuseReflect I N d1 d2).dot (diffuseReflect I N d1 d2) = 1 := by
  have hn : (Vec3.mul (if N.dot I > 0 then -1 else 1) N).dot
      (Vec3.mul (if N.dot I > 0 then -1 else 1) N) = 1 := by
    split_ifs <;> simp only [Vec3.dot, Vec3.mul] at * <;> linear_combination hN
  have hc0 : Real.cos (2 * Real.pi * d1) * Real.sqrt d2 ≠ 0 :=
    mul_ne_zero hc (ne_of_gt (Real.sqrt_pos.2 h2))
  have ht := diffuse_axis _ hn
  obtain ⟨hw, hf⟩ := diffuse_core _ _ (Real.sqrt (1 - d2)) _
    (Real.sin (2 * Real.pi * d1) * Real.sqrt d2) hn ht hc0
  simp only [diffuseReflectG, diffuseReflect, Vec3.normalizeG_ok _ ht, Vec3.normalizeG_ok _ hw]
  exact ⟨Vec3.normalizeG_ok _ hf, Vec3.normalize_dot_self _ hf⟩

theorem RaySphereG_ok (O D C : Vec3) (R : ℝ) (hA : D.dot D ≠ 0) :
    RaySphereG O D C R = Except.ok (RaySphere O D C R) := by
  have h2A : 2 * D.dot D ≠ 0 := mul_ne_zero two_ne_zero hA
  simp only [RaySphereG, RaySphere, divG_ok _ _ h2A]
  split_ifs <;> rfl

theorem RayTriangleG_ok (O D p1 p2 p3 : Vec3) :
    RayTriangleG O D p1 p2 p3 = Except.ok (RayTriangle O D p1 p2 p3) := by
  by_cases ha : (if (Vec3.cross_ D (p3.sub p1)).dot (p2.sub p1) > 0
      then (Vec3.cross_ D (p3.sub p1)).dot (p2.sub p1)
      else -(Vec3.cross_ D (p3.sub p1)).dot (p2.sub p1)) < 1e-4
  · simp only [RayTriangleG, RayTriangle, if_pos ha]
  · have ha0 : (if (Vec3.cross_ D (p3.sub p1)).dot (p2.sub p1) > 0
        then (Vec3.cross_ D (p3.sub p1)).dot (p2.sub p1)
        else -(Vec3.cross_ D (p3.sub p1)).dot (p2.sub p1)) ≠ 0 := by
      intro h0
      apply ha
      rw [h0]
      norm_num
    simp only [RayTriangleG, RayTriangle, if_neg ha, divG_ok _ _ ha0]
    split_ifs <;> rfl

theorem seekIntersectionG_ok (t : Triangle) (O D : Vec3) (hA : D.dot D ≠ 0) :
    seekIntersectionG t O D = Except.ok (seekIntersection t O D) := by
  unfold seekIntersectionG seekIntersection
  split_ifs
  · exact RaySphereG_ok O D _ _ hA
  · exact RayTriangleG_ok O D _ _ _

theorem scanG_fold (sc : Scene) (O D : Vec3) (hA : D.dot D ≠ 0) (l : List Triangle) :
    ∀ acc : ℝ × Option Triangle,
      l.foldl (scanStepG sc O D) (Except.ok acc) = Except.ok (l.foldl (scanStep sc O D) acc) := by
  induction l with
  | nil =>
    intro acc
    rfl
  | cons t l ih =>
    intro acc
    rw [List.foldl_cons, List.foldl_cons]
    have hstep : scanStepG sc O D (Except.ok acc) t = Except.ok (scanStep sc O D acc t) := by
      simp only [scanStepG, scanStep, seekIntersectionG_ok t O D hA]
    rw [hstep]
    exact ih _

theorem nearestHitG_ok (sc : Scene) (O D : Vec3) (hA : D.dot D ≠ 0) :
    nearestHitG sc O D = Except.ok (nearestHit sc O D) :=
  scanG_fold sc O D hA sc.TriangleSet _

/-- Whatever `RaySphere` returns other than by its `Delta < 0` exit is a root of
the quadratic, for a non-zero direction. -/
theorem raySphere_root (O D C : Vec3) (R : ℝ) (hA : D.dot D ≠ 0)
    (h : RaySphere O D C R ≠ -DBL_MAX) :
    sphereQuadratic O D C R (RaySphere O D C R) = 0 := by
  by_cases hΔ : 2 * D.dot (O.sub C) * (2 * D.dot (O.sub C))
      - 4 * D.dot D * ((O.sub C).dot (O.sub C) - R * R) < 0
  · exfalso
    apply h
    simp only [RaySphere, if_pos hΔ]
  · have hs := Real.sq_sqrt (not_lt.1 hΔ)
    have hval : RaySphere O D C R
        = (-(2 * D.dot (O.sub C)) + (if -(2 * D.dot (O.sub C)) - Real.sqrt
            (2 * D.dot (O.sub C) * (2 * D.dot (O.sub C))
              - 4 * D.dot D * ((O.sub C).dot (O.sub C) - R * R)) > 0
            then -Real.sqrt (2 * D.dot (O.sub C) * (2 * D.dot (O.sub C))
              - 4 * D.dot D * ((O.sub C).dot (O.sub C) - R * R))
            else Real.sqrt (2 * D.dot (O.sub C) * (2 * D.dot (O.sub C))
              - 4 * D.dot D * ((O.sub C).dot (O.sub C) - R * R)))) / (2 * D.dot D) := by
      simp only [RaySphere, if_neg hΔ]
    rw [hval]
    unfold sphereQuadratic
    generalize Real.sqrt (2 * D.dot (O.sub C) * (2 * D.dot (O.sub C))
              - 4 * D.dot D * ((O.sub C).dot (O.sub C) - R * R)) = s at hs ⊢
    generalize D.dot (O.sub C) = b at hs ⊢
    generalize (O.sub C).dot (O.sub C) - R * R = cq at hs ⊢
    generalize D.dot D = A at hA hs ⊢
    split_ifs
    · field_simp
      linear_combination (2 * A ^ 2) * hs
    · field_simp
      linear_combination (2 * A ^ 2) * hs

/-- A value of `RayTriangle` other than the sentinel comes with a non-zero
determinant and is the ray parameter `mtT`. -/
theorem rayTriangle_hit (O D p1 p2 p3 : Vec3) (h : RayTriangle O D p1 p2 p3 ≠ -DBL_MAX) :
    mtDet D p1 p2 p3 ≠ 0 ∧ RayTriangle O D p1 p2 p3 = mtT O D p1 p2 p3 := by
  rw [rayTriangle_eq] at h ⊢
  by_cases h1 : |mtDet D p1 p2 p3| < 1e-4
  · rw [if_pos h1] at h
    exact absurd rfl h
  · rw [if_neg h1] at h ⊢
    have h0 : mtDet D p1 p2 p3 ≠ 0 := by
      intro h0
      apply h1
      rw [h0]
      norm_num
    refine ⟨h0, ?_⟩
    by_cases h2 : mtU O D p1 p2 p3 < 0 ∨ mtU O D p1 p2 p3 > 1
    · rw [if_pos h2] at h
      exact absurd rfl h
    · rw [if_neg h2] at h ⊢
      by_cases h3 : mtV O D p1 p2 p3 < 0 ∨ mtU O D p1 p2 p3 + mtV O D p1 p2 p3 > 1
      · rw [if_pos h3] at h
        exact absurd rfl h
      · rw [if_neg h3]

/-- With a non-zero determinant the two edges of the triangle are not parallel. -/
theorem cross_pos_of_det (D p1 p2 p3 : Vec3) (h : mtDet D p1 p2 p3 ≠ 0) :
    0 < (Vec3.cross_ (p2.sub p1) (p3.sub p1)).dot (Vec3.cross_ (p2.sub p1) (p3.sub p1)) := by
  apply Vec3.dot_self_pos
  intro hz
  apply h
  have hx := congrArg Vec3.x hz
  have hy := congrArg Vec3.y hz
  have hzz := congrArg Vec3.z hz
  simp only [Vec3.cross_, Vec3.sub] at hx hy hzz
  simp only [mtDet, Vec3.dot, Vec3.cross_, Vec3.sub]
  linear_combination (-D.x) * hx + (-D.y) * hy + (-D.z) * hzz

/-- Every point `(1 - u - v) p1 + u p2 + v p3` lies in the plane through `p1`
spanned by the two edges. -/
theorem plane_point (p1 p2 p3 : Vec3) (u v : ℝ) :
    ((baryPoint p1 p2 p3 u v).sub p1).dot (Vec3.cross_ (p2.sub p1) (p3.sub p1)) = 0 := by
  simp only [baryPoint, Vec3.dot, Vec3.cross_, Vec3.sub, Vec3.add, Vec3.mul]
  ring

/-- At a hit on a primitive (a sphere of non-zero radius, or a triangle), the
face vector of step [4] is defined and has length one. -/
theorem hitFaceVecG_ok (t : Triangle) (O D : Vec3) (hA : D.dot D ≠ 0)
    (hd : seekIntersection t O D ≠ -DBL_MAX) (hR : t.p2.x = DBL_MAX → t.p1.x ≠ 0) :
    hitFaceVecG t (O.add (Vec3.mul (seekIntersection t O D) D))
        = Except.ok (hitFaceVec t (O.add (Vec3.mul (seekIntersection t O D) D))) ∧
      (hitFaceVec t (O.add (Vec3.mul (seekIntersection t O D) D))).dot
        (hitFaceVec t (O.add (Vec3.mul (seekIntersection t O D) D))) = 1 := by
  by_cases hs : t.p2.x = DBL_MAX
  · have hval : seekIntersection t O D = RaySphere O D t.p0 t.p1.x := by
      simp only [seekIntersection, if_pos hs]
    rw [hval] at hd ⊢
    have hdist := sphere_point_dist O D t.p0 t.p1.x (RaySphere O D t.p0 t.p1.x)
    rw [raySphere_root O D t.p0 t.p1.x hA hd, zero_add] at hdist
    have hpos : 0 < ((O.add (Vec3.mul (RaySphere O D t.p0 t.p1.x) D)).sub t.p0).dot
        ((O.add (Vec3.mul (RaySphere O D t.p0 t.p1.x) D)).sub t.p0) := by
      rw [hdist]
      exact mul_self_pos.2 (hR hs)
    simp only [hitFaceVecG, hitFaceVec, if_pos hs]
    exact ⟨Vec3.normalizeG_ok _ hpos, Vec3.normalize_dot_self _ hpos⟩
  · have hval : seekIntersection t O D = RayTriangle O D t.p0 t.p1 t.p2 := by
      simp only [seekIntersection, if_neg hs]
    rw [hval] at hd
    have hpos := cross_pos_of_det D t.p0 t.p1 t.p2 (rayTriangle_hit O D _ _ _ hd).1
    simp only [hitFaceVecG, hitFaceVec, if_neg hs]
    exact ⟨Vec3.normalizeG_ok _ hpos, Vec3.normalize_dot_self _ hpos⟩

/-- A point light off the surface of the primitive is not at the hit point. -/
theorem light_off_hit (t : Triangle) (O D L : Vec3) (hA : D.dot D ≠ 0)
    (hd : seekIntersection t O D ≠ -DBL_MAX) (hoff : offSurface t L) :
    0 < (L.sub (O.add (Vec3.mul (seekIntersection t O D) D))).dot
      (L.sub (O.add (Vec3.mul (seekIntersection t O D) D))) := by
  apply Vec3.dot_self_pos
  intro hz
  have hL : L = O.add (Vec3.mul (seekIntersection t O D) D) := by
    have hx := congrArg Vec3.x hz
    have hy := congrArg Vec3.y hz
    have hzz := congrArg Vec3.z hz
    simp only [Vec3.sub] at hx hy hzz
    ext
    · linarith
    · linarith
    · linarith
  by_cases hs : t.p2.x = DBL_MAX
  · have hval : seekIntersection t O D = RaySphere O D t.p0 t.p1.x := by
      simp only [seekIntersection, if_pos hs]
    rw [hval] at hd hL
    have hdist := sphere_point_dist O D t.p0 t.p1.x (RaySphere O D t.p0 t.p1.x)
    rw [raySphere_root O D t.p0 t.p1.x hA hd, zero_add, ← hL] at hdist
    simp only [offSurface, if_pos hs] at hoff
    exact hoff hdist
  · have hval : seekIntersection t O D = RayTriangle O D t.p0 t.p1 t.p2 := by
      simp only [seekIntersection, if_neg hs]
    rw [hval] at hd hL
    obtain ⟨h0, ht⟩ := rayTriangle_hit O D _ _ _ hd
    rw [ht, mt_point O D _ _ _ h0] at hL
    simp only [offSurface, if_neg hs] at hoff
    apply hoff
    rw [hL]
    exact plane_point _ _ _ _ _

theorem lightCosG_fold (n P : Vec3) (lights : List Vec3)
    (h : ∀ L ∈ lights, 0 < (L.sub P).dot (L.sub P)) :
    ∀ lc : ℝ,
      lights.foldl
        (fun acc L =>
          match acc with
          | Except.error e => Except.error e
          | Except.ok lc =>
            match (L.sub P).normalizeG with
            | Except.error e => Except.error e
            | Except.ok d =>
              let t := n.dot d
              Except.ok (if t > lc then t else lc))
        (Except.ok lc)
      = (Except.ok (lights.foldl
        (fun lc L =>
          let t := n.dot (L.sub P).normalize
          if t > lc then t else lc) lc) : Except TraceFault ℝ) := by
  induction lights with
  | nil =>
    intro lc
    rfl
  | cons L ls ih =>
    intro lc
    rw [List.foldl_cons, List.foldl_cons]
    simp only [Vec3.normalizeG_ok _ (h L (List.mem_cons_self _ _))]
    exact ih (fun M hM => h M (List.mem_cons_of_mem _ hM)) _

theorem lightCosG_ok (n P : Vec3) (lights : List Vec3)
    (h : ∀ L ∈ lights, 0 < (L.sub P).dot (L.sub P)) :
    lightCosG n P lights = Except.ok (lightCos n P lights) :=
  lightCosG_fold n P lights h 0

theorem finishG_ok (material : Material) (level : Int) (color : Vec3) (st : TraceState)
    (h : level = 0 → st.refractColorIndex = 0 ∨ st.refractColorIndex = 1 ∨
      st.refractColorIndex = 2) :
    finishG material level color st = Except.ok (finish material level color st) := by
  by_cases hc : level = 0 ∧ st.isChromaticDisperson = true
  · simp only [finishG, finish, if_pos hc, Vec3.getG_ok _ _ (h hc.1)]
  · simp only [finishG, finish, if_neg hc]

/-- A draw in `[0, 1)` selects one of the channels `0`, `1`, `2`. -/
theorem toInt_draw (d : ℝ) (h0 : 0 ≤ d) (h1 : d < 1) :
    toInt (d * 3) = 0 ∨ toInt (d * 3) = 1 ∨ toInt (d * 3) = 2 := by
  have hnn : 0 ≤ d * 3 := by positivity
  simp only [toInt, if_pos hnn]
  have hlo : 0 ≤ ⌊d * 3⌋ := Int.floor_nonneg.2 hnn
  have hhi : ⌊d * 3⌋ < 3 := by
    rw [Int.floor_lt]
    push_cast
    linarith
  omega

/-- A call at a level above 0 returns with the channel index it was given. -/
theorem traceRay_index (sc : Scene) (rnd : Nat → ℝ) (RaySt Ray color : Vec3) (level : Int)
    (st : TraceState) (h : 0 < level) :
    (traceRay sc rnd RaySt Ray color level st).2.refractColorIndex = st.refractColorIndex := by
  obtain ⟨rest, _, hinv⟩ := path_invariant sc rnd 0 _ level RaySt Ray color st (le_of_lt h) rfl
  have h0 : level ≠ 0 := ne_of_gt h
  rw [(hinv.2.2 (Or.inl h0)).1, pathInit_of_ne rnd level _ h0]
  rfl

theorem pathInit_usable (rnd : Nat → ℝ) (hrnd : goodDraws rnd) (level : Int) (st : TraceState)
    (RaySt Ray : Vec3) (hst : level ≠ 0 → st.usable) :
    (pathInit rnd level (entered st level RaySt Ray)).usable := by
  by_cases h : level = 0
  · subst h
    refine ⟨?_, ?_⟩
    · rw [pathInit_zero_index]
      exact toInt_draw _ (le_of_lt (hrnd _).1) (hrnd _).2.1
    · rw [pathInit_zero_buf]
      exact one_ne_zero
  · rw [pathInit_of_ne rnd level _ h]
    exact hst h

theorem Vec3.get_ne_zero (a : Vec3) (i : Int) (ha : a.x ≠ 0 ∧ a.y ≠ 0 ∧ a.z ≠ 0)
    (hi : i = 0 ∨ i = 1 ∨ i = 2) : a.get i ≠ 0 := by
  rcases hi with h | h | h <;> subst h <;> simp [Vec3.get, ha.1, ha.2.1, ha.2.2]

theorem refractRateOut_ne (material : Material) (st : TraceState)
    (hr : material.refractRate.x ≠ 0 ∧ material.refractRate.y ≠ 0 ∧ material.refractRate.z ≠ 0)
    (hi : st.refractColorIndex = 0 ∨ st.refractColorIndex = 1 ∨ st.refractColorIndex = 2) :
    refractRateOut material st ≠ 0 := by
  unfold refractRateOut
  split_ifs
  · exact one_ne_zero
  · exact Vec3.get_ne_zero _ _ hr hi

theorem facing_dot_self (faceVec Ray : Vec3) (h : faceVec.dot faceVec = 1) :
    (Vec3.mul (if faceVec.dot Ray > 0 then -1 else 1) faceVec).dot
      (Vec3.mul (if faceVec.dot Ray > 0 then -1 else 1) faceVec) = 1 := by
  split_ifs <;> simp only [Vec3.dot, Vec3.mul] at * <;> linear_combination h

/-- In a well-formed scene, on good draws, the guarded tracer never faults and
computes what `traceRay` computes: by induction on the remaining depth, for
unit rays and usable statics. -/
theorem traceRayG_ok (sc : Scene) (rnd : Nat → ℝ) (hsc : sc.wellFormed) (hrnd : goodDraws rnd)
    (m : Nat) :
    ∀ (level : Int) (RaySt Ray color : Vec3) (st : TraceState),
      (sc.maxRayLevel + 1 - level).toNat = m → Ray.dot Ray = 1 → (level ≠ 0 → st.usable) →
      traceRayG sc rnd RaySt Ray color level st
        = Except.ok (traceRay sc rnd RaySt Ray color level st) := by
  induction m using Nat.strong_induction_on with
  | _ m ih =>
    intro level RaySt Ray color st hm hRay hst
    have hA : Ray.dot Ray ≠ 0 := by
      rw [hRay]
      exact one_ne_zero
    have hscan := nearestHitG_ok sc RaySt Ray hA
    cases hhit : (nearestHit sc RaySt Ray).2 with
    | none =>
      have h1 := (nearestHit_none_iff sc RaySt Ray).2 hhit
      rw [traceRay_of_miss sc rnd RaySt Ray color level st h1, traceRayG]
      simp only [hscan, h1, if_true]
    | some t =>
      have hne := nearestHit_ne_of_some sc RaySt Ray t hhit
      obtain ⟨hmem, hdis, heps, _, _⟩ := nearestHit_some sc RaySt Ray t hhit
      by_cases hrad : t.material.rediate = 0
      · by_cases hlevel : level > sc.maxRayLevel
        · rw [traceRay_of_cutoff sc rnd RaySt Ray color level st t hhit hrad hlevel, traceRayG]
          simp only [hscan, hne, if_false, hhit, hrad, ne_eq, not_true_eq_false, hlevel,
            dite_true]
        · obtain ⟨heps0, hprim⟩ := hsc
          obtain ⟨hR, hrates, hlights⟩ := hprim t hmem
          have hd : seekIntersection t RaySt Ray ≠ -DBL_MAX := by
            have := DBL_MAX_pos
            intro h
            rw [h] at heps
            linarith
          obtain ⟨hface, hunit⟩ := hitFaceVecG_ok t RaySt Ray hA hd hR
          rw [← hdis] at hface hunit
          have hus := pathInit_usable rnd hrnd level st RaySt Ray hst
          cases hquick : t.material.quickReflect with
          | true =>
            have hlc := lightCosG_ok
              (Vec3.mul (if (hitFaceVec t (RaySt.add (Vec3.mul (nearestHit sc RaySt Ray).1 Ray))).dot
                Ray > 0 then -1 else 1)
                (hitFaceVec t (RaySt.add (Vec3.mul (nearestHit sc RaySt Ray).1 Ray))))
              (RaySt.add (Vec3.mul (nearestHit sc RaySt Ray).1 Ray)) sc.PointLight
              (by
                intro L hL
                rw [hdis]
                exact light_off_hit t RaySt Ray L hA hd (hlights hquick L hL))
            rw [traceRayG, traceRay]
            simp only [hscan, hne, if_false, hhit, hrad, ne_eq, not_true_eq_false, hlevel,
              dite_false, hface, hquick, if_true, hlc]
            exact finishG_ok _ _ _ _ (fun _ => hus.1)
          | false =>
            cases hdiff : t.material.diffuseReflect with
            | true =>
              obtain ⟨hdG, hdunit⟩ := diffuseReflectG_ok Ray
                (hitFaceVec t (RaySt.add (Vec3.mul (nearestHit sc RaySt Ray).1 Ray)))
                (rnd (pathInit rnd level (entered st level RaySt Ray)).rand)
                (rnd ((pathInit rnd level (entered st level RaySt Ray)).rand + 1))
                hunit (hrnd _).2.2 (hrnd _).1
              rw [traceRay_of_diffuse sc rnd RaySt Ray color level st t hhit hrad hlevel hquick
                hdiff, traceRayG]
              simp only [hscan, hne, if_false, hhit, hrad, ne_eq, not_true_eq_false, hlevel,
                dite_false, hface, hquick, Bool.false_eq_true, hdiff, if_true, hdG, hitPoint]
              rw [ih _ (by omega) (level + 1) _ _ _
                { pathInit rnd level (entered st level RaySt Ray) with
                  rand := (pathInit rnd level (entered st level RaySt Ray)).rand + 2 }
                rfl hdunit (fun _ => hus)]
              refine finishG_ok _ _ _ _ (fun h0 => ?_)
              rw [traceRay_index _ _ _ _ _ _ _ (by omega)]
              exact hus.1
            | false =>
              by_cases hdraw :
                  rnd (pathInit rnd level (entered st level RaySt Ray)).rand < t.material.reflect
              · obtain ⟨hrG, hrunit⟩ := reflectG_ok Ray
                  (hitFaceVec t (RaySt.add (Vec3.mul (nearestHit sc RaySt Ray).1 Ray)))
                  hRay hunit
                rw [traceRay_of_mirror sc rnd RaySt Ray color level st t hhit hrad hlevel hquick
                  hdiff hdraw, traceRayG]
                simp only [hscan, hne, if_false, hhit, hrad, ne_eq, not_true_eq_false, hlevel,
                  dite_false, hface, hquick, Bool.false_eq_true, hdiff, hdraw, if_true, hrG,
                  hitPoint]
                rw [ih _ (by omega) (level + 1) _ _ _
                  { pathInit rnd level (entered st level RaySt Ray) with
                    rand := (pathInit rnd level (entered st level RaySt Ray)).rand + 1 }
                  rfl hrunit (fun _ => hus)]
                refine finishG_ok _ _ _ _ (fun h0 => ?_)
                rw [traceRay_index _ _ _ _ _ _ _ (by omega)]
                exact hus.1
              · have hout := refractRateOut_ne t.material
                  (pathInit rnd level (entered st level RaySt Ray)) hrates hus.1
                obtain ⟨hfG, hfunit⟩ := refractG_ok Ray
                  (hitFaceVec t (RaySt.add (Vec3.mul (nearestHit sc RaySt Ray).1 Ray)))
                  (pathInit rnd level (entered st level RaySt Ray)).refractRateBuf
                  (refractRateOut t.material (pathInit rnd level (entered st level RaySt Ray)))
                  hRay hunit hus.2 hout
                have hus2 : (refractState t.material
                    (pathInit rnd level (entered st level RaySt Ray))
                    (RaySt.add (Vec3.mul (nearestHit sc RaySt Ray).1 Ray))
                    (refract Ray
                      (hitFaceVec t (RaySt.add (Vec3.mul (nearestHit sc RaySt Ray).1 Ray)))
                      (pathInit rnd level (entered st level RaySt Ray)).refractRateBuf
                      (refractRateOut t.material
                        (pathInit rnd level (entered st level RaySt Ray))))).usable :=
                  ⟨hus.1, hout⟩
                rw [traceRay_of_refract sc rnd RaySt Ray color level st t hhit hrad hlevel hquick
                  hdiff hdraw, traceRayG]
                simp only [hscan, hne, if_false, hhit, hrad, ne_eq, not_true_eq_false, hlevel,
                  dite_false, hface, hquick, Bool.false_eq_true, hdiff, hdraw, if_true,
                  Vec3.getG_ok _ _ hus.1, hfG, hitPoint]
                rw [ih _ (by omega) (level + 1) _ _ _ _ rfl hfunit (fun _ => hus2)]
                refine finishG_ok _ _ _ _ (fun h0 => ?_)
                rw [traceRay_index _ _ _ _ _ _ _ (by omega)]
                exact hus.1
      · rw [traceRay_of_light sc rnd RaySt Ray color level st t hhit hrad, traceRayG]
        simp only [hscan, hne, if_false, hhit, hrad, ne_eq, not_false_eq_true, if_true]

/-- The ray from the origin along `z` touches the sphere of radius `0` around
`(0, 0, 5)` at distance `5`. -/
theorem raySphere_point : RaySphere ⟨0, 0, 0⟩ ⟨0, 0, 1⟩ ⟨0, 0, 5⟩ 0 = 5 := by
  simp only [RaySphere, Vec3.dot, Vec3.sub]
  norm_num

theorem nearestHit_point :
    nearestHit pointScene ⟨0, 0, 0⟩ ⟨0, 0, 1⟩
      = (5, some ⟨⟨0, 0, 5⟩, ⟨0, 0, 0⟩, ⟨DBL_MAX, 0, 0⟩, mirrorMaterial⟩) := by
  simp only [nearestHit, pointScene, drawSphere, drawTriangle, List.nil_append, List.foldl_cons,
    List.foldl_nil, scanStep, seekIntersection, if_true, raySphere_point]
  have h5 : (5 : ℝ) < DBL_MAX := by
    unfold DBL_MAX
    norm_num
  rw [if_pos ⟨by norm_num, h5⟩]

/-- C19, counterexample. A sphere of radius `0` in the way of a unit ray, draws
all `1/2`: the scan finds the sphere at distance `5`, the hit point is the
centre, and step [4] of the guarded `traceRay` normalizes the zero vector. -/
theorem traceRay_zero_radius_fault :
    (⟨0, 0, 1⟩ : Vec3).norm = 1 ∧
      (∀ i : Nat, 0 ≤ (fun _ : Nat => (1 / 2 : ℝ)) i ∧ (fun _ : Nat => (1 / 2 : ℝ)) i < 1) ∧
      traceRayG pointScene (fun _ => 1 / 2) ⟨0, 0, 0⟩ ⟨0, 0, 1⟩ Vec3.zero 0 freshState
        = Except.error TraceFault.normalizeZero := by
  have hnorm : (⟨0, 0, 1⟩ : Vec3).norm = 1 := by
    rw [Vec3.norm_eq_one_iff]
    simp [Vec3.dot]
  have hA : (⟨0, 0, 1⟩ : Vec3).dot ⟨0, 0, 1⟩ ≠ 0 := by
    simp [Vec3.dot]
  have hfault : hitFaceVecG ⟨⟨0, 0, 5⟩, ⟨0, 0, 0⟩, ⟨DBL_MAX, 0, 0⟩, mirrorMaterial⟩
      ((⟨0, 0, 0⟩ : Vec3).add (Vec3.mul 5 ⟨0, 0, 1⟩))
      = Except.error TraceFault.normalizeZero := by
    norm_num [hitFaceVecG, Vec3.normalizeG, Vec3.norm, Vec3.dot, Vec3.sub, Vec3.add, Vec3.mul]
  have h5 : (5 : ℝ) ≠ DBL_MAX := by
    unfold DBL_MAX
    norm_num
  have hrad : mirrorMaterial.rediate = 0 := rfl
  have hlev : ¬ (0 : Int) > pointScene.maxRayLevel := by
    simp [pointScene, drawSphere, drawTriangle]
  refine ⟨hnorm, fun i => ⟨by norm_num, by norm_num⟩, ?_⟩
  rw [traceRayG]
  simp only [nearestHitG_ok _ _ _ hA, nearestHit_point, h5, if_false, hrad, ne_eq,
    not_true_eq_false, hlev, dite_false, hfault]

/-- C19 (amended). `traceRay` is total on the scenes it is meant for: if `eps` is
not negative, no sphere has radius `0`, no `refractRate` channel is `0`, no
point light lies on the surface of a `quickReflect` primitive, the ray has unit
direction, every draw `d` lies in `(0, 1)` with `cos(2 π d) ≠ 0`, and (for a
call at a level other than `0`) the channel index is `0`, `1` or `2` and the
rate buffer is not `0`, then at every depth the guarded `traceRay` reaches no
error branch (no division by zero, no normalisation of a zero vector, no
channel index out of range) and returns what `traceRay` returns. -/
theorem traceRay_total (sc : Scene) (rnd : Nat → ℝ) (RaySt Ray color : Vec3) (level : Int)
    (st : TraceState) (hsc : sc.wellFormed) (hrnd : goodDraws rnd) (hRay : Ray.norm = 1)
    (hst : level ≠ 0 → st.usable) :
    traceRayG sc rnd RaySt Ray color level st
      = Except.ok (traceRay sc rnd RaySt Ray color level st) :=
  traceRayG_ok sc rnd hsc hrnd _ level RaySt Ray color st rfl
    ((Vec3.norm_eq_one_iff Ray).1 hRay) hst

/-- C19 on the studio scene, for the primary ray from the origin along `z` and
draws all `1/2`. -/
theorem traceRay_total_witness :
    studioScene.wellFormed ∧ goodDraws (fun _ => 1 / 2) ∧ (⟨0, 0, 1⟩ : Vec3).norm = 1 ∧
      traceRayG studioScene (fun _ => 1 / 2) ⟨0, 0, 0⟩ ⟨0, 0, 1⟩ Vec3.zero 0 freshState
        = Except.ok
          (traceRay studioScene (fun _ => 1 / 2) ⟨0, 0, 0⟩ ⟨0, 0, 1⟩ Vec3.zero 0 freshState) := by
  have hwf : studioScene.wellFormed := by
    refine ⟨by norm_num [studioScene, drawSphere, drawTriangle], ?_⟩
    intro t ht
    simp only [studioScene, drawSphere, drawTriangle, List.nil_append, List.cons_append,
      List.mem_cons, List.mem_singleton, List.not_mem_nil, or_false] at ht
    rcases ht with rfl | rfl
    · refine ⟨fun _ => one_ne_zero, ?_, ?_⟩
      · norm_num [prismMaterial]
      · intro h
        simp [prismMaterial] at h
    · refine ⟨fun _ => one_ne_zero, ?_, ?_⟩
      · norm_num [chalkMaterial]
      · intro _ L hL
        simp only [studioScene, drawSphere, drawTriangle, List.mem_singleton] at hL
        subst hL
        simp only [offSurface, if_true, Vec3.dot, Vec3.sub]
        norm_num
  have hgood : goodDraws (fun _ => 1 / 2) := by
    intro i
    refine ⟨by norm_num, by norm_num, ?_⟩
    have : 2 * Real.pi * (1 / 2) = Real.pi := by ring
    simp only [this, Real.cos_pi]
    norm_num
  have hnorm : (⟨0, 0, 1⟩ : Vec3).norm = 1 := by
    rw [Vec3.norm_eq_one_iff]
    simp [Vec3.dot]
  exact ⟨hwf, hgood, hnorm,
    traceRay_total studioScene (fun _ => 1 / 2) ⟨0, 0, 0⟩ ⟨0, 0, 1⟩ Vec3.zero 0 freshState
      hwf hgood hnorm (fun h => absurd rfl h)⟩

/-- Why good draws exclude `0`: with `r2 = 0` the scaled `u`
of `diffuseReflect` is the zero vector, and `v` is made by normalizing
`faceVec × u`. -/
theorem diffuseReflectG_zero_draw :
    diffuseReflectG ⟨0, 0, -1⟩ ⟨0, 0, 1⟩ (1 / 2) 0 = Except.error TraceFault.normalizeZero := by
  have h1 : ¬ (⟨0, 0, 1⟩ : Vec3).dot ⟨0, 0, -1⟩ > 0 := by
    norm_num [Vec3.dot]
  have hx : ¬ |(Vec3.mul 1 ⟨0, 0, 1⟩).x| > 0.1 := by
    norm_num [Vec3.mul]
  have hfirst : (Vec3.cross_ ⟨1, 0, 0⟩ (Vec3.mul 1 ⟨0, 0, 1⟩)).normalizeG
      = Except.ok (Vec3.cross_ ⟨1, 0, 0⟩ (Vec3.mul 1 ⟨0, 0, 1⟩)).normalize := by
    apply Vec3.normalizeG_ok
    norm_num [Vec3.dot, Vec3.cross_, Vec3.mul]
  have hsecond : ∀ u0 : Vec3,
      (Vec3.cross_ (Vec3.mul 1 ⟨0, 0, 1⟩)
        (Vec3.mul (Real.cos (2 * Real.pi * (1 / 2)) * Real.sqrt 0) u0)).normalizeG
      = Except.error TraceFault.normalizeZero := by
    intro u0
    simp [Vec3.normalizeG, Vec3.norm, Vec3.dot, Vec3.cross_, Vec3.mul]
  simp only [diffuseReflectG, if_neg h1, if_neg hx, one_ne_zero, if_false, hfirst, hsecond]

/-! ### The flush of `paint` -/

theorem paintPixels_written (colorOf : Int → Nat → Nat → Vec3) (sample : Int) (x : Nat)
    (ys : List Nat) :
    ∀ ps : PaintState,
      (ys.foldl (fun ps y => paintPixel colorOf sample x y ps) ps).written = ps.written := by
  induction ys with
  | nil =>
    intro ps
    rfl
  | cons y ys ih =>
    intro ps
    rw [List.foldl_cons, ih]
    rfl

theorem paintRows_written (colorOf : Int → Nat → Nat → Vec3) (sample : Int) (xs : List Nat) :
    ∀ ps : PaintState,
      (xs.foldl (fun ps x => paintRow colorOf sample x ps) ps).written = ps.written := by
  induction xs with
  | nil =>
    intro ps
    rfl
  | cons x xs ih =>
    intro ps
    rw [List.foldl_cons, ih]
    exact paintPixels_written colorOf sample x _ ps

/-- One sample of `paint` hands exactly one image to the writer: the pixel buffer
as it is when the iteration starts. -/
theorem paintSample_written (colorOf : Int → Nat → Nat → Vec3) (sample : Int)
    (ps : PaintState) :
    (paintSample colorOf sample ps).written = ps.written ++ [ps.ScreenPix] := by
  unfold paintSample
  rw [paintRows_written]

/-- C21. The flush of `paint` runs one sample behind: for every `n`, the last
image written by `paint(file, 0, n + 1)` is the pixel buffer as `paint(file, 0, n)`
leaves it, the buffer before sample `n` is blended in.  On a `1 x 1` buffer and
a white sample, `paint(file, 0, 1)` writes the black start image only, while the
pixel buffer holds `(255, 255, 255)`. -/
theorem paint_flush_lags (colorOf : Int → Nat → Nat → Vec3) (ps : PaintState) (n : Nat) :
    (paint colorOf 0 ((n + 1 : Nat) : Int) ps).written.getLast?
        = some (paint colorOf 0 (n : Int) ps).ScreenPix ∧
      (paint whiteSample 0 1 (init 1 1)).written.map (fun img => img 0 0) = [⟨0, 0, 0⟩] ∧
      (paint whiteSample 0 1 (init 1 1)).ScreenPix 0 0 = ⟨255, 255, 255⟩ := by
  refine ⟨?_, ?_, ?_⟩
  · have hn1 : (((n + 1 : Nat) : Int) - 0).toNat = n + 1 := by omega
    have hn : ((n : Int) - 0).toNat = n := by omega
    simp only [paint, hn1, hn]
    rw [paintLoop_add colorOf n 1 0 ps]
    simp only [paintLoop, paintSample_written, List.getLast?_append, List.getLast?_singleton]
    rfl
  · have e : paint whiteSample 0 1 (init 1 1) = paintSample whiteSample 0 (init 1 1) := by
      simp [paint, paintLoop]
    rw [e, paintSample_written]
    rfl
  · have e : paint whiteSample 0 1 (init 1 1) = paintSample whiteSample 0 (init 1 1) := by
      simp [paint, paintLoop]
    rw [e]
    simp [paintSample, paintRow, paintPixel, init, setPix, setCell, blend, whiteSample,
      Vec3.add, Vec3.mul, Vec3.zero, toInt, List.range_succ]

/-! ### The pixel write -/

/-- For a channel `c >= 0` with `255 c` below `2^31` the conversion is defined and
is `floor(255 c)`; clamped by `min(., 255)` it lies in `[0, 255]`. -/
theorem toIntChecked_channel (c : ℝ) (h0 : 0 ≤ c) (h1 : c * 255 < 2147483648) :
    toIntChecked (c * 255) = some ⌊c * 255⌋ ∧ toInt (c * 255) = ⌊c * 255⌋ ∧
      0 ≤ min ⌊c * 255⌋ 255 ∧ min ⌊c * 255⌋ 255 ≤ 255 := by
  have hnn : 0 ≤ c * 255 := by positivity
  have ht : toInt (c * 255) = ⌊c * 255⌋ := by
    simp only [toInt, if_pos hnn]
  have hlo : 0 ≤ ⌊c * 255⌋ := Int.floor_nonneg.2 hnn
  have hhi : ⌊c * 255⌋ < 2147483648 := by
    rw [Int.floor_lt]
    push_cast
    exact h1
  refine ⟨?_, ht, le_min hlo (by norm_num), min_le_right _ _⟩
  simp only [toIntChecked, ht]
  rw [if_pos ⟨by omega, by omega⟩]

/-- C22, counterexample. An in-range pixel and a colour with channels `>= 0`,
the first one `10^30`: `255 * 10^30` is not representable in `int`, the
conversion `(int)(color[0] * 0xFF)` of `setPix` is undefined, and nothing is
known about what is stored. -/
theorem setPix_huge_channel :
    ((0 : Int) ≤ 0 ∧ (0 : Int) < ((1 : Nat) : Int)) ∧
      ((0 : ℝ) ≤ 10 ^ 30 ∧ (0 : ℝ) ≤ 0) ∧
      setPixChecked 1 1 (fun _ _ => ⟨0, 0, 0⟩) 0 0 ⟨10 ^ 30, 0, 0⟩ = none := by
  refine ⟨⟨le_refl _, by norm_num⟩, ⟨by positivity, le_refl _⟩, ?_⟩
  have hnn : (0 : ℝ) ≤ 10 ^ 30 * 255 := by positivity
  have hcast : ((10 : ℝ) ^ 30 * 255) = ((255 * 10 ^ 30 : Int) : ℝ) := by
    push_cast
    ring
  have hfl : toInt ((10 : ℝ) ^ 30 * 255) = 255 * 10 ^ 30 := by
    simp only [toInt, if_pos hnn]
    rw [hcast, Int.floor_intCast]
  have hnone : toIntChecked ((10 : ℝ) ^ 30 * 255) = none := by
    simp only [toIntChecked, hfl]
    rw [if_neg]
    intro h
    have := h.2
    norm_num at this
  simp [setPixChecked, hnone]

/-- C22 (amended). Pixel output clamp.  For an in-range pixel
(`0 <= x < rows`, `0 <= y < cols`) and a colour whose channels `c` satisfy
`c >= 0` and `255 c < 2^31` (so that the conversion to `int` is defined),
`setPix` stores `min(floor(255 c), 255)` per channel in cell `(rows - 1 - x, y)`,
which is a cell of the buffer, every stored channel lies in `[0, 255]`, and no
other cell changes; for an out-of-range `(x, y)` the whole pixel buffer is
unchanged, whatever the colour. -/
theorem setPix_clamp (rows cols : Nat) (buf : Nat → Nat → RGB) (x y : Int) (color : Vec3) :
    (0 ≤ x ∧ x < rows ∧ 0 ≤ y ∧ y < cols →
      (0 ≤ color.x ∧ 0 ≤ color.y ∧ 0 ≤ color.z) →
      (color.x * 255 < 2147483648 ∧ color.y * 255 < 2147483648 ∧
        color.z * 255 < 2147483648) →
      setPixChecked rows cols buf x y color = some (setPix rows cols buf x y color) ∧
      ((rows : Int) - 1 - x).toNat < rows ∧
      setPix rows cols buf x y color ((rows : Int) - 1 - x).toNat y.toNat
        = ⟨min ⌊color.x * 255⌋ 255, min ⌊color.y * 255⌋ 255, min ⌊color.z * 255⌋ 255⟩ ∧
      (0 ≤ min ⌊color.x * 255⌋ 255 ∧ min ⌊color.x * 255⌋ 255 ≤ 255) ∧
      (0 ≤ min ⌊color.y * 255⌋ 255 ∧ min ⌊color.y * 255⌋ 255 ≤ 255) ∧
      (0 ≤ min ⌊color.z * 255⌋ 255 ∧ min ⌊color.z * 255⌋ 255 ≤ 255) ∧
      ∀ i j, ¬ (i = ((rows : Int) - 1 - x).toNat ∧ j = y.toNat) →
        setPix rows cols buf x y color i j = buf i j) ∧
    (x < 0 ∨ x ≥ rows ∨ y < 0 ∨ y ≥ cols →
      setPixChecked rows cols buf x y color = some buf ∧
      setPix rows cols buf x y color = buf) := by
  refine ⟨?_, ?_⟩
  · intro hin hc hr
    have hout : ¬ (x < 0 ∨ x ≥ rows ∨ y < 0 ∨ y ≥ cols) := by omega
    obtain ⟨hx1, hx2, hx3, hx4⟩ := toIntChecked_channel color.x hc.1 hr.1
    obtain ⟨hy1, hy2, hy3, hy4⟩ := toIntChecked_channel color.y hc.2.1 hr.2.1
    obtain ⟨hz1, hz2, hz3, hz4⟩ := toIntChecked_channel color.z hc.2.2 hr.2.2
    have hcell : ((rows : Int) - x - 1).toNat = ((rows : Int) - 1 - x).toNat := by omega
    refine ⟨?_, by omega, ?_, ⟨hx3, hx4⟩, ⟨hy3, hy4⟩, ⟨hz3, hz4⟩, ?_⟩
    · simp only [setPixChecked, setPix, if_neg hout, hx1, hy1, hz1, hx2, hy2, hz2]
    · simp only [setPix, if_neg hout, hx2, hy2, hz2, hcell, setCell, and_self, if_true]
    · intro i j hij
      simp only [setPix, if_neg hout, hcell, setCell, if_neg hij]
  · intro hout
    simp only [setPixChecked, setPix, if_pos hout, and_self]

/-- C22 on a `2 x 2` buffer: the colour `(1/2, 2, 0)` written at pixel `(0, 1)`
lands in cell `(1, 1)` as `(127, 255, 0)`; a write at `(2, 0)` changes nothing. -/
theorem setPix_clamp_witness :
    (((0 : Int) ≤ 0 ∧ (0 : Int) < ((2 : Nat) : Int) ∧ (0 : Int) ≤ 1 ∧ (1 : Int) < ((2 : Nat) : Int)) ∧
      ((0 : ℝ) ≤ (⟨1 / 2, 2, 0⟩ : Vec3).x ∧ (0 : ℝ) ≤ (⟨1 / 2, 2, 0⟩ : Vec3).y ∧
        (0 : ℝ) ≤ (⟨1 / 2, 2, 0⟩ : Vec3).z) ∧
      setPix 2 2 (fun _ _ => ⟨0, 0, 0⟩) 0 1 ⟨1 / 2, 2, 0⟩
          (((2 : Nat) : Int) - 1 - 0).toNat (1 : Int).toNat
        = ⟨min ⌊(⟨1 / 2, 2, 0⟩ : Vec3).x * 255⌋ 255, min ⌊(⟨1 / 2, 2, 0⟩ : Vec3).y * 255⌋ 255,
            min ⌊(⟨1 / 2, 2, 0⟩ : Vec3).z * 255⌋ 255⟩) ∧
    (((2 : Int) ≥ ((2 : Nat) : Int)) ∧
      setPix 2 2 (fun _ _ => ⟨0, 0, 0⟩) 2 0 ⟨1 / 2, 2, 0⟩ = fun _ _ => ⟨0, 0, 0⟩) := by
  have hin : (0 : Int) ≤ 0 ∧ (0 : Int) < ((2 : Nat) : Int) ∧ (0 : Int) ≤ 1 ∧
      (1 : Int) < ((2 : Nat) : Int) := by
    refine ⟨le_refl _, by norm_num, by norm_num, by norm_num⟩
  have hc : (0 : ℝ) ≤ (⟨1 / 2, 2, 0⟩ : Vec3).x ∧ (0 : ℝ) ≤ (⟨1 / 2, 2, 0⟩ : Vec3).y ∧
      (0 : ℝ) ≤ (⟨1 / 2, 2, 0⟩ : Vec3).z := by
    refine ⟨by norm_num, by norm_num, by norm_num⟩
  have hr : (⟨1 / 2, 2, 0⟩ : Vec3).x * 255 < 2147483648 ∧
      (⟨1 / 2, 2, 0⟩ : Vec3).y * 255 < 2147483648 ∧
      (⟨1 / 2, 2, 0⟩ : Vec3).z * 255 < 2147483648 := by
    refine ⟨by norm_num, by norm_num, by norm_num⟩
  have hout : (2 : Int) ≥ ((2 : Nat) : Int) := by norm_num
  exact ⟨⟨hin, hc,
      ((setPix_clamp 2 2 (fun _ _ => ⟨0, 0, 0⟩) 0 1 ⟨1 / 2, 2, 0⟩).1 hin hc hr).2.2.1⟩,
    ⟨hout, ((setPix_clamp 2 2 (fun _ _ => ⟨0, 0, 0⟩) 2 0 ⟨1 / 2, 2, 0⟩).2
      (Or.inr (Or.inl hout))).2⟩⟩

/-! ### The encoding of the primitives -/

/-- C23. Sphere/triangle encoding round trip.  `drawSphere(center, r, material)`
appends exactly one primitive at the end of the scene list, leaving the earlier
ones (and the rest of the scene) as they were; `seekIntersection` resolves it to
`RaySphere(RaySt, Ray, center, r)`, and it keeps the material.
`drawTriangle(p1, p2, p3, material)` with `p3.x != DBL_MAX` does the same with a
primitive that `seekIntersection` resolves to `RayTriangle(RaySt, Ray, p1, p2, p3)`. -/
theorem draw_encoding_round_trip (sc : Scene) (center : Vec3) (r : ℝ) (material : Material)
    (p1 p2 p3 RaySt Ray : Vec3) (h : p3.x ≠ DBL_MAX) :
    (∃ t : Triangle,
      (drawSphere sc center r material).TriangleSet = sc.TriangleSet ++ [t] ∧
      seekIntersection t RaySt Ray = RaySphere RaySt Ray center r ∧
      t.material = material ∧
      (drawSphere sc center r material).PointLight = sc.PointLight ∧
      (drawSphere sc center r material).eps = sc.eps ∧
      (drawSphere sc center r material).maxRayLevel = sc.maxRayLevel) ∧
    (∃ t : Triangle,
      (drawTriangle sc p1 p2 p3 material).TriangleSet = sc.TriangleSet ++ [t] ∧
      seekIntersection t RaySt Ray = RayTriangle RaySt Ray p1 p2 p3 ∧
      t.material = material ∧
      (drawTriangle sc p1 p2 p3 material).PointLight = sc.PointLight ∧
      (drawTriangle sc p1 p2 p3 material).eps = sc.eps ∧
      (drawTriangle sc p1 p2 p3 material).maxRayLevel = sc.maxRayLevel) := by
  refine ⟨⟨⟨center, ⟨r, r, r⟩, ⟨DBL_MAX, 0, 0⟩, material⟩, rfl, ?_, rfl, rfl, rfl, rfl⟩,
    ⟨⟨p1, p2, p3, material⟩, rfl, ?_, rfl, rfl, rfl, rfl⟩⟩
  · simp only [seekIntersection, if_true]
  · simp only [seekIntersection, if_neg h]

/-- C23 on the lamp scene: a sphere and a triangle appended to it. -/
theorem draw_encoding_round_trip_witness :
    (⟨0, 1, 0⟩ : Vec3).x ≠ DBL_MAX ∧
    (∃ t : Triangle,
      (drawSphere lampScene ⟨1, 2, 3⟩ 2 mirrorMaterial).TriangleSet
        = lampScene.TriangleSet ++ [t] ∧
      seekIntersection t ⟨0, 0, 0⟩ ⟨0, 0, 1⟩ = RaySphere ⟨0, 0, 0⟩ ⟨0, 0, 1⟩ ⟨1, 2, 3⟩ 2 ∧
      t.material = mirrorMaterial ∧
      (drawSphere lampScene ⟨1, 2, 3⟩ 2 mirrorMaterial).PointLight = lampScene.PointLight ∧
      (drawSphere lampScene ⟨1, 2, 3⟩ 2 mirrorMaterial).eps = lampScene.eps ∧
      (drawSphere lampScene ⟨1, 2, 3⟩ 2 mirrorMaterial).maxRayLevel = lampScene.maxRayLevel) ∧
    (∃ t : Triangle,
      (drawTriangle lampScene ⟨0, 0, 0⟩ ⟨1, 0, 0⟩ ⟨0, 1, 0⟩ mirrorMaterial).TriangleSet
        = lampScene.TriangleSet ++ [t] ∧
      seekIntersection t ⟨0, 0, 0⟩ ⟨0, 0, 1⟩
        = RayTriangle ⟨0, 0, 0⟩ ⟨0, 0, 1⟩ ⟨0, 0, 0⟩ ⟨1, 0, 0⟩ ⟨0, 1, 0⟩ ∧
      t.material = mirrorMaterial ∧
      (drawTriangle lampScene ⟨0, 0, 0⟩ ⟨1, 0, 0⟩ ⟨0, 1, 0⟩ mirrorMaterial).PointLight
        = lampScene.PointLight ∧
      (drawTriangle lampScene ⟨0, 0, 0⟩ ⟨1, 0, 0⟩ ⟨0, 1, 0⟩ mirrorMaterial).eps = lampScene.eps ∧
      (drawTriangle lampScene ⟨0, 0, 0⟩ ⟨1, 0, 0⟩ ⟨0, 1, 0⟩ mirrorMaterial).maxRayLevel
        = lampScene.maxRayLevel) := by
  have h : (⟨0, 1, 0⟩ : Vec3).x ≠ DBL_MAX := ne_of_lt DBL_MAX_pos
  exact ⟨h, draw_encoding_round_trip lampScene ⟨1, 2, 3⟩ 2 mirrorMaterial
    ⟨0, 0, 0⟩ ⟨1, 0, 0⟩ ⟨0, 1, 0⟩ ⟨0, 0, 0⟩ ⟨0, 0, 1⟩ h⟩

/-! ### Reversing the light path -/

theorem Vec3.norm_neg (a : Vec3) : (Vec3.mul (-1) a).norm = a.norm := by
  unfold Vec3.norm
  congr 1
  simp only [Vec3.dot, Vec3.mul]
  ring

/-- The reversed refracted ray makes the cosine `k q` with the normal, where the
refracted ray is `k (I + (-c - q) N)` and `c = N . I`. -/
theorem refract_reverse_cos (I N : Vec3) (k q c : ℝ) (hc : N.dot I = c) (hN2 : N.dot N = 1) :
    N.dot (Vec3.mul (-1) (Vec3.mul k (I.add (Vec3.mul (-c - q) N)))) = k * q := by
  simp only [Vec3.dot, Vec3.mul, Vec3.add] at *
  linear_combination (-k) * hc + (k * (c + q)) * hN2

/-- The reflection part of the reversibility law. -/
theorem reflect_reverse (I N : Vec3) (hI : I.norm = 1) (hN : N.norm = 1) :
    reflect (Vec3.mul (-1) (reflect I N)) N = Vec3.mul (-1) I := by
  have hN2 := (Vec3.norm_eq_one_iff N).1 hN
  have hR : (reflect I N).norm = 1 := by
    rw [reflect_eq_of_unit I N hI hN]
    exact reflect_pre_norm I N hI hN
  have hR1 : (Vec3.mul (-1) (reflect I N)).norm = 1 := by
    rw [Vec3.norm_neg]
    exact hR
  rw [reflect_eq_of_unit _ N hR1 hN, reflect_eq_of_unit I N hI hN]
  simp only [Vec3.dot, Vec3.mul, Vec3.add] at *
  ext
  · simp only
    linear_combination (-4 * (N.x * I.x + N.y * I.y + N.z * I.z) * N.x) * hN2
  · simp only
    linear_combination (-4 * (N.x * I.x + N.y * I.y + N.z * I.z) * N.y) * hN2
  · simp only
    linear_combination (-4 * (N.x * I.x + N.y * I.y + N.z * I.z) * N.z) * hN2

/-- The refraction part of the reversibility law, for a refraction that is not
total and, when the refracted ray is tangent to the surface, comes from the side
the normal points to. -/
theorem refract_reverse (I N : Vec3) (n1 n2 : ℝ) (hI : I.norm = 1) (hN : N.norm = 1)
    (h1 : 0 < n1) (h2 : 0 < n2)
    (hC : 0 ≤ 1 - (n1 / n2) ^ 2 * (1 - (N.dot I) ^ 2))
    (hgraze : 1 - (n1 / n2) ^ 2 * (1 - (N.dot I) ^ 2) = 0 → 0 ≤ N.dot I) :
    refract (Vec3.mul (-1) (refract I N n1 n2)) N n2 n1 = Vec3.mul (-1) I := by
  have hI2 := (Vec3.norm_eq_one_iff I).1 hI
  have hN2 := (Vec3.norm_eq_one_iff N).1 hN
  have hk : 0 < n1 / n2 := div_pos h1 h2
  have hk0 : n1 / n2 ≠ 0 := ne_of_gt hk
  have hn1 : n1 ≠ 0 := ne_of_gt h1
  have hn2 : n2 ≠ 0 := ne_of_gt h2
  have hσ : ((if N.dot I > 0 then -1 else 1 : ℝ)) ^ 2 = 1 := by
    split_ifs <;> norm_num
  have hs := Real.sq_sqrt hC
  have hs0 := Real.sqrt_nonneg (1 - (n1 / n2) ^ 2 * (1 - (N.dot I) ^ 2))
  have hT := refract_eq I N n1 n2 hI hN h1 h2 hC
  have hpre := refract_pre_dot I N (n1 / n2) _ _ hI2 hN2 hk0 hσ hs
  generalize hcdef : N.dot I = c at hC hgraze hσ hs hs0 hT hpre
  generalize hsdef : Real.sqrt (1 - (n1 / n2) ^ 2 * (1 - c ^ 2)) = s at hs hs0 hT hpre
  generalize hσdef : (if c > 0 then (-1 : ℝ) else 1) = σ at hσ hT hpre
  have hcos : N.dot (Vec3.mul (-1) (refract I N n1 n2)) = σ * s := by
    rw [hT, refract_reverse_cos I N (n1 / n2) (σ * s / (n1 / n2)) c hcdef hN2]
    field_simp
    ring
  have hunit : (Vec3.mul (-1) (refract I N n1 n2)).norm = 1 := by
    rw [Vec3.norm_neg, hT, Vec3.norm_eq_one_iff]
    have e : ∀ v : Vec3, (Vec3.mul (n1 / n2) v).dot (Vec3.mul (n1 / n2) v)
        = (n1 / n2) ^ 2 * v.dot v := by
      intro v
      simp only [Vec3.dot, Vec3.mul]
      ring
    rw [e, hpre]
    field_simp
  have hσs : (σ * s) ^ 2 = 1 - (n1 / n2) ^ 2 * (1 - c ^ 2) := by
    rw [mul_pow, hσ, one_mul, hs]
  have hQ : 1 - (n2 / n1) ^ 2 * (1 - (N.dot (Vec3.mul (-1) (refract I N n1 n2))) ^ 2)
      = c ^ 2 := by
    rw [hcos, hσs]
    field_simp
    ring
  have hC1 : 0 ≤ 1 - (n2 / n1) ^ 2 * (1 - (N.dot (Vec3.mul (-1) (refract I N n1 n2))) ^ 2) := by
    rw [hQ]
    positivity
  have hkey : (if σ * s > 0 then (-1 : ℝ) else 1) * |c| = c := by
    by_cases hcpos : c > 0
    · have hσ1 : σ = -1 := by
        rw [← hσdef, if_pos hcpos]
      have hle : ¬ σ * s > 0 := by
        rw [hσ1]
        intro h
        linarith
      rw [if_neg hle, abs_of_pos hcpos, one_mul]
    · have hσ1 : σ = 1 := by
        rw [← hσdef, if_neg hcpos]
      have hc0 : c ≤ 0 := not_lt.1 hcpos
      rcases lt_or_eq_of_le hs0 with hspos | hszero
      · have hgt : σ * s > 0 := by
          rw [hσ1, one_mul]
          exact hspos
        rw [if_pos hgt, abs_of_nonpos hc0]
        ring
      · have hQ0 : 1 - (n1 / n2) ^ 2 * (1 - c ^ 2) = 0 := by
          rw [← hs, ← hszero]
          ring
        have hczero : c = 0 := le_antisymm hc0 (hgraze hQ0)
        rw [hczero]
        simp
  rw [refract_eq _ N n2 n1 hunit hN h2 h1 hC1, hQ, hcos, Real.sqrt_sq_eq_abs, hkey, hT]
  ext <;> simp only [Vec3.mul, Vec3.add] <;> field_simp <;> ring

/-- C24, counterexample. At the critical angle, seen from the side the normal
points away from: `I = (4/5, 0, -3/5)`, `N = (0, 0, 1)`, `n1 = 5`, `n2 = 4` give
`k = 5/4`, `CosI = -3/5` and `CosO = 1 - 25/16 * 16/25 = 0`, which is no total
internal reflection for `refract`; the refracted ray is the tangent `(1, 0, 0)`,
and sending `(-1, 0, 0)` back with the indices swapped gives `(-4/5, 0, -3/5)`,
not `-I = (-4/5, 0, 3/5)`.  (The input is chosen so that `double` arithmetic
takes the same branch: `1.25^2 = 1.5625` is exact, `1 - 0.36` rounds to `0.64`
and `1.5625 * 0.64` rounds to `1`, so `CosO` is `0` there too.) -/
theorem refract_reverse_critical :
    (⟨4 / 5, 0, -3 / 5⟩ : Vec3).norm = 1 ∧ (⟨0, 0, 1⟩ : Vec3).norm = 1 ∧
      (0 : ℝ) < 5 ∧ (0 : ℝ) < 4 ∧
      1 - ((5 : ℝ) / 4) ^ 2 * (1 - ((⟨0, 0, 1⟩ : Vec3).dot ⟨4 / 5, 0, -3 / 5⟩) ^ 2) = 0 ∧
      ¬ (1 - ((5 : ℝ) / 4) ^ 2 * (1 - ((⟨0, 0, 1⟩ : Vec3).dot ⟨4 / 5, 0, -3 / 5⟩) ^ 2) < 0) ∧
      refract ⟨4 / 5, 0, -3 / 5⟩ ⟨0, 0, 1⟩ 5 4 = ⟨1, 0, 0⟩ ∧
      refract (Vec3.mul (-1) (refract ⟨4 / 5, 0, -3 / 5⟩ ⟨0, 0, 1⟩ 5 4)) ⟨0, 0, 1⟩ 4 5
        = ⟨-4 / 5, 0, -3 / 5⟩ ∧
      refract (Vec3.mul (-1) (refract ⟨4 / 5, 0, -3 / 5⟩ ⟨0, 0, 1⟩ 5 4)) ⟨0, 0, 1⟩ 4 5
        ≠ Vec3.mul (-1) ⟨4 / 5, 0, -3 / 5⟩ := by
  have h16 : Real.sqrt (16 / 25) = 4 / 5 := by
    rw [show (16 / 25 : ℝ) = 4 / 5 * (4 / 5) by norm_num]
    exact Real.sqrt_mul_self (by norm_num)
  have h9 : Real.sqrt (9 / 25) = 3 / 5 := by
    rw [show (9 / 25 : ℝ) = 3 / 5 * (3 / 5) by norm_num]
    exact Real.sqrt_mul_self (by norm_num)
  have h25 : Real.sqrt (25 / 16) = 5 / 4 := by
    rw [show (25 / 16 : ℝ) = 5 / 4 * (5 / 4) by norm_num]
    exact Real.sqrt_mul_self (by norm_num)
  have hT : refract ⟨4 / 5, 0, -3 / 5⟩ ⟨0, 0, 1⟩ 5 4 = ⟨1, 0, 0⟩ := by
    simp only [refract, reflect, Vec3.dot, Vec3.add, Vec3.mul, Vec3.normalize, Vec3.norm]
    norm_num [h16]
  have hneg : Vec3.mul (-1) ⟨1, 0, 0⟩ = ⟨-1, 0, 0⟩ := by
    ext <;> simp [Vec3.mul]
  have hback : refract ⟨-1, 0, 0⟩ ⟨0, 0, 1⟩ 4 5 = ⟨-4 / 5, 0, -3 / 5⟩ := by
    simp only [refract, reflect, Vec3.dot, Vec3.add, Vec3.mul, Vec3.normalize, Vec3.norm]
    norm_num [h9, h25]
  refine ⟨?_, ?_, by norm_num, by norm_num, ?_, ?_, hT, ?_, ?_⟩
  · rw [Vec3.norm_eq_one_iff]
    norm_num [Vec3.dot]
  · rw [Vec3.norm_eq_one_iff]
    norm_num [Vec3.dot]
  · norm_num [Vec3.dot]
  · norm_num [Vec3.dot]
  · rw [hT, hneg, hback]
  · rw [hT, hneg, hback]
    intro h
    have hz := congrArg Vec3.z h
    simp only [Vec3.mul] at hz
    norm_num at hz

/-- C24 (amended). Light-path reversibility.  For unit `I`, unit `N` and positive
indices `n1`, `n2` with `CosO = 1 - (n1/n2)^2 (1 - (N . I)^2) >= 0` (no total
internal reflection) and, in the tangent case `CosO = 0`, `N . I >= 0`: sending
the reversed output back through the same surface with swapped indices recovers
the reversed input, `refract(-refract(I, N, n1, n2), N, n2, n1) = -I`; and for
all unit `I`, `N`, `reflect(-reflect(I, N), N) = -I`. -/
theorem light_path_reversible (I N : Vec3) (n1 n2 : ℝ) (hI : I.norm = 1) (hN : N.norm = 1)
    (h1 : 0 < n1) (h2 : 0 < n2)
    (hC : 0 ≤ 1 - (n1 / n2) ^ 2 * (1 - (N.dot I) ^ 2))
    (hgraze : 1 - (n1 / n2) ^ 2 * (1 - (N.dot I) ^ 2) = 0 → 0 ≤ N.dot I) :
    refract (Vec3.mul (-1) (refract I N n1 n2)) N n2 n1 = Vec3.mul (-1) I ∧
      reflect (Vec3.mul (-1) (reflect I N)) N = Vec3.mul (-1) I :=
  ⟨refract_reverse I N n1 n2 hI hN h1 h2 hC hgraze, reflect_reverse I N hI hN⟩

/-- C24 at normal incidence from air into glass (`n1 = 1`, `n2 = 3/2`). -/
theorem light_path_reversible_witness :
    (⟨0, 0, -1⟩ : Vec3).norm = 1 ∧ (⟨0, 0, 1⟩ : Vec3).norm = 1 ∧ (0 : ℝ) < 1 ∧ (0 : ℝ) < 3 / 2 ∧
      0 ≤ 1 - ((1 : ℝ) / (3 / 2)) ^ 2 * (1 - ((⟨0, 0, 1⟩ : Vec3).dot ⟨0, 0, -1⟩) ^ 2) ∧
      refract (Vec3.mul (-1) (refract ⟨0, 0, -1⟩ ⟨0, 0, 1⟩ 1 (3 / 2))) ⟨0, 0, 1⟩ (3 / 2) 1
        = Vec3.mul (-1) ⟨0, 0, -1⟩ ∧
      reflect (Vec3.mul (-1) (reflect ⟨0, 0, -1⟩ ⟨0, 0, 1⟩)) ⟨0, 0, 1⟩
        = Vec3.mul (-1) ⟨0, 0, -1⟩ := by
  have hI : (⟨0, 0, -1⟩ : Vec3).norm = 1 := by
    rw [Vec3.norm_eq_one_iff]
    norm_num [Vec3.dot]
  have hN : (⟨0, 0, 1⟩ : Vec3).norm = 1 := by
    rw [Vec3.norm_eq_one_iff]
    norm_num [Vec3.dot]
  have hC : 0 ≤ 1 - ((1 : ℝ) / (3 / 2)) ^ 2 *
      (1 - ((⟨0, 0, 1⟩ : Vec3).dot ⟨0, 0, -1⟩) ^ 2) := by
    norm_num [Vec3.dot]
  have hg : 1 - ((1 : ℝ) / (3 / 2)) ^ 2 *
      (1 - ((⟨0, 0, 1⟩ : Vec3).dot ⟨0, 0, -1⟩) ^ 2) = 0 →
      0 ≤ (⟨0, 0, 1⟩ : Vec3).dot ⟨0, 0, -1⟩ := by
    intro h
    norm_num [Vec3.dot] at h
  exact ⟨hI, hN, by norm_num, by norm_num, hC,
    light_path_reversible ⟨0, 0, -1⟩ ⟨0, 0, 1⟩ 1 (3 / 2) hI hN (by norm_num) (by norm_num) hC hg⟩

/-! ### `Fractal.h` -/

/-- C25. The Hilbert round trip fails on the `2 x 2` grid: the cell `(1, 0)` has
position `3`, and `HilbertCurve_d2xy(2, 3)` is `(2, 1)`, a cell outside the grid
(the rotation of `d2xy` reflects in `n - 1`, not in `s - 1`); back from there
`HilbertCurve_xy2d` gives `1`, not `3`. -/
theorem hilbert_round_trip_fails :
    HilbertCurve_xy2d 2 1 0 = 3 ∧ HilbertCurve_d2xy 2 3 = (2, 1) ∧
      HilbertCurve_d2xy 2 (HilbertCurve_xy2d 2 1 0) ≠ (1, 0) ∧
      HilbertCurve_xy2d 2 (HilbertCurve_d2xy 2 3).1 (HilbertCurve_d2xy 2 3).2 ≠ 3 := by
  have h1 : HilbertCurve_xy2d 2 1 0 = 3 := by
    unfold HilbertCurve_xy2d
    rw [xy2dLoop]
    simp
    rw [xy2dLoop]
    decide
  have h2 : HilbertCurve_d2xy 2 3 = (2, 1) := by
    unfold HilbertCurve_d2xy
    rw [d2xyLoop]
    simp
    rw [d2xyLoop]
    decide
  have h3 : HilbertCurve_xy2d 2 2 1 = 1 := by
    unfold HilbertCurve_xy2d
    rw [xy2dLoop]
    simp
    rw [xy2dLoop]
    decide
  refine ⟨h1, h2, ?_, ?_⟩
  · rw [h1, h2]
    decide
  · rw [h2, h3]
    decide

theorem mandelbrotLoop_escaped (C : ℂ) (k : Nat) (epoch : Int) (z : ℂ)
    (h : Complex.abs z > 2) : mandelbrotLoop C (k + 1) epoch z = epoch := by
  simp only [mandelbrotLoop, if_pos h]

/-- C26. A start value outside the disc of radius 2 is reported as belonging to
the set: `z_0 = 3` has modulus `3 > 2`, it is the first iterate whose modulus
exceeds 2, and `isMandelbrotSet(C, 3, T + 1)` returns its index `0`, the value
that stands for "no iterate left the disc", for every `C` and `T >= 0`. -/
theorem isMandelbrotSet_escape_at_start (C : ℂ) (T : Nat) :
    Complex.abs (mandelbrotIterate C 3 0) > 2 ∧ isMandelbrotSet C 3 ((T : Int) + 1) = 0 := by
  have h3 : Complex.abs (3 : ℂ) > 2 := by
    rw [show (3 : ℂ) = ((3 : ℝ) : ℂ) by norm_num, Complex.abs_ofReal]
    norm_num
  refine ⟨h3, ?_⟩
  have hT : ((T : Int) + 1).toNat = T + 1 := by omega
  rw [isMandelbrotSet, hT]
  exact mandelbrotLoop_escaped C T 0 3 h3

/-! ### The recursive branches of `traceRay` -/

/-- Where the collapse of step [6] does not apply, the tail of `traceRay` is the
tint by the material's colour. -/
theorem finish_no_collapse (material : Material) (level : Int) (color : Vec3)
    (st : TraceState) (h : ¬ (level = 0 ∧ st.isChromaticDisperson = true)) :
    finish material level color st = (material.color.elementMul color, st) := by
  simp only [finish, if_neg h, Prod.mk.injEq, and_true]
  ext <;> simp only [Vec3.elementMul] <;> ring

theorem sqrt_quarter : Real.sqrt (1 / 4) = 1 / 2 := by
  rw [show (1 / 4 : ℝ) = 1 / 2 * (1 / 2) by norm_num]
  exact Real.sqrt_mul_self (by norm_num)

/-- The distances of the two spheres of `lampInGlass` along the `z` axis, from
the origin, from the glass surface `(0, 0, 4)` and from `(0, 0, 9/2)`. -/
theorem raySphere_lampInGlass :
    RaySphere ⟨0, 0, 0⟩ ⟨0, 0, 1⟩ ⟨0, 0, 5⟩ (1 / 4) = 19 / 4 ∧
    RaySphere ⟨0, 0, 4⟩ ⟨0, 0, 1⟩ ⟨0, 0, 5⟩ 1 = 2 ∧
    RaySphere ⟨0, 0, 4⟩ ⟨0, 0, 1⟩ ⟨0, 0, 5⟩ (1 / 4) = 3 / 4 ∧
    RaySphere ⟨0, 0, 9 / 2⟩ ⟨0, 0, 1⟩ ⟨0, 0, 5⟩ 1 = 3 / 2 ∧
    RaySphere ⟨0, 0, 9 / 2⟩ ⟨0, 0, 1⟩ ⟨0, 0, 5⟩ (1 / 4) = 1 / 4 := by
  refine ⟨?_, ?_, ?_, ?_, ?_⟩ <;> simp only [RaySphere, Vec3.dot, Vec3.sub] <;>
    norm_num [sqrt_four, sqrt_quarter]

/-- The scans of `lampInGlass` along the `z` axis: from the origin the glass is
nearest; from the glass surface `(0, 0, 4)` the lamp, `3/4 > eps` away; from
`(0, 0, 9/2)` the lamp is within `eps` and the far side of the glass is selected. -/
theorem nearestHit_lampInGlass :
    nearestHit lampInGlass ⟨0, 0, 0⟩ ⟨0, 0, 1⟩
      = (4, some ⟨⟨0, 0, 5⟩, ⟨1, 1, 1⟩, ⟨DBL_MAX, 0, 0⟩, glassMaterial⟩) ∧
    nearestHit lampInGlass ⟨0, 0, 4⟩ ⟨0, 0, 1⟩
      = (3 / 4, some ⟨⟨0, 0, 5⟩, ⟨1 / 4, 1 / 4, 1 / 4⟩, ⟨DBL_MAX, 0, 0⟩, lampMaterial⟩) ∧
    nearestHit lampInGlass ⟨0, 0, 9 / 2⟩ ⟨0, 0, 1⟩
      = (3 / 2, some ⟨⟨0, 0, 5⟩, ⟨1, 1, 1⟩, ⟨DBL_MAX, 0, 0⟩, glassMaterial⟩) := by
  obtain ⟨h1, h2, h3, h4, h5⟩ := raySphere_lampInGlass
  have hD := four_lt_DBL_MAX
  have hin4 : (4 : ℝ) > 1 / 2 ∧ (4 : ℝ) < DBL_MAX := ⟨by norm_num, hD⟩
  have hin2 : (2 : ℝ) > 1 / 2 ∧ (2 : ℝ) < DBL_MAX := ⟨by norm_num, lt_trans (by norm_num) hD⟩
  have hin3 : (3 / 2 : ℝ) > 1 / 2 ∧ (3 / 2 : ℝ) < DBL_MAX :=
    ⟨by norm_num, lt_trans (by norm_num) hD⟩
  refine ⟨?_, ?_, ?_⟩
  · simp only [nearestHit, lampInGlass, drawSphere, drawTriangle, List.nil_append,
      List.cons_append, List.foldl_cons, List.foldl_nil, scanStep, seekIntersection, if_true,
      raySphere_light_ball, h1, hin4]
    norm_num
  · simp only [nearestHit, lampInGlass, drawSphere, drawTriangle, List.nil_append,
      List.cons_append, List.foldl_cons, List.foldl_nil, scanStep, seekIntersection, if_true,
      h2, h3, hin2]
    norm_num
  · simp only [nearestHit, lampInGlass, drawSphere, drawTriangle, List.nil_append,
      List.cons_append, List.foldl_cons, List.foldl_nil, scanStep, seekIntersection, if_true,
      h4, h5, hin3]
    norm_num

/-- The refraction at the front of the glass sphere of `lampInGlass`, at normal
incidence: hit point `(0, 0, 4)`, face vector `(0, 0, -1)`, the ray goes on
along `z`, and the recursive call starts at `(0, 0, 9/2)`. -/
theorem lampInGlass_refraction :
    hitPoint lampInGlass ⟨0, 0, 0⟩ ⟨0, 0, 1⟩ = ⟨0, 0, 4⟩ ∧
    hitFaceVec ⟨⟨0, 0, 5⟩, ⟨1, 1, 1⟩, ⟨DBL_MAX, 0, 0⟩, glassMaterial⟩ ⟨0, 0, 4⟩ = ⟨0, 0, -1⟩ ∧
    refract ⟨0, 0, 1⟩ ⟨0, 0, -1⟩ 1 (3 / 2) = ⟨0, 0, 1⟩ ∧
    (⟨0, 0, 4⟩ : Vec3).add (Vec3.mul lampInGlass.eps ⟨0, 0, 1⟩) = ⟨0, 0, 9 / 2⟩ := by
  have h94 : Real.sqrt (9 / 4) = 3 / 2 := by
    rw [show (9 / 4 : ℝ) = 3 / 2 * (3 / 2) by norm_num]
    exact Real.sqrt_mul_self (by norm_num)
  refine ⟨?_, ?_, ?_, ?_⟩
  · rw [hitPoint, nearestHit_lampInGlass.1]
    ext <;> norm_num [Vec3.add, Vec3.mul]
  · simp only [hitFaceVec, if_true, Vec3.sub, Vec3.normalize, Vec3.norm, Vec3.dot]
    norm_num
  · simp only [refract, reflect, Vec3.dot, Vec3.add, Vec3.mul, Vec3.normalize, Vec3.norm]
    norm_num [h94]
  · have heps : lampInGlass.eps = 1 / 2 := rfl
    rw [heps]
    ext <;> norm_num [Vec3.add, Vec3.mul]

theorem lampInGlass_init :
    (pathInit (fun _ => (1 / 2 : ℝ)) 0
      (entered freshState 0 ⟨0, 0, 0⟩ ⟨0, 0, 1⟩)).refractRateBuf = 1 ∧
    (pathInit (fun _ => (1 / 2 : ℝ)) 0
      (entered freshState 0 ⟨0, 0, 0⟩ ⟨0, 0, 1⟩)).isChromaticDisperson = false ∧
    refractRateOut glassMaterial (pathInit (fun _ => (1 / 2 : ℝ)) 0
      (entered freshState 0 ⟨0, 0, 0⟩ ⟨0, 0, 1⟩)) = 3 / 2 := by
  have hidx : toInt ((1 / 2 : ℝ) * 3) = 1 := by
    have hnn : (0 : ℝ) ≤ 1 / 2 * 3 := by norm_num
    simp only [toInt, if_pos hnn]
    rw [Int.floor_eq_iff]
    norm_num
  have hbuf := pathInit_zero_buf (fun _ => (1 / 2 : ℝ)) freshState ⟨0, 0, 0⟩ ⟨0, 0, 1⟩
  refine ⟨hbuf, pathInit_flag _ _, ?_⟩
  simp only [refractRateOut, hbuf, pathInit_zero_index, hidx]
  norm_num [glassMaterial, Vec3.get]

/-- The primary ray of `lampInGlass` (draws all `1/2`): it hits the glass, the
draw `1/2` is not below `reflect = 0`, so it is refracted; the recursive call
starts at `(0, 0, 9/2)`, misses the lamp (within `eps`), hits the glass beyond
the depth bound and returns the zero accumulator; the dispersion flag stays
down and the colour returned is `(0, 0, 0)`. -/
theorem lampInGlass_run :
    (nearestHit lampInGlass ⟨0, 0, 0⟩ ⟨0, 0, 1⟩).2
        = some ⟨⟨0, 0, 5⟩, ⟨1, 1, 1⟩, ⟨DBL_MAX, 0, 0⟩, glassMaterial⟩ ∧
      ¬ (fun _ : Nat => (1 / 2 : ℝ)) (pathInit (fun _ => (1 / 2 : ℝ)) 0
          (entered freshState 0 ⟨0, 0, 0⟩ ⟨0, 0, 1⟩)).rand < glassMaterial.reflect ∧
      (traceRay lampInGlass (fun _ => 1 / 2) ⟨0, 0, 0⟩ ⟨0, 0, 1⟩ Vec3.zero 0
        freshState).2.isChromaticDisperson = false ∧
      (traceRay lampInGlass (fun _ => 1 / 2) ⟨0, 0, 0⟩ ⟨0, 0, 1⟩ Vec3.zero 0 freshState).1
        = ⟨0, 0, 0⟩ := by
  obtain ⟨hn0, -, hn9⟩ := nearestHit_lampInGlass
  obtain ⟨hP, hF, hR, hS⟩ := lampInGlass_refraction
  obtain ⟨hbuf, -, hout⟩ := lampInGlass_init
  have hhit : (nearestHit lampInGlass ⟨0, 0, 0⟩ ⟨0, 0, 1⟩).2
      = some ⟨⟨0, 0, 5⟩, ⟨1, 1, 1⟩, ⟨DBL_MAX, 0, 0⟩, glassMaterial⟩ := by
    rw [hn0]
  have hhit9 : (nearestHit lampInGlass ⟨0, 0, 9 / 2⟩ ⟨0, 0, 1⟩).2
      = some ⟨⟨0, 0, 5⟩, ⟨1, 1, 1⟩, ⟨DBL_MAX, 0, 0⟩, glassMaterial⟩ := by
    rw [hn9]
  have hmax : lampInGlass.maxRayLevel = 0 := rfl
  have hdraw : ¬ (fun _ : Nat => (1 / 2 : ℝ)) (pathInit (fun _ => (1 / 2 : ℝ)) 0
      (entered freshState 0 ⟨0, 0, 0⟩ ⟨0, 0, 1⟩)).rand < glassMaterial.reflect := by
    norm_num [glassMaterial]
  have hrun := traceRay_of_refract lampInGlass (fun _ => 1 / 2) ⟨0, 0, 0⟩ ⟨0, 0, 1⟩ Vec3.zero 0
    freshState _ hhit rfl (by rw [hmax]; decide) rfl rfl hdraw
  rw [hP, hbuf, hout, hF, hR, hS] at hrun
  rw [traceRay_of_cutoff lampInGlass _ ⟨0, 0, 9 / 2⟩ ⟨0, 0, 1⟩ Vec3.zero (0 + 1) _ _ hhit9 rfl
    (by rw [hmax]; decide)] at hrun
  refine ⟨hhit, hdraw, ?_, ?_⟩
  · rw [hrun, finish_snd]
    simp only [entered, refractState, pathInit_flag]
    norm_num [glassMaterial, Vec3.get]
  · rw [hrun]
    exact finish_zero _ _ _ _

/-- C27, counterexample. In `lampInGlass` (`eps = 1/2`) the primary ray along `z`
hits the glass (no light source, no `quickReflect`, level `0 <= maxRayLevel`, no
dispersion) and is refracted straight on.  `traceRay` returns `(0, 0, 0)`; the
recursive call started at the hit point `(0, 0, 4)` would see the lamp `3/4`
ahead and the claim's value
`material.color * (refractLossRate * child)` would be `(1, 1, 1)`, whatever
state the call is given. -/
theorem traceRay_refract_offset :
    (nearestHit lampInGlass ⟨0, 0, 0⟩ ⟨0, 0, 1⟩).2
        = some ⟨⟨0, 0, 5⟩, ⟨1, 1, 1⟩, ⟨DBL_MAX, 0, 0⟩, glassMaterial⟩ ∧
      glassMaterial.rediate = 0 ∧ (0 : Int) ≤ lampInGlass.maxRayLevel ∧
      glassMaterial.quickReflect = false ∧ glassMaterial.diffuseReflect = false ∧
      ¬ (fun _ : Nat => (1 / 2 : ℝ)) (pathInit (fun _ => (1 / 2 : ℝ)) 0
          (entered freshState 0 ⟨0, 0, 0⟩ ⟨0, 0, 1⟩)).rand < glassMaterial.reflect ∧
      (traceRay lampInGlass (fun _ => 1 / 2) ⟨0, 0, 0⟩ ⟨0, 0, 1⟩ Vec3.zero 0
        freshState).2.isChromaticDisperson = false ∧
      hitPoint lampInGlass ⟨0, 0, 0⟩ ⟨0, 0, 1⟩ = ⟨0, 0, 4⟩ ∧
      refract ⟨0, 0, 1⟩
        (hitFaceVec ⟨⟨0, 0, 5⟩, ⟨1, 1, 1⟩, ⟨DBL_MAX, 0, 0⟩, glassMaterial⟩ ⟨0, 0, 4⟩) 1 (3 / 2)
        = ⟨0, 0, 1⟩ ∧
      (traceRay lampInGlass (fun _ => 1 / 2) ⟨0, 0, 0⟩ ⟨0, 0, 1⟩ Vec3.zero 0 freshState).1
        = ⟨0, 0, 0⟩ ∧
      ∀ st1 : TraceState,
        glassMaterial.color.elementMul (Vec3.mul glassMaterial.refractLossRate
          (traceRay lampInGlass (fun _ => 1 / 2) ⟨0, 0, 4⟩ ⟨0, 0, 1⟩ Vec3.zero 1 st1).1)
          = ⟨1, 1, 1⟩ := by
  obtain ⟨hhit, hdraw, hflag, hzero⟩ := lampInGlass_run
  obtain ⟨hP, hF, hR, -⟩ := lampInGlass_refraction
  have hhit4 : (nearestHit lampInGlass ⟨0, 0, 4⟩ ⟨0, 0, 1⟩).2
      = some ⟨⟨0, 0, 5⟩, ⟨1 / 4, 1 / 4, 1 / 4⟩, ⟨DBL_MAX, 0, 0⟩, lampMaterial⟩ := by
    rw [nearestHit_lampInGlass.2.1]
  have hmax : lampInGlass.maxRayLevel = 0 := rfl
  refine ⟨hhit, rfl, by rw [hmax], rfl, rfl, hdraw, hflag, hP, ?_, hzero, ?_⟩
  · rw [hF, hR]
  · intro st1
    rw [traceRay_of_light lampInGlass _ ⟨0, 0, 4⟩ ⟨0, 0, 1⟩ Vec3.zero 1 st1 _ hhit4
      (by norm_num [lampMaterial])]
    ext <;> norm_num [glassMaterial, lampMaterial, Vec3.elementMul, Vec3.mul]

/-- C27 (amended). Recursive shading with tint.  For a hit at
`level <= maxRayLevel` on a material that is no light source and has no
`quickReflect`, and with no dispersion collapse applying (the call is not at
level 0 with the dispersion flag raised), `traceRay` returns `material.color`
element-wise multiplied by `lossRate * child`, where `child` is the colour of the
recursive call at `level + 1`: started at the hit point with the diffusely
scattered direction and `lossRate = reflectLossRate` when `diffuseReflect` is
set; started at the hit point with the specularly reflected direction and
`lossRate = reflectLossRate` when the uniform draw is below `material.reflect`;
and otherwise started at `hitPoint + eps * RayO` with the refracted direction
`RayO` and `lossRate = refractLossRate`. -/
theorem traceRay_recursive_tint (sc : Scene) (rnd : Nat → ℝ) (RaySt Ray color : Vec3)
    (level : Int) (st : TraceState) (t : Triangle)
    (hhit : (nearestHit sc RaySt Ray).2 = some t) (hrad : t.material.rediate = 0)
    (hlevel : level ≤ sc.maxRayLevel) (hquick : t.material.quickReflect = false)
    (hnc : ¬ (level = 0 ∧
      (traceRay sc rnd RaySt Ray color level st).2.isChromaticDisperson = true)) :
    (t.material.diffuseReflect = true →
      (traceRay sc rnd RaySt Ray color level st).1 =
        t.material.color.elementMul (Vec3.mul t.material.reflectLossRate
          (traceRay sc rnd (hitPoint sc RaySt Ray)
            (diffuseReflect Ray (hitFaceVec t (hitPoint sc RaySt Ray))
              (rnd (pathInit rnd level (entered st level RaySt Ray)).rand)
              (rnd ((pathInit rnd level (entered st level RaySt Ray)).rand + 1)))
            color (level + 1)
            { pathInit rnd level (entered st level RaySt Ray) with
              rand := (pathInit rnd level (entered st level RaySt Ray)).rand + 2 }).1)) ∧
    (t.material.diffuseReflect = false →
      rnd (pathInit rnd level (entered st level RaySt Ray)).rand < t.material.reflect →
      (traceRay sc rnd RaySt Ray color level st).1 =
        t.material.color.elementMul (Vec3.mul t.material.reflectLossRate
          (traceRay sc rnd (hitPoint sc RaySt Ray)
            (reflect Ray (hitFaceVec t (hitPoint sc RaySt Ray))) color (level + 1)
            { pathInit rnd level (entered st level RaySt Ray) with
              rand := (pathInit rnd level (entered st level RaySt Ray)).rand + 1 }).1)) ∧
    (t.material.diffuseReflect = false →
      ¬ rnd (pathInit rnd level (entered st level RaySt Ray)).rand < t.material.reflect →
      (traceRay sc rnd RaySt Ray color level st).1 =
        t.material.color.elementMul (Vec3.mul t.material.refractLossRate
          (traceRay sc rnd
            ((hitPoint sc RaySt Ray).add (Vec3.mul sc.eps
              (refract Ray (hitFaceVec t (hitPoint sc RaySt Ray))
                (pathInit rnd level (entered st level RaySt Ray)).refractRateBuf
                (refractRateOut t.material (pathInit rnd level (entered st level RaySt Ray))))))
            (refract Ray (hitFaceVec t (hitPoint sc RaySt Ray))
              (pathInit rnd level (entered st level RaySt Ray)).refractRateBuf
              (refractRateOut t.material (pathInit rnd level (entered st level RaySt Ray))))
            color (level + 1)
            (refractState t.material (pathInit rnd level (entered st level RaySt Ray))
              (hitPoint sc RaySt Ray)
              (refract Ray (hitFaceVec t (hitPoint sc RaySt Ray))
                (pathInit rnd level (entered st level RaySt Ray)).refractRateBuf
                (refractRateOut t.material
                  (pathInit rnd level (entered st level RaySt Ray)))))).1)) := by
  have hl : ¬ level > sc.maxRayLevel := not_lt.2 hlevel
  refine ⟨?_, ?_, ?_⟩
  · intro hdiff
    have e := traceRay_of_diffuse sc rnd RaySt Ray color level st t hhit hrad hl hquick hdiff
    rw [e, finish_snd] at hnc
    rw [e, finish_no_collapse _ _ _ _ hnc]
  · intro hdiff hdraw
    have e := traceRay_of_mirror sc rnd RaySt Ray color level st t hhit hrad hl hquick hdiff
      hdraw
    rw [e, finish_snd] at hnc
    rw [e, finish_no_collapse _ _ _ _ hnc]
  · intro hdiff hdraw
    have e := traceRay_of_refract sc rnd RaySt Ray color level st t hhit hrad hl hquick hdiff
      hdraw
    rw [e, finish_snd] at hnc
    rw [e, finish_no_collapse _ _ _ _ hnc]

/-- C27 on `lampInGlass`: the primary ray along `z` is refracted at the glass, and
the colour returned is the tint of `refractLossRate` times the colour of the
recursive call started `eps` beyond the hit point. -/
theorem traceRay_recursive_tint_witness :
    (nearestHit lampInGlass ⟨0, 0, 0⟩ ⟨0, 0, 1⟩).2 = some (⟨⟨0, 0, 5⟩, ⟨1, 1, 1⟩, ⟨DBL_MAX, 0, 0⟩, glassMaterial⟩ : Triangle) ∧
      glassMaterial.rediate = 0 ∧ (0 : Int) ≤ lampInGlass.maxRayLevel ∧
      glassMaterial.quickReflect = false ∧
      ¬ ((0 : Int) = 0 ∧
        (traceRay lampInGlass (fun _ => 1 / 2) ⟨0, 0, 0⟩ ⟨0, 0, 1⟩ Vec3.zero 0
          freshState).2.isChromaticDisperson = true) ∧
      glassMaterial.diffuseReflect = false ∧
      ¬ (fun _ : Nat => (1 / 2 : ℝ)) (pathInit (fun _ => (1 / 2 : ℝ)) 0 (entered freshState 0 ⟨0, 0, 0⟩ ⟨0, 0, 1⟩)).rand < glassMaterial.reflect ∧
      (traceRay lampInGlass (fun _ => 1 / 2) ⟨0, 0, 0⟩ ⟨0, 0, 1⟩ Vec3.zero 0 freshState).1 =
        glassMaterial.color.elementMul (Vec3.mul glassMaterial.refractLossRate
          (traceRay lampInGlass (fun _ => 1 / 2)
            ((hitPoint lampInGlass ⟨0, 0, 0⟩ ⟨0, 0, 1⟩).add (Vec3.mul lampInGlass.eps
              (refract ⟨0, 0, 1⟩ (hitFaceVec (⟨⟨0, 0, 5⟩, ⟨1, 1, 1⟩, ⟨DBL_MAX, 0, 0⟩, glassMaterial⟩ : Triangle) (hitPoint lampInGlass ⟨0, 0, 0⟩ ⟨0, 0, 1⟩))
            (pathInit (fun _ => (1 / 2 : ℝ)) 0 (entered freshState 0 ⟨0, 0, 0⟩ ⟨0, 0, 1⟩)).refractRateBuf
            (refractRateOut glassMaterial (pathInit (fun _ => (1 / 2 : ℝ)) 0 (entered freshState 0 ⟨0, 0, 0⟩ ⟨0, 0, 1⟩))))))
            (refract ⟨0, 0, 1⟩ (hitFaceVec (⟨⟨0, 0, 5⟩, ⟨1, 1, 1⟩, ⟨DBL_MAX, 0, 0⟩, glassMaterial⟩ : Triangle) (hitPoint lampInGlass ⟨0, 0, 0⟩ ⟨0, 0, 1⟩))
            (pathInit (fun _ => (1 / 2 : ℝ)) 0 (entered freshState 0 ⟨0, 0, 0⟩ ⟨0, 0, 1⟩)).refractRateBuf
            (refractRateOut glassMaterial (pathInit (fun _ => (1 / 2 : ℝ)) 0 (entered freshState 0 ⟨0, 0, 0⟩ ⟨0, 0, 1⟩))))
            Vec3.zero (0 + 1)
            (refractState glassMaterial (pathInit (fun _ => (1 / 2 : ℝ)) 0 (entered freshState 0 ⟨0, 0, 0⟩ ⟨0, 0, 1⟩)) (hitPoint lampInGlass ⟨0, 0, 0⟩ ⟨0, 0, 1⟩)
              (refract ⟨0, 0, 1⟩ (hitFaceVec (⟨⟨0, 0, 5⟩, ⟨1, 1, 1⟩, ⟨DBL_MAX, 0, 0⟩, glassMaterial⟩ : Triangle) (hitPoint lampInGlass ⟨0, 0, 0⟩ ⟨0, 0, 1⟩))
            (pathInit (fun _ => (1 / 2 : ℝ)) 0 (entered freshState 0 ⟨0, 0, 0⟩ ⟨0, 0, 1⟩)).refractRateBuf
            (refractRateOut glassMaterial (pathInit (fun _ => (1 / 2 : ℝ)) 0 (entered freshState 0 ⟨0, 0, 0⟩ ⟨0, 0, 1⟩)))))).1) := by
  obtain ⟨hhit, hdraw, hflag, -⟩ := lampInGlass_run
  have hmax : (0 : Int) ≤ lampInGlass.maxRayLevel := le_of_eq rfl
  have hnc : ¬ ((0 : Int) = 0 ∧
      (traceRay lampInGlass (fun _ => 1 / 2) ⟨0, 0, 0⟩ ⟨0, 0, 1⟩ Vec3.zero 0
        freshState).2.isChromaticDisperson = true) := by
    rw [hflag]
    simp
  exact ⟨hhit, rfl, hmax, rfl, hnc, rfl, hdraw,
    (traceRay_recursive_tint lampInGlass (fun _ => 1 / 2) ⟨0, 0, 0⟩ ⟨0, 0, 1⟩ Vec3.zero 0
      freshState (⟨⟨0, 0, 5⟩, ⟨1, 1, 1⟩, ⟨DBL_MAX, 0, 0⟩, glassMaterial⟩ : Triangle) hhit rfl hmax rfl hnc).2.2 rfl hdraw⟩

/-! ### Degenerate triangles -/

/-- A triangle with collinear vertices (`E1 × E2 = 0`), or a ray parallel to the
triangle's plane (`D . (E1 × E2) = 0`): the determinant is zero and `RayTriangle`
returns the sentinel. -/
theorem rayTriangle_degenerate (O D p1 p2 p3 : Vec3)
    (h : Vec3.cross_ (p2.sub p1) (p3.sub p1) = ⟨0, 0, 0⟩ ∨
      D.dot (Vec3.cross_ (p2.sub p1) (p3.sub p1)) = 0) :
    RayTriangle O D p1 p2 p3 = -DBL_MAX := by
  have hdet : mtDet D p1 p2 p3 = 0 := by
    rcases h with h | h
    · have hx := congrArg Vec3.x h
      have hy := congrArg Vec3.y h
      have hz := congrArg Vec3.z h
      simp only [Vec3.cross_, Vec3.sub] at hx hy hz
      simp only [mtDet, Vec3.dot, Vec3.cross_, Vec3.sub]
      linear_combination (-D.x) * hx + (-D.y) * hy + (-D.z) * hz
    · simp only [Vec3.dot, Vec3.cross_, Vec3.sub] at h
      simp only [mtDet, Vec3.dot, Vec3.cross_, Vec3.sub]
      linear_combination (-1) * h
  rw [rayTriangle_eq, hdet, if_pos (by norm_num)]

/-- A primitive whose distance is not beyond `eps` can be taken out of the scan. -/
theorem nearestHit_remove (sc : Scene) (l1 l2 : List Triangle) (t : Triangle) (O D : Vec3)
    (hset : sc.TriangleSet = l1 ++ t :: l2) (h : ¬ seekIntersection t O D > sc.eps) :
    nearestHit sc O D = nearestHit { sc with TriangleSet := l1 ++ l2 } O D := by
  have hstep : ∀ acc, scanStep sc O D acc t = acc := by
    intro acc
    simp only [scanStep]
    rw [if_neg (fun hc => h hc.1)]
  have hsame : scanStep { sc with TriangleSet := l1 ++ l2 } O D = scanStep sc O D := rfl
  simp only [nearestHit, hset, hsame, List.foldl_append, List.foldl_cons, hstep]

/-- The tracer depends on the primitives only through the scan: two scenes with
the same scan for every ray, the same point lights, `eps` and depth bound give
the same result. -/
theorem traceRay_congr (sc sc1 : Scene) (rnd : Nat → ℝ)
    (hn : ∀ O D, nearestHit sc O D = nearestHit sc1 O D)
    (hlights : sc.PointLight = sc1.PointLight) (heps : sc.eps = sc1.eps)
    (hmax : sc.maxRayLevel = sc1.maxRayLevel) (m : Nat) :
    ∀ (level : Int) (RaySt Ray color : Vec3) (st : TraceState),
      (sc.maxRayLevel + 1 - level).toNat = m →
      traceRay sc rnd RaySt Ray color level st = traceRay sc1 rnd RaySt Ray color level st := by
  induction m using Nat.strong_induction_on with
  | _ m ih =>
    intro level RaySt Ray color st hm
    have hP : hitPoint sc RaySt Ray = hitPoint sc1 RaySt Ray := by
      simp only [hitPoint, hn]
    cases hhit : (nearestHit sc RaySt Ray).2 with
    | none =>
      have h1 := (nearestHit_none_iff sc RaySt Ray).2 hhit
      rw [traceRay_of_miss sc rnd RaySt Ray color level st h1,
        traceRay_of_miss sc1 rnd RaySt Ray color level st (by rw [← hn]; exact h1)]
    | some t =>
      have hhit1 : (nearestHit sc1 RaySt Ray).2 = some t := by
        rw [← hn]
        exact hhit
      by_cases hrad : t.material.rediate = 0
      · by_cases hlevel : level > sc.maxRayLevel
        · rw [traceRay_of_cutoff sc rnd RaySt Ray color level st t hhit hrad hlevel,
            traceRay_of_cutoff sc1 rnd RaySt Ray color level st t hhit1 hrad
              (by rw [← hmax]; exact hlevel)]
        · have hlevel1 : ¬ level > sc1.maxRayLevel := by
            rw [← hmax]
            exact hlevel
          cases hquick : t.material.quickReflect with
          | true =>
            rw [(traceRay_quickReflect_aux sc rnd RaySt Ray color level st t hhit hrad hlevel
                hquick).1,
              (traceRay_quickReflect_aux sc1 rnd RaySt Ray color level st t hhit1 hrad hlevel1
                hquick).1, hP, hlights]
          | false =>
            cases hdiff : t.material.diffuseReflect with
            | true =>
              rw [traceRay_of_diffuse sc rnd RaySt Ray color level st t hhit hrad hlevel hquick
                  hdiff,
                traceRay_of_diffuse sc1 rnd RaySt Ray color level st t hhit1 hrad hlevel1 hquick
                  hdiff, hP, ih _ (by omega) (level + 1) _ _ _ _ rfl]
            | false =>
              by_cases hdraw :
                  rnd (pathInit rnd level (entered st level RaySt Ray)).rand < t.material.reflect
              · rw [traceRay_of_mirror sc rnd RaySt Ray color level st t hhit hrad hlevel hquick
                    hdiff hdraw,
                  traceRay_of_mirror sc1 rnd RaySt Ray color level st t hhit1 hrad hlevel1 hquick
                    hdiff hdraw, hP, ih _ (by omega) (level + 1) _ _ _ _ rfl]
              · rw [traceRay_of_refract sc rnd RaySt Ray color level st t hhit hrad hlevel hquick
                    hdiff hdraw,
                  traceRay_of_refract sc1 rnd RaySt Ray color level st t hhit1 hrad hlevel1
                    hquick hdiff hdraw, hP, heps, ih _ (by omega) (level + 1) _ _ _ _ rfl]
      · rw [traceRay_of_light sc rnd RaySt Ray color level st t hhit hrad,
          traceRay_of_light sc1 rnd RaySt Ray color level st t hhit1 hrad]

/-- C28. Degenerate triangles never hit.  For every ray and every triangle with
collinear vertices (`E1 × E2 = 0`), and for every ray parallel to a triangle's
plane (`D . (E1 × E2) = 0`), `RayTriangle` returns `-DBL_MAX`.  For such a
triangle primitive `t` of the scene (`p[2][0] != DBL_MAX`), the sentinel not
being greater than `eps`: the scan of `traceRay` does not select `t`, and its
result is that of the scene with `t` removed; for a triangle with collinear
vertices this holds for every ray, and `traceRay` itself returns the same on
both scenes. -/
theorem degenerate_triangle_never_hit (sc : Scene) (l1 l2 : List Triangle) (t : Triangle)
    (RaySt Ray : Vec3) (hset : sc.TriangleSet = l1 ++ t :: l2) (htri : t.p2.x ≠ DBL_MAX)
    (heps : -DBL_MAX ≤ sc.eps)
    (hdeg : Vec3.cross_ (t.p1.sub t.p0) (t.p2.sub t.p0) = ⟨0, 0, 0⟩ ∨
      Ray.dot (Vec3.cross_ (t.p1.sub t.p0) (t.p2.sub t.p0)) = 0) :
    (∀ O D p1 p2 p3 : Vec3,
      (Vec3.cross_ (p2.sub p1) (p3.sub p1) = ⟨0, 0, 0⟩ ∨
        D.dot (Vec3.cross_ (p2.sub p1) (p3.sub p1)) = 0) →
      RayTriangle O D p1 p2 p3 = -DBL_MAX) ∧
    (nearestHit sc RaySt Ray).2 ≠ some t ∧
    nearestHit sc RaySt Ray = nearestHit { sc with TriangleSet := l1 ++ l2 } RaySt Ray ∧
    (Vec3.cross_ (t.p1.sub t.p0) (t.p2.sub t.p0) = ⟨0, 0, 0⟩ →
      ∀ (rnd : Nat → ℝ) (O D color : Vec3) (level : Int) (st : TraceState),
        traceRay sc rnd O D color level st
          = traceRay { sc with TriangleSet := l1 ++ l2 } rnd O D color level st) := by
  have hseek : ∀ O D : Vec3,
      (Vec3.cross_ (t.p1.sub t.p0) (t.p2.sub t.p0) = ⟨0, 0, 0⟩ ∨
        D.dot (Vec3.cross_ (t.p1.sub t.p0) (t.p2.sub t.p0)) = 0) →
      ¬ seekIntersection t O D > sc.eps := by
    intro O D h
    simp only [seekIntersection, if_neg htri, rayTriangle_degenerate O D _ _ _ h]
    exact not_lt.2 heps
  refine ⟨rayTriangle_degenerate, ?_, nearestHit_remove sc l1 l2 t RaySt Ray hset
    (hseek RaySt Ray hdeg), ?_⟩
  · intro hsel
    exact hseek RaySt Ray hdeg (nearestHit_some sc RaySt Ray t hsel).2.2.1
  · intro hcol rnd O D color level st
    exact traceRay_congr sc { sc with TriangleSet := l1 ++ l2 } rnd
      (fun O1 D1 => nearestHit_remove sc l1 l2 t O1 D1 hset (hseek O1 D1 (Or.inl hcol)))
      rfl rfl rfl _ level O D color st rfl

/-- C28 on the lamp scene with the zero-area triangle `(0,0,0), (1,0,0), (2,0,0)`
appended. -/
theorem degenerate_triangle_never_hit_witness :
    (drawTriangle lampScene ⟨0, 0, 0⟩ ⟨1, 0, 0⟩ ⟨2, 0, 0⟩ mirrorMaterial).TriangleSet
        = lampScene.TriangleSet ++ [⟨⟨0, 0, 0⟩, ⟨1, 0, 0⟩, ⟨2, 0, 0⟩, mirrorMaterial⟩] ∧
      (2 : ℝ) ≠ DBL_MAX ∧
      -DBL_MAX ≤ (drawTriangle lampScene ⟨0, 0, 0⟩ ⟨1, 0, 0⟩ ⟨2, 0, 0⟩ mirrorMaterial).eps ∧
      Vec3.cross_ ((⟨1, 0, 0⟩ : Vec3).sub ⟨0, 0, 0⟩) ((⟨2, 0, 0⟩ : Vec3).sub ⟨0, 0, 0⟩)
        = ⟨0, 0, 0⟩ ∧
      (nearestHit (drawTriangle lampScene ⟨0, 0, 0⟩ ⟨1, 0, 0⟩ ⟨2, 0, 0⟩ mirrorMaterial)
        ⟨0, 0, 0⟩ ⟨0, 0, 1⟩).2 ≠ some ⟨⟨0, 0, 0⟩, ⟨1, 0, 0⟩, ⟨2, 0, 0⟩, mirrorMaterial⟩ ∧
      nearestHit (drawTriangle lampScene ⟨0, 0, 0⟩ ⟨1, 0, 0⟩ ⟨2, 0, 0⟩ mirrorMaterial)
          ⟨0, 0, 0⟩ ⟨0, 0, 1⟩
        = nearestHit
          { drawTriangle lampScene ⟨0, 0, 0⟩ ⟨1, 0, 0⟩ ⟨2, 0, 0⟩ mirrorMaterial with
            TriangleSet := lampScene.TriangleSet ++ [] } ⟨0, 0, 0⟩ ⟨0, 0, 1⟩ := by
  have hset : (drawTriangle lampScene ⟨0, 0, 0⟩ ⟨1, 0, 0⟩ ⟨2, 0, 0⟩ mirrorMaterial).TriangleSet
      = lampScene.TriangleSet ++ [⟨⟨0, 0, 0⟩, ⟨1, 0, 0⟩, ⟨2, 0, 0⟩, mirrorMaterial⟩] := rfl
  have htri : (2 : ℝ) ≠ DBL_MAX := ne_of_lt (lt_trans (by norm_num) four_lt_DBL_MAX)
  have heps : -DBL_MAX ≤
      (drawTriangle lampScene ⟨0, 0, 0⟩ ⟨1, 0, 0⟩ ⟨2, 0, 0⟩ mirrorMaterial).eps := by
    have h := DBL_MAX_pos
    have e : (drawTriangle lampScene ⟨0, 0, 0⟩ ⟨1, 0, 0⟩ ⟨2, 0, 0⟩ mirrorMaterial).eps
        = 1e-4 := rfl
    rw [e]
    have : (0 : ℝ) ≤ 1e-4 := by norm_num
    linarith
  have hcol : Vec3.cross_ ((⟨1, 0, 0⟩ : Vec3).sub ⟨0, 0, 0⟩) ((⟨2, 0, 0⟩ : Vec3).sub ⟨0, 0, 0⟩)
      = ⟨0, 0, 0⟩ := by
    ext <;> simp [Vec3.cross_, Vec3.sub]
  have h := degenerate_triangle_never_hit
    (drawTriangle lampScene ⟨0, 0, 0⟩ ⟨1, 0, 0⟩ ⟨2, 0, 0⟩ mirrorMaterial)
    lampScene.TriangleSet [] ⟨⟨0, 0, 0⟩, ⟨1, 0, 0⟩, ⟨2, 0, 0⟩, mirrorMaterial⟩
    ⟨0, 0, 0⟩ ⟨0, 0, 1⟩ hset htri heps (Or.inl hcol)
  exact ⟨hset, htri, heps, hcol, h.2.1, h.2.2.1⟩

/-! ### The diffuse scatter -/

/-- The frame of `diffuseReflect`: for a unit normal `n`, an axis `t` not
parallel to it and a non-zero first weight `c`, the vector
`a n + (c u0 + s v0)` with `u0 = normalize(t × n)`, `v0 = normalize(n × c u0)` has
squared length `a^2 + c^2 + s^2` and component `a` along `n`. -/
theorem diffuse_frame (t n : Vec3) (a c s : ℝ) (hn : n.dot n = 1)
    (ht : 0 < (Vec3.cross_ t n).dot (Vec3.cross_ t n)) (hc : c ≠ 0) :
    ((Vec3.mul a n).add ((Vec3.mul c (Vec3.cross_ t n).normalize).add
          (Vec3.mul s (Vec3.cross_ n (Vec3.mul c (Vec3.cross_ t n).normalize)).normalize))).dot
        ((Vec3.mul a n).add ((Vec3.mul c (Vec3.cross_ t n).normalize).add
          (Vec3.mul s (Vec3.cross_ n (Vec3.mul c (Vec3.cross_ t n).normalize)).normalize)))
      = a ^ 2 + c ^ 2 + s ^ 2 ∧
    ((Vec3.mul a n).add ((Vec3.mul c (Vec3.cross_ t n).normalize).add
          (Vec3.mul s (Vec3.cross_ n (Vec3.mul c (Vec3.cross_ t n).normalize)).normalize))).dot n
      = a := by
  have hu0 := Vec3.normalize_dot_self _ ht
  have hnu0 : n.dot (Vec3.cross_ t n).normalize = 0 := by
    rw [Vec3.dot_normalize]
    have : n.dot (Vec3.cross_ t n) = 0 := by
      simp only [Vec3.dot, Vec3.cross_]
      ring
    rw [this, zero_div]
  have hwpos := (diffuse_core t n a c s hn ht hc).1
  generalize (Vec3.cross_ t n).normalize = u0 at hu0 hnu0 hwpos ⊢
  have hv0 := Vec3.normalize_dot_self _ hwpos
  have hnv0 : n.dot (Vec3.cross_ n (Vec3.mul c u0)).normalize = 0 := by
    rw [Vec3.dot_normalize]
    have : n.dot (Vec3.cross_ n (Vec3.mul c u0)) = 0 := by
      simp only [Vec3.dot, Vec3.cross_, Vec3.mul]
      ring
    rw [this, zero_div]
  have huv0 : u0.dot (Vec3.cross_ n (Vec3.mul c u0)).normalize = 0 := by
    rw [Vec3.dot_normalize]
    have : u0.dot (Vec3.cross_ n (Vec3.mul c u0)) = 0 := by
      simp only [Vec3.dot, Vec3.cross_, Vec3.mul]
      ring
    rw [this, zero_div]
  generalize (Vec3.cross_ n (Vec3.mul c u0)).normalize = v0 at hv0 hnv0 huv0 ⊢
  have key : ((Vec3.mul a n).add ((Vec3.mul c u0).add (Vec3.mul s v0))).dot
      ((Vec3.mul a n).add ((Vec3.mul c u0).add (Vec3.mul s v0)))
      = a ^ 2 * n.dot n + c ^ 2 * u0.dot u0 + s ^ 2 * v0.dot v0
        + 2 * a * c * n.dot u0 + 2 * a * s * n.dot v0 + 2 * c * s * u0.dot v0 := by
    simp only [Vec3.dot, Vec3.add, Vec3.mul]
    ring
  have key2 : ((Vec3.mul a n).add ((Vec3.mul c u0).add (Vec3.mul s v0))).dot n
      = a * n.dot n + c * n.dot u0 + s * n.dot v0 := by
    simp only [Vec3.dot, Vec3.add, Vec3.mul]
    ring
  refine ⟨?_, ?_⟩
  · rw [key, hn, hu0, hv0, hnu0, hnv0, huv0]
    ring
  · rw [key2, hn, hnu0, hnv0]
    ring

/-- C29. Diffuse scatter stays in the incident-side hemisphere.  For a unit face
normal `N`, any incident `I`, and draws with `0 < r2 < 1` and `cos(r1) != 0`
(`r1 = 2 π d1`, `r2 = d2`): the helper axis `t` chosen by `diffuseReflect` is not
parallel to the normal (`t × n != 0` for the flipped normal `n`), the output has
length one, and its component along the normal flipped to face the incoming ray
is `sqrt(1 - r2)`, which is positive. -/
theorem diffuseReflect_hemisphere (I N : Vec3) (d1 d2 : ℝ) (hN : N.norm = 1)
    (h2 : 0 < d2) (h21 : d2 < 1) (hc : Real.cos (2 * Real.pi * d1) ≠ 0) :
    Vec3.cross_ ⟨if |(facing N I).x| > 0.1 then 0 else 1,
        if (if |(facing N I).x| > 0.1 then (0 : ℝ) else 1) = 0 then 1 else 0, 0⟩ (facing N I)
      ≠ ⟨0, 0, 0⟩ ∧
    (diffuseReflect I N d1 d2).norm = 1 ∧
    (diffuseReflect I N d1 d2).dot (facing N I) = Real.sqrt (1 - d2) ∧
    0 < Real.sqrt (1 - d2) := by
  have hN2 := (Vec3.norm_eq_one_iff N).1 hN
  have hn : (facing N I).dot (facing N I) = 1 := facing_dot_self N I hN2
  have hc0 : Real.cos (2 * Real.pi * d1) * Real.sqrt d2 ≠ 0 :=
    mul_ne_zero hc (ne_of_gt (Real.sqrt_pos.2 h2))
  have ht := diffuse_axis _ hn
  obtain ⟨hff, hfn⟩ := diffuse_frame _ _ (Real.sqrt (1 - d2)) _
    (Real.sin (2 * Real.pi * d1) * Real.sqrt d2) hn ht hc0
  have ha : Real.sqrt (1 - d2) ^ 2 = 1 - d2 := Real.sq_sqrt (by linarith)
  have hb : Real.sqrt d2 ^ 2 = d2 := Real.sq_sqrt (le_of_lt h2)
  have hone : Real.sqrt (1 - d2) ^ 2 + (Real.cos (2 * Real.pi * d1) * Real.sqrt d2) ^ 2
      + (Real.sin (2 * Real.pi * d1) * Real.sqrt d2) ^ 2 = 1 := by
    rw [mul_pow, mul_pow, ha, hb]
    linear_combination d2 * Real.cos_sq_add_sin_sq (2 * Real.pi * d1)
  rw [hone] at hff
  have hunit := (Vec3.norm_eq_one_iff _).2 hff
  have hdef : diffuseReflect I N d1 d2 = ((Vec3.mul (Real.sqrt (1 - d2)) (facing N I)).add
      ((Vec3.mul (Real.cos (2 * Real.pi * d1) * Real.sqrt d2)
        (Vec3.cross_ ⟨if |(facing N I).x| > 0.1 then 0 else 1,
          if (if |(facing N I).x| > 0.1 then (0 : ℝ) else 1) = 0 then 1 else 0, 0⟩
          (facing N I)).normalize).add
      (Vec3.mul (Real.sin (2 * Real.pi * d1) * Real.sqrt d2)
        (Vec3.cross_ (facing N I) (Vec3.mul (Real.cos (2 * Real.pi * d1) * Real.sqrt d2)
          (Vec3.cross_ ⟨if |(facing N I).x| > 0.1 then 0 else 1,
            if (if |(facing N I).x| > 0.1 then (0 : ℝ) else 1) = 0 then 1 else 0, 0⟩
            (facing N I)).normalize)).normalize))).normalize := rfl
  refine ⟨?_, ?_, ?_, Real.sqrt_pos.2 (by linarith)⟩
  · intro hz
    rw [hz] at ht
    simp [Vec3.dot] at ht
  · rw [hdef, Vec3.normalize_eq_self _ hunit]
    exact hunit
  · rw [hdef, Vec3.normalize_eq_self _ hunit]
    exact hfn

/-- C29 for the ray straight down on a floor with normal `(0, 0, 1)` and the
draws `1/2`, `1/2`. -/
theorem diffuseReflect_hemisphere_witness :
    (⟨0, 0, 1⟩ : Vec3).norm = 1 ∧ (0 : ℝ) < 1 / 2 ∧ (1 / 2 : ℝ) < 1 ∧
      Real.cos (2 * Real.pi * (1 / 2)) ≠ 0 ∧
      (diffuseReflect ⟨0, 0, -1⟩ ⟨0, 0, 1⟩ (1 / 2) (1 / 2)).norm = 1 ∧
      (diffuseReflect ⟨0, 0, -1⟩ ⟨0, 0, 1⟩ (1 / 2) (1 / 2)).dot
          (facing ⟨0, 0, 1⟩ ⟨0, 0, -1⟩) = Real.sqrt (1 - 1 / 2) := by
  have hN : (⟨0, 0, 1⟩ : Vec3).norm = 1 := by
    rw [Vec3.norm_eq_one_iff]
    norm_num [Vec3.dot]
  have hc : Real.cos (2 * Real.pi * (1 / 2)) ≠ 0 := by
    have : 2 * Real.pi * (1 / 2) = Real.pi := by ring
    rw [this, Real.cos_pi]
    norm_num
  have h := diffuseReflect_hemisphere ⟨0, 0, -1⟩ ⟨0, 0, 1⟩ (1 / 2) (1 / 2) hN (by norm_num)
    (by norm_num) hc
  exact ⟨hN, by norm_num, by norm_num, hc, h.2.1, h.2.2.1⟩

/-! ### The statics of `traceRay` do not leak between primary rays -/

theorem pathInit_same (rnd : Nat → ℝ) (level : Int) (a b : TraceState) (O D : Vec3)
    (h : a.sameStatics b) :
    (pathInit rnd level (entered a level O D)).sameStatics
      (pathInit rnd level (entered b level O D)) := by
  obtain ⟨h1, h2, h3, h4⟩ := h
  by_cases hl : level = 0
  · simp only [pathInit, if_pos hl, entered, TraceState.sameStatics, h4, and_self]
  · simp only [pathInit, if_neg hl, entered, TraceState.sameStatics, h1, h2, h3, h4, and_self]

/-- At level 0 the initialisation of step [5] makes the statics agree, whatever
they were, for states at the same position in the stream of draws. -/
theorem pathInit_zero_same (rnd : Nat → ℝ) (a b : TraceState) (O D : Vec3)
    (h : a.rand = b.rand) :
    (pathInit rnd 0 (entered a 0 O D)).sameStatics (pathInit rnd 0 (entered b 0 O D)) := by
  simp only [pathInit, if_true, entered, TraceState.sameStatics, h, and_self]

theorem refractRateOut_same (material : Material) (a b : TraceState) (h : a.sameStatics b) :
    refractRateOut material a = refractRateOut material b := by
  simp only [refractRateOut, h.1, h.2.1]

theorem refractState_same (material : Material) (a b : TraceState) (P R : Vec3)
    (h : a.sameStatics b) :
    (refractState material a P R).sameStatics (refractState material b P R) := by
  have ho := refractRateOut_same material a b h
  obtain ⟨h1, h2, h3, h4⟩ := h
  simp only [refractState, TraceState.sameStatics, h1, h3, h4, ho, and_self]

/-- The tail of `traceRay` on two results of the recursive call that agree in
colour and statics. -/
theorem finish_child (material : Material) (level : Int) (loss : ℝ)
    (r s : Vec3 × TraceState) (h : r.1 = s.1 ∧ r.2.sameStatics s.2) :
    (finish material level (Vec3.mul loss r.1) r.2).1
        = (finish material level (Vec3.mul loss s.1) s.2).1 ∧
      (finish material level (Vec3.mul loss r.1) r.2).2.sameStatics
        (finish material level (Vec3.mul loss s.1) s.2).2 := by
  obtain ⟨hc, h1, h2, h3, h4⟩ := h
  refine ⟨?_, ⟨h1, h2, h3, h4⟩⟩
  simp only [finish, hc, h1, h3]

/-- What `traceRay` returns depends on the state only through the statics as
they are after the initialisation of step [5] (and the position in the stream
of draws): if two states agree there, the colours returned are equal; if the
two states agree on the statics to begin with, so do the states returned. -/
theorem traceRay_statics (sc : Scene) (rnd : Nat → ℝ) (m : Nat) :
    ∀ (level : Int) (RaySt Ray color : Vec3) (a b : TraceState),
      (sc.maxRayLevel + 1 - level).toNat = m →
      (pathInit rnd level (entered a level RaySt Ray)).sameStatics
        (pathInit rnd level (entered b level RaySt Ray)) →
      (traceRay sc rnd RaySt Ray color level a).1 = (traceRay sc rnd RaySt Ray color level b).1 ∧
      (a.sameStatics b →
        (traceRay sc rnd RaySt Ray color level a).2.sameStatics
          (traceRay sc rnd RaySt Ray color level b).2) := by
  induction m using Nat.strong_induction_on with
  | _ m ih =>
    intro level RaySt Ray color a b hm hab
    have hent : a.sameStatics b →
        (entered a level RaySt Ray).sameStatics (entered b level RaySt Ray) := fun h => h
    cases hhit : (nearestHit sc RaySt Ray).2 with
    | none =>
      have h1 := (nearestHit_none_iff sc RaySt Ray).2 hhit
      rw [traceRay_of_miss sc rnd RaySt Ray color level a h1,
        traceRay_of_miss sc rnd RaySt Ray color level b h1]
      exact ⟨rfl, hent⟩
    | some t =>
      by_cases hrad : t.material.rediate = 0
      · by_cases hlevel : level > sc.maxRayLevel
        · rw [traceRay_of_cutoff sc rnd RaySt Ray color level a t hhit hrad hlevel,
            traceRay_of_cutoff sc rnd RaySt Ray color level b t hhit hrad hlevel]
          exact ⟨rfl, hent⟩
        · have hr := hab.2.2.2
          have hb := hab.2.1
          have ho := refractRateOut_same t.material _ _ hab
          cases hquick : t.material.quickReflect with
          | true =>
            rw [(traceRay_quickReflect_aux sc rnd RaySt Ray color level a t hhit hrad hlevel
                hquick).1,
              (traceRay_quickReflect_aux sc rnd RaySt Ray color level b t hhit hrad hlevel
                hquick).1]
            exact ⟨rfl, fun _ => hab⟩
          | false =>
            cases hdiff : t.material.diffuseReflect with
            | true =>
              rw [traceRay_of_diffuse sc rnd RaySt Ray color level a t hhit hrad hlevel hquick
                  hdiff,
                traceRay_of_diffuse sc rnd RaySt Ray color level b t hhit hrad hlevel hquick
                  hdiff, hr]
              have hchild := ih _ (by omega) (level + 1) (hitPoint sc RaySt Ray)
                (diffuseReflect Ray (hitFaceVec t (hitPoint sc RaySt Ray))
                  (rnd (pathInit rnd level (entered b level RaySt Ray)).rand)
                  (rnd ((pathInit rnd level (entered b level RaySt Ray)).rand + 1)))
                color
                { pathInit rnd level (entered a level RaySt Ray) with
                  rand := (pathInit rnd level (entered b level RaySt Ray)).rand + 2 }
                { pathInit rnd level (entered b level RaySt Ray) with
                  rand := (pathInit rnd level (entered b level RaySt Ray)).rand + 2 }
                rfl (pathInit_same rnd _ _ _ _ _ ⟨hab.1, hab.2.1, hab.2.2.1, rfl⟩)
              have hfin := finish_child t.material level t.material.reflectLossRate _ _
                ⟨hchild.1, hchild.2 ⟨hab.1, hab.2.1, hab.2.2.1, rfl⟩⟩
              exact ⟨hfin.1, fun _ => hfin.2⟩
            | false =>
              by_cases hdraw :
                  rnd (pathInit rnd level (entered a level RaySt Ray)).rand < t.material.reflect
              · have hdrawb :
                    rnd (pathInit rnd level (entered b level RaySt Ray)).rand
                      < t.material.reflect := by
                  rw [← hr]
                  exact hdraw
                rw [traceRay_of_mirror sc rnd RaySt Ray color level a t hhit hrad hlevel hquick
                    hdiff hdraw,
                  traceRay_of_mirror sc rnd RaySt Ray color level b t hhit hrad hlevel hquick
                    hdiff hdrawb, hr]
                have hchild := ih _ (by omega) (level + 1) (hitPoint sc RaySt Ray)
                  (reflect Ray (hitFaceVec t (hitPoint sc RaySt Ray))) color
                  { pathInit rnd level (entered a level RaySt Ray) with
                    rand := (pathInit rnd level (entered b level RaySt Ray)).rand + 1 }
                  { pathInit rnd level (entered b level RaySt Ray) with
                    rand := (pathInit rnd level (entered b level RaySt Ray)).rand + 1 }
                  rfl (pathInit_same rnd _ _ _ _ _ ⟨hab.1, hab.2.1, hab.2.2.1, rfl⟩)
                have hfin := finish_child t.material level t.material.reflectLossRate _ _
                  ⟨hchild.1, hchild.2 ⟨hab.1, hab.2.1, hab.2.2.1, rfl⟩⟩
                exact ⟨hfin.1, fun _ => hfin.2⟩
              · have hdrawb :
                    ¬ rnd (pathInit rnd level (entered b level RaySt Ray)).rand
                      < t.material.reflect := by
                  rw [← hr]
                  exact hdraw
                rw [traceRay_of_refract sc rnd RaySt Ray color level a t hhit hrad hlevel hquick
                    hdiff hdraw,
                  traceRay_of_refract sc rnd RaySt Ray color level b t hhit hrad hlevel hquick
                    hdiff hdrawb, hb, ho]
                have hst := refractState_same t.material _ _ (hitPoint sc RaySt Ray)
                  (refract Ray (hitFaceVec t (hitPoint sc RaySt Ray))
                    (pathInit rnd level (entered b level RaySt Ray)).refractRateBuf
                    (refractRateOut t.material (pathInit rnd level (entered b level RaySt Ray))))
                  hab
                have hchild := ih _ (by omega) (level + 1)
                  ((hitPoint sc RaySt Ray).add (Vec3.mul sc.eps
                    (refract Ray (hitFaceVec t (hitPoint sc RaySt Ray))
                      (pathInit rnd level (entered b level RaySt Ray)).refractRateBuf
                      (refractRateOut t.material
                        (pathInit rnd level (entered b level RaySt Ray))))))
                  (refract Ray (hitFaceVec t (hitPoint sc RaySt Ray))
                    (pathInit rnd level (entered b level RaySt Ray)).refractRateBuf
                    (refractRateOut t.material (pathInit rnd level (entered b level RaySt Ray))))
                  color _ _ rfl (pathInit_same rnd _ _ _ _ _ hst)
                have hfin := finish_child t.material level t.material.refractLossRate _ _
                  ⟨hchild.1, hchild.2 hst⟩
                exact ⟨hfin.1, fun _ => hfin.2⟩
      · rw [traceRay_of_light sc rnd RaySt Ray color level a t hhit hrad,
          traceRay_of_light sc rnd RaySt Ray color level b t hhit hrad]
        exact ⟨rfl, hent⟩

/-- C30. The per-path dispersion state does not leak between primary rays: two
level-0 calls of `traceRay` with the same scene, ray, accumulator and random
draws (the same position `rand` in the same stream) return the same colour,
whatever values of `refractColorIndex`, `refractRateBuf` and
`isChromaticDisperson` earlier calls have left behind. -/
theorem traceRay_statics_do_not_leak (sc : Scene) (rnd : Nat → ℝ) (RaySt Ray color : Vec3)
    (index index1 : Int) (buf buf1 : ℝ) (flag flag1 : Bool) (rand : Nat)
    (log log1 : List TraceEvent) :
    (traceRay sc rnd RaySt Ray color 0 ⟨index, buf, flag, rand, log⟩).1
      = (traceRay sc rnd RaySt Ray color 0 ⟨index1, buf1, flag1, rand, log1⟩).1 :=
  (traceRay_statics sc rnd _ 0 RaySt Ray color ⟨index, buf, flag, rand, log⟩
    ⟨index1, buf1, flag1, rand, log1⟩ rfl
    (pathInit_zero_same rnd ⟨index, buf, flag, rand, log⟩ ⟨index1, buf1, flag1, rand, log1⟩
      RaySt Ray rfl)).1

/-! ### What `isMandelbrotSet` computes -/

theorem mandelbrotIterate_shift (C z : ℂ) :
    ∀ j : Nat, mandelbrotIterate C z (j + 1) = mandelbrotIterate C (z * z + C) j := by
  intro j
  induction j with
  | zero => rfl
  | succ j ih =>
    have e : mandelbrotIterate C z (j + 1 + 1)
        = mandelbrotIterate C z (j + 1) * mandelbrotIterate C z (j + 1) + C := rfl
    rw [e, ih]
    rfl

/-- The loop returns `0` when none of the next `k` iterates leaves the disc, and
`epoch + j` when the `j`-th of them is the first to leave it. -/
theorem mandelbrotLoop_spec (C : ℂ) :
    ∀ (k : Nat) (epoch : Int) (z : ℂ),
      ((∀ j < k, Complex.abs (mandelbrotIterate C z j) ≤ 2) → mandelbrotLoop C k epoch z = 0) ∧
      (∀ j < k, Complex.abs (mandelbrotIterate C z j) > 2 →
        (∀ i < j, Complex.abs (mandelbrotIterate C z i) ≤ 2) →
        mandelbrotLoop C k epoch z = epoch + j) := by
  intro k
  induction k with
  | zero =>
    intro epoch z
    exact ⟨fun _ => rfl, fun j hj => absurd hj (Nat.not_lt_zero j)⟩
  | succ k ih =>
    intro epoch z
    refine ⟨?_, ?_⟩
    · intro hall
      have h0 : ¬ Complex.abs z > 2 := not_lt.2 (hall 0 (Nat.succ_pos k))
      simp only [mandelbrotLoop, if_neg h0]
      apply (ih (epoch + 1) (z * z + C)).1
      intro j hj
      rw [← mandelbrotIterate_shift]
      exact hall (j + 1) (Nat.succ_lt_succ hj)
    · intro j hj hesc hbefore
      cases j with
      | zero =>
        have h0 : Complex.abs z > 2 := hesc
        simp only [mandelbrotLoop, if_pos h0]
        simp
      | succ j =>
        have h0 : ¬ Complex.abs z > 2 := not_lt.2 (hbefore 0 (Nat.succ_pos j))
        simp only [mandelbrotLoop, if_neg h0]
        rw [(ih (epoch + 1) (z * z + C)).2 j (Nat.lt_of_succ_lt_succ hj)
          (by rw [← mandelbrotIterate_shift]; exact hesc)
          (fun i hi => by
            rw [← mandelbrotIterate_shift]
            exact hbefore (i + 1) (Nat.succ_lt_succ hi))]
        push_cast
        ring

/-- What `isMandelbrotSet(C, Z0, T)` returns: `0` when no iterate `z_0 .. z_(T-1)`
has modulus above 2, and the index of the first iterate whose modulus exceeds 2
otherwise (which is `0` again when that iterate is `z_0`). -/
theorem isMandelbrotSet_spec (C Z0 : ℂ) (T : Nat) :
    ((∀ j < T, Complex.abs (mandelbrotIterate C Z0 j) ≤ 2) →
      isMandelbrotSet C Z0 (T : Int) = 0) ∧
    (∀ j < T, Complex.abs (mandelbrotIterate C Z0 j) > 2 →
      (∀ i < j, Complex.abs (mandelbrotIterate C Z0 i) ≤ 2) →
      isMandelbrotSet C Z0 (T : Int) = j) := by
  have hT : ((T : Int)).toNat = T := Int.toNat_natCast T
  obtain ⟨h1, h2⟩ := mandelbrotLoop_spec C T 0 Z0
  simp only [isMandelbrotSet, hT]
  refine ⟨h1, ?_⟩
  intro j hj hesc hbefore
  rw [h2 j hj hesc hbefore, zero_add]

/-! ### The sign of the face normal -/

/-- C33. Bounce directions do not depend on the sign of the face normal: for every
`I` and `N`, `reflect(I, -N) = reflect(I, N)`; and for every `I`, `N` with
`I . N != 0` and all rates, `refract(I, -N, rateI, rateO) = refract(I, N, rateI, rateO)`. -/
theorem bounce_normal_sign (I N : Vec3) (rateI rateO : ℝ) :
    reflect I (Vec3.mul (-1) N) = reflect I N ∧
      (N.dot I ≠ 0 → refract I (Vec3.mul (-1) N) rateI rateO = refract I N rateI rateO) := by
  have hd : (Vec3.mul (-1) N).dot I = -(N.dot I) := by
    simp only [Vec3.dot, Vec3.mul]
    ring
  have hr : reflect I (Vec3.mul (-1) N) = reflect I N := by
    have e : (Vec3.mul (-2 * (Vec3.mul (-1) N).dot I) (Vec3.mul (-1) N)).add I
        = (Vec3.mul (-2 * N.dot I) N).add I := by
      rw [hd]
      ext <;> simp only [Vec3.add, Vec3.mul] <;> ring
    simp only [reflect, e]
  refine ⟨hr, ?_⟩
  intro h
  have hsq : (-(N.dot I)) ^ 2 = (N.dot I) ^ 2 := by ring
  simp only [refract, hr, hd, hsq]
  by_cases hC : 1 - (rateI / rateO) ^ 2 * (1 - (N.dot I) ^ 2) < 0
  · simp only [if_pos hC]
  · simp only [if_neg hC]
    have e : I.add (Vec3.mul
          (- -(N.dot I) - (if -(N.dot I) > 0 then -1 else 1) *
            Real.sqrt (1 - (rateI / rateO) ^ 2 * (1 - (N.dot I) ^ 2)) / (rateI / rateO))
          (Vec3.mul (-1) N))
        = I.add (Vec3.mul
          (-(N.dot I) - (if N.dot I > 0 then -1 else 1) *
            Real.sqrt (1 - (rateI / rateO) ^ 2 * (1 - (N.dot I) ^ 2)) / (rateI / rateO)) N) := by
      rcases lt_or_gt_of_ne h with hneg | hpos
      · have h1 : -(N.dot I) > 0 := by linarith
        have h2 : ¬ N.dot I > 0 := by linarith
        rw [if_pos h1, if_neg h2]
        ext <;> simp only [Vec3.add, Vec3.mul] <;> ring
      · have h1 : ¬ -(N.dot I) > 0 := by linarith
        rw [if_neg h1, if_pos hpos]
        ext <;> simp only [Vec3.add, Vec3.mul] <;> ring
    rw [e]

/-- C33 at normal incidence on a floor, air to glass. -/
theorem bounce_normal_sign_witness :
    (⟨0, 0, 1⟩ : Vec3).dot ⟨0, 0, -1⟩ ≠ 0 ∧
      reflect ⟨0, 0, -1⟩ (Vec3.mul (-1) ⟨0, 0, 1⟩) = reflect ⟨0, 0, -1⟩ ⟨0, 0, 1⟩ ∧
      refract ⟨0, 0, -1⟩ (Vec3.mul (-1) ⟨0, 0, 1⟩) 1 (3 / 2)
        = refract ⟨0, 0, -1⟩ ⟨0, 0, 1⟩ 1 (3 / 2) := by
  have h : (⟨0, 0, 1⟩ : Vec3).dot ⟨0, 0, -1⟩ ≠ 0 := by
    norm_num [Vec3.dot]
  exact ⟨h, (bounce_normal_sign ⟨0, 0, -1⟩ ⟨0, 0, 1⟩ 1 (3 / 2)).1,
    (bounce_normal_sign ⟨0, 0, -1⟩ ⟨0, 0, 1⟩ 1 (3 / 2)).2 h⟩

/-! ### The winding of a triangle -/

/-- Swapping the last two vertices negates the determinant, exchanges the two
weights and keeps the ray parameter. -/
theorem mt_swap (O D p1 p2 p3 : Vec3) :
    mtDet D p1 p3 p2 = -mtDet D p1 p2 p3 ∧
    mtU O D p1 p3 p2 = mtV O D p1 p2 p3 ∧
    mtV O D p1 p3 p2 = mtU O D p1 p2 p3 ∧
    mtT O D p1 p3 p2 = mtT O D p1 p2 p3 := by
  have hdet : mtDet D p1 p3 p2 = -mtDet D p1 p2 p3 := by
    simp only [mtDet, Vec3.dot, Vec3.cross_, Vec3.sub]
    ring
  refine ⟨hdet, ?_, ?_, ?_⟩
  · have e : (Vec3.cross_ D (p2.sub p1)).dot (O.sub p1)
        = -((Vec3.cross_ (O.sub p1) (p2.sub p1)).dot D) := by
      simp only [Vec3.dot, Vec3.cross_, Vec3.sub]
      ring
    rw [mtU, mtV, hdet, e, neg_div_neg_eq]
  · have e : (Vec3.cross_ (O.sub p1) (p3.sub p1)).dot D
        = -((Vec3.cross_ D (p3.sub p1)).dot (O.sub p1)) := by
      simp only [Vec3.dot, Vec3.cross_, Vec3.sub]
      ring
    rw [mtV, mtU, hdet, e, neg_div_neg_eq]
  · have e : (Vec3.cross_ (O.sub p1) (p3.sub p1)).dot (p2.sub p1)
        = -((Vec3.cross_ (O.sub p1) (p2.sub p1)).dot (p3.sub p1)) := by
      simp only [Vec3.dot, Vec3.cross_, Vec3.sub]
      ring
    rw [mtT, mtT, hdet, e, neg_div_neg_eq]

/-- C34. `RayTriangle` is two-sided: for every ray and vertices `p1`, `p2`, `p3`,
`RayTriangle(O, D, p1, p2, p3) = RayTriangle(O, D, p1, p3, p2)`, whether the
result is a distance or the `-DBL_MAX` sentinel. -/
theorem rayTriangle_two_sided (O D p1 p2 p3 : Vec3) :
    RayTriangle O D p1 p2 p3 = RayTriangle O D p1 p3 p2 := by
  obtain ⟨hdet, hu, hv, ht⟩ := mt_swap O D p1 p2 p3
  rw [rayTriangle_eq O D p1 p2 p3, rayTriangle_eq O D p1 p3 p2, hdet, hu, hv, ht, abs_neg]
  by_cases h1 : |mtDet D p1 p2 p3| < 1e-4
  · rw [if_pos h1, if_pos h1]
  · rw [if_neg h1, if_neg h1]
    by_cases hrej : mtU O D p1 p2 p3 < 0 ∨ mtV O D p1 p2 p3 < 0 ∨
        mtU O D p1 p2 p3 + mtV O D p1 p2 p3 > 1
    · have e1 : (if mtU O D p1 p2 p3 < 0 ∨ mtU O D p1 p2 p3 > 1 then -DBL_MAX
          else if mtV O D p1 p2 p3 < 0 ∨ mtU O D p1 p2 p3 + mtV O D p1 p2 p3 > 1 then -DBL_MAX
          else mtT O D p1 p2 p3) = -DBL_MAX := by
        split_ifs <;> first | rfl | (exfalso; rcases hrej with h | h | h <;> tauto)
      have e2 : (if mtV O D p1 p2 p3 < 0 ∨ mtV O D p1 p2 p3 > 1 then -DBL_MAX
          else if mtU O D p1 p2 p3 < 0 ∨ mtV O D p1 p2 p3 + mtU O D p1 p2 p3 > 1 then -DBL_MAX
          else mtT O D p1 p2 p3) = -DBL_MAX := by
        split_ifs with ha hb <;> first | rfl | (exfalso; rcases hrej with h | h | h)
        · exact hb (Or.inl h)
        · exact ha (Or.inl h)
        · exact hb (Or.inr (by linarith))
      rw [e1, e2]
    · have hu0 : ¬ mtU O D p1 p2 p3 < 0 := fun h => hrej (Or.inl h)
      have hv0 : ¬ mtV O D p1 p2 p3 < 0 := fun h => hrej (Or.inr (Or.inl h))
      have hs : ¬ mtU O D p1 p2 p3 + mtV O D p1 p2 p3 > 1 := fun h => hrej (Or.inr (Or.inr h))
      have a1 : ¬ (mtU O D p1 p2 p3 < 0 ∨ mtU O D p1 p2 p3 > 1) := by
        intro h
        rcases h with h | h
        · exact hu0 h
        · exact hs (by linarith [not_lt.1 hv0])
      have a2 : ¬ (mtV O D p1 p2 p3 < 0 ∨ mtU O D p1 p2 p3 + mtV O D p1 p2 p3 > 1) := by
        intro h
        rcases h with h | h
        · exact hv0 h
        · exact hs h
      have b1 : ¬ (mtV O D p1 p2 p3 < 0 ∨ mtV O D p1 p2 p3 > 1) := by
        intro h
        rcases h with h | h
        · exact hv0 h
        · exact hs (by linarith [not_lt.1 hu0])
      have b2 : ¬ (mtU O D p1 p2 p3 < 0 ∨ mtV O D p1 p2 p3 + mtU O D p1 p2 p3 > 1) := by
        intro h
        rcases h with h | h
        · exact hu0 h
        · exact hs (by linarith)
      rw [if_neg a1, if_neg a2, if_neg b1, if_neg b2]

/-! ### The chain of nested calls -/

theorem callLevels_append (l1 l2 : List TraceEvent) :
    callLevels (l1 ++ l2) = callLevels l1 ++ callLevels l2 := by
  induction l1 with
  | nil => rfl
  | cons e l1 ih =>
    cases e with
    | call level RaySt Ray =>
      show level :: callLevels (l1 ++ l2) = level :: callLevels l1 ++ callLevels l2
      rw [ih]
      rfl
    | refract i a b P R rates =>
      show callLevels (l1 ++ l2) = callLevels l1 ++ callLevels l2
      exact ih

/-- The levels `level, level + 1, ..., level + k`. -/
theorem levels_cons (level : Int) (k : Nat) :
    level :: (List.range (k + 1)).map (fun i : Nat => level + 1 + (i : Int))
      = (List.range (k + 1 + 1)).map (fun i : Nat => level + (i : Int)) := by
  rw [List.range_succ_eq_map (k + 1), List.map_cons, List.map_map]
  simp only [Nat.cast_zero, add_zero, List.cons.injEq, true_and]
  apply List.map_congr_left
  intro i _
  simp only [Function.comp, Nat.cast_succ]
  ring

/-- The calls recorded by a `traceRay` call at `level` form one chain: the call
itself and then `k` nested calls at the levels `level + 1, ..., level + k`, one
per level, where the last level is at most `maxRayLevel + 1`. -/
theorem traceRay_chain (sc : Scene) (rnd : Nat → ℝ) (m : Nat) :
    ∀ (level : Int) (RaySt Ray color : Vec3) (st : TraceState),
      (sc.maxRayLevel + 1 - level).toNat = m →
      ∃ (new : List TraceEvent) (k : Nat),
        (traceRay sc rnd RaySt Ray color level st).2.log
          = st.log ++ TraceEvent.call level RaySt Ray :: new ∧
        callLevels (TraceEvent.call level RaySt Ray :: new)
          = (List.range (k + 1)).map (fun i : Nat => level + (i : Int)) ∧
        (k = 0 ∨ level + (k : Int) ≤ sc.maxRayLevel + 1) := by
  induction m using Nat.strong_induction_on with
  | _ m ih =>
    intro level RaySt Ray color st hm
    rcases traceRay_terminal_or_bounce sc rnd RaySt Ray color level st with hterm |
      ⟨t, hhit, hrad, hlevel, hquick⟩
    · refine ⟨[], 0, hterm, ?_, Or.inl rfl⟩
      simp [callLevels, List.range_succ]
    · have key : ∃ RaySt1 Ray1 st1 ev,
          (traceRay sc rnd RaySt Ray color level st).2.log
            = (traceRay sc rnd RaySt1 Ray1 color (level + 1) st1).2.log ∧
          st1.log = st.log ++ TraceEvent.call level RaySt Ray :: ev ∧ callLevels ev = [] := by
        cases hdiff : t.material.diffuseReflect with
        | true =>
          refine ⟨(hitPoint sc RaySt Ray),
            diffuseReflect Ray (hitFaceVec t (hitPoint sc RaySt Ray))
              (rnd (pathInit rnd level (entered st level RaySt Ray)).rand)
              (rnd ((pathInit rnd level (entered st level RaySt Ray)).rand + 1)),
            { (pathInit rnd level (entered st level RaySt Ray)) with
              rand := (pathInit rnd level (entered st level RaySt Ray)).rand + 2 }, [], ?_, ?_, rfl⟩
          · rw [traceRay_of_diffuse sc rnd RaySt Ray color level st t hhit hrad hlevel hquick
              hdiff, finish_snd]
          · simp only [pathInit_log, entered_log]
        | false =>
          by_cases hdraw :
              rnd (pathInit rnd level (entered st level RaySt Ray)).rand < t.material.reflect
          · refine ⟨(hitPoint sc RaySt Ray), reflect Ray (hitFaceVec t (hitPoint sc RaySt Ray)),
              { (pathInit rnd level (entered st level RaySt Ray)) with
                rand := (pathInit rnd level (entered st level RaySt Ray)).rand + 1 }, [], ?_, ?_, rfl⟩
            · rw [traceRay_of_mirror sc rnd RaySt Ray color level st t hhit hrad hlevel hquick
                hdiff hdraw, finish_snd]
            · simp only [pathInit_log, entered_log]
          · refine ⟨(hitPoint sc RaySt Ray).add (Vec3.mul sc.eps
                (refract Ray (hitFaceVec t (hitPoint sc RaySt Ray))
                (pathInit rnd level (entered st level RaySt Ray)).refractRateBuf
                (refractRateOut t.material (pathInit rnd level (entered st level RaySt Ray))))),
              (refract Ray (hitFaceVec t (hitPoint sc RaySt Ray))
                (pathInit rnd level (entered st level RaySt Ray)).refractRateBuf
                (refractRateOut t.material (pathInit rnd level (entered st level RaySt Ray)))),
              refractState t.material (pathInit rnd level (entered st level RaySt Ray)) (hitPoint sc RaySt Ray)
                (refract Ray (hitFaceVec t (hitPoint sc RaySt Ray))
                (pathInit rnd level (entered st level RaySt Ray)).refractRateBuf
                (refractRateOut t.material (pathInit rnd level (entered st level RaySt Ray)))),
              [TraceEvent.refract (pathInit rnd level (entered st level RaySt Ray)).refractColorIndex
                (pathInit rnd level (entered st level RaySt Ray)).refractRateBuf
                (refractRateOut t.material (pathInit rnd level (entered st level RaySt Ray)))
                (hitPoint sc RaySt Ray)
                (refract Ray (hitFaceVec t (hitPoint sc RaySt Ray))
                (pathInit rnd level (entered st level RaySt Ray)).refractRateBuf
                (refractRateOut t.material (pathInit rnd level (entered st level RaySt Ray))))
                t.material.refractRate], ?_, ?_, rfl⟩
            · rw [traceRay_of_refract sc rnd RaySt Ray color level st t hhit hrad hlevel hquick
                hdiff hdraw, finish_snd]
            · simp only [refractState, pathInit_log, entered_log, List.append_assoc,
                List.singleton_append]
      obtain ⟨RaySt1, Ray1, st1, ev, hlog, hst1, hev⟩ := key
      obtain ⟨new1, k1, hlog1, hlev1, hk1⟩ :=
        ih _ (by omega) (level + 1) RaySt1 Ray1 color st1 rfl
      refine ⟨ev ++ TraceEvent.call (level + 1) RaySt1 Ray1 :: new1, k1 + 1, ?_, ?_, ?_⟩
      · rw [hlog, hlog1, hst1]
        simp only [List.append_assoc, List.cons_append]
      · have e : callLevels (TraceEvent.call level RaySt Ray ::
            (ev ++ TraceEvent.call (level + 1) RaySt1 Ray1 :: new1))
            = level :: callLevels (TraceEvent.call (level + 1) RaySt1 Ray1 :: new1) := by
          have h1 : callLevels (TraceEvent.call level RaySt Ray ::
              (ev ++ TraceEvent.call (level + 1) RaySt1 Ray1 :: new1))
              = level :: callLevels (ev ++ TraceEvent.call (level + 1) RaySt1 Ray1 :: new1) :=
            rfl
          rw [h1, callLevels_append, hev, List.nil_append]
        rw [e, hlev1]
        exact levels_cons level k1
      · right
        push_cast
        rcases hk1 with h0 | hle
        · subst h0
          simp only [Nat.cast_zero, add_zero]
          omega
        · omega

/-- C31. `traceRay` terminates with a bounded call chain.  `traceRay` is a total
function (its recursion is on `maxRayLevel + 1 - level`), for every scene, ray,
material mix and random stream, and:
a call with `level > maxRayLevel` records its own entry only, it never recurses;
the calls recorded by a call at `level` are the call itself followed by one
call at each of the levels `level + 1, ..., level + k` (so each call makes at
most one recursive call, at `level + 1`), where `level + k <= maxRayLevel + 1`
unless `k = 0`;
and the levels of the calls nested in a level-0 call lie between `1` and
`maxRayLevel + 1`. -/
theorem traceRay_bounded_chain (sc : Scene) (rnd : Nat → ℝ) (RaySt Ray color : Vec3)
    (st : TraceState) :
    (∀ level : Int, level > sc.maxRayLevel →
      (traceRay sc rnd RaySt Ray color level st).2.log
        = st.log ++ [TraceEvent.call level RaySt Ray]) ∧
    (∀ level : Int, ∃ (new : List TraceEvent) (k : Nat),
      (traceRay sc rnd RaySt Ray color level st).2.log
        = st.log ++ TraceEvent.call level RaySt Ray :: new ∧
      callLevels (TraceEvent.call level RaySt Ray :: new)
        = (List.range (k + 1)).map (fun i : Nat => level + (i : Int)) ∧
      (k = 0 ∨ level + (k : Int) ≤ sc.maxRayLevel + 1)) ∧
    (∃ new : List TraceEvent,
      (traceRay sc rnd RaySt Ray color 0 st).2.log
        = st.log ++ TraceEvent.call 0 RaySt Ray :: new ∧
      ∀ l ∈ callLevels new, 1 ≤ l ∧ l ≤ sc.maxRayLevel + 1) := by
  refine ⟨fun level h => traceRay_log_beyond sc rnd RaySt Ray color level st h,
    fun level => traceRay_chain sc rnd _ level RaySt Ray color st rfl, ?_⟩
  obtain ⟨new, k, hlog, hlev, hk⟩ := traceRay_chain sc rnd _ 0 RaySt Ray color st rfl
  refine ⟨new, hlog, ?_⟩
  have htail : callLevels new = (List.range k).map (fun i : Nat => (0 : Int) + ((i + 1 : Nat) : Int)) := by
    have h0 : callLevels (TraceEvent.call 0 RaySt Ray :: new) = 0 :: callLevels new := rfl
    rw [h0, List.range_succ_eq_map k, List.map_cons, List.map_map] at hlev
    exact (List.cons.inj hlev).2
  intro l hl
  rw [htail, List.mem_map] at hl
  obtain ⟨i, hi, rfl⟩ := hl
  have hik : i < k := List.mem_range.1 hi
  rcases hk with h0 | hle
  · omega
  · push_cast
    omega

/-! ### The range of the colours -/

theorem Vec3.within_mono (c : Vec3) (a b : ℝ) (hab : a ≤ b) (h : c.within a) : c.within b :=
  ⟨⟨h.1.1, le_trans h.1.2 hab⟩, ⟨h.2.1.1, le_trans h.2.1.2 hab⟩,
    ⟨h.2.2.1, le_trans h.2.2.2 hab⟩⟩

theorem Vec3.zero_within (hi : ℝ) (h : 0 ≤ hi) : Vec3.zero.within hi :=
  ⟨⟨le_refl _, h⟩, ⟨le_refl _, h⟩, ⟨le_refl _, h⟩⟩

theorem Vec3.mul_within (s hi : ℝ) (c : Vec3) (hs : 0 ≤ s ∧ s ≤ 1) (h : c.within hi) :
    (Vec3.mul s c).within hi := by
  obtain ⟨⟨hx0, hx1⟩, ⟨hy0, hy1⟩, ⟨hz0, hz1⟩⟩ := h
  obtain ⟨hs0, hs1⟩ := hs
  refine ⟨⟨mul_nonneg hs0 hx0, ?_⟩, ⟨mul_nonneg hs0 hy0, ?_⟩, ⟨mul_nonneg hs0 hz0, ?_⟩⟩
  · calc s * c.x ≤ 1 * c.x := mul_le_mul_of_nonneg_right hs1 hx0
      _ = c.x := one_mul _
      _ ≤ hi := hx1
  · calc s * c.y ≤ 1 * c.y := mul_le_mul_of_nonneg_right hs1 hy0
      _ = c.y := one_mul _
      _ ≤ hi := hy1
  · calc s * c.z ≤ 1 * c.z := mul_le_mul_of_nonneg_right hs1 hz0
      _ = c.z := one_mul _
      _ ≤ hi := hz1

theorem Vec3.elementMul_within (c m : Vec3) (hi : ℝ) (h : c.within hi) (hm : m.within 1) :
    (c.elementMul m).within hi := by
  obtain ⟨⟨hx0, hx1⟩, ⟨hy0, hy1⟩, ⟨hz0, hz1⟩⟩ := h
  obtain ⟨⟨mx0, mx1⟩, ⟨my0, my1⟩, ⟨mz0, mz1⟩⟩ := hm
  refine ⟨⟨mul_nonneg hx0 mx0, ?_⟩, ⟨mul_nonneg hy0 my0, ?_⟩, ⟨mul_nonneg hz0 mz0, ?_⟩⟩
  · calc c.x * m.x ≤ c.x * 1 := mul_le_mul_of_nonneg_left mx1 hx0
      _ = c.x := mul_one _
      _ ≤ hi := hx1
  · calc c.y * m.y ≤ c.y * 1 := mul_le_mul_of_nonneg_left my1 hy0
      _ = c.y := mul_one _
      _ ≤ hi := hy1
  · calc c.z * m.z ≤ c.z * 1 := mul_le_mul_of_nonneg_left mz1 hz0
      _ = c.z := mul_one _
      _ ≤ hi := hz1

/-- The tail of `traceRay` where the collapse does not apply keeps the range. -/
theorem finish_within (material : Material) (level : Int) (c : Vec3) (st : TraceState)
    (hi : ℝ) (hc : c.within hi) (hm : material.color.within 1)
    (h : ¬ (level = 0 ∧ st.isChromaticDisperson = true)) :
    (finish material level c st).1.within hi := by
  simp only [finish, if_neg h]
  exact Vec3.elementMul_within c material.color hi hc hm

/-- The tail of `traceRay` on a colour in `[0, 1]`: the collapse writes three
times one channel, so the result lies in `[0, 3]`. -/
theorem finish_within_three (material : Material) (level : Int) (c : Vec3) (st : TraceState)
    (hc : c.within 1) (hm : material.color.within 1) :
    (finish material level c st).1.within 3 := by
  by_cases h : level = 0 ∧ st.isChromaticDisperson = true
  · simp only [finish, if_pos h]
    apply Vec3.elementMul_within _ _ _ _ hm
    obtain ⟨⟨hx0, hx1⟩, ⟨hy0, hy1⟩, ⟨hz0, hz1⟩⟩ := hc
    have hget : 0 ≤ c.get st.refractColorIndex ∧ c.get st.refractColorIndex ≤ 1 := by
      unfold Vec3.get
      split_ifs
      · exact ⟨hx0, hx1⟩
      · exact ⟨hy0, hy1⟩
      · exact ⟨hz0, hz1⟩
      · exact ⟨le_refl _, zero_le_one⟩
    have h3 : 0 ≤ 3 * c.get st.refractColorIndex ∧ 3 * c.get st.refractColorIndex ≤ 3 :=
      ⟨by linarith [hget.1], by linarith [hget.2]⟩
    simp only [Vec3.single, Vec3.within]
    refine ⟨?_, ?_, ?_⟩ <;> split_ifs <;> first | exact h3 | exact ⟨le_refl _, by norm_num⟩
  · exact Vec3.within_mono _ 1 3 (by norm_num) (finish_within material level c st 1 hc hm h)

theorem Vec3.dot_le_one (a b : Vec3) (ha : a.dot a ≤ 1) (hb : b.dot b ≤ 1) : a.dot b ≤ 1 := by
  simp only [Vec3.dot] at *
  nlinarith [sq_nonneg (a.x - b.x), sq_nonneg (a.y - b.y), sq_nonneg (a.z - b.z)]

theorem Vec3.unit_or_zero_dot_le (a : Vec3) (h : a.norm = 1 ∨ a = ⟨0, 0, 0⟩) :
    a.dot a ≤ 1 := by
  rcases h with h | h
  · exact le_of_eq ((Vec3.norm_eq_one_iff a).1 h)
  · rw [h]
    simp [Vec3.dot]

/-- The intensity of the `quickReflect` branch lies in `[0, 1]`. -/
theorem lightIntensity_range (n P : Vec3) (lights : List Vec3) (hn : n.dot n ≤ 1) :
    0 ≤ lightIntensity n P lights ∧ lightIntensity n P lights ≤ 1 := by
  unfold lightIntensity
  induction lights with
  | nil => exact ⟨le_refl _, zero_le_one⟩
  | cons L ls ih =>
    rw [List.foldr_cons]
    refine ⟨le_trans ih.1 (le_max_right _ _), max_le ?_ ih.2⟩
    exact Vec3.dot_le_one _ _ hn
      (Vec3.unit_or_zero_dot_le _ (Vec3.normalize_unit_or_zero _))

/-- The colour of the `quickReflect` branch lies in `[0, 1]`. -/
theorem quick_within (sc : Scene) (RaySt Ray : Vec3) (t : Triangle)
    (hc : t.material.color.within 1) :
    (Vec3.mul
      (lightIntensity (facing (hitFaceVec t (hitPoint sc RaySt Ray)) Ray)
        (hitPoint sc RaySt Ray) sc.PointLight)
      t.material.color).within 1 :=
  Vec3.mul_within _ 1 _
    (lightIntensity_range _ _ _
      (Vec3.unit_or_zero_dot_le _
        (facing_unit_or_zero _ _ (hitFaceVec_unit_or_zero t (hitPoint sc RaySt Ray)))))
    hc

/-- With materials in range, a call on the zero accumulator returns a colour in
`[0, 3]`, and in `[0, 1]` at a level above 0. -/
theorem traceRay_range (sc : Scene) (rnd : Nat → ℝ)
    (hmat : ∀ t ∈ sc.TriangleSet, t.material.unitRange) (m : Nat) :
    ∀ (level : Int) (RaySt Ray : Vec3) (st : TraceState),
      (sc.maxRayLevel + 1 - level).toNat = m →
      (traceRay sc rnd RaySt Ray Vec3.zero level st).1.within 3 ∧
        (0 < level → (traceRay sc rnd RaySt Ray Vec3.zero level st).1.within 1) := by
  induction m using Nat.strong_induction_on with
  | _ m ih =>
    intro level RaySt Ray st hm
    have hz3 : Vec3.zero.within 3 := Vec3.zero_within 3 (by norm_num)
    have hz1 : Vec3.zero.within 1 := Vec3.zero_within 1 zero_le_one
    have hup : ∀ c : Vec3, c.within 1 → c.within 3 :=
      fun c h => Vec3.within_mono c 1 3 (by norm_num) h
    cases hhit : (nearestHit sc RaySt Ray).2 with
    | none =>
      rw [traceRay_of_miss sc rnd RaySt Ray Vec3.zero level st
        ((nearestHit_none_iff sc RaySt Ray).2 hhit)]
      exact ⟨hz3, fun _ => hz1⟩
    | some t =>
      obtain ⟨hcol, hrl, hrr⟩ := hmat t (nearestHit_some sc RaySt Ray t hhit).1
      by_cases hrad : t.material.rediate = 0
      · by_cases hlevel : level > sc.maxRayLevel
        · rw [traceRay_of_cutoff sc rnd RaySt Ray Vec3.zero level st t hhit hrad hlevel]
          exact ⟨hz3, fun _ => hz1⟩
        · cases hquick : t.material.quickReflect with
          | true =>
            rw [(traceRay_quickReflect_aux sc rnd RaySt Ray Vec3.zero level st t hhit hrad
              hlevel hquick).1]
            exact ⟨hup _ (quick_within sc RaySt Ray t hcol),
              fun _ => quick_within sc RaySt Ray t hcol⟩
          | false =>
            obtain ⟨RaySt1, Ray1, st1, loss, heq, -, hloss⟩ :=
              traceRay_of_bounce_loss sc rnd RaySt Ray Vec3.zero level st t hhit hrad hlevel
                hquick
            have hl : 0 ≤ loss ∧ loss ≤ 1 := by
              rcases hloss with h | h <;> rw [h]
              · exact hrl
              · exact hrr
            have hlt : (sc.maxRayLevel + 1 - (level + 1)).toNat < m := by omega
            obtain ⟨h3, h1⟩ := ih _ hlt (level + 1) RaySt1 Ray1 st1 rfl
            rw [heq]
            by_cases hl0 : 0 ≤ level
            · have hch := Vec3.mul_within loss 1 _ hl (h1 (by omega))
              refine ⟨finish_within_three _ _ _ _ hch hcol, fun hpos => ?_⟩
              exact finish_within _ _ _ _ 1 hch hcol (fun h => by omega)
            · refine ⟨?_, fun hpos => absurd (le_of_lt hpos) hl0⟩
              exact finish_within _ _ _ _ 3 (Vec3.mul_within loss 3 _ hl h3) hcol
                (fun h => by omega)
      · rw [traceRay_of_light sc rnd RaySt Ray Vec3.zero level st t hhit hrad]
        exact ⟨hup _ hcol, fun _ => hcol⟩

theorem refractState_flag (material : Material) (st : TraceState) (P RayO : Vec3)
    (h : material.noDispersion) :
    (refractState material st P RayO).isChromaticDisperson = st.isChromaticDisperson := by
  unfold Material.noDispersion at h
  simp only [refractState, if_neg h]

/-- Without dispersive materials a call on the zero accumulator returns a colour
in `[0, 1]`, and at a level above 0 it leaves the dispersion flag as it was. -/
theorem traceRay_range_plain (sc : Scene) (rnd : Nat → ℝ)
    (hmat : ∀ t ∈ sc.TriangleSet, t.material.unitRange)
    (hplain : ∀ t ∈ sc.TriangleSet, t.material.noDispersion) (m : Nat) :
    ∀ (level : Int) (RaySt Ray : Vec3) (st : TraceState),
      (sc.maxRayLevel + 1 - level).toNat = m →
      (traceRay sc rnd RaySt Ray Vec3.zero level st).1.within 1 ∧
        (0 < level → (traceRay sc rnd RaySt Ray Vec3.zero level st).2.isChromaticDisperson
          = st.isChromaticDisperson) := by
  induction m using Nat.strong_induction_on with
  | _ m ih =>
    intro level RaySt Ray st hm
    have hz1 : Vec3.zero.within 1 := Vec3.zero_within 1 zero_le_one
    cases hhit : (nearestHit sc RaySt Ray).2 with
    | none =>
      rw [traceRay_of_miss sc rnd RaySt Ray Vec3.zero level st
        ((nearestHit_none_iff sc RaySt Ray).2 hhit)]
      exact ⟨hz1, fun _ => rfl⟩
    | some t =>
      have hmem := (nearestHit_some sc RaySt Ray t hhit).1
      obtain ⟨hcol, hrl, hrr⟩ := hmat t hmem
      have hnd := hplain t hmem
      by_cases hrad : t.material.rediate = 0
      · by_cases hlevel : level > sc.maxRayLevel
        · rw [traceRay_of_cutoff sc rnd RaySt Ray Vec3.zero level st t hhit hrad hlevel]
          exact ⟨hz1, fun _ => rfl⟩
        · have hinit : 0 < level →
              (pathInit rnd level (entered st level RaySt Ray)).isChromaticDisperson
                = st.isChromaticDisperson := by
            intro hpos
            rw [pathInit_of_ne rnd level _ (by omega)]
            rfl
          have hlt : (sc.maxRayLevel + 1 - (level + 1)).toNat < m := by omega
          -- one recursive branch, given the state handed down
          have key : ∀ (loss : ℝ) (RaySt1 Ray1 : Vec3) (st1 : TraceState),
              (0 ≤ loss ∧ loss ≤ 1) →
              st1.isChromaticDisperson
                = (pathInit rnd level (entered st level RaySt Ray)).isChromaticDisperson →
              (finish t.material level
                (Vec3.mul loss (traceRay sc rnd RaySt1 Ray1 Vec3.zero (level + 1) st1).1)
                (traceRay sc rnd RaySt1 Ray1 Vec3.zero (level + 1) st1).2).1.within 1 ∧
              (0 < level →
                (finish t.material level
                  (Vec3.mul loss (traceRay sc rnd RaySt1 Ray1 Vec3.zero (level + 1) st1).1)
                  (traceRay sc rnd RaySt1 Ray1 Vec3.zero (level + 1) st1).2).2.isChromaticDisperson
                  = st.isChromaticDisperson) := by
            intro loss RaySt1 Ray1 st1 hl hflag
            obtain ⟨h1, hf⟩ := ih _ hlt (level + 1) RaySt1 Ray1 st1 rfl
            refine ⟨?_, fun hpos => ?_⟩
            · apply finish_within _ _ _ _ 1 (Vec3.mul_within loss 1 _ hl h1) hcol
              rintro ⟨h0, htrue⟩
              subst h0
              rw [hf (by norm_num), hflag, pathInit_flag] at htrue
              exact Bool.false_ne_true htrue
            · rw [finish_snd, hf (by omega), hflag]
              exact hinit hpos
          cases hquick : t.material.quickReflect with
          | true =>
            rw [(traceRay_quickReflect_aux sc rnd RaySt Ray Vec3.zero level st t hhit hrad
              hlevel hquick).1]
            exact ⟨quick_within sc RaySt Ray t hcol, hinit⟩
          | false =>
            cases hdiff : t.material.diffuseReflect with
            | true =>
              rw [traceRay_of_diffuse sc rnd RaySt Ray Vec3.zero level st t hhit hrad hlevel
                hquick hdiff]
              exact key _ _ _ _ hrl rfl
            | false =>
              by_cases hdraw :
                  rnd (pathInit rnd level (entered st level RaySt Ray)).rand
                    < t.material.reflect
              · rw [traceRay_of_mirror sc rnd RaySt Ray Vec3.zero level st t hhit hrad hlevel
                  hquick hdiff hdraw]
                exact key _ _ _ _ hrl rfl
              · rw [traceRay_of_refract sc rnd RaySt Ray Vec3.zero level st t hhit hrad hlevel
                  hquick hdiff hdraw]
                exact key _ _ _ _ hrr (refractState_flag _ _ _ _ hnd)
      · rw [traceRay_of_light sc rnd RaySt Ray Vec3.zero level st t hhit hrad]
        exact ⟨hcol, fun _ => rfl⟩

/-- C32.  Colour range invariant: in a scene whose materials have colour
channels, `reflectLossRate` and `refractLossRate` in `[0, 1]`, every `traceRay`
call on the zero accumulator (any ray, level, point lights, draws and state of
the statics) returns a colour whose three channels lie in `[0, 3]`; if moreover
no material has unequal `refractRate` channels, they lie in `[0, 1]`. -/
theorem traceRay_colour_range (sc : Scene) (rnd : Nat → ℝ) (RaySt Ray : Vec3) (level : Int)
    (st : TraceState) (hmat : ∀ t ∈ sc.TriangleSet, t.material.unitRange) :
    (traceRay sc rnd RaySt Ray Vec3.zero level st).1.within 3 ∧
      ((∀ t ∈ sc.TriangleSet, t.material.noDispersion) →
        (traceRay sc rnd RaySt Ray Vec3.zero level st).1.within 1) :=
  ⟨(traceRay_range sc rnd hmat _ level RaySt Ray st rfl).1,
    fun hplain => (traceRay_range_plain sc rnd hmat hplain _ level RaySt Ray st rfl).1⟩

theorem lampInGlass_unitRange : ∀ t ∈ lampInGlass.TriangleSet, t.material.unitRange := by
  intro t ht
  simp only [lampInGlass, drawSphere, drawTriangle, List.mem_append, List.mem_singleton,
    List.not_mem_nil, false_or, List.mem_cons, or_false] at ht
  rcases ht with h | h <;> rw [h] <;>
    norm_num [Material.unitRange, Vec3.within, glassMaterial, lampMaterial]

theorem lampInGlass_noDispersion : ∀ t ∈ lampInGlass.TriangleSet, t.material.noDispersion := by
  intro t ht
  simp only [lampInGlass, drawSphere, drawTriangle, List.mem_append, List.mem_singleton,
    List.not_mem_nil, false_or, List.mem_cons, or_false] at ht
  rcases ht with h | h <;> rw [h] <;>
    simp [Material.noDispersion, Vec3.get, glassMaterial, lampMaterial]

/-- The range invariant on the lamp inside the glass sphere, for the primary ray
along the axis. -/
theorem traceRay_colour_range_witness :
    (∀ t ∈ lampInGlass.TriangleSet, t.material.unitRange) ∧
      (∀ t ∈ lampInGlass.TriangleSet, t.material.noDispersion) ∧
      (traceRay lampInGlass (fun _ => 1 / 2) ⟨0, 0, 0⟩ ⟨0, 0, 1⟩ Vec3.zero 0
        freshState).1.within 3 ∧
      (traceRay lampInGlass (fun _ => 1 / 2) ⟨0, 0, 0⟩ ⟨0, 0, 1⟩ Vec3.zero 0
        freshState).1.within 1 :=
  ⟨lampInGlass_unitRange, lampInGlass_noDispersion,
    (traceRay_colour_range lampInGlass (fun _ => 1 / 2) ⟨0, 0, 0⟩ ⟨0, 0, 1⟩ 0 freshState
      lampInGlass_unitRange).1,
    (traceRay_colour_range lampInGlass (fun _ => 1 / 2) ⟨0, 0, 0⟩ ⟨0, 0, 1⟩ 0 freshState
      lampInGlass_unitRange).2 lampInGlass_noDispersion⟩

/-! ### The Marching Cubes tables -/

set_option maxRecDepth 100000 in
/-- The table has 256 rows of 16 entries, so the reads `TriTable[cubeindex][j + k]`
with `cubeindex < 256` and `j + k ≤ 14` are in range. -/
theorem triTable_shape :
    MarchingCubes_TriTable.length = 256 ∧
      MarchingCubes_TriTable.all (fun row => row.length == 16) = true := by
  decide

theorem marchingPoint_shape :
    MarchingCubes_Point.length = 12 ∧
      MarchingCubes_Point.all (fun p => p.length == 3) = true := by
  decide

set_option maxRecDepth 100000 in
/-- Every row of the table passes the check. -/
theorem marchingRowOk_all : (List.range 256).all marchingRowOk = true := by
  decide

theorem marchingCorner_getD (a b i : Nat) (hi : i < 3) :
    (List.zipWith (fun u v => u + v) (marchingCorner a) (marchingCorner b)).getD i 0
      = (marchingCorner a).getD i 0 + (marchingCorner b).getD i 0 := by
  unfold marchingCorner
  interval_cases i <;> rfl

/-- C36.  Marching Cubes table consistency: for every configuration `c` in
`0..255`, the entries of row `c` of `MarchingCubes_TriTable` before its first
`-1` come in complete triples (their number is a multiple of 3, at most 15) and
are exactly the values of `point` that `MarchingCubes` reads; each of them is an
edge index in `0..11`, in range for `MarchingCubes_Point`, and that edge is cut:
its position `MarchingCubes_Point[e] / 2` is the midpoint of two corners `a`,
`b` (numbered by `MarchingCubes_Vertex`) of which exactly one has its bit set
in `c`. -/
theorem marchingCubes_table_consistent (c : Nat) (hc : c < 256) :
    (triTablePrefix c).length % 3 = 0 ∧ (triTablePrefix c).length ≤ 15 ∧
      marchingPoints c = triTablePrefix c ∧
      ∀ e ∈ triTablePrefix c, 0 ≤ e ∧ e ≤ 11 ∧ e.toNat < MarchingCubes_Point.length ∧
        ∃ a b, a < 8 ∧ b < 8 ∧ c.testBit a ≠ c.testBit b ∧
          ∀ i, i < 3 →
            (((MarchingCubes_Point.getD e.toNat []).getD i 0 : Int) : ℝ) / 2
              = ((((marchingCorner a).getD i 0 : Int) : ℝ)
                  + (((marchingCorner b).getD i 0 : Int) : ℝ)) / 2 := by
  have hrow : marchingRowOk c = true :=
    List.all_eq_true.1 marchingRowOk_all c (List.mem_range.2 hc)
  unfold marchingRowOk at hrow
  simp only [Bool.and_eq_true, beq_iff_eq, decide_eq_true_eq, List.all_eq_true] at hrow
  obtain ⟨⟨⟨h3, h15⟩, hall⟩, hpts⟩ := hrow
  refine ⟨h3, h15, hpts, fun e he => ?_⟩
  obtain ⟨⟨h0, h11⟩, hcut⟩ := hall e he
  refine ⟨h0, h11, ?_, ?_⟩
  · rw [marchingPoint_shape.1]
    omega
  · unfold marchingEdgeCut at hcut
    simp only [List.any_eq_true, List.mem_range, Bool.and_eq_true, beq_iff_eq, bne_iff_ne,
      ne_eq] at hcut
    obtain ⟨a, ha, b, hb, hsum, hbit⟩ := hcut
    refine ⟨a, b, ha, hb, hbit, fun i hi => ?_⟩
    rw [hsum, marchingCorner_getD a b i hi]
    push_cast
    ring

/-- The table property at the configuration `c = 1` (only corner 0 inside), whose
row is `0, 8, 3, -1, ...`. -/
theorem marchingCubes_table_consistent_witness :
    (triTablePrefix 1).length % 3 = 0 ∧ (triTablePrefix 1).length ≤ 15 ∧
      marchingPoints 1 = triTablePrefix 1 ∧
      ∀ e ∈ triTablePrefix 1, 0 ≤ e ∧ e ≤ 11 ∧ e.toNat < MarchingCubes_Point.length ∧
        ∃ a b, a < 8 ∧ b < 8 ∧ Nat.testBit 1 a ≠ Nat.testBit 1 b ∧
          ∀ i, i < 3 →
            (((MarchingCubes_Point.getD e.toNat []).getD i 0 : Int) : ℝ) / 2
              = ((((marchingCorner a).getD i 0 : Int) : ℝ)
                  + (((marchingCorner b).getD i 0 : Int) : ℝ)) / 2 :=
  marchingCubes_table_consistent 1 (by decide)

set_option maxRecDepth 100000 in
/-- The rows of the configurations `1` and `3`, as the source has them. -/
theorem triTablePrefix_examples :
    triTablePrefix 0 = [] ∧ triTablePrefix 1 = [0, 8, 3] ∧
      triTablePrefix 3 = [1, 8, 3, 9, 8, 1] ∧ marchingPoints 3 = [1, 8, 3, 9, 8, 1] := by
  decide

/-! ### The Hilbert curve -/

theorem hilbertQuad_range (s x y : Nat) (hx : x < 2 * s) (hy : y < 2 * s) :
    (hilbertQuad s x y).1 < 4 ∧ (hilbertQuad s x y).2.1 < s ∧ (hilbertQuad s x y).2.2 < s := by
  unfold hilbertQuad
  split_ifs <;> simp <;> omega

theorem hilbertQuad_inj (s x y x' y' : Nat) (hx : x < 2 * s)
    (hx' : x' < 2 * s) (h : hilbertQuad s x y = hilbertQuad s x' y') :
    x = x' ∧ y = y' := by
  unfold hilbertQuad at h
  split_ifs at h <;> simp only [Prod.mk.injEq] at h <;> omega

theorem hilbertQuad_surj (s q u v : Nat) (hq : q < 4) (hu : u < s) (hv : v < s) :
    ∃ x y, x < 2 * s ∧ y < 2 * s ∧ hilbertQuad s x y = (q, u, v) := by
  interval_cases q
  · refine ⟨v, u, by omega, by omega, ?_⟩
    simp [hilbertQuad, hu, hv]
  · refine ⟨u, v + s, by omega, by omega, ?_⟩
    simp [hilbertQuad, hu]
  · refine ⟨u + s, v + s, by omega, by omega, ?_⟩
    simp [hilbertQuad]
  · refine ⟨2 * s - 1 - v, s - 1 - u, by omega, by omega, ?_⟩
    have h1 : s - 1 - u < s := by omega
    have h2 : ¬ 2 * s - 1 - v < s := by omega
    simp only [hilbertQuad, h1, h2, if_true, if_false, Prod.mk.injEq, true_and]
    omega

/-- Within one quadrant the rotation keeps adjacency. -/
theorem hilbertQuad_adj (s x y x' y' : Nat) (hx : x < 2 * s) (hx' : x' < 2 * s)
    (hq : (hilbertQuad s x y).1 = (hilbertQuad s x' y').1)
    (h : gridAdjacent (hilbertQuad s x y).2.1 (hilbertQuad s x y).2.2
      (hilbertQuad s x' y').2.1 (hilbertQuad s x' y').2.2) :
    gridAdjacent x y x' y' := by
  unfold gridAdjacent at *
  unfold hilbertQuad at *
  split_ifs at h hq <;> simp only at h hq <;> omega

/-- From the last cell of a quadrant to the first cell of the next. -/
theorem hilbertQuad_next (s x y x' y' : Nat) (hx : x < 2 * s)
    (hx' : x' < 2 * s) (hy' : y' < 2 * s)
    (hq : (hilbertQuad s x y).1 + 1 = (hilbertQuad s x' y').1)
    (hlast : (hilbertQuad s x y).2.1 = s - 1 ∧ (hilbertQuad s x y).2.2 = 0)
    (hfirst : (hilbertQuad s x' y').2.1 = 0 ∧ (hilbertQuad s x' y').2.2 = 0) :
    gridAdjacent x y x' y' := by
  unfold gridAdjacent
  unfold hilbertQuad at *
  split_ifs at hq hlast hfirst <;> simp only at hq hlast hfirst <;> omega

theorem hilbertD_lt (j : Nat) : ∀ x y, x < 2 ^ j → y < 2 ^ j → hilbertD j x y < 4 ^ j := by
  induction j with
  | zero => intro x y _ _; simp [hilbertD]
  | succ j ih =>
    intro x y hx hy
    have h2 : 2 ^ (j + 1) = 2 * 2 ^ j := by ring
    have h4 : 4 ^ (j + 1) = 4 * 4 ^ j := by ring
    obtain ⟨hq, hu, hv⟩ := hilbertQuad_range (2 ^ j) x y (by omega) (by omega)
    have := ih _ _ hu hv
    simp only [hilbertD]
    generalize (hilbertQuad (2 ^ j) x y).1 = q at *
    interval_cases q <;> omega

theorem hilbertD_entry (j : Nat) : hilbertD j 0 0 = 0 := by
  induction j with
  | zero => rfl
  | succ j ih =>
    have hs : 0 < 2 ^ j := by positivity
    simp [hilbertD, hilbertQuad, hs, ih]

theorem hilbertD_exit (j : Nat) : hilbertD j (2 ^ j - 1) 0 = 4 ^ j - 1 := by
  induction j with
  | zero => rfl
  | succ j ih =>
    have hs : 0 < 2 ^ j := by positivity
    have hS : 0 < 4 ^ j := by positivity
    have h2 : 2 ^ (j + 1) = 2 * 2 ^ j := by ring
    have h4 : 4 ^ (j + 1) = 4 * 4 ^ j := by ring
    have h1 : ¬ 2 ^ (j + 1) - 1 < 2 ^ j := by omega
    have h3 : 2 * 2 ^ j - 1 - (2 ^ (j + 1) - 1) = 0 := by omega
    simp only [hilbertD, hilbertQuad, hs, h1, if_true, if_false, Nat.sub_zero, h3, ih]
    omega

theorem hilbertD_split (S q h q' h' : Nat) (hq : q < 4) (hq' : q' < 4) (hh : h < S)
    (hh' : h' < S) (heq : q * S + h = q' * S + h') : q = q' ∧ h = h' := by
  interval_cases q <;> interval_cases q' <;> omega

theorem hilbertD_inj (j : Nat) : ∀ x y x' y', x < 2 ^ j → y < 2 ^ j → x' < 2 ^ j → y' < 2 ^ j →
    hilbertD j x y = hilbertD j x' y' → x = x' ∧ y = y' := by
  induction j with
  | zero => intro x y x' y' hx hy hx' hy' _; simp at hx hy hx' hy'; omega
  | succ j ih =>
    intro x y x' y' hx hy hx' hy' h
    have h2 : 2 ^ (j + 1) = 2 * 2 ^ j := by ring
    obtain ⟨hq, hu, hv⟩ := hilbertQuad_range (2 ^ j) x y (by omega) (by omega)
    obtain ⟨hq', hu', hv'⟩ := hilbertQuad_range (2 ^ j) x' y' (by omega) (by omega)
    simp only [hilbertD] at h
    obtain ⟨e1, e2⟩ := hilbertD_split _ _ _ _ _ hq hq' (hilbertD_lt j _ _ hu hv)
      (hilbertD_lt j _ _ hu' hv') h
    obtain ⟨e3, e4⟩ := ih _ _ _ _ hu hv hu' hv' e2
    exact hilbertQuad_inj (2 ^ j) x y x' y' (by omega) (by omega)
      (Prod.ext e1 (Prod.ext e3 e4))

theorem hilbertD_surj (j : Nat) : ∀ d, d < 4 ^ j →
    ∃ x y, x < 2 ^ j ∧ y < 2 ^ j ∧ hilbertD j x y = d := by
  induction j with
  | zero => intro d hd; exact ⟨0, 0, by simp, by simp, by simp at hd; simp [hilbertD, hd]⟩
  | succ j ih =>
    intro d hd
    have h2 : 2 ^ (j + 1) = 2 * 2 ^ j := by ring
    have h4 : 4 ^ (j + 1) = 4 * 4 ^ j := by ring
    have hS : 0 < 4 ^ j := by positivity
    obtain ⟨u, v, hu, hv, huv⟩ := ih (d % 4 ^ j) (Nat.mod_lt _ hS)
    have hq : d / 4 ^ j < 4 := by
      rw [Nat.div_lt_iff_lt_mul hS]
      omega
    obtain ⟨x, y, hx, hy, hxy⟩ := hilbertQuad_surj (2 ^ j) (d / 4 ^ j) u v hq hu hv
    refine ⟨x, y, by omega, by omega, ?_⟩
    simp only [hilbertD, hxy, huv]
    rw [mul_comm]
    exact Nat.div_add_mod d (4 ^ j)

theorem hilbertD_adj (j : Nat) : ∀ x y x' y', x < 2 ^ j → y < 2 ^ j → x' < 2 ^ j → y' < 2 ^ j →
    hilbertD j x y + 1 = hilbertD j x' y' → gridAdjacent x y x' y' := by
  induction j with
  | zero => intro x y x' y' hx hy hx' hy' h; simp [hilbertD] at h
  | succ j ih =>
    intro x y x' y' hx hy hx' hy' h
    have h2 : 2 ^ (j + 1) = 2 * 2 ^ j := by ring
    have hs : 0 < 2 ^ j := by positivity
    obtain ⟨hq, hu, hv⟩ := hilbertQuad_range (2 ^ j) x y (by omega) (by omega)
    obtain ⟨hq', hu', hv'⟩ := hilbertQuad_range (2 ^ j) x' y' (by omega) (by omega)
    have hl := hilbertD_lt j _ _ hu hv
    have hl' := hilbertD_lt j _ _ hu' hv'
    simp only [hilbertD] at h
    by_cases hsame : (hilbertQuad (2 ^ j) x y).1 = (hilbertQuad (2 ^ j) x' y').1
    · apply hilbertQuad_adj (2 ^ j) x y x' y' (by omega) (by omega) hsame
      apply ih _ _ _ _ hu hv hu' hv'
      rw [hsame] at h
      omega
    · have hstep : (hilbertQuad (2 ^ j) x y).1 + 1 = (hilbertQuad (2 ^ j) x' y').1 ∧
          hilbertD j (hilbertQuad (2 ^ j) x y).2.1 (hilbertQuad (2 ^ j) x y).2.2 = 4 ^ j - 1 ∧
          hilbertD j (hilbertQuad (2 ^ j) x' y').2.1 (hilbertQuad (2 ^ j) x' y').2.2 = 0 := by
        generalize (hilbertQuad (2 ^ j) x y).1 = q at *
        generalize (hilbertQuad (2 ^ j) x' y').1 = q' at *
        interval_cases q <;> interval_cases q' <;> omega
      obtain ⟨hstep1, hstep2, hstep3⟩ := hstep
      have hlast := hilbertD_inj j _ _ (2 ^ j - 1) 0 hu hv (by omega) hs
        (hstep2.trans (hilbertD_exit j).symm)
      have hfirst := hilbertD_inj j _ _ 0 0 hu' hv' hs hs
        (hstep3.trans (hilbertD_entry j).symm)
      exact hilbertQuad_next (2 ^ j) x y x' y' (by omega) (by omega) (by omega) hstep1 hlast
        hfirst


/-- One turn of the loop of `HilbertCurve_xy2d`. -/
theorem xy2dLoop_pos (n s x y d : Int) (hs : s > 0) :
    xy2dLoop n s x y d =
      xy2dLoop n (Int.tdiv s 2)
        (if (if Int.land y s > 0 then (1 : Int) else 0) = 0 then
          (if (if Int.land x s > 0 then (1 : Int) else 0) = 1 then n - 1 - y else y)
          else x)
        (if (if Int.land y s > 0 then (1 : Int) else 0) = 0 then
          (if (if Int.land x s > 0 then (1 : Int) else 0) = 1 then n - 1 - x else x)
          else y)
        (d + s * s * Int.xor (3 * (if Int.land x s > 0 then (1 : Int) else 0))
          (if Int.land y s > 0 then (1 : Int) else 0)) := by
  rw [xy2dLoop]
  simp only [hs, dite_true]
  split_ifs <;> rfl

theorem xy2dLoop_zero (n x y d : Int) : xy2dLoop n 0 x y d = d := by
  rw [xy2dLoop]
  simp

/-- The test `(x & s) > 0` with `s = 2^k` reads bit `k` of `x`. -/
theorem land_two_pow_pos (x k : Nat) :
    Int.land (x : Int) ((2 ^ k : Nat) : Int) > 0 ↔ x / 2 ^ k % 2 = 1 := by
  have h1 : Int.land (x : Int) ((2 ^ k : Nat) : Int) = ((x &&& 2 ^ k : Nat) : Int) := rfl
  rw [h1]
  have hbit : x.testBit k = decide (x / 2 ^ k % 2 = 1) := Nat.testBit_to_div_mod
  constructor
  · intro h
    by_contra hne
    have hf : x.testBit k = false := by
      rw [hbit]
      exact decide_eq_false hne
    have hz : x &&& 2 ^ k = 0 := by
      apply Nat.eq_of_testBit_eq
      intro i
      rw [Nat.testBit_and, Nat.zero_testBit, Nat.testBit_two_pow]
      by_cases hki : k = i
      · subst hki
        simp [hf]
      · simp [hki]
    rw [hz] at h
    exact absurd h (by simp)
  · intro h
    have ht : (x &&& 2 ^ k).testBit k = true := by
      rw [Nat.testBit_and, Nat.testBit_two_pow_self, hbit]
      simp [h]
    have := Nat.testBit_implies_ge ht
    have hp : 0 < 2 ^ k := by positivity
    exact_mod_cast lt_of_lt_of_le hp this

/-- Reflecting in `2^m - 1` complements the low bits. -/
theorem mod_reflect (m k x : Nat) (hk : k ≤ m) (hx : x < 2 ^ m) :
    (2 ^ m - 1 - x) % 2 ^ k = 2 ^ k - 1 - x % 2 ^ k := by
  have hs : 0 < 2 ^ k := by positivity
  have hdvd : 2 ^ k ∣ 2 ^ m := pow_dvd_pow 2 hk
  have hsum : (2 ^ m - 1 - x) + x + 1 = 2 ^ m := by omega
  have h0 : ((2 ^ m - 1 - x) % 2 ^ k + x % 2 ^ k + 1) % 2 ^ k = 0 := by
    have : ((2 ^ m - 1 - x) + x + 1) % 2 ^ k = 0 := by
      rw [hsum]
      exact Nat.mod_eq_zero_of_dvd hdvd
    rw [← this]
    simp [Nat.add_mod]
  obtain ⟨c, hc⟩ := Nat.dvd_of_mod_eq_zero h0
  have hw := Nat.mod_lt (2 ^ m - 1 - x) hs
  have hr := Nat.mod_lt x hs
  have hc1 : c = 1 := by
    rcases Nat.lt_or_ge c 1 with h | h
    · have : c = 0 := by omega
      rw [this] at hc
      omega
    · rcases Nat.lt_or_ge c 2 with h2 | h2
      · omega
      · have : 2 ^ k * 2 ≤ 2 ^ k * c := Nat.mul_le_mul_left _ h2
        omega
  rw [hc1] at hc
  omega

/-- The loop of `HilbertCurve_xy2d` on the `2^m x 2^m` grid, entered with
`s = 2^k / 2`, adds the position of the cell given by the low `k` bits of `x`
and `y` on the curve of order `k`. -/
theorem xy2dLoop_eq (m : Nat) : ∀ k, k ≤ m → ∀ (x y : Nat) (d : Int), x < 2 ^ m → y < 2 ^ m →
    xy2dLoop ((2 ^ m : Nat) : Int) ((2 ^ k / 2 : Nat) : Int) x y d
      = d + (hilbertD k (x % 2 ^ k) (y % 2 ^ k) : Nat) := by
  intro k
  induction k with
  | zero =>
    intro _ x y d _ _
    have h0 : (2 ^ 0 / 2 : Nat) = 0 := by norm_num
    rw [h0]
    simp [xy2dLoop_zero, hilbertD]
  | succ k ih =>
    intro hk x y d hx hy
    have hdiv : (2 ^ (k + 1) / 2 : Nat) = 2 ^ k := by
      rw [pow_succ]
      exact Nat.mul_div_cancel _ (by norm_num)
    have hp : 0 < 2 ^ k := by positivity
    have hs : ((2 ^ k : Nat) : Int) > 0 := by exact_mod_cast hp
    have htd : Int.tdiv ((2 ^ k : Nat) : Int) 2 = ((2 ^ k / 2 : Nat) : Int) := by
      rw [Int.tdiv_eq_ediv (le_of_lt hs) (by norm_num)]
      norm_cast
    have hbx : x % 2 ^ (k + 1) = x % 2 ^ k + 2 ^ k * (x / 2 ^ k % 2) := Nat.mod_pow_succ
    have hby : y % 2 ^ (k + 1) = y % 2 ^ k + 2 ^ k * (y / 2 ^ k % 2) := Nat.mod_pow_succ
    have hxl := Nat.mod_lt x hp
    have hyl := Nat.mod_lt y hp
    have hrx := mod_reflect m k x (by omega) hx
    have hry := mod_reflect m k y (by omega) hy
    have hS : ((2 ^ k : Nat) : Int) * ((2 ^ k : Nat) : Int) = ((4 ^ k : Nat) : Int) := by
      have : (4 : Nat) ^ k = 2 ^ k * 2 ^ k := by
        rw [← mul_pow]
        norm_num
      rw [this]
      push_cast
      ring
    have e1 : ((2 ^ m : Nat) : Int) - 1 - (x : Int) = ((2 ^ m - 1 - x : Nat) : Int) := by omega
    have e2 : ((2 ^ m : Nat) : Int) - 1 - (y : Int) = ((2 ^ m - 1 - y : Nat) : Int) := by omega
    have x30 : Int.xor (3 * 1) 0 = 3 := by decide
    have x31 : Int.xor (3 * 1) 1 = 2 := by decide
    have x00 : Int.xor (3 * 0) 0 = 0 := by decide
    have x01 : Int.xor (3 * 0) 1 = 1 := by decide
    rw [hdiv, xy2dLoop_pos _ _ _ _ _ hs, htd, hS]
    rcases Nat.mod_two_eq_zero_or_one (x / 2 ^ k) with bx | bx <;>
      rcases Nat.mod_two_eq_zero_or_one (y / 2 ^ k) with by1 | by1
    · have lx : ¬ Int.land (x : Int) ((2 ^ k : Nat) : Int) > 0 := by
        rw [land_two_pow_pos, bx]
        decide
      have ly : ¬ Int.land (y : Int) ((2 ^ k : Nat) : Int) > 0 := by
        rw [land_two_pow_pos, by1]
        decide
      simp only [lx, ly, if_false, if_true, x00, zero_ne_one]
      rw [ih (by omega) y x _ hy hx]
      have hq : hilbertQuad (2 ^ k) (x % 2 ^ (k + 1)) (y % 2 ^ (k + 1))
          = (0, y % 2 ^ k, x % 2 ^ k) := by
        rw [hbx, hby, bx, by1]
        simp only [hilbertQuad, Nat.mul_zero, Nat.add_zero, hxl, hyl, if_true]
      simp only [hilbertD, hq]
      push_cast
      ring
    · have lx : ¬ Int.land (x : Int) ((2 ^ k : Nat) : Int) > 0 := by
        rw [land_two_pow_pos, bx]
        decide
      have ly : Int.land (y : Int) ((2 ^ k : Nat) : Int) > 0 := by
        rw [land_two_pow_pos, by1]
      simp only [lx, ly, if_false, if_true, x01, one_ne_zero]
      rw [ih (by omega) x y _ hx hy]
      have hq : hilbertQuad (2 ^ k) (x % 2 ^ (k + 1)) (y % 2 ^ (k + 1))
          = (1, x % 2 ^ k, y % 2 ^ k) := by
        rw [hbx, hby, bx, by1]
        have hn : ¬ y % 2 ^ k + 2 ^ k < 2 ^ k := by omega
        simp only [hilbertQuad, Nat.mul_zero, Nat.add_zero, hxl, hn, if_true, if_false,
          Nat.mul_one, Nat.add_sub_cancel]
      simp only [hilbertD, hq]
      push_cast
      ring
    · have lx : Int.land (x : Int) ((2 ^ k : Nat) : Int) > 0 := by
        rw [land_two_pow_pos, bx]
      have ly : ¬ Int.land (y : Int) ((2 ^ k : Nat) : Int) > 0 := by
        rw [land_two_pow_pos, by1]
        decide
      simp only [lx, ly, if_false, if_true, x30]
      rw [e1, e2, ih (by omega) _ _ _ (by omega) (by omega)]
      have hq : hilbertQuad (2 ^ k) (x % 2 ^ (k + 1)) (y % 2 ^ (k + 1))
          = (3, (2 ^ m - 1 - y) % 2 ^ k, (2 ^ m - 1 - x) % 2 ^ k) := by
        rw [hbx, hby, bx, by1, hrx, hry]
        have hn : ¬ x % 2 ^ k + 2 ^ k < 2 ^ k := by omega
        simp only [hilbertQuad, Nat.mul_zero, Nat.add_zero, Nat.mul_one, hyl, hn, if_true,
          if_false, Prod.mk.injEq, true_and]
        omega
      simp only [hilbertD, hq]
      push_cast
      ring
    · have lx : Int.land (x : Int) ((2 ^ k : Nat) : Int) > 0 := by
        rw [land_two_pow_pos, bx]
      have ly : Int.land (y : Int) ((2 ^ k : Nat) : Int) > 0 := by
        rw [land_two_pow_pos, by1]
      simp only [lx, ly, if_false, if_true, x31, one_ne_zero]
      rw [ih (by omega) x y _ hx hy]
      have hq : hilbertQuad (2 ^ k) (x % 2 ^ (k + 1)) (y % 2 ^ (k + 1))
          = (2, x % 2 ^ k, y % 2 ^ k) := by
        rw [hbx, hby, bx, by1]
        have hn1 : ¬ y % 2 ^ k + 2 ^ k < 2 ^ k := by omega
        have hn2 : ¬ x % 2 ^ k + 2 ^ k < 2 ^ k := by omega
        simp only [hilbertQuad, hn1, hn2, if_false, Nat.mul_one, Nat.add_sub_cancel]
      simp only [hilbertD, hq]
      push_cast
      ring

/-- On the `2^m x 2^m` grid `HilbertCurve_xy2d` is the position on the curve of
order `m`. -/
theorem HilbertCurve_xy2d_eq (m x y : Nat) (hx : x < 2 ^ m) (hy : y < 2 ^ m) :
    HilbertCurve_xy2d ((2 : Int) ^ m) x y = (hilbertD m x y : Nat) := by
  have hn : ((2 : Int) ^ m) = ((2 ^ m : Nat) : Int) := by push_cast; rfl
  have htd : Int.tdiv ((2 ^ m : Nat) : Int) 2 = ((2 ^ m / 2 : Nat) : Int) := by
    rw [Int.tdiv_eq_ediv (by positivity) (by norm_num)]
    norm_cast
  unfold HilbertCurve_xy2d
  rw [hn, htd, xy2dLoop_eq m m le_rfl x y 0 hx hy, Nat.mod_eq_of_lt hx, Nat.mod_eq_of_lt hy,
    zero_add]

/-- One turn of the checked loop. -/
theorem xy2dLoopChecked_pos (n s x y d : Int) (hs : s > 0) :
    xy2dLoopChecked n s x y d =
      if fitsInt (s * s) ∧
          fitsInt (s * s * Int.xor (3 * (if Int.land x s > 0 then (1 : Int) else 0))
            (if Int.land y s > 0 then (1 : Int) else 0)) ∧
          fitsInt (d + s * s * Int.xor (3 * (if Int.land x s > 0 then (1 : Int) else 0))
            (if Int.land y s > 0 then (1 : Int) else 0)) ∧
          (((if Int.land y s > 0 then (1 : Int) else 0) = 0 ∧
              (if Int.land x s > 0 then (1 : Int) else 0) = 1) →
            fitsInt (n - 1) ∧ fitsInt (n - 1 - x) ∧ fitsInt (n - 1 - y)) then
        xy2dLoopChecked n (Int.tdiv s 2)
          (if (if Int.land y s > 0 then (1 : Int) else 0) = 0 then
            (if (if Int.land x s > 0 then (1 : Int) else 0) = 1 then n - 1 - y else y)
            else x)
          (if (if Int.land y s > 0 then (1 : Int) else 0) = 0 then
            (if (if Int.land x s > 0 then (1 : Int) else 0) = 1 then n - 1 - x else x)
            else y)
          (d + s * s * Int.xor (3 * (if Int.land x s > 0 then (1 : Int) else 0))
            (if Int.land y s > 0 then (1 : Int) else 0))
      else none := by
  rw [xy2dLoopChecked]
  simp only [hs, dite_true]
  split_ifs <;> rfl

theorem xy2dLoopChecked_zero (n s x y d : Int) (hs : ¬ s > 0) :
    xy2dLoopChecked n s x y d = some d := by
  rw [xy2dLoopChecked]
  simp only [hs, dite_false]

theorem xy2dLoop_nonpos (n s x y d : Int) (hs : ¬ s > 0) : xy2dLoop n s x y d = d := by
  rw [xy2dLoop]
  simp only [hs, dite_false]

/-- The quadrant number `(0b11 * rx) ^ ry` is one of `0, 1, 2, 3`. -/
theorem xy2d_quadrant_range (a b : Prop) [Decidable a] [Decidable b] :
    0 ≤ Int.xor (3 * (if a then (1 : Int) else 0)) (if b then (1 : Int) else 0) ∧
      Int.xor (3 * (if a then (1 : Int) else 0)) (if b then (1 : Int) else 0) ≤ 3 := by
  split_ifs <;> decide

/-- On a grid of side at most `2^15` no step of `HilbertCurve_xy2d` overflows:
the checked loop returns what the loop over the integers returns. -/
theorem xy2dLoopChecked_eq (n : Int) (hn : n ≤ 32768) (k : Nat) :
    ∀ s x y d : Int, s.toNat = k → 0 ≤ x → x < n → 0 ≤ y → y < n → 0 ≤ d →
      d + 4 * (s * s) ≤ 1073741824 →
      xy2dLoopChecked n s x y d = some (xy2dLoop n s x y d) := by
  induction k using Nat.strong_induction_on with
  | _ k ih =>
    intro s x y d hk hx0 hx hy0 hy hd0 hd
    by_cases hs : s > 0
    · rw [xy2dLoopChecked_pos n s x y d hs, xy2dLoop_pos n s x y d hs]
      obtain ⟨hq0, hq3⟩ := xy2d_quadrant_range (Int.land x s > 0) (Int.land y s > 0)
      generalize Int.xor (3 * (if Int.land x s > 0 then (1 : Int) else 0))
        (if Int.land y s > 0 then (1 : Int) else 0) = q at hq0 hq3
      have hss : 0 < s * s := mul_pos hs hs
      have hinc0 : 0 ≤ s * s * q := mul_nonneg (le_of_lt hss) hq0
      have hinc3 : s * s * q ≤ s * s * 3 := mul_le_mul_of_nonneg_left hq3 (le_of_lt hss)
      have htd : Int.tdiv s 2 = s / 2 := Int.tdiv_eq_ediv (le_of_lt hs) (by norm_num)
      have hhalf0 : 0 ≤ s / 2 := by omega
      have hhalf : 2 * (s / 2) ≤ s := by omega
      have hsq : 4 * (s / 2 * (s / 2)) ≤ s * s := by nlinarith
      have hcheck : fitsInt (s * s) ∧ fitsInt (s * s * q) ∧ fitsInt (d + s * s * q) ∧
          (((if Int.land y s > 0 then (1 : Int) else 0) = 0 ∧
              (if Int.land x s > 0 then (1 : Int) else 0) = 1) →
            fitsInt (n - 1) ∧ fitsInt (n - 1 - x) ∧ fitsInt (n - 1 - y)) := by
        unfold fitsInt
        refine ⟨⟨by omega, by omega⟩, ⟨by omega, by omega⟩, ⟨by omega, by omega⟩, fun _ => ?_⟩
        exact ⟨⟨by omega, by omega⟩, ⟨by omega, by omega⟩, ⟨by omega, by omega⟩⟩
      rw [if_pos hcheck, htd]
      apply ih (s / 2).toNat (by omega) (s / 2) _ _ _ rfl
      · split_ifs <;> omega
      · split_ifs <;> omega
      · split_ifs <;> omega
      · split_ifs <;> omega
      · omega
      · omega
    · rw [xy2dLoopChecked_zero n s x y d hs, xy2dLoop_nonpos n s x y d hs]

/-- On a grid of side at most `2^15` the checked conversion is defined and is
the conversion over the integers. -/
theorem HilbertCurve_xy2dChecked_eq (n x y : Int) (hn0 : 0 ≤ n) (hn : n ≤ 32768)
    (hx0 : 0 ≤ x) (hx : x < n) (hy0 : 0 ≤ y) (hy : y < n) :
    HilbertCurve_xy2dChecked n x y = some (HilbertCurve_xy2d n x y) := by
  have hfit : fitsInt n ∧ fitsInt x ∧ fitsInt y := by
    unfold fitsInt
    exact ⟨⟨by omega, by omega⟩, ⟨by omega, by omega⟩, ⟨by omega, by omega⟩⟩
  have htd : Int.tdiv n 2 = n / 2 := Int.tdiv_eq_ediv hn0 (by norm_num)
  unfold HilbertCurve_xy2dChecked HilbertCurve_xy2d
  rw [if_pos hfit]
  have h1 : 0 ≤ n / 2 := by omega
  have h2 : n / 2 ≤ 16384 := by omega
  have hsq : 4 * (n / 2 * (n / 2)) ≤ 1073741824 := by nlinarith
  exact xy2dLoopChecked_eq n hn (Int.tdiv n 2).toNat (Int.tdiv n 2) x y 0 rfl hx0 hx hy0 hy
    (le_refl 0) (by rw [htd]; omega)

theorem gridAdjacent_abs (x y x' y' : Nat) (h : gridAdjacent x y x' y') :
    |(x' : Int) - x| + |(y' : Int) - y| = 1 := by
  have key : ∀ a b : Int, (a = b + 1 ∨ b = a + 1) → |a - b| = 1 := by
    intro a b hab
    rcases hab with hab | hab
    · rw [hab, abs_of_nonneg] <;> omega
    · rw [hab, abs_of_nonpos] <;> omega
  rcases h with ⟨hx, hy⟩ | ⟨hy, hx⟩
  · rw [hx, sub_self, abs_zero, zero_add]
    exact key _ _ (by omega)
  · rw [hy, sub_self, abs_zero, add_zero]
    exact key _ _ (by omega)

/-- Over the integers (no bound on the word size), `HilbertCurve_xy2d` on the
`2^m x 2^m` grid takes values in `0 .. n*n - 1`, is injective and onto, and cells
whose positions differ by 1 are edge-adjacent. -/
theorem hilbert_xy2d_grid (m : Nat) (n : Int) (hn : n = 2 ^ m) :
    (∀ x y, 0 ≤ x → x < n → 0 ≤ y → y < n →
      0 ≤ HilbertCurve_xy2d n x y ∧ HilbertCurve_xy2d n x y < n * n) ∧
    (∀ x y x' y', 0 ≤ x → x < n → 0 ≤ y → y < n → 0 ≤ x' → x' < n → 0 ≤ y' → y' < n →
      HilbertCurve_xy2d n x y = HilbertCurve_xy2d n x' y' → x = x' ∧ y = y') ∧
    (∀ d, 0 ≤ d → d < n * n →
      ∃ x y, 0 ≤ x ∧ x < n ∧ 0 ≤ y ∧ y < n ∧ HilbertCurve_xy2d n x y = d) ∧
    (∀ x y x' y', 0 ≤ x → x < n → 0 ≤ y → y < n → 0 ≤ x' → x' < n → 0 ≤ y' → y' < n →
      HilbertCurve_xy2d n x' y' = HilbertCurve_xy2d n x y + 1 →
      |x' - x| + |y' - y| = 1) := by
  subst hn
  have h4 : ((2 : Int) ^ m) * 2 ^ m = ((4 ^ m : Nat) : Int) := by
    have : (4 : Nat) ^ m = 2 ^ m * 2 ^ m := by
      rw [← mul_pow]
      norm_num
    rw [this]
    push_cast
    ring
  have hcast : ∀ x : Nat, (x : Int) < 2 ^ m → x < 2 ^ m := by
    intro x hx
    exact_mod_cast hx
  refine ⟨?_, ?_, ?_, ?_⟩
  · intro x y hx0 hx hy0 hy
    lift x to Nat using hx0
    lift y to Nat using hy0
    rw [HilbertCurve_xy2d_eq m x y (hcast x hx) (hcast y hy), h4]
    exact ⟨Int.natCast_nonneg _, by exact_mod_cast hilbertD_lt m x y (hcast x hx) (hcast y hy)⟩
  · intro x y x' y' hx0 hx hy0 hy hx0' hx' hy0' hy' h
    lift x to Nat using hx0
    lift y to Nat using hy0
    lift x' to Nat using hx0'
    lift y' to Nat using hy0'
    rw [HilbertCurve_xy2d_eq m x y (hcast x hx) (hcast y hy),
      HilbertCurve_xy2d_eq m x' y' (hcast x' hx') (hcast y' hy')] at h
    obtain ⟨e1, e2⟩ := hilbertD_inj m x y x' y' (hcast x hx) (hcast y hy) (hcast x' hx')
      (hcast y' hy') (by exact_mod_cast h)
    exact ⟨by rw [e1], by rw [e2]⟩
  · intro d hd0 hd
    lift d to Nat using hd0
    rw [h4] at hd
    obtain ⟨x, y, hx, hy, hxy⟩ := hilbertD_surj m d (by exact_mod_cast hd)
    refine ⟨x, y, Int.natCast_nonneg _, by exact_mod_cast hx, Int.natCast_nonneg _,
      by exact_mod_cast hy, ?_⟩
    rw [HilbertCurve_xy2d_eq m x y hx hy, hxy]
  · intro x y x' y' hx0 hx hy0 hy hx0' hx' hy0' hy' h
    lift x to Nat using hx0
    lift y to Nat using hy0
    lift x' to Nat using hx0'
    lift y' to Nat using hy0'
    rw [HilbertCurve_xy2d_eq m x y (hcast x hx) (hcast y hy),
      HilbertCurve_xy2d_eq m x' y' (hcast x' hx') (hcast y' hy')] at h
    exact gridAdjacent_abs x y x' y'
      (hilbertD_adj m x y x' y' (hcast x hx) (hcast y hy) (hcast x' hx') (hcast y' hy')
        (by exact_mod_cast h.symm))

theorem two_pow_le_of_le (m : Nat) (hm : m ≤ 15) : (2 : Int) ^ m ≤ 32768 := by
  have h : (2 : Int) ^ m ≤ 2 ^ 15 := pow_le_pow_right₀ (by norm_num) hm
  norm_num at h
  exact h

/-- C35 (amended). `HilbertCurve_xy2d` enumerates the grid.  For every `n = 2^m` with `m ≤ 15`, `HilbertCurve_xy2d` on
`int` is defined on the whole grid `{0..n-1} x {0..n-1}` (no step overflows),
the map `(x, y) -> HilbertCurve_xy2d(n, x, y)` is a bijection from the grid onto
`{0..n*n-1}`, and cells whose positions differ by 1 are edge-adjacent
(`|dx| + |dy| = 1`). -/
theorem hilbert_xy2d_enumerates (m : Nat) (n : Int) (hm : m ≤ 15) (hn : n = 2 ^ m) :
    (∀ x y, 0 ≤ x → x < n → 0 ≤ y → y < n →
      HilbertCurve_xy2dChecked n x y = some (HilbertCurve_xy2d n x y) ∧
        0 ≤ HilbertCurve_xy2d n x y ∧ HilbertCurve_xy2d n x y < n * n) ∧
    (∀ x y x' y', 0 ≤ x → x < n → 0 ≤ y → y < n → 0 ≤ x' → x' < n → 0 ≤ y' → y' < n →
      HilbertCurve_xy2d n x y = HilbertCurve_xy2d n x' y' → x = x' ∧ y = y') ∧
    (∀ d, 0 ≤ d → d < n * n →
      ∃ x y, 0 ≤ x ∧ x < n ∧ 0 ≤ y ∧ y < n ∧ HilbertCurve_xy2d n x y = d) ∧
    (∀ x y x' y', 0 ≤ x → x < n → 0 ≤ y → y < n → 0 ≤ x' → x' < n → 0 ≤ y' → y' < n →
      HilbertCurve_xy2d n x' y' = HilbertCurve_xy2d n x y + 1 →
      |x' - x| + |y' - y| = 1) := by
  obtain ⟨hrange, hinj, hsurj, hadj⟩ := hilbert_xy2d_grid m n hn
  have hn0 : 0 ≤ n := by
    rw [hn]
    positivity
  have hn15 : n ≤ 32768 := by
    rw [hn]
    exact two_pow_le_of_le m hm
  exact ⟨fun x y hx0 hx hy0 hy =>
      ⟨HilbertCurve_xy2dChecked_eq n x y hn0 hn15 hx0 hx hy0 hy, hrange x y hx0 hx hy0 hy⟩,
    hinj, hsurj, hadj⟩

/-- The enumeration on the `2 x 2` grid. -/
theorem hilbert_xy2d_enumerates_witness :
    (1 ≤ 15) ∧ ((2 : Int) = 2 ^ 1) ∧
    (∀ x y, 0 ≤ x → x < (2 : Int) → 0 ≤ y → y < (2 : Int) →
      HilbertCurve_xy2dChecked 2 x y = some (HilbertCurve_xy2d 2 x y) ∧
        0 ≤ HilbertCurve_xy2d 2 x y ∧ HilbertCurve_xy2d 2 x y < 2 * 2) ∧
    (∀ x y x' y', 0 ≤ x → x < (2 : Int) → 0 ≤ y → y < (2 : Int) → 0 ≤ x' → x' < (2 : Int) →
      0 ≤ y' → y' < (2 : Int) →
      HilbertCurve_xy2d 2 x y = HilbertCurve_xy2d 2 x' y' → x = x' ∧ y = y') ∧
    (∀ d, 0 ≤ d → d < (2 : Int) * 2 →
      ∃ x y, 0 ≤ x ∧ x < (2 : Int) ∧ 0 ≤ y ∧ y < (2 : Int) ∧ HilbertCurve_xy2d 2 x y = d) ∧
    (∀ x y x' y', 0 ≤ x → x < (2 : Int) → 0 ≤ y → y < (2 : Int) → 0 ≤ x' → x' < (2 : Int) →
      0 ≤ y' → y' < (2 : Int) →
      HilbertCurve_xy2d 2 x' y' = HilbertCurve_xy2d 2 x y + 1 →
      |x' - x| + |y' - y| = 1) :=
  ⟨by decide, by norm_num, hilbert_xy2d_enumerates 1 2 (by decide) (by norm_num)⟩

/-- C35, counterexample.  On the grid of side `n = 65536 = 2^16` the cell
`(65535, 0)` has position `n * n - 1 = 4294967295`, which no `int` holds: the
first turn of the loop (`s = 32768`, `rx = 1`, `ry = 0`) computes
`s * s * 3 = 3221225472 > INT_MAX`, so `HilbertCurve_xy2d(65536, 65535, 0)` is
undefined. -/
theorem hilbert_xy2d_overflow :
    (65536 : Int) = 2 ^ 16 ∧ ((0 : Int) ≤ 65535 ∧ (65535 : Int) < 65536) ∧
      HilbertCurve_xy2dChecked 65536 65535 0 = none ∧
      HilbertCurve_xy2d 65536 65535 0 = 4294967295 ∧ ¬ fitsInt 4294967295 := by
  refine ⟨by norm_num, by decide, ?_, ?_, by decide⟩
  · have hfit : fitsInt 65536 ∧ fitsInt 65535 ∧ fitsInt 0 := by decide
    have htd : Int.tdiv 65536 2 = 32768 := by decide
    unfold HilbertCurve_xy2dChecked
    rw [if_pos hfit, htd, xy2dLoopChecked_pos _ _ _ _ _ (by norm_num)]
    have hx : Int.land 65535 32768 > 0 := by decide
    have hy : ¬ Int.land 0 32768 > 0 := by decide
    rw [if_neg]
    simp only [hx, hy, if_true, if_false]
    intro h
    exact absurd h.2.1 (by decide)
  · have h := HilbertCurve_xy2d_eq 16 65535 0 (by norm_num) (by norm_num)
    have hexit := hilbertD_exit 16
    norm_num at hexit
    norm_num at h
    rw [h, hexit]
    norm_num

/-! ### Nearest-hit selection on a scene of two spheres -/

/-- C1 on `lampInGlass` (the glass sphere first, the lamp second, `eps = 1/2`).
From `(0, 0, 4)` along `z` the glass is `2` away and the lamp `3/4`: the scan
selects the lamp, the second primitive, at the smaller distance.  From
`(0, 0, 9/2)` the lamp is `1/4` away, not beyond `eps`, and the scan selects the
glass at `3/2`.  Both selections follow from the statement alone: something is
selected, it lies beyond `eps`, and nothing beyond `eps` is nearer. -/
theorem traceRay_nearest_hit_witness :
    lampInGlass.TriangleSet
        = [⟨⟨0, 0, 5⟩, ⟨1, 1, 1⟩, ⟨DBL_MAX, 0, 0⟩, glassMaterial⟩,
            ⟨⟨0, 0, 5⟩, ⟨1 / 4, 1 / 4, 1 / 4⟩, ⟨DBL_MAX, 0, 0⟩, lampMaterial⟩] ∧
      lampInGlass.eps = 1 / 2 ∧
      seekIntersection ⟨⟨0, 0, 5⟩, ⟨1, 1, 1⟩, ⟨DBL_MAX, 0, 0⟩, glassMaterial⟩
        ⟨0, 0, 4⟩ ⟨0, 0, 1⟩ = 2 ∧
      seekIntersection ⟨⟨0, 0, 5⟩, ⟨1 / 4, 1 / 4, 1 / 4⟩, ⟨DBL_MAX, 0, 0⟩, lampMaterial⟩
        ⟨0, 0, 4⟩ ⟨0, 0, 1⟩ = 3 / 4 ∧
      (nearestHit lampInGlass ⟨0, 0, 4⟩ ⟨0, 0, 1⟩).2
        = some ⟨⟨0, 0, 5⟩, ⟨1 / 4, 1 / 4, 1 / 4⟩, ⟨DBL_MAX, 0, 0⟩, lampMaterial⟩ ∧
      (nearestHit lampInGlass ⟨0, 0, 4⟩ ⟨0, 0, 1⟩).1 = 3 / 4 ∧
      (∀ u ∈ lampInGlass.TriangleSet, lampInGlass.eps < seekIntersection u ⟨0, 0, 4⟩ ⟨0, 0, 1⟩ →
        seekIntersection ⟨⟨0, 0, 5⟩, ⟨1 / 4, 1 / 4, 1 / 4⟩, ⟨DBL_MAX, 0, 0⟩, lampMaterial⟩
            ⟨0, 0, 4⟩ ⟨0, 0, 1⟩
          ≤ seekIntersection u ⟨0, 0, 4⟩ ⟨0, 0, 1⟩) ∧
      seekIntersection ⟨⟨0, 0, 5⟩, ⟨1 / 4, 1 / 4, 1 / 4⟩, ⟨DBL_MAX, 0, 0⟩, lampMaterial⟩
        ⟨0, 0, 9 / 2⟩ ⟨0, 0, 1⟩ = 1 / 4 ∧
      (nearestHit lampInGlass ⟨0, 0, 9 / 2⟩ ⟨0, 0, 1⟩).2
        = some ⟨⟨0, 0, 5⟩, ⟨1, 1, 1⟩, ⟨DBL_MAX, 0, 0⟩, glassMaterial⟩ ∧
      (nearestHit lampInGlass ⟨0, 0, 9 / 2⟩ ⟨0, 0, 1⟩).1 = 3 / 2 := by
  obtain ⟨-, h2, h3, -, h5⟩ := raySphere_lampInGlass
  have hs2 : seekIntersection ⟨⟨0, 0, 5⟩, ⟨1, 1, 1⟩, ⟨DBL_MAX, 0, 0⟩, glassMaterial⟩
      ⟨0, 0, 4⟩ ⟨0, 0, 1⟩ = 2 := by
    simp only [seekIntersection, if_true, h2]
  have hs3 : seekIntersection ⟨⟨0, 0, 5⟩, ⟨1 / 4, 1 / 4, 1 / 4⟩, ⟨DBL_MAX, 0, 0⟩, lampMaterial⟩
      ⟨0, 0, 4⟩ ⟨0, 0, 1⟩ = 3 / 4 := by
    simp only [seekIntersection, if_true, h3]
  have hs5 : seekIntersection ⟨⟨0, 0, 5⟩, ⟨1 / 4, 1 / 4, 1 / 4⟩, ⟨DBL_MAX, 0, 0⟩, lampMaterial⟩
      ⟨0, 0, 9 / 2⟩ ⟨0, 0, 1⟩ = 1 / 4 := by
    simp only [seekIntersection, if_true, h5]
  have hs4 : seekIntersection ⟨⟨0, 0, 5⟩, ⟨1, 1, 1⟩, ⟨DBL_MAX, 0, 0⟩, glassMaterial⟩
      ⟨0, 0, 9 / 2⟩ ⟨0, 0, 1⟩ = 3 / 2 := by
    obtain ⟨-, -, -, h4, -⟩ := raySphere_lampInGlass
    simp only [seekIntersection, if_true, h4]
  have hset : lampInGlass.TriangleSet
      = [⟨⟨0, 0, 5⟩, ⟨1, 1, 1⟩, ⟨DBL_MAX, 0, 0⟩, glassMaterial⟩,
          ⟨⟨0, 0, 5⟩, ⟨1 / 4, 1 / 4, 1 / 4⟩, ⟨DBL_MAX, 0, 0⟩, lampMaterial⟩] := rfl
  have heps : lampInGlass.eps = 1 / 2 := rfl
  have hbig : (3 / 2 : ℝ) < DBL_MAX := lt_trans (by norm_num) four_lt_DBL_MAX
  have hmemG : (⟨⟨0, 0, 5⟩, ⟨1, 1, 1⟩, ⟨DBL_MAX, 0, 0⟩, glassMaterial⟩ : Triangle)
      ∈ lampInGlass.TriangleSet := by
    rw [hset]
    exact List.mem_cons_self _ _
  have hmemL : (⟨⟨0, 0, 5⟩, ⟨1 / 4, 1 / 4, 1 / 4⟩, ⟨DBL_MAX, 0, 0⟩, lampMaterial⟩ : Triangle)
      ∈ lampInGlass.TriangleSet := by
    rw [hset]
    exact List.mem_cons_of_mem _ (List.mem_singleton.2 rfl)
  -- from `(0, 0, 4)`: something is selected, and it is no farther than the lamp
  have hsel4 : (nearestHit lampInGlass ⟨0, 0, 4⟩ ⟨0, 0, 1⟩).2
      = some ⟨⟨0, 0, 5⟩, ⟨1 / 4, 1 / 4, 1 / 4⟩, ⟨DBL_MAX, 0, 0⟩, lampMaterial⟩ := by
    obtain ⟨t, ht⟩ := (traceRay_nearest_hit lampInGlass ⟨0, 0, 4⟩ ⟨0, 0, 1⟩).2.1
      ⟨_, hmemL, by rw [hs3, heps]; norm_num,
        by rw [hs3]; exact lt_trans (by norm_num) hbig⟩
    obtain ⟨hmem, -, -, -, hmin⟩ :=
      (traceRay_nearest_hit lampInGlass ⟨0, 0, 4⟩ ⟨0, 0, 1⟩).1 t ht
    have hle := hmin _ hmemL (by rw [hs3, heps]; norm_num)
    rw [hs3] at hle
    rw [hset] at hmem
    rcases List.mem_cons.1 hmem with h | h
    · rw [h, hs2] at hle
      norm_num at hle
    · rw [List.mem_singleton] at h
      rw [ht, h]
  -- from `(0, 0, 9/2)`: something is selected, and it lies beyond `eps`
  have hsel9 : (nearestHit lampInGlass ⟨0, 0, 9 / 2⟩ ⟨0, 0, 1⟩).2
      = some ⟨⟨0, 0, 5⟩, ⟨1, 1, 1⟩, ⟨DBL_MAX, 0, 0⟩, glassMaterial⟩ := by
    obtain ⟨t, ht⟩ := (traceRay_nearest_hit lampInGlass ⟨0, 0, 9 / 2⟩ ⟨0, 0, 1⟩).2.1
      ⟨_, hmemG, by rw [hs4, heps]; norm_num, by rw [hs4]; exact hbig⟩
    obtain ⟨hmem, -, hgt, -, -⟩ :=
      (traceRay_nearest_hit lampInGlass ⟨0, 0, 9 / 2⟩ ⟨0, 0, 1⟩).1 t ht
    rw [hset] at hmem
    rcases List.mem_cons.1 hmem with h | h
    · rw [ht, h]
    · rw [List.mem_singleton] at h
      rw [h, hs5, heps] at hgt
      norm_num at hgt
  obtain ⟨-, hd4, -, -, hmin4⟩ :=
    (traceRay_nearest_hit lampInGlass ⟨0, 0, 4⟩ ⟨0, 0, 1⟩).1 _ hsel4
  obtain ⟨-, hd9, -, -, -⟩ :=
    (traceRay_nearest_hit lampInGlass ⟨0, 0, 9 / 2⟩ ⟨0, 0, 1⟩).1 _ hsel9
  refine ⟨hset, heps, hs2, hs3, hsel4, ?_, hmin4, hs5, hsel9, ?_⟩
  · rw [hd4, hs3]
  · rw [hd9, hs4]

/-! ### The lamp in the prism: a collapsed colour that is not black -/

/-- The distances of the two spheres of `lampInPrism` along the `z` axis from
`(0, 0, 33/8)`: the far side of the glass is `15/8` away, the lamp `5/8`. -/
theorem raySphere_lampInPrism :
    RaySphere ⟨0, 0, 33 / 8⟩ ⟨0, 0, 1⟩ ⟨0, 0, 5⟩ 1 = 15 / 8 ∧
    RaySphere ⟨0, 0, 33 / 8⟩ ⟨0, 0, 1⟩ ⟨0, 0, 5⟩ (1 / 4) = 5 / 8 := by
  refine ⟨?_, ?_⟩ <;> simp only [RaySphere, Vec3.dot, Vec3.sub] <;>
    norm_num [sqrt_four, sqrt_quarter]

/-- The scans of `lampInPrism` along the `z` axis: from the origin the glass is
nearest; from `(0, 0, 33/8)`, inside the glass, the lamp. -/
theorem nearestHit_lampInPrism :
    nearestHit lampInPrism ⟨0, 0, 0⟩ ⟨0, 0, 1⟩
      = (4, some ⟨⟨0, 0, 5⟩, ⟨1, 1, 1⟩, ⟨DBL_MAX, 0, 0⟩, tintedPrismMaterial⟩) ∧
    nearestHit lampInPrism ⟨0, 0, 33 / 8⟩ ⟨0, 0, 1⟩
      = (5 / 8,
          some ⟨⟨0, 0, 5⟩, ⟨1 / 4, 1 / 4, 1 / 4⟩, ⟨DBL_MAX, 0, 0⟩, amberLampMaterial⟩) := by
  obtain ⟨h1, -, -, -, -⟩ := raySphere_lampInGlass
  obtain ⟨h2, h3⟩ := raySphere_lampInPrism
  have hD := four_lt_DBL_MAX
  have hin4 : (4 : ℝ) > 1 / 8 ∧ (4 : ℝ) < DBL_MAX := ⟨by norm_num, hD⟩
  have hin2 : (15 / 8 : ℝ) > 1 / 8 ∧ (15 / 8 : ℝ) < DBL_MAX :=
    ⟨by norm_num, lt_trans (by norm_num) hD⟩
  refine ⟨?_, ?_⟩
  · simp only [nearestHit, lampInPrism, drawSphere, drawTriangle, List.nil_append,
      List.cons_append, List.foldl_cons, List.foldl_nil, scanStep, seekIntersection, if_true,
      raySphere_light_ball, h1, hin4]
    norm_num
  · simp only [nearestHit, lampInPrism, drawSphere, drawTriangle, List.nil_append,
      List.cons_append, List.foldl_cons, List.foldl_nil, scanStep, seekIntersection, if_true,
      h2, h3, hin2]
    norm_num

/-- The refraction at the front of the glass sphere of `lampInPrism`, at normal
incidence and in channel `1` (rate `8/5`): hit point `(0, 0, 4)`, face vector
`(0, 0, -1)`, the ray goes on along `z`, and the recursive call starts at
`(0, 0, 33/8)`. -/
theorem lampInPrism_refraction :
    hitPoint lampInPrism ⟨0, 0, 0⟩ ⟨0, 0, 1⟩ = ⟨0, 0, 4⟩ ∧
    hitFaceVec ⟨⟨0, 0, 5⟩, ⟨1, 1, 1⟩, ⟨DBL_MAX, 0, 0⟩, tintedPrismMaterial⟩ ⟨0, 0, 4⟩
      = ⟨0, 0, -1⟩ ∧
    refract ⟨0, 0, 1⟩ ⟨0, 0, -1⟩ 1 (8 / 5) = ⟨0, 0, 1⟩ ∧
    (⟨0, 0, 4⟩ : Vec3).add (Vec3.mul lampInPrism.eps ⟨0, 0, 1⟩) = ⟨0, 0, 33 / 8⟩ := by
  have h64 : Real.sqrt (64 / 25) = 8 / 5 := by
    rw [show (64 / 25 : ℝ) = 8 / 5 * (8 / 5) by norm_num]
    exact Real.sqrt_mul_self (by norm_num)
  refine ⟨?_, ?_, ?_, ?_⟩
  · rw [hitPoint, nearestHit_lampInPrism.1]
    ext <;> norm_num [Vec3.add, Vec3.mul]
  · simp only [hitFaceVec, if_true, Vec3.sub, Vec3.normalize, Vec3.norm, Vec3.dot]
    norm_num
  · simp only [refract, reflect, Vec3.dot, Vec3.add, Vec3.mul, Vec3.normalize, Vec3.norm]
    norm_num [h64]
  · have heps : lampInPrism.eps = 1 / 8 := rfl
    rw [heps]
    ext <;> norm_num [Vec3.add, Vec3.mul]

/-- The statics of the primary ray of `lampInPrism` after the level-0 reset, with
draws all `1/2`: channel `1` is drawn, the buffer is `1`, and the outgoing rate
is `8/5`. -/
theorem lampInPrism_init :
    (pathInit (fun _ => (1 / 2 : ℝ)) 0
      (entered freshState 0 ⟨0, 0, 0⟩ ⟨0, 0, 1⟩)).refractColorIndex = 1 ∧
    (pathInit (fun _ => (1 / 2 : ℝ)) 0
      (entered freshState 0 ⟨0, 0, 0⟩ ⟨0, 0, 1⟩)).refractRateBuf = 1 ∧
    refractRateOut tintedPrismMaterial (pathInit (fun _ => (1 / 2 : ℝ)) 0
      (entered freshState 0 ⟨0, 0, 0⟩ ⟨0, 0, 1⟩)) = 8 / 5 ∧
    toInt ((fun _ : Nat => (1 / 2 : ℝ)) freshState.rand * 3) = 1 := by
  have hidx : toInt ((1 / 2 : ℝ) * 3) = 1 := by
    have hnn : (0 : ℝ) ≤ 1 / 2 * 3 := by norm_num
    simp only [toInt, if_pos hnn]
    rw [Int.floor_eq_iff]
    norm_num
  have hbuf := pathInit_zero_buf (fun _ => (1 / 2 : ℝ)) freshState ⟨0, 0, 0⟩ ⟨0, 0, 1⟩
  have hi : (pathInit (fun _ => (1 / 2 : ℝ)) 0
      (entered freshState 0 ⟨0, 0, 0⟩ ⟨0, 0, 1⟩)).refractColorIndex = 1 := by
    rw [pathInit_zero_index]
    exact hidx
  refine ⟨hi, hbuf, ?_, hidx⟩
  simp only [refractRateOut, hbuf, hi]
  norm_num [tintedPrismMaterial, Vec3.get]

/-- The accumulated colour of the primary ray of `lampInPrism` (draws all `1/2`):
the ray is refracted at the glass, the recursive call starts at `(0, 0, 33/8)`
and hits the lamp, whose colour `(1, 1/2, 1/4)` comes back and is scaled by
`refractLossRate = 1/2`. -/
theorem lampInPrism_acc :
    bounceAcc lampInPrism (fun _ => 1 / 2) ⟨0, 0, 0⟩ ⟨0, 0, 1⟩ Vec3.zero 0 freshState
        ⟨⟨0, 0, 5⟩, ⟨1, 1, 1⟩, ⟨DBL_MAX, 0, 0⟩, tintedPrismMaterial⟩
      = ⟨1 / 2, 1 / 4, 1 / 8⟩ := by
  obtain ⟨hP, hF, hR, hS⟩ := lampInPrism_refraction
  obtain ⟨-, hbuf, hout, -⟩ := lampInPrism_init
  have hhit : (nearestHit lampInPrism ⟨0, 0, 33 / 8⟩ ⟨0, 0, 1⟩).2
      = some ⟨⟨0, 0, 5⟩, ⟨1 / 4, 1 / 4, 1 / 4⟩, ⟨DBL_MAX, 0, 0⟩, amberLampMaterial⟩ := by
    rw [nearestHit_lampInPrism.2]
  have hdiff : tintedPrismMaterial.diffuseReflect = false := rfl
  have hdraw : ¬ (fun _ : Nat => (1 / 2 : ℝ)) (pathInit (fun _ => (1 / 2 : ℝ)) 0
      (entered freshState 0 ⟨0, 0, 0⟩ ⟨0, 0, 1⟩)).rand < tintedPrismMaterial.reflect := by
    norm_num [tintedPrismMaterial]
  simp only [bounceAcc, hdiff, Bool.false_eq_true, if_false, hdraw]
  rw [hP, hbuf, hout, hF, hR, hS,
    traceRay_of_light lampInPrism _ ⟨0, 0, 33 / 8⟩ ⟨0, 0, 1⟩ Vec3.zero (0 + 1) _ _ hhit
      (by norm_num [amberLampMaterial])]
  ext <;> norm_num [tintedPrismMaterial, amberLampMaterial, Vec3.mul]

/-- The events of the primary ray of `lampInPrism` (draws all `1/2`): the call,
the refraction in channel `1` from rate `1` to `8/5` at `(0, 0, 4)`, and the
recursive call from `(0, 0, 33/8)`. -/
theorem lampInPrism_log :
    (traceRay lampInPrism (fun _ => 1 / 2) ⟨0, 0, 0⟩ ⟨0, 0, 1⟩ Vec3.zero 0 freshState).2.log
      = [TraceEvent.call 0 ⟨0, 0, 0⟩ ⟨0, 0, 1⟩,
          TraceEvent.refract 1 1 (8 / 5) ⟨0, 0, 4⟩ ⟨0, 0, 1⟩ ⟨3 / 2, 8 / 5, 17 / 10⟩,
          TraceEvent.call 1 ⟨0, 0, 33 / 8⟩ ⟨0, 0, 1⟩] := by
  obtain ⟨hP, hF, hR, hS⟩ := lampInPrism_refraction
  obtain ⟨hidx, hbuf, hout, -⟩ := lampInPrism_init
  have hhit0 : (nearestHit lampInPrism ⟨0, 0, 0⟩ ⟨0, 0, 1⟩).2
      = some ⟨⟨0, 0, 5⟩, ⟨1, 1, 1⟩, ⟨DBL_MAX, 0, 0⟩, tintedPrismMaterial⟩ := by
    rw [nearestHit_lampInPrism.1]
  have hhit : (nearestHit lampInPrism ⟨0, 0, 33 / 8⟩ ⟨0, 0, 1⟩).2
      = some ⟨⟨0, 0, 5⟩, ⟨1 / 4, 1 / 4, 1 / 4⟩, ⟨DBL_MAX, 0, 0⟩, amberLampMaterial⟩ := by
    rw [nearestHit_lampInPrism.2]
  have hmax : lampInPrism.maxRayLevel = 0 := rfl
  have hdraw : ¬ (fun _ : Nat => (1 / 2 : ℝ)) (pathInit (fun _ => (1 / 2 : ℝ)) 0
      (entered freshState 0 ⟨0, 0, 0⟩ ⟨0, 0, 1⟩)).rand < tintedPrismMaterial.reflect := by
    norm_num [tintedPrismMaterial]
  have hrun := traceRay_of_refract lampInPrism (fun _ => 1 / 2) ⟨0, 0, 0⟩ ⟨0, 0, 1⟩ Vec3.zero 0
    freshState _ hhit0 rfl (by rw [hmax]; decide) rfl rfl hdraw
  rw [hP, hbuf, hout, hF, hR, hS] at hrun
  rw [traceRay_of_light lampInPrism _ ⟨0, 0, 33 / 8⟩ ⟨0, 0, 1⟩ Vec3.zero (0 + 1) _ _ hhit
    (by norm_num [amberLampMaterial])] at hrun
  rw [hrun, finish_snd]
  simp only [entered_log, refractState, pathInit_log, hidx, hbuf, hout, zero_add]
  rfl

/-- C17 on `lampInPrism`, with draws all `1/2`.  The primary ray is refracted at
the dispersive glass (an event with unequal `refractRate` channels is recorded),
the channel drawn is `1`, the accumulated colour is
`1/2 * (1, 1/2, 1/4) = (1/2, 1/4, 1/8)`, and the returned colour is
`(0, 3 * 1/4 * 1/2, 0) = (0, 3/8, 0)`: zero in the channels `0` and `2`, three
times the accumulated channel `1` times the glass colour's channel `1`. -/
theorem traceRay_dispersion_collapse_witness :
    toInt ((fun _ : Nat => (1 / 2 : ℝ)) freshState.rand * 3) = 1 ∧
      (∃ e ∈ (traceRay lampInPrism (fun _ => 1 / 2) ⟨0, 0, 0⟩ ⟨0, 0, 1⟩ Vec3.zero 0
          freshState).2.log, TraceEvent.isDispersive e) ∧
      bounceAcc lampInPrism (fun _ => 1 / 2) ⟨0, 0, 0⟩ ⟨0, 0, 1⟩ Vec3.zero 0 freshState
          ⟨⟨0, 0, 5⟩, ⟨1, 1, 1⟩, ⟨DBL_MAX, 0, 0⟩, tintedPrismMaterial⟩
        = ⟨1 / 2, 1 / 4, 1 / 8⟩ ∧
      tintedPrismMaterial.color = ⟨1, 1 / 2, 1 / 4⟩ ∧
      (traceRay lampInPrism (fun _ => 1 / 2) ⟨0, 0, 0⟩ ⟨0, 0, 1⟩ Vec3.zero 0 freshState).1
        = ⟨0, 3 / 8, 0⟩ ∧
      (traceRay lampInPrism (fun _ => 1 / 2) ⟨0, 0, 0⟩ ⟨0, 0, 1⟩ Vec3.zero 0
        freshState).1.get 1 = 3 * (1 / 4) * (1 / 2) := by
  obtain ⟨rest, hlog, h1, -⟩ := traceRay_dispersion_collapse lampInPrism (fun _ => 1 / 2)
    ⟨0, 0, 0⟩ ⟨0, 0, 1⟩ Vec3.zero freshState
  obtain ⟨-, -, -, hidx⟩ := lampInPrism_init
  have hacc := lampInPrism_acc
  have hrun := lampInPrism_log
  rw [hrun] at hlog
  have hrest : rest = [TraceEvent.refract 1 1 (8 / 5) ⟨0, 0, 4⟩ ⟨0, 0, 1⟩
      ⟨3 / 2, 8 / 5, 17 / 10⟩, TraceEvent.call 1 ⟨0, 0, 33 / 8⟩ ⟨0, 0, 1⟩] := by
    simp only [freshState, List.nil_append, List.cons.injEq, true_and] at hlog
    exact hlog.symm
  have hdisp : TraceEvent.isDispersive (TraceEvent.refract 1 1 (8 / 5) ⟨0, 0, 4⟩ ⟨0, 0, 1⟩
      ⟨3 / 2, 8 / 5, 17 / 10⟩) := by
    left
    norm_num [Vec3.get]
  have hd : ∃ e ∈ rest, TraceEvent.isDispersive e :=
    ⟨_, by rw [hrest]; exact List.mem_cons_self _ _, hdisp⟩
  obtain ⟨t, hhit, -, -, -, hval, -, hsel⟩ := h1 hd
  have ht : t = ⟨⟨0, 0, 5⟩, ⟨1, 1, 1⟩, ⟨DBL_MAX, 0, 0⟩, tintedPrismMaterial⟩ := by
    rw [nearestHit_lampInPrism.1] at hhit
    exact (Option.some.inj hhit).symm
  subst ht
  rw [hidx, hacc] at hval hsel
  refine ⟨hidx, ?_, hacc, rfl, ?_, ?_⟩
  · rw [hrun]
    exact ⟨_, List.mem_cons_of_mem _ (List.mem_cons_self _ _), hdisp⟩
  · rw [hval]
    ext <;> norm_num [Vec3.single, Vec3.get, Vec3.elementMul, tintedPrismMaterial]
  · rw [hsel]
    norm_num [Vec3.get, tintedPrismMaterial]

end RayTracing

end
